import Mathlib

/-!
# bb-storage: buffers and digests

A shallow embedding of `pkg/blobstore/buffer` and of the parts of `pkg/digest`
it relies on.

Conventions of the embedding.

* A Go `[]byte` is a `List Nat` (one entry per byte); a Go `string` is a
  `List Char` (digest keys are ASCII, one character per byte).
* A Go `error` is a value of `Error`; the `nil` error is `none` of
  `Option Error`.
* A Go panic is `none` of an `Option` result.
* Calls made on collaborating objects (the `Source`, the `ErrorHandler`) are
  recorded in call logs returned next to the result.
-/

set_option maxRecDepth 100000

namespace BBStorage

/-! ## Errors -/

/-- The gRPC status codes of `google.golang.org/grpc/codes` (without `OK`). -/
inductive Code
  | Canceled | Unknown | InvalidArgument | DeadlineExceeded | NotFound
  | AlreadyExists | PermissionDenied | ResourceExhausted | FailedPrecondition
  | Aborted | OutOfRange | Unimplemented | Internal | Unavailable | DataLoss
  | Unauthenticated
  deriving DecidableEq, Repr

/-- Non-nil Go error values: the two sentinels of package `io` that the buffer
code compares against, and gRPC status errors (`status.Error(code, msg)`). -/
inductive Error
  | EOF
  | ErrUnexpectedEOF
  | status (code : Code) (message : String)
  deriving DecidableEq, Repr

/-! ## Digests (`pkg/digest/digest.go`) -/

/-- The ASCII bytes of a string literal. -/
def ascii (s : String) : List Nat := s.data.map Char.toNat

/-- Conversion to `int64`: two's complement wrap-around. -/
def wrapInt64 (x : Int) : Int := (x + 9223372036854775808) % 18446744073709551616 - 9223372036854775808

/-- The `Digest` struct: the key `hash-size-instance`. -/
structure Digest where
  value : List Char
  deriving DecidableEq, Repr

/-- First loop of `unpack`: `for d.value[hashEnd] != '-' { hashEnd++ }`, run on
the part of the key from index `hashEnd` on. Running off the end of the key is
an index-out-of-range panic. -/
def unpackHashEnd : List Char → Nat → Option Nat
  | [], _ => none
  | c :: cs, hashEnd => if c = '-' then some hashEnd else unpackHashEnd cs (hashEnd + 1)

/-- Second loop of `unpack`: accumulates the decimal size with `int64`
arithmetic (`d.value[i]-'0'` is a byte subtraction). -/
def unpackSize : List Char → Int → Nat → Option (Int × Nat)
  | [], _, _ => none
  | c :: cs, sizeBytes, sizeBytesEnd =>
    if c = '-' then some (sizeBytes, sizeBytesEnd)
    else unpackSize cs (wrapInt64 (sizeBytes * 10 + ((c.toNat + 256 - 48) % 256 : Nat))) (sizeBytesEnd + 1)

/-- The method `Digest.unpack`: the end of the hash, the size and the end of the size. -/
def Digest.unpack (d : Digest) : Option (Nat × Int × Nat) :=
  match unpackHashEnd (d.value.drop 32) 32 with
  | none => none
  | some hashEnd =>
    match unpackSize (d.value.drop (hashEnd + 1)) 0 (hashEnd + 1) with
    | none => none
    | some (sizeBytes, sizeBytesEnd) => some (hashEnd, sizeBytes, sizeBytesEnd)

/-- The method `Digest.GetHashString`. -/
def Digest.GetHashString (d : Digest) : Option (List Char) :=
  match d.unpack with
  | none => none
  | some (hashEnd, _, _) => some (d.value.take hashEnd)

/-- The method `Digest.GetSizeBytes`. -/
def Digest.GetSizeBytes (d : Digest) : Option Int :=
  match d.unpack with
  | none => none
  | some (_, sizeBytes, _) => some sizeBytes

/-- Value of one hexadecimal digit, as accepted by `encoding/hex`. -/
def fromHexChar (c : Char) : Option Nat :=
  if '0' ≤ c ∧ c ≤ '9' then some (c.toNat - 48)
  else if 'a' ≤ c ∧ c ≤ 'f' then some (c.toNat - 97 + 10)
  else if 'A' ≤ c ∧ c ≤ 'F' then some (c.toNat - 65 + 10)
  else none

/-- Go standard library `hex.DecodeString`: fails on an odd length or on a character that is not a
hexadecimal digit. -/
def hexDecodeString : List Char → Option (List Nat)
  | [] => some []
  | [_] => none
  | a :: b :: rest =>
    match fromHexChar a, fromHexChar b, hexDecodeString rest with
    | some x, some y, some bs => some ((x * 16 + y) :: bs)
    | _, _, _ => none

/-- Go standard library `hex.EncodeToString`: lowercase hexadecimal. -/
def hexEncodeToString (bs : List Nat) : String :=
  String.mk (bs.flatMap fun b => [(Nat.toDigits 16 (b / 16 % 16)).headD '0', (Nat.toDigits 16 (b % 16)).headD '0'])

/-- The method `Digest.GetHashBytes`: strips the `B3Z:` / `B3ZM:` tag and decodes the
hexadecimal digits; a decoding failure panics. -/
def Digest.GetHashBytes (d : Digest) : Option (List Nat) :=
  match d.GetHashString with
  | none => none
  | some hashString =>
    let s1 := if "B3Z:".data.isPrefixOf hashString then hashString.drop 4 else hashString
    let s2 := if "B3ZM:".data.isPrefixOf s1 then s1.drop 5 else s1
    hexDecodeString s2

/-- The hashing algorithms a digest can select (`hash.Hash` factories). -/
inductive HashAlgorithm
  | MD5 | SHA1 | SHA256 | SHA384 | SHA512
  | BLAKE3ZCCBlob (outputLength : Nat)
  | BLAKE3ZCCManifest (outputLength : Nat)
  deriving DecidableEq, Repr

/-- The function `getHasherFactory`: selects the algorithm by the number of hex digits;
any other length panics. -/
def getHasherFactory (hashLength : Nat) : Option HashAlgorithm :=
  if hashLength = 32 then some .MD5
  else if hashLength = 40 then some .SHA1
  else if hashLength = 64 then some .SHA256
  else if hashLength = 96 then some .SHA384
  else if hashLength = 128 then some .SHA512
  else none

/-- The method `Digest.NewHasher`. -/
def Digest.NewHasher (d : Digest) : Option HashAlgorithm :=
  match d.GetHashString, d.unpack with
  | some hash, some (hashEnd, _, _) =>
    if "B3Z:".data.isPrefixOf hash then some (.BLAKE3ZCCBlob ((hash.drop 4).length / 2))
    else if "B3ZM:".data.isPrefixOf hash then some (.BLAKE3ZCCManifest ((hash.drop 5).length / 2))
    else getHasherFactory hashEnd
  | _, _ => none

/-! ### MD5 (`crypto/md5`, RFC 1321)

The hash primitives are Go standard library code. MD5 is written out so that
the digests used by the tests can be evaluated; the other primitives stay
parameters (`Hashers`). -/

namespace MD5

def shifts : List Nat :=
  [7,12,17,22,7,12,17,22,7,12,17,22,7,12,17,22,
   5,9,14,20,5,9,14,20,5,9,14,20,5,9,14,20,
   4,11,16,23,4,11,16,23,4,11,16,23,4,11,16,23,
   6,10,15,21,6,10,15,21,6,10,15,21,6,10,15,21]

def sines : List Nat :=
  [0xd76aa478,0xe8c7b756,0x242070db,0xc1bdceee,0xf57c0faf,0x4787c62a,0xa8304613,0xfd469501,
   0x698098d8,0x8b44f7af,0xffff5bb1,0x895cd7be,0x6b901122,0xfd987193,0xa679438e,0x49b40821,
   0xf61e2562,0xc040b340,0x265e5a51,0xe9b6c7aa,0xd62f105d,0x02441453,0xd8a1e681,0xe7d3fbc8,
   0x21e1cde6,0xc33707d6,0xf4d50d87,0x455a14ed,0xa9e3e905,0xfcefa3f8,0x676f02d9,0x8d2a4c8a,
   0xfffa3942,0x8771f681,0x6d9d6122,0xfde5380c,0xa4beea44,0x4bdecfa9,0xf6bb4b60,0xbebfbc70,
   0x289b7ec6,0xeaa127fa,0xd4ef3085,0x04881d05,0xd9d4d039,0xe6db99e5,0x1fa27cf8,0xc4ac5665,
   0xf4292244,0x432aff97,0xab9423a7,0xfc93a039,0x655b59c3,0x8f0ccc92,0xffeff47d,0x85845dd1,
   0x6fa87e4f,0xfe2ce6e0,0xa3014314,0x4e0811a1,0xf7537e82,0xbd3af235,0x2ad7d2bb,0xeb86d391]

def word : Nat := 4294967296

def rotl (x c : Nat) : Nat := ((x <<< c) ||| (x >>> (32 - c))) % word

def not32 (x : Nat) : Nat := word - 1 - x

def step (m : List Nat) (st : Nat × Nat × Nat × Nat) (i : Nat) : Nat × Nat × Nat × Nat :=
  let (a, b, c, d) := st
  let f :=
    if i < 16 then (b &&& c) ||| (not32 b &&& d)
    else if i < 32 then (d &&& b) ||| (not32 d &&& c)
    else if i < 48 then b ^^^ c ^^^ d
    else c ^^^ (b ||| not32 d)
  let g :=
    if i < 16 then i
    else if i < 32 then (5 * i + 1) % 16
    else if i < 48 then (3 * i + 5) % 16
    else (7 * i) % 16
  let t := (f + a + sines.getD i 0 + m.getD g 0) % word
  (d, (b + rotl t (shifts.getD i 0)) % word, b, c)

def le32 : List Nat → Nat
  | [b0, b1, b2, b3] => b0 + 256 * b1 + 65536 * b2 + 16777216 * b3
  | _ => 0

def words : Nat → List Nat → List Nat
  | 0, _ => []
  | n + 1, bs => le32 (bs.take 4) :: words n (bs.drop 4)

def block (st : Nat × Nat × Nat × Nat) (bs : List Nat) : Nat × Nat × Nat × Nat :=
  let m := words 16 bs
  let (a, b, c, d) := (List.range 64).foldl (step m) st
  ((st.1 + a) % word, (st.2.1 + b) % word, (st.2.2.1 + c) % word, (st.2.2.2 + d) % word)

def blocks : Nat → Nat × Nat × Nat × Nat → List Nat → Nat × Nat × Nat × Nat
  | 0, st, _ => st
  | n + 1, st, bs => blocks n (block st (bs.take 64)) (bs.drop 64)

def leBytes : Nat → Nat → List Nat
  | 0, _ => []
  | n + 1, x => x % 256 :: leBytes n (x / 256)

def pad (data : List Nat) : List Nat :=
  data ++ [128] ++ List.replicate ((119 - data.length % 64) % 64) 0
    ++ leBytes 8 ((8 * data.length) % 18446744073709551616)

/-- The MD5 checksum of `data` (`md5.Sum`). -/
def sum (data : List Nat) : List Nat :=
  let p := pad data
  let (a, b, c, d) := blocks (p.length / 64) (0x67452301, 0xefcdab89, 0x98badcfe, 0x10325476) p
  leBytes 4 a ++ leBytes 4 b ++ leBytes 4 c ++ leBytes 4 d

end MD5

/-- The checksum functions behind `hash.Hash`: `Write(data)` followed by
`Sum(nil)`, one function per algorithm. -/
abbrev Hashers := HashAlgorithm → List Nat → List Nat

/-- A `Hashers` value with the real MD5; the other primitives are not
evaluated by any test input and return no bytes. -/
def md5Hashers : Hashers
  | .MD5, data => MD5.sum data
  | _, _ => []

/-- The function `digest.MustNewDigest` for an already validated hash and size: the key
`hash-size-instance`. -/
def mkDigest (instanceName hash : String) (sizeBytes : Nat) : Digest :=
  ⟨hash.data ++ ['-'] ++ (Nat.repr sizeBytes).data ++ ['-'] ++ instanceName.data⟩

/-! ## Sources and buffers (`pkg/blobstore/buffer`) -/

/-- The `Source` interface, as far as its results are concerned: the errors
its two failure notifications return. The interface declaration is not part of
the sources at hand, so its methods are taken as they are called in
`NewCASBufferFromByteSlice`. -/
structure Source where
  notifyCASSizeMismatch : Int → Int → Error
  notifyCASHashMismatch : List Nat → List Nat → Error

/-- One call made on a `Source`, with its arguments. -/
inductive SourceCall
  | notifyDataValid
  | notifyCASSizeMismatch (expectedSizeBytes actualSizeBytes : Int)
  | notifyCASHashMismatch (expectedChecksum actualChecksum : List Nat)
  deriving DecidableEq, Repr

/-- Modelled from the spec: the source implementation (`BackendProvided` /
`Irreparable`) is not part of the sources at hand. Its errors carry the stable
messages of section 6, `Buffer is N bytes in size, while M bytes were expected`
and `Buffer has checksum HHH, while KKK was expected` with lowercase hex, and
the code `Internal` that the tests expect. -/
def backendProvided : Source where
  notifyCASSizeMismatch expectedSizeBytes actualSizeBytes :=
    .status .Internal s!"Buffer is {actualSizeBytes} bytes in size, while {expectedSizeBytes} bytes were expected"
  notifyCASHashMismatch expectedChecksum actualChecksum :=
    .status .Internal s!"Buffer has checksum {hexEncodeToString actualChecksum}, while {hexEncodeToString expectedChecksum} was expected"

/-- The struct `validatedByteSliceBuffer`. -/
structure validatedByteSliceBuffer where
  data : List Nat
  deriving DecidableEq, Repr

/-- Modelled from the spec: the `Error` variant of section 4.D ("Holds a
terminal error; every operation returns it"); its Go file is not part of the
sources at hand. -/
structure errorBuffer where
  err : Error
  deriving DecidableEq, Repr

/-- An `io.ReadCloser` handed to the buffer layer, described by what it does
when it is read: `reads` are the byte slices returned by its successive
successful `Read` calls, `err` is the error returned once they are used up
(`io.EOF` at a clean end) and by every later `Read`; `closes` counts the calls
of `Close`. -/
structure ReadCloser where
  reads : List (List Nat)
  err : Error
  closes : Nat
  deriving DecidableEq, Repr

/-- A `ChunkReader` handed to the buffer layer: the chunks returned by its
successive `Read` calls, the error returned afterwards, and the number of
`Close` calls. -/
structure ChunkReader where
  chunks : List (List Nat)
  err : Error
  closes : Nat
  deriving DecidableEq, Repr

/-- The struct `casReaderBuffer`. -/
structure casReaderBuffer where
  digest : Digest
  r : ReadCloser
  source : Source

/-- Modelled from the spec: the `ChunkReaderCAS` variant of section 4.D, the
chunk-reader counterpart of `casReaderBuffer`; its Go file is not part of the
sources at hand. -/
structure casChunkReaderBuffer where
  digest : Digest
  r : ChunkReader
  source : Source

/-- The `Buffer` interface over the variants that are constructed directly
(the error-handling wrapper is `HandledBuffer` below). -/
inductive Buffer
  | validatedByteSlice (b : validatedByteSliceBuffer)
  | error (b : errorBuffer)
  | casReader (b : casReaderBuffer)
  | casChunkReader (b : casChunkReaderBuffer)

/-- The function `NewValidatedBufferFromByteSlice`. -/
def NewValidatedBufferFromByteSlice (data : List Nat) : Buffer :=
  .validatedByteSlice { data := data }

/-- Modelled from the spec: `NewBufferFromError`, the constructor of the
`Error` variant of section 4.D. -/
def NewBufferFromError (err : Error) : Buffer :=
  .error { err := err }

/-- The function `NewCASBufferFromReader`. -/
def NewCASBufferFromReader (digest : Digest) (r : ReadCloser) (source : Source) : Buffer :=
  .casReader { digest := digest, r := r, source := source }

/-- Modelled from the spec: `NewCASBufferFromChunkReader`, the constructor of
the `ChunkReaderCAS` variant of section 4.D. -/
def NewCASBufferFromChunkReader (digest : Digest) (r : ChunkReader) (source : Source) : Buffer :=
  .casChunkReader { digest := digest, r := r, source := source }

/-- The function `NewCASBufferFromByteSlice`: the buffer returned and the calls made on
`source`, or `none` when one of the digest accessors panics. The accessors are
called in the order of the Go code: the hash is only decoded, and the hasher
only created, once the sizes agree. -/
def NewCASBufferFromByteSlice (H : Hashers) (digest : Digest) (data : List Nat) (source : Source) :
    Option (Buffer × List SourceCall) :=
  -- Compare the blob's size.
  match digest.GetSizeBytes with
  | none => none
  | some expectedSizeBytes =>
    let actualSizeBytes : Int := data.length
    if expectedSizeBytes ≠ actualSizeBytes then
      some (NewBufferFromError (source.notifyCASSizeMismatch expectedSizeBytes actualSizeBytes),
        [.notifyCASSizeMismatch expectedSizeBytes actualSizeBytes])
    else
      -- Compare the blob's checksum.
      match digest.GetHashBytes, digest.NewHasher with
      | some expectedChecksum, some hasher =>
        let actualChecksum := H hasher data
        if expectedChecksum ≠ actualChecksum then
          some (NewBufferFromError (source.notifyCASHashMismatch expectedChecksum actualChecksum),
            [.notifyCASHashMismatch expectedChecksum actualChecksum])
        else
          some (NewValidatedBufferFromByteSlice data, [.notifyDataValid])
      | _, _ => none

/-- The method `validatedByteSliceBuffer.GetSizeBytes`. -/
def validatedByteSliceBuffer.GetSizeBytes (b : validatedByteSliceBuffer) : Int × Option Error :=
  (b.data.length, none)

/-- The builtin `copy(dst, src)`: the number of bytes copied and the new
contents of `dst`. -/
def copy (dst src : List Nat) : Nat × List Nat :=
  (min dst.length src.length, src.take (min dst.length src.length) ++ dst.drop (min dst.length src.length))

/-- The method `validatedByteSliceBuffer.ReadAt`: the byte count, the error and the
contents of `p` afterwards. -/
def validatedByteSliceBuffer.ReadAt (b : validatedByteSliceBuffer) (p : List Nat) (off : Int) :
    Nat × Option Error × List Nat :=
  if off < 0 then
    (0, some (.status .InvalidArgument s!"Negative read offset: {off}"), p)
  else if off ≥ (b.data.length : Int) then
    (0, some .EOF, p)
  else
    let (n, q) := copy p (b.data.drop off.toNat)
    if n < p.length then (n, some .EOF, q) else (n, none, q)

/-- The method `validatedByteSliceBuffer.ToByteSlice`: the data (`none` for a nil slice)
and the error. -/
def validatedByteSliceBuffer.ToByteSlice (b : validatedByteSliceBuffer) (maximumSizeBytes : Int) :
    Option (List Nat) × Option Error :=
  if (b.data.length : Int) > maximumSizeBytes then
    (none, some (.status .InvalidArgument
      s!"Buffer is {b.data.length} bytes in size, while a maximum of {maximumSizeBytes} bytes is permitted"))
  else
    (some b.data, none)

/-- The method `validatedByteSliceBuffer.Discard`: does nothing. -/
def validatedByteSliceBuffer.Discard (_b : validatedByteSliceBuffer) : Unit := ()

/-! ### Readers -/

/-- The bytes a reader returns over all its successful `Read` calls. -/
def ReadCloser.bytes (r : ReadCloser) : List Nat := r.reads.flatten

/-- The method `Close` on a reader. -/
def ReadCloser.Close (r : ReadCloser) : ReadCloser := { r with closes := r.closes + 1 }

/-- The method `Close` on a chunk reader. -/
def ChunkReader.Close (r : ChunkReader) : ChunkReader := { r with closes := r.closes + 1 }

/-- The pending reads of a reader after `n` of its bytes have been consumed. -/
def dropBytes : List (List Nat) → Nat → List (List Nat)
  | [], _ => []
  | c :: cs, n =>
    if n = 0 then c :: cs
    else if c.length ≤ n then dropBytes cs (n - c.length)
    else c.drop n :: cs

/-- Modelled from the spec: `newErrorReader`, a reader whose every `Read`
returns the error it was built from (section 4.D, `Error`: "every operation
returns it"). -/
def newErrorReader (err : Error) : ReadCloser := { reads := [], err := err, closes := 0 }

/-- Modelled from the spec: `discardFromReader`, which "discards `offset`
bytes" of a stream (section 4.D, `readAt`). Like `io.CopyN` into
`ioutil.Discard` it returns nil when `off` bytes could be read and otherwise
the error that ended the stream (`io.EOF` at a clean end); nothing is read
for `off <= 0`. -/
def discardFromReader (r : ReadCloser) (off : Int) : Option Error × ReadCloser :=
  if off.toNat ≤ r.bytes.length then (none, { r with reads := dropBytes r.reads off.toNat })
  else (some r.err, { r with reads := [] })

/-- Go standard library `io.ReadFull(r, p)`: reads until `p` is full. Returns the byte count, the
error, the contents of `p` and the reader afterwards. No `Read` is made for an
empty `p`; a stream ending cleanly after some but not all bytes gives
`io.ErrUnexpectedEOF`. -/
def ioReadFull (r : ReadCloser) (p : List Nat) : Nat × Option Error × List Nat × ReadCloser :=
  if p.length ≤ r.bytes.length then
    (p.length, none, r.bytes.take p.length, { r with reads := dropBytes r.reads p.length })
  else
    (r.bytes.length,
      some (if r.err = .EOF then (if r.bytes.length = 0 then .EOF else .ErrUnexpectedEOF) else r.err),
      r.bytes ++ p.drop r.bytes.length, { r with reads := [] })

/-- Go standard library `io.Copy(ioutil.Discard, r)`: reads `r` until its first error; a clean end
is reported as nil. -/
def ioCopyDiscard (r : ReadCloser) : Option Error × ReadCloser :=
  (if r.err = .EOF then none else some r.err, { r with reads := [] })

/-- What a validating stream hands to its consumer: the slices returned by its
successive reads, the result that follows them, and the calls made on the
source on the way. -/
structure Validated where
  reads : List (List Nat)
  err : Error
  calls : List SourceCall
  deriving DecidableEq, Repr

/-- Modelled from the spec: the validating stream of section 4.B, whose Go file
is not part of the sources at hand. `seen` are the bytes pulled so far.
A clean end with `bytesSeen ≠ expectedSize` is a size mismatch; a chunk that
pushes `bytesSeen` beyond the expected size ends the stream with a size
mismatch at once; at a clean end with matching size the checksum of all bytes
is compared; other errors of the inner stream are surfaced verbatim
(section 7). The chunk that completes the expected size is the final read: it
is validated before it is handed on ("validates on final read", section 4.D),
so it reaches the consumer only if the stream then ends cleanly with the right
checksum (section 8.6: the consumer holds `Xyzzy ` when the stitched
`Xyzzy world` fails). -/
def casValidate (sum : List Nat → List Nat) (source : Source)
    (expectedSizeBytes : Int) (expectedChecksum : List Nat) :
    List Nat → List (List Nat) → Error → Validated
  | seen, [], err =>
    if err = .EOF then
      if (seen.length : Int) ≠ expectedSizeBytes then
        ⟨[], source.notifyCASSizeMismatch expectedSizeBytes seen.length,
          [.notifyCASSizeMismatch expectedSizeBytes seen.length]⟩
      else if sum seen ≠ expectedChecksum then
        ⟨[], source.notifyCASHashMismatch expectedChecksum (sum seen),
          [.notifyCASHashMismatch expectedChecksum (sum seen)]⟩
      else ⟨[], .EOF, [.notifyDataValid]⟩
    else ⟨[], err, []⟩
  | seen, c :: cs, err =>
    if ((seen ++ c).length : Int) > expectedSizeBytes then
      ⟨[], source.notifyCASSizeMismatch expectedSizeBytes (seen ++ c).length,
        [.notifyCASSizeMismatch expectedSizeBytes (seen ++ c).length]⟩
    else
      let rest := casValidate sum source expectedSizeBytes expectedChecksum (seen ++ c) cs err
      if ((seen ++ c).length : Int) < expectedSizeBytes ∨ rest.err = .EOF then
        ⟨c :: rest.reads, rest.err, rest.calls⟩
      else ⟨[], rest.err, rest.calls⟩

/-- Modelled from the spec: `newCASValidatingReader`, the validating stream of
section 4.B over a reader. The result describes the validating reader in the
same way as any other reader, with the calls it makes on the source when it is
read to its end; closing it closes the reader it wraps. Panics when a digest
accessor panics. -/
def newCASValidatingReader (H : Hashers) (r : ReadCloser) (digest : Digest) (source : Source) :
    Option (ReadCloser × List SourceCall) :=
  match digest.GetSizeBytes, digest.GetHashBytes, digest.NewHasher with
  | some sizeBytes, some checksum, some hasher =>
    let v := casValidate (H hasher) source sizeBytes checksum [] r.reads r.err
    some ({ reads := v.reads, err := v.err, closes := r.closes }, v.calls)
  | _, _, _ => none

/-- The method `casReaderBuffer.GetSizeBytes`. -/
def casReaderBuffer.GetSizeBytes (b : casReaderBuffer) : Option (Int × Option Error) :=
  match b.digest.GetSizeBytes with
  | none => none
  | some sizeBytes => some (sizeBytes, none)

/-- The method `casReaderBuffer.ToReader`. The source passes
`b.repairStrategy` as third argument, a field the struct does not declare; the
struct's `source` takes its place. -/
def casReaderBuffer.ToReader (H : Hashers) (b : casReaderBuffer) : Option (ReadCloser × List SourceCall) :=
  newCASValidatingReader H b.r b.digest b.source

/-- The result of `ReadAt` on a stream-backed buffer: the byte count, the
error, the contents of `p`, the validating reader afterwards and the calls made
on the source. -/
structure ReadAtResult where
  n : Nat
  err : Option Error
  p : List Nat
  r : ReadCloser
  calls : List SourceCall
  deriving DecidableEq, Repr

/-- The method `casReaderBuffer.ReadAt`. The deferred `r.Close()` runs on every return. -/
def casReaderBuffer.ReadAt (H : Hashers) (b : casReaderBuffer) (p : List Nat) (off : Int) :
    Option ReadAtResult :=
  match b.ToReader H with
  | none => none
  | some (r, calls) =>
    -- Discard the part leading up to the correct offset.
    match discardFromReader r off with
    | (some err, r1) => some ⟨0, some err, p, r1.Close, calls⟩
    | (none, r1) =>
      -- Read the part of data at the correct offset.
      match ioReadFull r1 p with
      | (n, some err, q, r2) =>
        if err = .EOF ∨ err = .ErrUnexpectedEOF then some ⟨n, some .EOF, q, r2.Close, calls⟩
        else some ⟨0, some err, q, r2.Close, calls⟩
      | (n, none, q, r2) =>
        -- Continue reading the rest of the chunk to force checksum validation.
        match ioCopyDiscard r2 with
        | (some err, r3) => some ⟨0, some err, q, r3.Close, calls⟩
        | (none, r3) => some ⟨n, none, q, r3.Close, calls⟩

/-- The method `casReaderBuffer.Discard`: closes the underlying reader. -/
def casReaderBuffer.Discard (b : casReaderBuffer) : ReadCloser := b.r.Close

/-- The method `casReaderBuffer.toUnvalidatedReader`: the reader returned and the
underlying reader afterwards. -/
def casReaderBuffer.toUnvalidatedReader (b : casReaderBuffer) (off : Int) : ReadCloser × ReadCloser :=
  match discardFromReader b.r off with
  | (some err, r) => (newErrorReader err, r.Close)
  | (none, r) => (r, r)

/-! ### Operations of the directly constructed variants -/

/-- The result of materialising a buffer: the data (`none` for a nil slice),
the error and the calls made on the source. -/
structure BytesResult where
  data : Option (List Nat)
  err : Option Error
  calls : List SourceCall
  deriving DecidableEq, Repr

/-- Modelled from the spec: `toByteSliceViaReader`, by which stream-backed
buffers "materialize to a single buffer if and only if size ≤ maxSize;
otherwise fail with an invalid-argument error" (section 4.D, message of
section 6). The size is the declared size of the digest; below the cap the
validating reader is read to its end and its bytes are the result unless it
reports an error. -/
def toByteSliceViaReader (r : ReadCloser × List SourceCall) (digest : Digest) (maximumSizeBytes : Int) :
    Option BytesResult :=
  match digest.GetSizeBytes with
  | none => none
  | some sizeBytes =>
    if sizeBytes > maximumSizeBytes then
      some ⟨none, some (.status .InvalidArgument
        s!"Buffer is {sizeBytes} bytes in size, while a maximum of {maximumSizeBytes} bytes is permitted"), []⟩
    else if r.1.err = .EOF then some ⟨some r.1.bytes, none, r.2⟩
    else some ⟨none, some r.1.err, r.2⟩

/-- The method `casReaderBuffer.ToByteSlice`. -/
def casReaderBuffer.ToByteSlice (H : Hashers) (b : casReaderBuffer) (maximumSizeBytes : Int) :
    Option BytesResult :=
  match b.ToReader H with
  | none => none
  | some r => toByteSliceViaReader r b.digest maximumSizeBytes

/-- Modelled from the spec: `ToReader` of the `ChunkReaderCAS` variant
(section 4.D: "Terminal operations wrap the inner stream in a validating chunk
stream (§4.B) and execute"). -/
def casChunkReaderBuffer.ToReader (H : Hashers) (b : casChunkReaderBuffer) :
    Option (ReadCloser × List SourceCall) :=
  newCASValidatingReader H { reads := b.r.chunks, err := b.r.err, closes := b.r.closes } b.digest b.source

/-- The interface method `Buffer.ToByteSlice`, by variant. The `Error` variant returns its error
(section 4.D); the chunk-reader variant goes through its validating stream
like the reader variant. -/
def Buffer.ToByteSlice (H : Hashers) (b : Buffer) (maximumSizeBytes : Int) : Option BytesResult :=
  match b with
  | .validatedByteSlice b => some ⟨(b.ToByteSlice maximumSizeBytes).1, (b.ToByteSlice maximumSizeBytes).2, []⟩
  | .error b => some ⟨none, some b.err, []⟩
  | .casReader b => b.ToByteSlice H maximumSizeBytes
  | .casChunkReader b =>
    match b.ToReader H with
    | none => none
    | some r => toByteSliceViaReader r b.digest maximumSizeBytes

/-- Modelled from the spec: `validateReaderOffset`, the check behind the usage
errors `Negative read offset: N` and `Buffer is N bytes in size, while a read
at offset M was requested` of section 6. -/
def validateReaderOffset (length requested : Int) : Option Error :=
  if requested < 0 then
    some (.status .InvalidArgument s!"Negative read offset: {requested}")
  else if requested > length then
    some (.status .InvalidArgument
      s!"Buffer is {length} bytes in size, while a read at offset {requested} was requested")
  else none

/-- The method `validatedByteSliceBuffer.toUnvalidatedReader`:
`ioutil.NopCloser(bytes.NewBuffer(b.data[off:]))`, whose first `Read` returns
all remaining bytes. -/
def validatedByteSliceBuffer.toUnvalidatedReader (b : validatedByteSliceBuffer) (off : Int) : ReadCloser :=
  match validateReaderOffset b.data.length off with
  | some err => newErrorReader err
  | none =>
    { reads := if b.data.drop off.toNat = [] then [] else [b.data.drop off.toNat], err := .EOF, closes := 0 }

/-- The interface method `Buffer.toUnvalidatedReader`, by variant: the stream of the buffer from
offset `off` on, without digest validation. The `Error` variant gives a reader
returning its error; the chunk-reader variant gives its chunks, positioned like
the reader variant. -/
def Buffer.toUnvalidatedReader (b : Buffer) (off : Int) : ReadCloser :=
  match b with
  | .validatedByteSlice b => b.toUnvalidatedReader off
  | .error b => newErrorReader b.err
  | .casReader b => (b.toUnvalidatedReader off).1
  | .casChunkReader b =>
    (casReaderBuffer.toUnvalidatedReader
      ⟨b.digest, { reads := b.r.chunks, err := b.r.err, closes := b.r.closes }, b.source⟩ off).1

/-- The interface method `Buffer.Discard`, by variant: the buffer afterwards. Stream-backed
variants close their stream; the others hold nothing to release. -/
def Buffer.Discard (b : Buffer) : Buffer :=
  match b with
  | .validatedByteSlice b => .validatedByteSlice b
  | .error b => .error b
  | .casReader b => .casReader { b with r := b.Discard }
  | .casChunkReader b => .casChunkReader { b with r := b.r.Close }

/-! ### The error handler (`WithErrorHandler`)

The Go file of the error-handling wrapper is not part of the sources at hand;
only its test is. The wrapper is modelled from section 4.E of the spec. -/

/-- Modelled from the spec: the `ErrorHandler` of section 3, "a stateful
object exposing `onError(err) → (Buffer|nil, Error|nil)` and `done()`".
`declining` is a handler that answers every error with a terminal error;
`retrying` answers with a terminal error or a replacement buffer and then
continues as the handler `next err`. Every handler of this type gives up after
finitely many retries. -/
inductive ErrorHandler
  | declining (onError : Error → Error)
  | retrying (onError : Error → Except Error Buffer) (next : Error → ErrorHandler)

/-- One call made on an `ErrorHandler`. -/
inductive HandlerCall
  | OnError (err : Error)
  | Done
  deriving DecidableEq, Repr

/-- Modelled from the spec: the struct of the `ErrorHandling` variant
(section 2-D), built by `newCASErrorHandlingBuffer`. -/
structure casErrorHandlingBuffer where
  base : Buffer
  errorHandler : ErrorHandler
  digest : Digest
  source : Source

/-- The `Buffer` interface including the error-handling wrapper. -/
inductive HandledBuffer
  | plain (b : Buffer)
  | casErrorHandling (b : casErrorHandlingBuffer)

/-- The method `validatedByteSliceBuffer.applyErrorHandler`: calls `Done` and returns the
buffer with `false`. -/
def validatedByteSliceBuffer.applyErrorHandler (b : validatedByteSliceBuffer) (_errorHandler : ErrorHandler) :
    HandledBuffer × Bool × List HandlerCall :=
  (.plain (.validatedByteSlice b), false, [.Done])

/-- The method `casReaderBuffer.applyErrorHandler`: wraps the buffer, calls nothing. -/
def casReaderBuffer.applyErrorHandler (b : casReaderBuffer) (errorHandler : ErrorHandler) :
    HandledBuffer × Bool × List HandlerCall :=
  (.casErrorHandling ⟨.casReader b, errorHandler, b.digest, b.source⟩, false, [])

/-- Modelled from the spec: `WithErrorHandler`, which applies the handler to a
buffer (section 4.E), with the calls made on the handler. In-memory buffers
terminate the handler at once; stream-backed buffers are wrapped (section 4.D);
an `Error` buffer "invokes the handler synchronously and either returns
another buffer (retry) or emits a final error", the retry being evaluated in
the same way. -/
def WithErrorHandler : Buffer → ErrorHandler → HandledBuffer × List HandlerCall
  | .validatedByteSlice b, h => ((b.applyErrorHandler h).1, (b.applyErrorHandler h).2.2)
  | .casReader b, h => ((b.applyErrorHandler h).1, (b.applyErrorHandler h).2.2)
  | .casChunkReader b, h => (.casErrorHandling ⟨.casChunkReader b, h, b.digest, b.source⟩, [])
  | .error b, .declining f => (.plain (NewBufferFromError (f b.err)), [.OnError b.err, .Done])
  | .error b, .retrying f next =>
    match f b.err with
    | .error err => (.plain (NewBufferFromError err), [.OnError b.err, .Done])
    | .ok replacement =>
      ((WithErrorHandler replacement (next b.err)).1, .OnError b.err :: (WithErrorHandler replacement (next b.err)).2)

/-- What the retrying stream of the wrapper hands on: the slices read over all
attempts, the result that follows them and the calls made on the handler by a
consumer that reads to the end and closes. -/
structure Stitched where
  reads : List (List Nat)
  err : Error
  calls : List HandlerCall
  deriving DecidableEq, Repr

/-- Modelled from the spec: the retrying stream of section 4.E, decision 1:
"The wrapper pulls from the current attempt's chunk stream; on error it
transparently switches to the next attempt's chunk stream, positioned at the
bytes-already-delivered offset." `off` is the number of bytes delivered by
earlier attempts and `r` the unvalidated stream of the current attempt. A
clean end ends the stream; any other error goes to `onError`, whose terminal
error "is what surfaces" (decision 5); `done` is called once at the end. -/
def errorRetryingReader : ErrorHandler → Nat → ReadCloser → Stitched
  | .declining f, _, r =>
    if r.err = .EOF then ⟨r.reads, .EOF, [.Done]⟩
    else ⟨r.reads, f r.err, [.OnError r.err, .Done]⟩
  | .retrying f next, off, r =>
    if r.err = .EOF then ⟨r.reads, .EOF, [.Done]⟩
    else
      match f r.err with
      | .error err => ⟨r.reads, err, [.OnError r.err, .Done]⟩
      | .ok replacement =>
        let rest := errorRetryingReader (next r.err) (off + r.bytes.length)
          (replacement.toUnvalidatedReader ((off + r.bytes.length : Nat) : Int))
        ⟨r.reads ++ rest.reads, rest.err, .OnError r.err :: rest.calls⟩

/-- What a consumer of a streaming operation observes when it reads to the end
and closes: the slices it received, the result that followed them, and the
calls made on the source and on the handler. -/
structure StreamResult where
  reads : List (List Nat)
  err : Error
  sourceCalls : List SourceCall
  handlerCalls : List HandlerCall
  deriving DecidableEq, Repr

/-- Modelled from the spec: `ToReader` of the wrapper (section 4.E): the
retrying stream over the unvalidated streams of the attempts, starting at
offset 0, checked as a whole against the wrapper's digest ("Integrity is
re-checked ... against the same expected digest", "the stitched result remains
integrity-checked end to end"). -/
def casErrorHandlingBuffer.ToReader (H : Hashers) (b : casErrorHandlingBuffer) : Option StreamResult :=
  match b.digest.GetSizeBytes, b.digest.GetHashBytes, b.digest.NewHasher with
  | some sizeBytes, some checksum, some hasher =>
    let s := errorRetryingReader b.errorHandler 0 (b.base.toUnvalidatedReader 0)
    let v := casValidate (H hasher) b.source sizeBytes checksum [] s.reads s.err
    some ⟨v.reads, v.err, v.calls, s.calls⟩
  | _, _, _ => none

/-- The result of writing a buffer into a `bytes.Buffer`: the contents of the
writer afterwards, the error returned, and the calls made. -/
structure WriteResult where
  written : List Nat
  err : Option Error
  sourceCalls : List SourceCall
  handlerCalls : List HandlerCall
  deriving DecidableEq, Repr

/-- Modelled from the spec: `IntoWriter` of the wrapper, for a writer that is
a `bytes.Buffer` holding `w` (its `Write` appends and never fails):
`io.Copy` from the wrapper's reader, so every slice the reader hands on is
written, and the reader's error is returned unless it is a clean end. -/
def casErrorHandlingBuffer.IntoWriter (H : Hashers) (b : casErrorHandlingBuffer) (w : List Nat) :
    Option WriteResult :=
  match b.ToReader H with
  | none => none
  | some s => some ⟨w ++ s.reads.flatten, if s.err = .EOF then none else some s.err, s.sourceCalls, s.handlerCalls⟩

/-- Modelled from the spec: the `ChunkPolicy` of section 3,
`{minimum:int ≥ 1, maximum:int ≥ minimum}`. -/
structure ChunkPolicy where
  minimum : Nat
  maximum : Nat
  deriving DecidableEq, Repr

/-- Pieces of at most `maximum` bytes of one chunk; `fuel` bounds the number
of pieces. -/
def splitChunk (maximum : Nat) : Nat → List Nat → List (List Nat)
  | 0, _ => []
  | fuel + 1, c =>
    if c = [] then []
    else if c.length ≤ maximum ∨ maximum = 0 then [c]
    else c.take maximum :: splitChunk maximum fuel (c.drop maximum)

/-- Modelled from the spec: the normalizing chunk stream of section 4.C:
"concatenate small chunks up to at least `minimum` bytes; split any chunk
exceeding `maximum`. Preserves the sequence of bytes exactly". `pending` are
the bytes held back so far. -/
def normalizeChunks (policy : ChunkPolicy) : List Nat → List (List Nat) → List (List Nat)
  | pending, [] => splitChunk policy.maximum pending.length pending
  | pending, c :: cs =>
    if (pending ++ c).length < policy.minimum then normalizeChunks policy (pending ++ c) cs
    else splitChunk policy.maximum (pending ++ c).length (pending ++ c) ++ normalizeChunks policy [] cs

/-- Modelled from the spec: `ToChunkReader` of the wrapper, "positioned,
rechunked, validating" (section 4.D): an invalid offset gives a chunk reader
returning the usage error, the buffer being discarded; otherwise the stream of
`ToReader` is validated from its start, handed on from offset `off` and
rechunked attempt by attempt. -/
def casErrorHandlingBuffer.ToChunkReader (H : Hashers) (b : casErrorHandlingBuffer) (off : Int)
    (chunkPolicy : ChunkPolicy) : Option StreamResult :=
  match b.digest.GetSizeBytes, b.ToReader H with
  | some sizeBytes, some s =>
    match validateReaderOffset sizeBytes off with
    | some err => some ⟨[], err, [], [.Done]⟩
    | none => some ⟨normalizeChunks chunkPolicy [] (dropBytes s.reads off.toNat), s.err, s.sourceCalls, s.handlerCalls⟩
  | _, _ => none

/-- The result of materialising a buffer under an error handler. -/
structure HandledBytes where
  data : Option (List Nat)
  err : Option Error
  sourceCalls : List SourceCall
  handlerCalls : List HandlerCall
  deriving DecidableEq, Repr

/-- Modelled from the spec: retrying `ToByteSlice` (section 4.E, decision 3:
"for operations that materialize the entire blob before exposure ... retries
may fully redo the operation on the replacement"): the operation is run on
the current buffer; its error goes to `onError`, and a replacement is tried
in the same way. `done` is called once at the end. -/
def tryToByteSlice (H : Hashers) (maximumSizeBytes : Int) : ErrorHandler → Buffer → Option HandledBytes
  | .declining f, b =>
    match b.ToByteSlice H maximumSizeBytes with
    | none => none
    | some ⟨data, none, calls⟩ => some ⟨data, none, calls, [.Done]⟩
    | some ⟨_, some err, calls⟩ => some ⟨none, some (f err), calls, [.OnError err, .Done]⟩
  | .retrying f next, b =>
    match b.ToByteSlice H maximumSizeBytes with
    | none => none
    | some ⟨data, none, calls⟩ => some ⟨data, none, calls, [.Done]⟩
    | some ⟨_, some err, calls⟩ =>
      match f err with
      | .error err2 => some ⟨none, some err2, calls, [.OnError err, .Done]⟩
      | .ok replacement =>
        match tryToByteSlice H maximumSizeBytes (next err) replacement with
        | none => none
        | some rest => some ⟨rest.data, rest.err, calls ++ rest.sourceCalls, .OnError err :: rest.handlerCalls⟩

/-- The method `ToByteSlice` on the result of `WithErrorHandler`. -/
def HandledBuffer.ToByteSlice (H : Hashers) (b : HandledBuffer) (maximumSizeBytes : Int) : Option HandledBytes :=
  match b with
  | .plain b =>
    match b.ToByteSlice H maximumSizeBytes with
    | none => none
    | some r => some ⟨r.data, r.err, r.calls, []⟩
  | .casErrorHandling b => tryToByteSlice H maximumSizeBytes b.errorHandler b.base

/-- Modelled from the spec: `ToReader` of a directly constructed buffer, read
to its end: in-memory buffers hand on their bytes, the `Error` variant its
error, stream-backed variants their validating stream. -/
def Buffer.ToReader (H : Hashers) (b : Buffer) : Option (ReadCloser × List SourceCall) :=
  match b with
  | .validatedByteSlice b => some (b.toUnvalidatedReader 0, [])
  | .error b => some (newErrorReader b.err, [])
  | .casReader b => b.ToReader H
  | .casChunkReader b => b.ToReader H

/-- The method `ToReader` on the result of `WithErrorHandler`, read to the end and
closed. -/
def HandledBuffer.ToReader (H : Hashers) (b : HandledBuffer) : Option StreamResult :=
  match b with
  | .plain b =>
    match b.ToReader H with
    | none => none
    | some (r, calls) => some ⟨r.reads, r.err, calls, []⟩
  | .casErrorHandling b => b.ToReader H

/-- The method `validatedByteSliceBuffer.IntoWriter`, for a writer that is a
`bytes.Buffer` holding `w`: one `Write` of the data; the contents of the
writer afterwards and the error. -/
def validatedByteSliceBuffer.IntoWriter (b : validatedByteSliceBuffer) (w : List Nat) :
    List Nat × Option Error :=
  (w ++ b.data, none)

/-- The interface method `Buffer.IntoWriter`, by variant, into a `bytes.Buffer`
holding `w`. The `Error` variant returns its error; stream-backed variants copy
their validating reader into the writer (`casReaderBuffer.IntoWriter`:
`io.Copy(w, r)` on `r := b.ToReader()`). -/
def Buffer.IntoWriter (H : Hashers) (b : Buffer) (w : List Nat) :
    Option (List Nat × Option Error × List SourceCall) :=
  match b with
  | .validatedByteSlice b => some ((b.IntoWriter w).1, (b.IntoWriter w).2, [])
  | .error b => some (w, some b.err, [])
  | .casReader b =>
    match b.ToReader H with
    | none => none
    | some (r, calls) => some (w ++ r.bytes, if r.err = .EOF then none else some r.err, calls)
  | .casChunkReader b =>
    match b.ToReader H with
    | none => none
    | some (r, calls) => some (w ++ r.bytes, if r.err = .EOF then none else some r.err, calls)

/-- The method `IntoWriter` on the result of `WithErrorHandler`, into a
`bytes.Buffer` holding `w`. -/
def HandledBuffer.IntoWriter (H : Hashers) (b : HandledBuffer) (w : List Nat) : Option WriteResult :=
  match b with
  | .plain b =>
    match b.IntoWriter H w with
    | none => none
    | some (written, err, calls) => some ⟨written, err, calls, []⟩
  | .casErrorHandling b => b.IntoWriter H w

/-- Modelled from the spec: `Discard` on the result of `WithErrorHandler`:
the buffer afterwards and the calls made on the handler. For the wrapper
"`done()` is called immediately (for `discard`, after releasing the underlying
stream)" (section 4.E, decision 3). -/
def HandledBuffer.Discard (b : HandledBuffer) : Buffer × List HandlerCall :=
  match b with
  | .plain b => (b.Discard, [])
  | .casErrorHandling b => (b.base.Discard, [.Done])

/-! ### Cloning, writers and chunk readers of the directly constructed variants -/

/-- The method `validatedByteSliceBuffer.CloneCopy`: the buffer itself, twice;
`maximumSizeBytes` is not looked at. -/
def validatedByteSliceBuffer.CloneCopy (b : validatedByteSliceBuffer) (_maximumSizeBytes : Int) :
    Buffer × Buffer :=
  (.validatedByteSlice b, .validatedByteSlice b)

/-- The method `validatedByteSliceBuffer.CloneStream`: the buffer itself,
twice. -/
def validatedByteSliceBuffer.CloneStream (b : validatedByteSliceBuffer) : Buffer × Buffer :=
  (.validatedByteSlice b, .validatedByteSlice b)

/-- The interface method `Buffer.GetSizeBytes`, by variant. The `Error`
variant returns its error; stream-backed variants return the declared size of
their digest. -/
def Buffer.GetSizeBytes (b : Buffer) : Option (Int × Option Error) :=
  match b with
  | .validatedByteSlice b => some b.GetSizeBytes
  | .error b => some (0, some b.err)
  | .casReader b => b.GetSizeBytes
  | .casChunkReader b =>
    match b.digest.GetSizeBytes with
    | none => none
    | some sizeBytes => some (sizeBytes, none)

/-- An `io.Writer` handed to the buffer layer: the bytes written so far, and
how it fails. With `room = none` every `Write` succeeds; with `room = some k`
only `k` more bytes are accepted, and a `Write` that does not fit writes what
fits and returns `err`. -/
structure Writer where
  written : List Nat
  room : Option Nat
  err : Error
  deriving DecidableEq, Repr

/-- The method `Write` of a `Writer`: the writer afterwards and the error. -/
def Writer.Write (w : Writer) (p : List Nat) : Writer × Option Error :=
  match w.room with
  | none => ({ w with written := w.written ++ p }, none)
  | some k =>
    if p.length ≤ k then ({ w with written := w.written ++ p, room := some (k - p.length) }, none)
    else ({ w with written := w.written ++ p.take k, room := some 0 }, some w.err)

/-- Go standard library `io.Copy(w, r)` over the pending reads of `r`: every
slice read is written; the first failing `Write` ends the copy with its error,
the reads after it staying unread; at the end of the reads the error of the
reader is returned, a clean end as nil. Returns the writer, the error and the
reads left unread. -/
def ioCopy (w : Writer) : List (List Nat) → Error → Writer × Option Error × List (List Nat)
  | [], err => (w, if err = .EOF then none else some err, [])
  | c :: cs, err =>
    match w.Write c with
    | (w2, some e) => (w2, some e, cs)
    | (w2, none) => ioCopy w2 cs err

/-- The result of `IntoWriter` on a stream-backed buffer: the writer and the
validating reader afterwards, and the error. The calls on the source are not
part of this result. -/
structure IntoWriterResult where
  w : Writer
  err : Option Error
  r : ReadCloser
  deriving DecidableEq, Repr

/-- The method `casReaderBuffer.IntoWriter`. The deferred `r.Close()` runs on
every return. -/
def casReaderBuffer.IntoWriter (H : Hashers) (b : casReaderBuffer) (w : Writer) : Option IntoWriterResult :=
  match b.ToReader H with
  | none => none
  | some (r, _) =>
    match ioCopy w r.reads r.err with
    | (w2, err, unread) => some ⟨w2, err, ({ r with reads := unread } : ReadCloser).Close⟩

/-- Modelled from the spec: `newErrorChunkReader`, a chunk reader whose every
`Read` returns the error it was built from (section 4.D, `Error`: "every
operation returns it"). -/
def newErrorChunkReader (err : Error) : ChunkReader := { chunks := [], err := err, closes := 0 }

/-- Modelled from the spec: `newReaderBackedChunkReader`, the adapter of
section 4.A that wraps a byte reader and produces chunks obeying a chunk
policy (section 4.C): the bytes and the final error of the reader, rechunked;
closing it closes the reader. -/
def newReaderBackedChunkReader (r : ReadCloser) (chunkPolicy : ChunkPolicy) : ChunkReader :=
  { chunks := normalizeChunks chunkPolicy [] r.reads, err := r.err, closes := r.closes }

/-- The result of turning a stream-backed buffer into a chunk reader: the
chunk reader returned and the stream it was made from, as it is at the
return. -/
structure ChunkReaderResult where
  chunkReader : ChunkReader
  stream : ReadCloser
  deriving DecidableEq, Repr

/-- The method `casReaderBuffer.ToChunkReader`. An invalid offset discards the
buffer, which closes the underlying reader; a failure to discard the leading
bytes closes the validating reader. -/
def casReaderBuffer.ToChunkReader (H : Hashers) (b : casReaderBuffer) (off : Int)
    (chunkPolicy : ChunkPolicy) : Option ChunkReaderResult :=
  match b.digest.GetSizeBytes with
  | none => none
  | some sizeBytes =>
    match validateReaderOffset sizeBytes off with
    | some err => some ⟨newErrorChunkReader err, b.Discard⟩
    | none =>
      match b.ToReader H with
      | none => none
      | some (r, _) =>
        match discardFromReader r off with
        | (some err, r1) => some ⟨newErrorChunkReader err, r1.Close⟩
        | (none, r1) => some ⟨newReaderBackedChunkReader r1 chunkPolicy, r1⟩

/-- The method `casReaderBuffer.toUnvalidatedChunkReader`: the chunk reader
returned and the underlying reader afterwards. -/
def casReaderBuffer.toUnvalidatedChunkReader (b : casReaderBuffer) (off : Int) (chunkPolicy : ChunkPolicy) :
    ChunkReaderResult :=
  match discardFromReader b.r off with
  | (some err, r) => ⟨newErrorChunkReader err, r.Close⟩
  | (none, r) => ⟨newReaderBackedChunkReader r chunkPolicy, r⟩

/-! ### Manifests (`Digest.ToManifest`) -/

/-- The value `BadDigest`, the default instance of `Digest`. -/
def BadDigest : Digest := ⟨[]⟩

/-- The method `Digest.GetInstanceName`: the part of the key after the size. -/
def Digest.GetInstanceName (d : Digest) : Option (List Char) :=
  match d.unpack with
  | none => none
  | some (_, _, sizeBytesEnd) => some (d.value.drop (sizeBytesEnd + 1))

/-- Conversion to `uint64`. -/
def toUint64 (x : Int) : Nat := (x % 18446744073709551616).toNat

/-- The function `convertSizeToBlockCount`, with its `uint64` arithmetic; a
division by zero panics. -/
def convertSizeToBlockCount (blobSizeBytes blockSizeBytes : Int) : Option Int :=
  if toUint64 blockSizeBytes = 0 then none
  else some (wrapInt64 (((toUint64 blobSizeBytes + toUint64 blockSizeBytes + 18446744073709551616 - 1)
    % 18446744073709551616 / toUint64 blockSizeBytes : Nat) : Int))

/-- The arguments `newBLAKE3ZCCManifestParser` is called with; the parser
itself is not part of the sources at hand. -/
structure ManifestParser where
  instance_ : List Char
  blobSizeBytes : Int
  blockSizeBytes : Int
  hashSizeBytes : Nat
  deriving DecidableEq, Repr

/-- The method `Digest.ToManifest`: the manifest digest, the manifest parser
(`none` for nil) and the flag, or `none` for a panic. The constants
`blake3zccParentNodeSizeBytes` and `blake3zccChunkNodeSizeBytes` are declared
in a file that is not part of the sources at hand and are parameters. -/
def Digest.ToManifest (blake3zccParentNodeSizeBytes blake3zccChunkNodeSizeBytes : Int) (d : Digest)
    (blockSizeBytes : Int) : Option (Digest × Option ManifestParser × Bool) :=
  if ¬ "B3Z:".data.isPrefixOf d.value then some (BadDigest, none, false)
  else
    match d.unpack with
    | none => none
    | some (hashEnd, sizeBytes, sizeBytesEnd) =>
      if sizeBytes ≤ blockSizeBytes then some (BadDigest, none, false)
      else
        match convertSizeToBlockCount sizeBytes blockSizeBytes with
        | none => none
        | some blockCount =>
          let manifestSizeBytes := wrapInt64 (blockCount * blake3zccParentNodeSizeBytes)
          let lastBlockSizeBytes := sizeBytes.tmod blockSizeBytes
          let manifestSizeBytes :=
            if lastBlockSizeBytes > 0 ∧ lastBlockSizeBytes ≤ 1024 then
              wrapInt64 (manifestSizeBytes + (blake3zccChunkNodeSizeBytes - blake3zccParentNodeSizeBytes))
            else manifestSizeBytes
          let hash := (d.value.take hashEnd).drop 4
          let instance_ := d.value.drop (sizeBytesEnd + 1)
          some (⟨"B3ZM:".data ++ hash ++ ['-'] ++ (toString manifestSizeBytes).data ++ ['-'] ++ instance_⟩,
            some ⟨instance_, sizeBytes, blockSizeBytes, hash.length / 2⟩, true)

/-- The manifest size in the words of the spec: the number of blocks
`ceil(S/B)` times the parent-node size, except that when the last block, the
`S - (ceil(S/B) - 1) * B` final bytes, is at most 1024 bytes long, one
parent-node size is replaced by one chunk-node size. -/
def claimedManifestSizeBytes (parentNodeSizeBytes chunkNodeSizeBytes sizeBytes blockSizeBytes : Int) : Int :=
  if sizeBytes - ((sizeBytes + blockSizeBytes - 1) / blockSizeBytes - 1) * blockSizeBytes ≤ 1024 then
    ((sizeBytes + blockSizeBytes - 1) / blockSizeBytes - 1) * parentNodeSizeBytes + chunkNodeSizeBytes
  else (sizeBytes + blockSizeBytes - 1) / blockSizeBytes * parentNodeSizeBytes

/-- The blob digest of `TestBLAKE3ZCCManifestParserGetBlockDigest`: 5121
bytes in `instance`. -/
def blobDigest : Digest :=
  mkDigest "instance" "B3Z:4c522509f3e722ad893600907cbd2fa85bb8cc49ab945e76289bb71f4c3322d6" 5121

/-! ### Keys, protocol messages and digest functions -/

/-- The type `KeyFormat`, an `int`. -/
structure KeyFormat where
  value : Int
  deriving DecidableEq, Repr

/-- The constant `KeyWithoutInstance` (`iota` = 0). -/
def KeyWithoutInstance : KeyFormat := ⟨0⟩

/-- The constant `KeyWithInstance` (1). -/
def KeyWithInstance : KeyFormat := ⟨1⟩

/-- The method `KeyFormat.Combine`. -/
def KeyFormat.Combine (kf other : KeyFormat) : KeyFormat :=
  if kf = KeyWithInstance then KeyWithInstance else other

/-- The method `Digest.GetKey`; the `default` branch panics. -/
def Digest.GetKey (d : Digest) (format : KeyFormat) : Option (List Char) :=
  if format = KeyWithoutInstance then
    match d.unpack with
    | none => none
    | some (_, _, sizeBytesEnd) => some (d.value.take sizeBytesEnd)
  else if format = KeyWithInstance then some d.value
  else none

/-- The method `Digest.String`: `GetKey(KeyWithInstance)`, which never panics. -/
def Digest.String (d : Digest) : List Char := (d.GetKey KeyWithInstance).getD []

/-- The message `remoteexecution.Digest`, as far as `GetProto` fills it in; a
field that is not set holds its zero value. -/
structure remoteexecution.Digest where
  HashOther : List Char
  HashBlake3Zcc : List Nat
  HashBlake3ZccManifest : List Nat
  SizeBytes : Int
  deriving DecidableEq, Repr

/-- The method `Digest.GetProto`; a hash that does not decode panics. -/
def Digest.GetProto (d : Digest) : Option remoteexecution.Digest :=
  match d.unpack with
  | none => none
  | some (hashEnd, sizeBytes, _) =>
    let hash := d.value.take hashEnd
    if "B3Z:".data.isPrefixOf hash then
      match hexDecodeString (hash.drop 4) with
      | none => none
      | some hashBytes => some ⟨[], hashBytes, [], sizeBytes⟩
    else if "B3ZM:".data.isPrefixOf hash then
      match hexDecodeString (hash.drop 5) with
      | none => none
      | some hashBytes => some ⟨[], [], hashBytes, sizeBytes⟩
    else some ⟨hash, [], [], sizeBytes⟩

/-- The struct `InstanceName`. -/
structure InstanceName where
  value : List Char
  deriving DecidableEq, Repr

/-- The struct `Function`, with the fields `GetDigestFunction` fills in; the
hasher factory is named by the algorithm it constructs. -/
structure Function where
  instanceName : InstanceName
  hasherFactory : HashAlgorithm
  hashLength : Nat
  deriving DecidableEq, Repr

/-- The method `Digest.GetDigestFunction`; `getHasherFactory` is called while
the struct is built, and panics on a hash length it does not know. -/
def Digest.GetDigestFunction (d : Digest) : Option Function :=
  match d.unpack with
  | none => none
  | some (hashEnd, _, sizeBytesEnd) =>
    match getHasherFactory hashEnd with
    | none => none
    | some hasherFactory => some ⟨⟨d.value.drop (sizeBytesEnd + 1)⟩, hasherFactory, hashEnd⟩

/-- The method `Digest.UsesDigestFunction`. -/
def Digest.UsesDigestFunction (d : Digest) (f : Function) : Option Bool :=
  match d.unpack with
  | none => none
  | some (hashEnd, _, sizeBytesEnd) =>
    some (decide (hashEnd = f.hashLength) && decide (d.value.drop (sizeBytesEnd + 1) = f.instanceName.value))

/-- Length in bytes of the checksum a hasher produces (`hash.Hash.Size`): the
sizes of the standard library, and for the BLAKE3ZCC hashers the output length
they are constructed with. -/
def HashAlgorithm.Size : HashAlgorithm → Nat
  | .MD5 => 16
  | .SHA1 => 20
  | .SHA256 => 32
  | .SHA384 => 48
  | .SHA512 => 64
  | .BLAKE3ZCCBlob outputLength => outputLength
  | .BLAKE3ZCCManifest outputLength => outputLength

/-! ### ByteStream paths -/

/-- Go standard library `strings.FieldsFunc`: the maximal runs of characters
that do not satisfy `f`; empty fields are dropped. -/
def stringsFieldsFunc (s : List Char) (f : Char → Bool) : List (List Char) :=
  (s.splitOnP f).filter (fun field => !field.isEmpty)

/-- Go standard library `strings.Join`. -/
def stringsJoin (elems : List (List Char)) (sep : List Char) : List Char :=
  sep.intercalate elems

/-- One path element in `path.Clean`: an empty element and `.` are dropped,
`..` removes the last element that is not itself a kept `..` (or is kept in
front of an unrooted path), any other element is appended. The state is the
list of elements written so far and the number of leading `..` elements that
cannot be removed. -/
def pathCleanStep (rooted : Bool) (out : List (List Char) × Nat) (elem : List Char) :
    List (List Char) × Nat :=
  if elem = [] ∨ elem = ".".data then out
  else if elem = "..".data then
    if out.1.length > out.2 then (out.1.dropLast, out.2)
    else if rooted then out
    else (out.1 ++ ["..".data], out.1.length + 1)
  else (out.1 ++ [elem], out.2)

/-- Go standard library `path.Clean`, by path elements: the shortest path
name equivalent to `path` by purely lexical processing. -/
def pathClean (path : List Char) : List Char :=
  if path = [] then ".".data
  else
    let rooted := path.head? = some '/'
    let out := (path.splitOn '/').foldl (pathCleanStep rooted) ([], 0)
    let s := (if rooted then ['/'] else []) ++ stringsJoin out.1 "/".data
    if s = [] then ".".data else s

/-- Go standard library `path.Join`: the elements from the first non-empty
one on, joined by slashes and cleaned; the empty string when all are empty. -/
def pathJoin (elem : List (List Char)) : List Char :=
  match elem.dropWhile (fun e => e.isEmpty) with
  | [] => []
  | e :: rest => pathClean (stringsJoin (e :: rest) "/".data)

/-- Go standard library `strconv.FormatInt(i, 10)`. -/
def strconvFormatInt (i : Int) : List Char := (toString i).data

/-- Go standard library `strconv.ParseUint(s, 10, 64)`: a non-empty string of
decimal digits whose value fits in 64 bits; `none` is an error. -/
def strconvParseUint (s : List Char) : Option Nat :=
  if s = [] then none
  else if s.all Char.isDigit then
    let n := s.foldl (fun acc c => acc * 10 + (c.toNat - 48)) 0
    if n < 18446744073709551616 then some n else none
  else none

/-- Go standard library `strconv.ParseInt(s, 10, 64)`: an optional sign
followed by `ParseUint`, with the range check of `int64`; `none` is an error. -/
def strconvParseInt (s : List Char) : Option Int :=
  if s = [] then none
  else
    let neg := s.head? = some '-'
    let s0 := if s.head? = some '+' ∨ s.head? = some '-' then s.tail else s
    match strconvParseUint s0 with
    | none => none
    | some un =>
      if ¬ neg ∧ un ≥ 9223372036854775808 then none
      else if neg ∧ un > 9223372036854775808 then none
      else some (if neg then -(un : Int) else (un : Int))

/-- The parts of the package the path functions call that are not among the
sources at hand, taken as parameters: the constructors
`NewInstanceNameFromComponents` and `InstanceName.NewDigest` with their Go
results (value, error), `util.StatusWrapf` applied to an error and the
formatted message, and the verb `%#v` on a string. -/
structure DigestConstructors where
  NewInstanceNameFromComponents : List (List Char) → InstanceName × Option Error
  NewDigest : InstanceName → List Char → Int → Digest × Option Error
  StatusWrapf : Error → String → Error
  goSyntax : List Char → String

/-- The function `newDigestFromByteStreamPathCommon`; indexing `trailer` past
its end panics. -/
def newDigestFromByteStreamPathCommon (P : DigestConstructors) (header trailer : List (List Char)) :
    Option (Digest × Option Error) :=
  match trailer[0]? with
  | none => none
  | some trailer0 =>
    if trailer0 ≠ "blobs".data then
      some (BadDigest, some (.status .InvalidArgument "Invalid resource naming scheme"))
    else
      match trailer[2]? with
      | none => none
      | some trailer2 =>
        match strconvParseInt trailer2 with
        | none =>
          some (BadDigest, some (.status .InvalidArgument ("Invalid blob size " ++ P.goSyntax trailer2)))
        | some sizeBytes =>
          match P.NewInstanceNameFromComponents header with
          | (_, some err) =>
            some (BadDigest, some (P.StatusWrapf err
              ("Invalid instance name " ++ P.goSyntax (stringsJoin header "/".data))))
          | (instanceName, none) =>
            match trailer[1]? with
            | none => none
            | some trailer1 => some (P.NewDigest instanceName trailer1 sizeBytes)

/-- The function `NewDigestFromByteStreamReadPath`. -/
def NewDigestFromByteStreamReadPath (P : DigestConstructors) (path : List Char) :
    Option (Digest × Option Error) :=
  let fields := stringsFieldsFunc path (fun r => r == '/')
  if fields.length < 3 then
    some (BadDigest, some (.status .InvalidArgument "Invalid resource naming scheme"))
  else
    let split := fields.length - 3
    newDigestFromByteStreamPathCommon P (fields.take split) (fields.drop split)

/-- The loop of `NewDigestFromByteStreamWritePath` that looks for the first
`uploads` component: `some (some split)` when it is found at `split`,
`some none` when the loop returns the error, `none` when `fields[split]` is
out of range or the iterations allowed are used up. -/
def findUploads (fields : List (List Char)) : Nat → Nat → Option (Option Nat)
  | 0, _ => none
  | fuel + 1, split =>
    match fields[split]? with
    | none => none
    | some field =>
      if field ≠ "uploads".data then
        if split + 1 > fields.length - 5 then some none
        else findUploads fields fuel (split + 1)
      else some (some split)

/-- The function `NewDigestFromByteStreamWritePath`; the loop runs at most
once per field. -/
def NewDigestFromByteStreamWritePath (P : DigestConstructors) (path : List Char) :
    Option (Digest × Option Error) :=
  let fields := stringsFieldsFunc path (fun r => r == '/')
  if fields.length < 5 then
    some (BadDigest, some (.status .InvalidArgument "Invalid resource naming scheme"))
  else
    match findUploads fields fields.length 0 with
    | none => none
    | some none => some (BadDigest, some (.status .InvalidArgument "Invalid resource naming scheme"))
    | some (some split) => newDigestFromByteStreamPathCommon P (fields.take split) (fields.drop (split + 2))

/-- The method `Digest.GetByteStreamReadPath`. -/
def Digest.GetByteStreamReadPath (d : Digest) : Option (List Char) :=
  match d.unpack with
  | none => none
  | some (hashEnd, sizeBytes, sizeBytesEnd) =>
    some (pathJoin [d.value.drop (sizeBytesEnd + 1), "blobs".data, d.value.take hashEnd,
      strconvFormatInt sizeBytes])

/-- The method `Digest.GetByteStreamWritePath`; `uuid` is the string form
`uuid.String()` of the identifier. -/
def Digest.GetByteStreamWritePath (d : Digest) (uuid : List Char) : Option (List Char) :=
  match d.unpack with
  | none => none
  | some (hashEnd, sizeBytes, sizeBytesEnd) =>
    some (pathJoin [d.value.drop (sizeBytesEnd + 1), "uploads".data, uuid, "blobs".data,
      d.value.take hashEnd, strconvFormatInt sizeBytes])

/-- Go standard library `strconv.Quote` on one rune: a double quote and a
backslash are escaped by a backslash; the control characters of ASCII are
written as a backslash followed by `a`, `b`, `f`, `n`, `r`, `t`, `v`, or by `x`
and two hexadecimal digits; every other rune of ASCII is printable and written
as it is. Runes outside ASCII are written as they are, which is what Go does
with the printable ones among them. -/
def quoteRune (c : Char) : List Char :=
  if c = Char.ofNat 34 ∨ c = Char.ofNat 92 then [Char.ofNat 92, c]
  else if c.toNat = 7 then [Char.ofNat 92, 'a']
  else if c.toNat = 8 then [Char.ofNat 92, 'b']
  else if c.toNat = 12 then [Char.ofNat 92, 'f']
  else if c.toNat = 10 then [Char.ofNat 92, 'n']
  else if c.toNat = 13 then [Char.ofNat 92, 'r']
  else if c.toNat = 9 then [Char.ofNat 92, 't']
  else if c.toNat = 11 then [Char.ofNat 92, 'v']
  else if c.toNat < 32 ∨ c.toNat = 127 then
    [Char.ofNat 92, 'x', Nat.digitChar (c.toNat / 16), Nat.digitChar (c.toNat % 16)]
  else [c]

/-- Go standard library `strconv.Quote`, which the verb `%#v` applies to a string: the
runes of the string, quoted one by one, between double quotes. -/
def strconvQuote (s : List Char) : String :=
  String.mk (Char.ofNat 34 :: (s.flatMap quoteRune ++ [Char.ofNat 34]))

/-- Constructors that accept every instance name and every hash and size, and
build the key `hash-size-instance`: a stand-in to evaluate the path functions
on concrete paths. Errors are wrapped as they are, and the verb `%#v` prints a
string as `strconv.Quote` does. -/
def acceptingConstructors : DigestConstructors :=
  ⟨fun components => (⟨stringsJoin components "/".data⟩, none),
    fun instanceName hash sizeBytes =>
      (⟨hash ++ ['-'] ++ strconvFormatInt sizeBytes ++ ['-'] ++ instanceName.value⟩, none),
    fun err _ => err,
    strconvQuote⟩

/-- A path element that `path.Clean` keeps as it is: not empty, without a
slash, and neither `.` nor `..`. -/
def pathElement (e : List Char) : Prop :=
  e ≠ [] ∧ '/' ∉ e ∧ e ≠ ".".data ∧ e ≠ "..".data

instance (e : List Char) : Decidable (pathElement e) := by
  unfold pathElement
  exact inferInstance

/-! ## Sets of digests (`pkg/digest/set.go`) -/

/-- Go's `<` on strings: lexicographic by bytes, which on UTF-8 text is the
lexicographic order by character. -/
def stringLess : List Char → List Char → Bool
  | [], [] => false
  | [], _ :: _ => true
  | _ :: _, [] => false
  | a :: as, b :: bs => if a < b then true else if b < a then false else stringLess as bs

/-- The struct `Set`. -/
structure Set where
  digests : List Digest
  deriving DecidableEq, Repr

/-- The value `EmptySet`. -/
def EmptySet : Set := ⟨[]⟩

/-- The method `Set.Items`. -/
def Set.Items (s : Set) : List Digest := s.digests

/-- The method `Set.Empty`. -/
def Set.Empty (s : Set) : Bool := s.digests.length == 0

/-- The method `Set.First`. -/
def Set.First (s : Set) : Digest × Bool :=
  match s.digests with
  | [] => (BadDigest, false)
  | d :: _ => (d, true)

/-- The method `Set.Length`. -/
def Set.Length (s : Set) : Nat := s.digests.length

/-- The method `Digest.ToSingletonSet`. -/
def Digest.ToSingletonSet (d : Digest) : Set := ⟨[d]⟩

/-- The loop of `GetDifferenceAndIntersection` and the two appends after it.
Every iteration removes a digest from `a` or from `b`; `none` when the
iterations allowed are used up. -/
def differenceLoop : Nat → List Digest → List Digest → List Digest → List Digest → List Digest →
    Option (Set × Set × Set)
  | fuel, a, b, onlyA, both, onlyB =>
    match a, b with
    | a0 :: as, b0 :: bs =>
      match fuel with
      | 0 => none
      | fuel + 1 =>
        if stringLess a0.String b0.String then
          differenceLoop fuel as (b0 :: bs) (onlyA ++ [a0]) both onlyB
        else if a0.String = b0.String then
          differenceLoop fuel as bs onlyA (both ++ [a0]) onlyB
        else
          differenceLoop fuel (a0 :: as) bs onlyA both (onlyB ++ [b0])
    | a, b => some (⟨onlyA ++ a⟩, ⟨both⟩, ⟨onlyB ++ b⟩)

/-- The function `GetDifferenceAndIntersection`: the results `onlyA`, `both`
and `onlyB`. The loop runs at most once per digest of the two sets. -/
def GetDifferenceAndIntersection (setA setB : Set) : Option (Set × Set × Set) :=
  differenceLoop (setA.digests.length + setB.digests.length) setA.digests setB.digests [] [] []

/-- The method `setHeap.Less`; an index out of range or an empty set panics. -/
def setHeap.Less (h : List Set) (i j : Nat) : Option Bool :=
  match h[i]?, h[j]? with
  | some si, some sj =>
    match si.digests, sj.digests with
    | di :: _, dj :: _ => some (stringLess di.String dj.String)
    | _, _ => none
  | _, _ => none

/-- The method `setHeap.Swap`; an index out of range panics. -/
def setHeap.Swap (h : List Set) (i j : Nat) : Option (List Set) :=
  match h[i]?, h[j]? with
  | some si, some sj => some ((h.set i sj).set j si)
  | _, _ => none

/-- Go standard library `container/heap`, function `down`: the loop, which
returns the heap and the final position `i`; `none` when a method panics or
the iterations allowed are used up. The test `j1 < 0` of the source guards
against an `int` overflow that indices of a slice do not reach. -/
def heapDown : Nat → List Set → Nat → Nat → Option (List Set × Nat)
  | 0, _, _, _ => none
  | fuel + 1, h, i, n =>
    let j1 := 2 * i + 1
    if j1 ≥ n then some (h, i)
    else
      match (if j1 + 1 < n then setHeap.Less h (j1 + 1) j1 else some false) with
      | none => none
      | some rightIsLess =>
        let j := if rightIsLess then j1 + 1 else j1
        match setHeap.Less h j i with
        | none => none
        | some false => some (h, i)
        | some true =>
          match setHeap.Swap h i j with
          | none => none
          | some h1 => heapDown fuel h1 j n

/-- Go standard library `container/heap`, function `up`, with the parent
`(j - 1) / 2` computed as Go does (division truncates towards zero). -/
def heapUp : Nat → List Set → Nat → Option (List Set)
  | 0, _, _ => none
  | fuel + 1, h, j =>
    let i := (((j : Int) - 1).tdiv 2).toNat
    if i = j then some h
    else
      match setHeap.Less h j i with
      | none => none
      | some false => some h
      | some true =>
        match setHeap.Swap h i j with
        | none => none
        | some h1 => heapUp fuel h1 i

/-- The loop of `heap.Init`: `down(h, i, n)` for `i` from `count - 1` down to 0. -/
def heapInitLoop (n : Nat) : Nat → List Set → Option (List Set)
  | 0, h => some h
  | count + 1, h =>
    match heapDown (n + 1) h count n with
    | none => none
    | some (h1, _) => heapInitLoop n count h1

/-- Go standard library `heap.Init`. -/
def heapInit (h : List Set) : Option (List Set) :=
  heapInitLoop h.length (h.length / 2) h

/-- Go standard library `heap.Pop` on a `setHeap`: swap the root with the last
element, sift the new root down in the first `n` elements, and remove the last
element (`setHeap.Pop`). -/
def heapPop (h : List Set) : Option (List Set) :=
  if h.length = 0 then none
  else
    let n := h.length - 1
    match setHeap.Swap h 0 n with
    | none => none
    | some h1 =>
      match heapDown (n + 1) h1 0 n with
      | none => none
      | some (h2, _) => some h2.dropLast

/-- Go standard library `heap.Fix`. -/
def heapFix (h : List Set) (i : Nat) : Option (List Set) :=
  match heapDown (h.length + 1) h i h.length with
  | none => none
  | some (h1, i1) => if ¬ (i1 > i) then heapUp (h.length + 1) h1 i else some h1

/-- The first half of an iteration of the loop of `GetUnion`: remove the
lowest digest from the heap, and the set that held it when it becomes empty.
The result is `some none` when the loop returns, and `none` when an index is
out of range. -/
def unionRemoveLowest (activeSets : List Set) : Option (Option (List Set)) :=
  match activeSets with
  | [] => none
  | s0 :: rest =>
    match s0.digests with
    | [] => none
    | [_] =>
      if (s0 :: rest).length = 1 then some none
      else (heapPop (s0 :: rest)).map some
    | _ :: l1 :: l2 => (heapFix (⟨l1 :: l2⟩ :: rest) 0).map some

/-- The second half of an iteration of the loop of `GetUnion`: append the
lowest digest when it differs from the last one added. -/
def unionAppendLowest (activeSets : List Set) (outDigests : List Digest) : Option (List Digest) :=
  match activeSets with
  | [] => none
  | s :: _ =>
    match s.digests, outDigests.getLast? with
    | d :: _, some last => if d ≠ last then some (outDigests ++ [d]) else some outDigests
    | _, _ => none

/-- The loop of `GetUnion`. Every iteration removes one digest from the heap;
`none` when an index is out of range or the iterations allowed are used up. -/
def unionLoop : Nat → List Set → List Digest → Option Set
  | 0, _, _ => none
  | fuel + 1, activeSets, outDigests =>
    match unionRemoveLowest activeSets with
    | none => none
    | some none => some ⟨outDigests⟩
    | some (some activeSets1) =>
      match unionAppendLowest activeSets1 outDigests with
      | none => none
      | some outDigests1 => unionLoop fuel activeSets1 outDigests1

/-- The function `GetUnion`. -/
def GetUnion (sets : List Set) : Option Set :=
  let activeSets := sets.filter (fun s => s.digests.length > 0)
  if activeSets.length = 0 then some EmptySet
  else if activeSets.length = 1 then activeSets[0]?
  else
    match heapInit activeSets with
    | none => none
    | some activeSets1 =>
      match activeSets1 with
      | [] => none
      | s :: _ =>
        match s.digests with
        | [] => none
        | d :: _ => unionLoop ((activeSets.map (fun s => s.digests.length)).sum) activeSets1 [d]

/-- A list of digests that is strictly increasing by `String()`. -/
def strictlyIncreasing (l : List Digest) : Prop :=
  l.Pairwise (fun x y => stringLess x.String y.String = true)

instance (l : List Digest) : Decidable (strictlyIncreasing l) := by
  unfold strictlyIncreasing
  exact inferInstance

/-- The key a set has in the heap: the string form of its first digest. -/
def keyAt (h : List Set) (k : Nat) : List Char :=
  match h[k]? with
  | some s =>
    match s.digests with
    | d :: _ => d.String
    | [] => []
  | none => []

/-- The heap order on the first `n` sets, for the nodes whose parent is at
index `lo` or later: no set is less than its parent. -/
def heapOrdered (h : List Set) (n lo : Nat) : Prop :=
  ∀ j, 0 < j → j < n → lo ≤ (j - 1) / 2 → stringLess (keyAt h j) (keyAt h ((j - 1) / 2)) = false

/-- The number of digests in a list of sets. -/
def totalDigests (h : List Set) : Nat := (h.map (fun s => s.digests.length)).sum

/-! ### The chunk reader over a byte slice -/

/-- The struct `byteSliceChunkReader`. -/
structure byteSliceChunkReader where
  data : List Nat
  deriving DecidableEq, Repr

/-- The method `byteSliceChunkReader.Read`: the chunk returned (`none` for
nil), the error, and the reader afterwards. -/
def byteSliceChunkReader.Read (r : byteSliceChunkReader) :
    (Option (List Nat) × Option Error) × byteSliceChunkReader :=
  if r.data.length = 0 then
    -- Successive read attempts: no data available.
    ((none, some .EOF), r)
  else
    -- First read attempt: return all data.
    ((some r.data, none), ⟨[]⟩)

/-- The method `byteSliceChunkReader.Close`: does nothing. -/
def byteSliceChunkReader.Close (r : byteSliceChunkReader) : byteSliceChunkReader := r

/-- The results of `n` successive calls of `Read`. -/
def byteSliceChunkReader.readN : Nat → byteSliceChunkReader → List (Option (List Nat) × Option Error)
  | 0, _ => []
  | n + 1, r => r.Read.1 :: byteSliceChunkReader.readN n r.Read.2

/-! ### BLAKE3 (`pkg/digest/blake3zcc`) -/

namespace blake3zcc

/-- Go standard library `bits.RotateLeft32(x, k)`: `s := uint(k) & 31`, then
`x<<s | x>>(32-s)` on 32-bit words; a negative `k` rotates to the right. -/
def bitsRotateLeft32 (x : Nat) (k : Int) : Nat :=
  let s := (k % 32).toNat
  ((x <<< s) % 4294967296) ||| (x >>> (32 - s))

/-- Initialization vectors, as specified in table 1 on page 5. -/
def iv : Fin 8 → Nat :=
  ![0x6a09e667, 0xbb67ae85, 0x3c6ef372, 0xa54ff53a,
    0x510e527f, 0x9b05688c, 0x1f83d9ab, 0x5be0cd19]

/-- The function `g` on `uint32` words: additions wrap at `2^32`. -/
def g (a b c d m0 m1 : Nat) : Nat × Nat × Nat × Nat :=
  let a := (a + (b + m0) % 4294967296) % 4294967296
  let d := bitsRotateLeft32 (d ^^^ a) (-16)
  let c := (c + d) % 4294967296
  let b := bitsRotateLeft32 (b ^^^ c) (-12)
  let a := (a + (b + m1) % 4294967296) % 4294967296
  let d := bitsRotateLeft32 (d ^^^ a) (-8)
  let c := (c + d) % 4294967296
  let b := bitsRotateLeft32 (b ^^^ c) (-7)
  (a, b, c, d)

/-- The function `compress`. The arrays `h` and `m` are read only; `t` is a
`uint64`, and `uint32(t)>>32` shifts the converted word. The result is the
array of sixteen words. -/
def compress (h : Fin 8 → Nat) (m : Fin 16 → Nat) (t : Nat) (b : Nat) (d : Nat) : List Nat :=
  -- Round 1.
  let (v0, v4, v8, v12) := g (h 0) (h 4) (iv 0) (t % 4294967296) (m 0) (m 1)
  let (v1, v5, v9, v13) := g (h 1) (h 5) (iv 1) ((t % 4294967296) >>> 32) (m 2) (m 3)
  let (v2, v6, v10, v14) := g (h 2) (h 6) (iv 2) b (m 4) (m 5)
  let (v3, v7, v11, v15) := g (h 3) (h 7) (iv 3) d (m 6) (m 7)
  let (v0, v5, v10, v15) := g v0 v5 v10 v15 (m 8) (m 9)
  let (v1, v6, v11, v12) := g v1 v6 v11 v12 (m 10) (m 11)
  let (v2, v7, v8, v13) := g v2 v7 v8 v13 (m 12) (m 13)
  let (v3, v4, v9, v14) := g v3 v4 v9 v14 (m 14) (m 15)
  -- Round 2.
  let (v0, v4, v8, v12) := g v0 v4 v8 v12 (m 2) (m 6)
  let (v1, v5, v9, v13) := g v1 v5 v9 v13 (m 3) (m 10)
  let (v2, v6, v10, v14) := g v2 v6 v10 v14 (m 7) (m 0)
  let (v3, v7, v11, v15) := g v3 v7 v11 v15 (m 4) (m 13)
  let (v0, v5, v10, v15) := g v0 v5 v10 v15 (m 1) (m 11)
  let (v1, v6, v11, v12) := g v1 v6 v11 v12 (m 12) (m 5)
  let (v2, v7, v8, v13) := g v2 v7 v8 v13 (m 9) (m 14)
  let (v3, v4, v9, v14) := g v3 v4 v9 v14 (m 15) (m 8)
  -- Round 3.
  let (v0, v4, v8, v12) := g v0 v4 v8 v12 (m 3) (m 4)
  let (v1, v5, v9, v13) := g v1 v5 v9 v13 (m 10) (m 12)
  let (v2, v6, v10, v14) := g v2 v6 v10 v14 (m 13) (m 2)
  let (v3, v7, v11, v15) := g v3 v7 v11 v15 (m 7) (m 14)
  let (v0, v5, v10, v15) := g v0 v5 v10 v15 (m 6) (m 5)
  let (v1, v6, v11, v12) := g v1 v6 v11 v12 (m 9) (m 0)
  let (v2, v7, v8, v13) := g v2 v7 v8 v13 (m 11) (m 15)
  let (v3, v4, v9, v14) := g v3 v4 v9 v14 (m 8) (m 1)
  -- Round 4.
  let (v0, v4, v8, v12) := g v0 v4 v8 v12 (m 10) (m 7)
  let (v1, v5, v9, v13) := g v1 v5 v9 v13 (m 12) (m 9)
  let (v2, v6, v10, v14) := g v2 v6 v10 v14 (m 14) (m 3)
  let (v3, v7, v11, v15) := g v3 v7 v11 v15 (m 13) (m 15)
  let (v0, v5, v10, v15) := g v0 v5 v10 v15 (m 4) (m 0)
  let (v1, v6, v11, v12) := g v1 v6 v11 v12 (m 11) (m 2)
  let (v2, v7, v8, v13) := g v2 v7 v8 v13 (m 5) (m 8)
  let (v3, v4, v9, v14) := g v3 v4 v9 v14 (m 1) (m 6)
  -- Round 5.
  let (v0, v4, v8, v12) := g v0 v4 v8 v12 (m 12) (m 13)
  let (v1, v5, v9, v13) := g v1 v5 v9 v13 (m 9) (m 11)
  let (v2, v6, v10, v14) := g v2 v6 v10 v14 (m 15) (m 10)
  let (v3, v7, v11, v15) := g v3 v7 v11 v15 (m 14) (m 8)
  let (v0, v5, v10, v15) := g v0 v5 v10 v15 (m 7) (m 2)
  let (v1, v6, v11, v12) := g v1 v6 v11 v12 (m 5) (m 3)
  let (v2, v7, v8, v13) := g v2 v7 v8 v13 (m 0) (m 1)
  let (v3, v4, v9, v14) := g v3 v4 v9 v14 (m 6) (m 4)
  -- Round 6.
  let (v0, v4, v8, v12) := g v0 v4 v8 v12 (m 9) (m 14)
  let (v1, v5, v9, v13) := g v1 v5 v9 v13 (m 11) (m 5)
  let (v2, v6, v10, v14) := g v2 v6 v10 v14 (m 8) (m 12)
  let (v3, v7, v11, v15) := g v3 v7 v11 v15 (m 15) (m 1)
  let (v0, v5, v10, v15) := g v0 v5 v10 v15 (m 13) (m 3)
  let (v1, v6, v11, v12) := g v1 v6 v11 v12 (m 0) (m 10)
  let (v2, v7, v8, v13) := g v2 v7 v8 v13 (m 2) (m 6)
  let (v3, v4, v9, v14) := g v3 v4 v9 v14 (m 4) (m 7)
  -- Round 7.
  let (v0, v4, v8, v12) := g v0 v4 v8 v12 (m 11) (m 15)
  let (v1, v5, v9, v13) := g v1 v5 v9 v13 (m 5) (m 0)
  let (v2, v6, v10, v14) := g v2 v6 v10 v14 (m 1) (m 9)
  let (v3, v7, v11, v15) := g v3 v7 v11 v15 (m 8) (m 6)
  let (v0, v5, v10, v15) := g v0 v5 v10 v15 (m 14) (m 10)
  let (v1, v6, v11, v12) := g v1 v6 v11 v12 (m 2) (m 12)
  let (v2, v7, v8, v13) := g v2 v7 v8 v13 (m 3) (m 4)
  let (v3, v4, v9, v14) := g v3 v4 v9 v14 (m 7) (m 13)
  -- Output of the compression function, as specified on page 6.
  [v0 ^^^ v8, v1 ^^^ v9, v2 ^^^ v10, v3 ^^^ v11,
    v4 ^^^ v12, v5 ^^^ v13, v6 ^^^ v14, v7 ^^^ v15,
    v8 ^^^ (h 0), v9 ^^^ (h 1), v10 ^^^ (h 2), v11 ^^^ (h 3),
    v12 ^^^ (h 4), v13 ^^^ (h 5), v14 ^^^ (h 6), v15 ^^^ (h 7)]

/-! The compression function in the words of the BLAKE3 specification. -/

/-- Rotation of a 32-bit word to the right by `k` bits: the low `k` bits move
to the top. -/
def rotateRight32 (x k : Nat) : Nat := x / 2 ^ k + (x % 2 ^ k) * 2 ^ (32 - k)

/-- The G function in the words of the specification: eight steps, all
additions modulo `2^32`. -/
def gSpec (a b c d m0 m1 : Nat) : Nat × Nat × Nat × Nat :=
  let a := (a + b + m0) % 2 ^ 32
  let d := rotateRight32 (d ^^^ a) 16
  let c := (c + d) % 2 ^ 32
  let b := rotateRight32 (b ^^^ c) 12
  let a := (a + b + m1) % 2 ^ 32
  let d := rotateRight32 (d ^^^ a) 8
  let c := (c + d) % 2 ^ 32
  let b := rotateRight32 (b ^^^ c) 7
  (a, b, c, d)

/-- The permutation of the message schedule. -/
def sigma : List Nat := [2, 6, 3, 10, 7, 0, 4, 13, 1, 11, 12, 5, 9, 14, 15, 8]

/-- The message words of the next round: the word at position `i` is the word
at position `sigma(i)` of this round. -/
def permuteSpec (w : List Nat) : List Nat := sigma.map (fun i => w.getD i 0)

/-- One application of `g`, to the state words at the positions `i`, `j`,
`k`, `l`, with the message words `x` and `y`. -/
def mixSpec (v : List Nat) (i j k l : Nat) (x y : Nat) : List Nat :=
  let r := g (v.getD i 0) (v.getD j 0) (v.getD k 0) (v.getD l 0) x y
  (((v.set i r.1).set j r.2.1).set k r.2.2.1).set l r.2.2.2

/-- One round: `g` on the four columns, then on the four diagonals; the
message words `w` of the round are used in order. -/
def roundSpec (v w : List Nat) : List Nat :=
  let v := mixSpec v 0 4 8 12 (w.getD 0 0) (w.getD 1 0)
  let v := mixSpec v 1 5 9 13 (w.getD 2 0) (w.getD 3 0)
  let v := mixSpec v 2 6 10 14 (w.getD 4 0) (w.getD 5 0)
  let v := mixSpec v 3 7 11 15 (w.getD 6 0) (w.getD 7 0)
  let v := mixSpec v 0 5 10 15 (w.getD 8 0) (w.getD 9 0)
  let v := mixSpec v 1 6 11 12 (w.getD 10 0) (w.getD 11 0)
  let v := mixSpec v 2 7 8 13 (w.getD 12 0) (w.getD 13 0)
  mixSpec v 3 4 9 14 (w.getD 14 0) (w.getD 15 0)

/-- A number of rounds: each round permutes the message words for the next. -/
def roundsSpec : Nat → List Nat → List Nat → List Nat
  | 0, v, _ => v
  | n + 1, v, w => roundsSpec n (roundSpec v w) (permuteSpec w)

/-- The output rule: `out[i] = v[i] xor v[i+8]` and `out[i+8] = v[i+8] xor h[i]`
for `i` in `0..7`. -/
def outputSpec (v : List Nat) (h : List Nat) : List Nat :=
  (List.range 8).map (fun i => v.getD i 0 ^^^ v.getD (i + 8) 0)
    ++ (List.range 8).map (fun i => v.getD (i + 8) 0 ^^^ h.getD i 0)

/-- The sixteen state words before the first round, as the specification
prescribes them: the chaining value, four words of `iv`, the low and the high
32 bits of the counter, the block length and the flags. -/
def initialStateSpec (h : Fin 8 → Nat) (t b d : Nat) : List Nat :=
  [h 0, h 1, h 2, h 3, h 4, h 5, h 6, h 7, iv 0, iv 1, iv 2, iv 3,
    t % 2 ^ 32, (t / 2 ^ 32) % 2 ^ 32, b, d]

/-- The compression function of the specification: seven rounds from the
initial state, then the output rule. -/
def compressSpec (h : Fin 8 → Nat) (m : Fin 16 → Nat) (t b d : Nat) : List Nat :=
  outputSpec (roundsSpec 7 (initialStateSpec h t b d) (List.ofFn m)) (List.ofFn h)

end blake3zcc

/-! ### The errors that surface to the handler

Section 3 of the spec: "each error surfaces exactly one `onError` call". The
errors that surface in the course of an operation are those of its attempts:
the buffer the handler is applied to, and the replacements it answers with. -/

/-- The errors that surface while `WithErrorHandler` applies a handler: the
error of every `Error` buffer it meets, the buffer itself first and then the
replacements the handler answers with, until a buffer is not an `Error` buffer
or the handler declines. -/
def surfacedOnApply : Buffer → ErrorHandler → List Error
  | .validatedByteSlice _, _ => []
  | .casReader _, _ => []
  | .casChunkReader _, _ => []
  | .error b, .declining _ => [b.err]
  | .error b, .retrying f next =>
    match f b.err with
    | .error _ => [b.err]
    | .ok replacement => b.err :: surfacedOnApply replacement (next b.err)

/-- The errors that surface while the stream of a buffer is read under a
handler: the error of every attempt that does not end cleanly, the stream `r`
first and then the streams of the replacements the handler answers with, each
taken from the number of bytes delivered so far, until an attempt ends cleanly
or the handler declines. -/
def surfacedOnRead : ErrorHandler → Nat → ReadCloser → List Error
  | .declining _, _, r => if r.err = .EOF then [] else [r.err]
  | .retrying f next, off, r =>
    if r.err = .EOF then []
    else
      match f r.err with
      | .error _ => [r.err]
      | .ok replacement =>
        r.err :: surfacedOnRead (next r.err) (off + r.bytes.length)
          (replacement.toUnvalidatedReader ((off + r.bytes.length : Nat) : Int))

/-- The errors that surface while `ToByteSlice` is retried under a handler:
the error of every attempt that fails, the buffer `b` first and then the
replacements the handler answers with, until an attempt succeeds or the
handler declines. -/
def surfacedOnToByteSlice (H : Hashers) (maximumSizeBytes : Int) : ErrorHandler → Buffer → List Error
  | .declining _, b =>
    match b.ToByteSlice H maximumSizeBytes with
    | some ⟨_, some err, _⟩ => [err]
    | _ => []
  | .retrying f next, b =>
    match b.ToByteSlice H maximumSizeBytes with
    | some ⟨_, some err, _⟩ =>
      match f err with
      | .error _ => [err]
      | .ok replacement => err :: surfacedOnToByteSlice H maximumSizeBytes (next err) replacement
    | _ => []

/-- The error of the failing backend of the tests:
`status.Error(codes.Internal, "Network error")`. -/
def networkError : Error := .status .Internal "Network error"

/-- The digest of the tests: MD5 `3e25960a79dbc69b674cd4ec67a72c62`, 11 bytes,
instance `instance`. -/
def helloDigest : Digest := mkDigest "instance" "3e25960a79dbc69b674cd4ec67a72c62" 11

/-- The error of the failing streams of the tests:
`status.Error(codes.Internal, "Connection closed")`. -/
def connectionClosed : Error := .status .Internal "Connection closed"

/-- A log of handler calls in which `Done` occurs exactly once, as the last
call. -/
def doneOnceAtEnd (calls : List HandlerCall) : Prop :=
  calls.count .Done = 1 ∧ calls.getLast? = some .Done

/-- The error a handler of the tests gives up with:
`status.Error(codes.Internal, "No backends available")`. -/
def noBackendsAvailable : Error := .status .Internal "No backends available"

/-! ## Theorems -/

/-- C1: round trip of a validated in-memory CAS buffer. When the length of `D`
is the digest's size and the checksum of `D` under the digest's hasher is the
digest's hash, `NewCASBufferFromByteSlice` returns the validated buffer over
`D`, the only call on the source is one `notifyDataValid`, and `ToByteSlice`
with any cap of at least `len(D)` returns exactly `D` with no error. -/
theorem NewCASBufferFromByteSlice_round_trip (H : Hashers) (dg : Digest) (D : List Nat) (source : Source)
    (maximumSizeBytes : Int) (hasher : HashAlgorithm)
    (hsize : dg.GetSizeBytes = some (D.length : Int))
    (hhasher : dg.NewHasher = some hasher)
    (hhash : dg.GetHashBytes = some (H hasher D))
    (hmax : (D.length : Int) ≤ maximumSizeBytes) :
    NewCASBufferFromByteSlice H dg D source = some (NewValidatedBufferFromByteSlice D, [.notifyDataValid])
      ∧ (NewValidatedBufferFromByteSlice D).ToByteSlice H maximumSizeBytes = some ⟨some D, none, []⟩ := by
  constructor
  · simp [NewCASBufferFromByteSlice, hsize, hhasher, hhash]
  · have h : ¬ ((D.length : Int) > maximumSizeBytes) := by omega
    simp [NewValidatedBufferFromByteSlice, Buffer.ToByteSlice, validatedByteSliceBuffer.ToByteSlice, h]

/-- C1, witness: the digest `3e25960a79dbc69b674cd4ec67a72c62` of size 11,
`D = "Hello world"` and a cap of 1000 bytes. -/
theorem NewCASBufferFromByteSlice_round_trip_witness :
    NewCASBufferFromByteSlice md5Hashers helloDigest (ascii "Hello world") backendProvided
        = some (NewValidatedBufferFromByteSlice (ascii "Hello world"), [.notifyDataValid])
      ∧ (NewValidatedBufferFromByteSlice (ascii "Hello world")).ToByteSlice md5Hashers 1000
        = some ⟨some (ascii "Hello world"), none, []⟩ :=
  NewCASBufferFromByteSlice_round_trip md5Hashers helloDigest (ascii "Hello world") backendProvided 1000 .MD5
    (by decide) (by decide) (by decide) (by decide)

/-- C2: size mismatch at construction. When the length of `D` differs from the
digest's size, `NewCASBufferFromByteSlice` returns the error buffer built from
`source.notifyCASSizeMismatch(expected, actual)`, that call is the only call
made on the source, and the result is the same for every hasher and every
`D` of that length: no hash is decoded or computed. -/
theorem NewCASBufferFromByteSlice_size_mismatch (H : Hashers) (dg : Digest) (D : List Nat) (source : Source)
    (expectedSizeBytes : Int)
    (hsize : dg.GetSizeBytes = some expectedSizeBytes)
    (hne : expectedSizeBytes ≠ (D.length : Int)) :
    NewCASBufferFromByteSlice H dg D source
        = some (NewBufferFromError (source.notifyCASSizeMismatch expectedSizeBytes D.length),
            [.notifyCASSizeMismatch expectedSizeBytes D.length])
      ∧ ∀ (H2 : Hashers) (D2 : List Nat), D2.length = D.length →
          NewCASBufferFromByteSlice H2 dg D2 source = NewCASBufferFromByteSlice H dg D source := by
  have h1 : ∀ (H2 : Hashers) (D2 : List Nat), D2.length = D.length →
      NewCASBufferFromByteSlice H2 dg D2 source
        = some (NewBufferFromError (source.notifyCASSizeMismatch expectedSizeBytes D.length),
            [.notifyCASSizeMismatch expectedSizeBytes D.length]) := by
    intro H2 D2 hlen
    simp [NewCASBufferFromByteSlice, hsize, hlen, hne]
  exact ⟨h1 H D rfl, fun H2 D2 hlen => (h1 H2 D2 hlen).trans (h1 H D rfl).symm⟩

/-- C2, witness: a digest of size 11 and `D = "Hello"` give the error
`Buffer is 5 bytes in size, while 11 bytes were expected`. -/
theorem NewCASBufferFromByteSlice_size_mismatch_witness :
    NewCASBufferFromByteSlice md5Hashers helloDigest (ascii "Hello") backendProvided
      = some (NewBufferFromError (.status .Internal "Buffer is 5 bytes in size, while 11 bytes were expected"),
          [.notifyCASSizeMismatch 11 5]) :=
  (NewCASBufferFromByteSlice_size_mismatch md5Hashers helloDigest (ascii "Hello") backendProvided 11
    (by decide) (by decide)).1

/-- C3: hash mismatch at construction. When the length of `D` is the digest's
size and the computed checksum differs from the digest's hash,
`NewCASBufferFromByteSlice` returns the error buffer built from
`source.notifyCASHashMismatch(expected, actual)` and that call is the only
call made on the source. Whatever the data and the source, a construction
that returns makes exactly one call on the source. -/
theorem NewCASBufferFromByteSlice_hash_mismatch (H : Hashers) (dg : Digest) (D : List Nat) (source : Source)
    (expectedChecksum : List Nat) (hasher : HashAlgorithm)
    (hsize : dg.GetSizeBytes = some (D.length : Int))
    (hhasher : dg.NewHasher = some hasher)
    (hhash : dg.GetHashBytes = some expectedChecksum)
    (hne : expectedChecksum ≠ H hasher D) :
    NewCASBufferFromByteSlice H dg D source
        = some (NewBufferFromError (source.notifyCASHashMismatch expectedChecksum (H hasher D)),
            [.notifyCASHashMismatch expectedChecksum (H hasher D)])
      ∧ ∀ (D2 : List Nat) (source2 : Source) (r : Buffer × List SourceCall),
          NewCASBufferFromByteSlice H dg D2 source2 = some r → r.2.length = 1 := by
  constructor
  · simp [NewCASBufferFromByteSlice, hsize, hhasher, hhash, hne]
  · intro D2 source2 r hr
    simp only [NewCASBufferFromByteSlice, hsize, hhasher, hhash] at hr
    split_ifs at hr <;> simp at hr <;> subst hr <;> rfl

/-- C3, witness: the digest of `Hello world` and the 11 bytes `Xyzzy world`
give `Buffer has checksum 3c61ab3f7343f99e0d18e0a7dfb3b0ce, while
3e25960a79dbc69b674cd4ec67a72c62 was expected`. -/
theorem NewCASBufferFromByteSlice_hash_mismatch_witness :
    NewCASBufferFromByteSlice md5Hashers helloDigest (ascii "Xyzzy world") backendProvided
      = some (NewBufferFromError (.status .Internal
          "Buffer has checksum 3c61ab3f7343f99e0d18e0a7dfb3b0ce, while 3e25960a79dbc69b674cd4ec67a72c62 was expected"),
          [.notifyCASHashMismatch (MD5.sum (ascii "Hello world")) (MD5.sum (ascii "Xyzzy world"))]) :=
  (NewCASBufferFromByteSlice_hash_mismatch md5Hashers helloDigest (ascii "Xyzzy world") backendProvided
    (MD5.sum (ascii "Hello world")) .MD5 (by decide) (by decide) (by decide) (by decide)).1

/-- The bytes left after `dropBytes` are the bytes of the reads without their
first `n`. -/
theorem dropBytes_flatten (reads : List (List Nat)) (n : Nat) :
    (dropBytes reads n).flatten = reads.flatten.drop n := by
  induction reads generalizing n with
  | nil => simp [dropBytes]
  | cons c cs ih =>
    unfold dropBytes
    by_cases h0 : n = 0
    · simp [h0]
    · by_cases hc : c.length ≤ n
      · simp only [h0, hc, if_true, if_false, List.flatten_cons]
        rw [ih, List.drop_append_eq_append_drop, List.drop_of_length_le hc, List.nil_append]
      · simp only [h0, hc, if_false, List.flatten_cons]
        rw [List.drop_append_of_le_length (by omega)]

/-- The bytes of a reader after `n` of them have been consumed. -/
theorem bytes_dropBytes (r : ReadCloser) (n : Nat) :
    ({ r with reads := dropBytes r.reads n } : ReadCloser).bytes = r.bytes.drop n := by
  simp only [ReadCloser.bytes, dropBytes_flatten]

/-- Discarding succeeds when the stream holds at least `off` bytes. -/
theorem discardFromReader_of_le (r : ReadCloser) (off : Int) (h : off.toNat ≤ r.bytes.length) :
    discardFromReader r off = (none, { r with reads := dropBytes r.reads off.toNat }) := by
  unfold discardFromReader
  rw [if_pos h]

/-- Discarding reports the error of a stream that ends before `off` bytes. -/
theorem discardFromReader_of_not_le (r : ReadCloser) (off : Int) (h : ¬ off.toNat ≤ r.bytes.length) :
    discardFromReader r off = (some r.err, { r with reads := [] }) := by
  unfold discardFromReader
  rw [if_neg h]

/-- Go standard library `io.ReadFull` fills `p` when the stream holds enough bytes. -/
theorem ioReadFull_of_le (r : ReadCloser) (p : List Nat) (h : p.length ≤ r.bytes.length) :
    ioReadFull r p
      = (p.length, none, r.bytes.take p.length, { r with reads := dropBytes r.reads p.length }) := by
  unfold ioReadFull
  rw [if_pos h]

/-- Go standard library `io.ReadFull` on a stream that ends before `p` is full. -/
theorem ioReadFull_of_not_le (r : ReadCloser) (p : List Nat) (h : ¬ p.length ≤ r.bytes.length) :
    ioReadFull r p
      = (r.bytes.length,
          some (if r.err = .EOF then (if r.bytes.length = 0 then .EOF else .ErrUnexpectedEOF) else r.err),
          r.bytes ++ p.drop r.bytes.length, { r with reads := [] }) := by
  unfold ioReadFull
  rw [if_neg h]

/-- C7 as stated fails: it is not the case that every error reported by the
validating reader makes `ReadAt` return `(0, that error)`. A reader that
delivers `Hello` and then fails with `io.ErrUnexpectedEOF`, read with
`len(p) = 6` at offset 0 under the 11-byte digest, makes `ReadAt` return
`(5, io.EOF)`. -/
theorem casReaderBuffer_ReadAt_error_counterexample :
    ¬ ∀ (b : casReaderBuffer) (p : List Nat) (off : Int) (r : ReadCloser) (calls : List SourceCall),
        b.ToReader md5Hashers = some (r, calls) → r.err ≠ .EOF →
        (b.ReadAt md5Hashers p off).map (fun res => (res.n, res.err)) = some (0, some r.err) := by
  intro h
  have h1 := h ⟨helloDigest, ⟨[ascii "Hello"], .ErrUnexpectedEOF, 0⟩, backendProvided⟩ [0, 0, 0, 0, 0, 0] 0
    ⟨[ascii "Hello"], .ErrUnexpectedEOF, 0⟩ [] (by decide) (by decide)
  revert h1
  decide

/-- C7, amended: stream validation on `ReadAt`. For a `casReaderBuffer` whose
validating reader is `r`, `ReadAt(p, off)` returns, and
* a nil error comes with `n = len(p)`, and only when the validating reader
  ended cleanly and was read to its end;
* when the validating reader reports an error other than end-of-stream,
  `ReadAt` returns `(0, that error)`, unless the error is
  `io.ErrUnexpectedEOF` reported while `p` is being filled;
* `io.ErrUnexpectedEOF` reported while `p` is being filled is treated like
  end-of-stream: `ReadAt` returns `(n, io.EOF)` with `n` the bytes read into
  `p`;
* a validating reader that ends cleanly after at least `off + len(p)` bytes
  gives `(len(p), nil)` and `p` holds the bytes from offset `off`. -/
theorem casReaderBuffer_ReadAt_validation (H : Hashers) (b : casReaderBuffer) (p : List Nat) (off : Int)
    (r : ReadCloser) (calls : List SourceCall) (hr : b.ToReader H = some (r, calls)) :
    ∃ res, b.ReadAt H p off = some res
      ∧ (res.err = none → res.n = p.length ∧ r.err = .EOF ∧ res.r.reads = [])
      ∧ (r.err ≠ .EOF →
          ¬ (r.err = .ErrUnexpectedEOF ∧ off.toNat ≤ r.bytes.length ∧ r.bytes.length < off.toNat + p.length) →
          res.n = 0 ∧ res.err = some r.err)
      ∧ (r.err = .ErrUnexpectedEOF → off.toNat ≤ r.bytes.length → r.bytes.length < off.toNat + p.length →
          res.n = r.bytes.length - off.toNat ∧ res.err = some .EOF)
      ∧ (r.err = .EOF → off.toNat + p.length ≤ r.bytes.length →
          res.n = p.length ∧ res.err = none ∧ res.p = (r.bytes.drop off.toNat).take p.length) := by
  unfold casReaderBuffer.ReadAt
  rw [hr]
  dsimp only
  by_cases hd : off.toNat ≤ r.bytes.length
  · rw [discardFromReader_of_le r off hd]
    dsimp only
    have hb : ({ r with reads := dropBytes r.reads off.toNat } : ReadCloser).bytes.length
        = r.bytes.length - off.toNat := by
      rw [bytes_dropBytes, List.length_drop]
    by_cases hf : p.length ≤ r.bytes.length - off.toNat
    · rw [ioReadFull_of_le _ p (by rw [hb]; exact hf)]
      dsimp only [ioCopyDiscard]
      by_cases he : r.err = .EOF
      · rw [if_pos he]
        refine ⟨_, rfl, fun _ => ⟨rfl, he, rfl⟩, fun h => absurd he h, fun h => ?_, fun _ _ => ⟨rfl, rfl, ?_⟩⟩
        · rw [he] at h; exact absurd h (by decide)
        · dsimp only
          rw [bytes_dropBytes]
      · rw [if_neg he]
        refine ⟨_, rfl, fun h => ?_, fun _ _ => ⟨rfl, rfl⟩, fun _ _ h => ?_, fun h => absurd h he⟩
        · exact absurd h (by simp)
        · omega
    · rw [ioReadFull_of_not_le _ p (by rw [hb]; exact hf)]
      dsimp only
      by_cases he : r.err = .EOF
      · rw [if_pos he, hb]
        have hor : ((if r.bytes.length - off.toNat = 0 then Error.EOF else Error.ErrUnexpectedEOF) = Error.EOF
            ∨ (if r.bytes.length - off.toNat = 0 then Error.EOF else Error.ErrUnexpectedEOF)
              = Error.ErrUnexpectedEOF) := by
          split_ifs
          · exact Or.inl rfl
          · exact Or.inr rfl
        rw [if_pos hor]
        refine ⟨_, rfl, fun h => ?_, fun h => absurd he h, fun h => ?_, fun _ h => ?_⟩
        · exact absurd h (by simp)
        · rw [he] at h; exact absurd h (by decide)
        · omega
      · rw [if_neg he]
        by_cases hu : r.err = .ErrUnexpectedEOF
        · rw [if_pos (Or.inr hu), hb]
          refine ⟨_, rfl, fun h => ?_, fun _ h => ?_, fun _ _ _ => ⟨rfl, rfl⟩, fun h => absurd h he⟩
          · exact absurd h (by simp)
          · exact absurd ⟨hu, hd, by omega⟩ h
        · rw [if_neg (by simp [he, hu])]
          refine ⟨_, rfl, fun h => ?_, fun _ _ => ⟨rfl, rfl⟩, fun h => absurd h hu, fun h => absurd h he⟩
          exact absurd h (by simp)
  · rw [discardFromReader_of_not_le r off hd]
    dsimp only
    refine ⟨_, rfl, fun h => ?_, fun _ _ => ⟨rfl, rfl⟩, fun _ h => absurd h hd, fun _ h => ?_⟩
    · exact absurd h (by simp)
    · omega

/-- C7, witness: a reader serving `Hello world` under its digest, read with
`len(p) = 2` at offset 2, returns `(2, nil)` with `p = "ll"`. -/
theorem casReaderBuffer_ReadAt_validation_witness :
    ∃ res, casReaderBuffer.ReadAt md5Hashers
        ⟨helloDigest, ⟨[ascii "Hello world"], .EOF, 0⟩, backendProvided⟩ [0, 0] 2 = some res
      ∧ res.n = 2 ∧ res.err = none ∧ res.p = ascii "ll" := by
  obtain ⟨res, h, _, _, _, h4⟩ := casReaderBuffer_ReadAt_validation md5Hashers
    ⟨helloDigest, ⟨[ascii "Hello world"], .EOF, 0⟩, backendProvided⟩ [0, 0] 2
    ⟨[ascii "Hello world"], .EOF, 0⟩ [.notifyDataValid] (by decide)
  exact ⟨res, h, h4 (by decide) (by decide)⟩

/-- C8: the size cap of `ToByteSlice`. A validated byte-slice buffer with data
`D` returns `(D, nil)` if and only if `len(D) <= maximumSizeBytes`; otherwise
it returns no data and the `InvalidArgument` error
`Buffer is N bytes in size, while a maximum of M bytes is permitted` with
`N = len(D)` and `M = maximumSizeBytes` in decimal. -/
theorem validatedByteSliceBuffer_ToByteSlice_cap (b : validatedByteSliceBuffer) (maximumSizeBytes : Int) :
    (b.ToByteSlice maximumSizeBytes = (some b.data, none) ↔ (b.data.length : Int) ≤ maximumSizeBytes)
      ∧ (¬ (b.data.length : Int) ≤ maximumSizeBytes →
          b.ToByteSlice maximumSizeBytes = (none, some (.status .InvalidArgument
            ("Buffer is " ++ Nat.repr b.data.length ++ " bytes in size, while a maximum of "
              ++ toString maximumSizeBytes ++ " bytes is permitted")))) := by
  by_cases h : (b.data.length : Int) > maximumSizeBytes
  · have h2 : ¬ (b.data.length : Int) ≤ maximumSizeBytes := by omega
    simp only [validatedByteSliceBuffer.ToByteSlice, h, if_true, h2, iff_false, not_false_eq_true,
      forall_true_left]
    refine ⟨by simp, ?_⟩
    simp [toString, String.append_assoc]
  · have h2 : (b.data.length : Int) ≤ maximumSizeBytes := by omega
    simp [validatedByteSliceBuffer.ToByteSlice, h, h2]

/-- C8, witness: `Hello world` under a cap of 5 bytes gives
`Buffer is 11 bytes in size, while a maximum of 5 bytes is permitted`, and
under a cap of 11 bytes the data. -/
theorem validatedByteSliceBuffer_ToByteSlice_cap_witness :
    validatedByteSliceBuffer.ToByteSlice ⟨ascii "Hello world"⟩ 5
        = (none, some (.status .InvalidArgument
            "Buffer is 11 bytes in size, while a maximum of 5 bytes is permitted"))
      ∧ validatedByteSliceBuffer.ToByteSlice ⟨ascii "Hello world"⟩ 11 = (some (ascii "Hello world"), none) :=
  ⟨((validatedByteSliceBuffer_ToByteSlice_cap ⟨ascii "Hello world"⟩ 5).2 (by decide)).trans (by decide),
    (validatedByteSliceBuffer_ToByteSlice_cap ⟨ascii "Hello world"⟩ 11).1.mpr (by decide)⟩

/-- C9: positional read of an in-memory buffer. For a validated byte-slice
buffer with data `D`, an offset `off >= 0` and a destination `p`, `ReadAt`
copies `n = min(len(p), max(0, len(D) - off))` bytes: afterwards `p` holds
`D[off..off+n)` followed by its own bytes from `n` on. The error is nil when
`off < len(D)` and `n = len(p)`, and end-of-stream otherwise. -/
theorem validatedByteSliceBuffer_ReadAt_positional (b : validatedByteSliceBuffer) (p : List Nat) (off : Int)
    (hoff : 0 ≤ off) :
    b.ReadAt p off
      = (min p.length (b.data.length - off.toNat),
          if off < (b.data.length : Int) ∧ min p.length (b.data.length - off.toNat) = p.length
            then none else some .EOF,
          (b.data.drop off.toNat).take (min p.length (b.data.length - off.toNat))
            ++ p.drop (min p.length (b.data.length - off.toNat))) := by
  have hn : ¬ off < 0 := by omega
  by_cases hge : off ≥ (b.data.length : Int)
  · have h0 : b.data.length - off.toNat = 0 := by omega
    have hlt : ¬ off < (b.data.length : Int) := by omega
    simp [validatedByteSliceBuffer.ReadAt, hn, hge, h0, hlt]
  · have hlt : off < (b.data.length : Int) := by omega
    simp only [validatedByteSliceBuffer.ReadAt, hn, hge, if_false, copy, List.length_drop, hlt, true_and]
    by_cases hm : min p.length (b.data.length - off.toNat) < p.length
    · have hm2 : ¬ min p.length (b.data.length - off.toNat) = p.length := by omega
      simp [hm, hm2]
    · have hm2 : min p.length (b.data.length - off.toNat) = p.length := by omega
      simp [hm2]

/-- C9, witness: `D = "Hello world"`, `len(p) = 5` and `off = 6` return
`(5, nil)` with `p = "world"`. -/
theorem validatedByteSliceBuffer_ReadAt_positional_witness :
    validatedByteSliceBuffer.ReadAt ⟨ascii "Hello world"⟩ [0, 0, 0, 0, 0] 6 = (5, none, ascii "world") :=
  (validatedByteSliceBuffer_ReadAt_positional ⟨ascii "Hello world"⟩ [0, 0, 0, 0, 0] 6 (by decide)).trans
    (by decide)

/-- C10: negative read offset. For a validated byte-slice buffer, a
destination `p` and an offset `off < 0`, `ReadAt` returns 0 and the
`InvalidArgument` error `Negative read offset: ` followed by `off` in decimal,
and `p` is unchanged. -/
theorem validatedByteSliceBuffer_ReadAt_negative (b : validatedByteSliceBuffer) (p : List Nat) (off : Int)
    (hoff : off < 0) :
    b.ReadAt p off
      = (0, some (.status .InvalidArgument ("Negative read offset: " ++ toString off)), p) := by
  simp [validatedByteSliceBuffer.ReadAt, hoff, toString]

/-- C10, witness: `off = -5` on `Hello world` gives
`Negative read offset: -5` and leaves `p` as it was. -/
theorem validatedByteSliceBuffer_ReadAt_negative_witness :
    validatedByteSliceBuffer.ReadAt ⟨ascii "Hello world"⟩ [1, 2, 3] (-5)
      = (0, some (.status .InvalidArgument "Negative read offset: -5"), [1, 2, 3]) :=
  (validatedByteSliceBuffer_ReadAt_negative ⟨ascii "Hello world"⟩ [1, 2, 3] (-5) (by decide)).trans
    (by decide)

/-- Nothing is consumed by `dropBytes` at offset 0. -/
theorem dropBytes_zero (reads : List (List Nat)) : dropBytes reads 0 = reads := by
  cases reads <;> simp [dropBytes]

/-- Chunks that stay below the expected size are handed on as they come. -/
theorem casValidate_append_of_lt (sum : List Nat → List Nat) (source : Source) (sizeBytes : Int)
    (checksum : List Nat) (A B : List (List Nat)) (err : Error) (seen : List Nat)
    (h : ((seen ++ A.flatten).length : Int) < sizeBytes) :
    casValidate sum source sizeBytes checksum seen (A ++ B) err
      = ⟨A ++ (casValidate sum source sizeBytes checksum (seen ++ A.flatten) B err).reads,
          (casValidate sum source sizeBytes checksum (seen ++ A.flatten) B err).err,
          (casValidate sum source sizeBytes checksum (seen ++ A.flatten) B err).calls⟩ := by
  induction A generalizing seen with
  | nil => simp
  | cons c A ih =>
    have h2 : ((seen ++ c ++ A.flatten).length : Int) < sizeBytes := by
      simpa [List.append_assoc] using h
    have h3 : ((seen ++ c).length : Int) < sizeBytes := by
      have : (seen ++ c).length ≤ (seen ++ c ++ A.flatten).length := by simp
      omega
    have h4 : ¬ ((seen ++ c).length : Int) > sizeBytes := by omega
    rw [List.cons_append, casValidate, if_neg h4]
    simp only [h3, true_or, if_true]
    rw [ih (seen ++ c) h2]
    simp [List.append_assoc]

/-- A stream that ends cleanly with the expected size and checksum is handed
on unchanged, and the source learns that the data is valid. -/
theorem casValidate_of_valid (sum : List Nat → List Nat) (source : Source) (sizeBytes : Int)
    (checksum : List Nat) (B : List (List Nat)) (seen : List Nat)
    (hlen : ((seen ++ B.flatten).length : Int) = sizeBytes)
    (hsum : sum (seen ++ B.flatten) = checksum) :
    casValidate sum source sizeBytes checksum seen B .EOF = ⟨B, .EOF, [.notifyDataValid]⟩ := by
  induction B generalizing seen with
  | nil =>
    simp only [List.flatten_nil, List.append_nil] at hlen hsum
    simp [casValidate, hlen, hsum]
  | cons c B ih =>
    have h2 : ((seen ++ c ++ B.flatten).length : Int) = sizeBytes := by
      simpa [List.append_assoc] using hlen
    have h3 : (seen ++ c).length ≤ (seen ++ c ++ B.flatten).length := by simp
    have h4 : ¬ ((seen ++ c).length : Int) > sizeBytes := by omega
    rw [casValidate, if_neg h4]
    simp only []
    rw [ih (seen ++ c) h2 (by simpa [List.append_assoc] using hsum)]
    simp

/-- A stream that ends cleanly with the expected size but another checksum
ends in the hash-mismatch error of the source; only chunks that leave the blob
incomplete are handed on before. -/
theorem casValidate_of_hash_mismatch (sum : List Nat → List Nat) (source : Source) (sizeBytes : Int)
    (checksum : List Nat) (B : List (List Nat)) (seen : List Nat)
    (hlen : ((seen ++ B.flatten).length : Int) = sizeBytes)
    (hsum : sum (seen ++ B.flatten) ≠ checksum)
    (herr : source.notifyCASHashMismatch checksum (sum (seen ++ B.flatten)) ≠ .EOF) :
    ∃ d, casValidate sum source sizeBytes checksum seen B .EOF
        = ⟨d, source.notifyCASHashMismatch checksum (sum (seen ++ B.flatten)),
            [.notifyCASHashMismatch checksum (sum (seen ++ B.flatten))]⟩
      ∧ d <+: B ∧ (d = [] ∨ ((seen ++ d.flatten).length : Int) < sizeBytes) := by
  induction B generalizing seen with
  | nil =>
    simp only [List.flatten_nil, List.append_nil] at hlen hsum herr
    exact ⟨[], by simp [casValidate, hlen, hsum], List.prefix_refl _, Or.inl rfl⟩
  | cons c B ih =>
    have e1 : seen ++ (c :: B).flatten = seen ++ c ++ B.flatten := by simp [List.append_assoc]
    rw [e1] at hlen hsum herr ⊢
    have h3 : (seen ++ c).length ≤ (seen ++ c ++ B.flatten).length := by simp
    have h4 : ¬ ((seen ++ c).length : Int) > sizeBytes := by omega
    obtain ⟨d, hd, hpre, hd2⟩ := ih (seen ++ c) hlen hsum herr
    rw [casValidate, if_neg h4]
    simp only []
    rw [hd]
    dsimp only
    by_cases hlt : ((seen ++ c).length : Int) < sizeBytes
    · rw [if_pos (Or.inl hlt)]
      refine ⟨c :: d, rfl, (List.prefix_cons_inj c).mpr hpre, Or.inr ?_⟩
      rcases hd2 with hd2 | hd2
      · subst hd2
        simpa using hlt
      · simpa [List.append_assoc] using hd2
    · rw [if_neg (not_or.mpr ⟨hlt, herr⟩)]
      exact ⟨[], rfl, List.nil_prefix, Or.inl rfl⟩

/-- A stream that has ended cleanly is not retried. -/
theorem errorRetryingReader_of_eof (h : ErrorHandler) (off : Nat) (r : ReadCloser) (he : r.err = .EOF) :
    errorRetryingReader h off r = ⟨r.reads, .EOF, [.Done]⟩ := by
  cases h <;> simp [errorRetryingReader, he]

/-- The retrying stream over a failed attempt whose replacement is a reader
that ends cleanly: the reads of the attempt, then the reads of the
replacement from the offset already delivered. -/
theorem errorRetryingReader_of_replacement (f : Error → Except Error Buffer) (next : Error → ErrorHandler)
    (r : ReadCloser) (b1 : casReaderBuffer) (hfail : r.err ≠ .EOF)
    (hrepl : f r.err = .ok (.casReader b1)) (hclean : b1.r.err = .EOF)
    (hk : r.bytes.length ≤ b1.r.bytes.length) :
    errorRetryingReader (.retrying f next) 0 r
      = ⟨r.reads ++ dropBytes b1.r.reads r.bytes.length, .EOF, [.OnError r.err, .Done]⟩ := by
  have hto : (Buffer.casReader b1).toUnvalidatedReader ((0 + r.bytes.length : Nat) : Int)
      = ⟨dropBytes b1.r.reads r.bytes.length, b1.r.err, b1.r.closes⟩ := by
    simp only [Buffer.toUnvalidatedReader, casReaderBuffer.toUnvalidatedReader]
    rw [discardFromReader_of_le b1.r _ (by simpa using hk)]
    simp
  rw [errorRetryingReader, if_neg hfail]
  simp only [hrepl]
  rw [hto, errorRetryingReader_of_eof _ _ ⟨dropBytes b1.r.reads r.bytes.length, b1.r.err, b1.r.closes⟩ hclean]

/-- Splitting a chunk keeps its bytes. -/
theorem splitChunk_flatten (maximum fuel : Nat) (c : List Nat) (h : c.length ≤ fuel) :
    (splitChunk maximum fuel c).flatten = c := by
  induction fuel generalizing c with
  | zero =>
    have : c = [] := List.length_eq_zero.mp (by omega)
    simp [splitChunk, this]
  | succ fuel ih =>
    unfold splitChunk
    by_cases h1 : c = []
    · simp [h1]
    · by_cases h2 : c.length ≤ maximum ∨ maximum = 0
      · simp [h1, h2]
      · have h3 : (c.drop maximum).length ≤ fuel := by
          rw [List.length_drop]
          omega
        simp only [h1, h2, if_false, List.flatten_cons, ih _ h3, List.take_append_drop]

/-- Normalizing a chunk stream keeps its bytes. -/
theorem normalizeChunks_flatten (policy : ChunkPolicy) (pending : List Nat) (chunks : List (List Nat)) :
    (normalizeChunks policy pending chunks).flatten = pending ++ chunks.flatten := by
  induction chunks generalizing pending with
  | nil => simp [normalizeChunks, splitChunk_flatten]
  | cons c cs ih =>
    unfold normalizeChunks
    by_cases h : (pending ++ c).length < policy.minimum
    · simp only [h, if_true, ih, List.flatten_cons, List.append_assoc]
    · simp only [h, if_false, List.flatten_append, splitChunk_flatten _ _ _ (le_refl _), ih,
        List.flatten_cons, List.append_assoc, List.nil_append]

/-- The unvalidated stream of a chunk-reader buffer from offset 0. -/
theorem toUnvalidatedReader_casChunkReader_zero (b : casChunkReaderBuffer) :
    (Buffer.casChunkReader b).toUnvalidatedReader 0 = ⟨b.r.chunks, b.r.err, b.r.closes⟩ := by
  simp only [Buffer.toUnvalidatedReader, casReaderBuffer.toUnvalidatedReader]
  rw [discardFromReader_of_le _ _ (by simp)]
  simp [dropBytes_zero]

/-- The retrying stream of a wrapped chunk-reader buffer that fails and is
replaced by a reader that ends cleanly. -/
theorem errorRetryingReader_casChunkReader (b0 : casChunkReaderBuffer) (b1 : casReaderBuffer)
    (f : Error → Except Error Buffer) (next : Error → ErrorHandler)
    (hfail : b0.r.err ≠ .EOF) (hrepl : f b0.r.err = .ok (.casReader b1)) (hclean : b1.r.err = .EOF)
    (hk : b0.r.chunks.flatten.length ≤ b1.r.bytes.length) :
    errorRetryingReader (.retrying f next) 0 ((Buffer.casChunkReader b0).toUnvalidatedReader 0)
      = ⟨b0.r.chunks ++ dropBytes b1.r.reads b0.r.chunks.flatten.length, .EOF,
          [.OnError b0.r.err, .Done]⟩ := by
  rw [toUnvalidatedReader_casChunkReader_zero]
  exact errorRetryingReader_of_replacement f next ⟨b0.r.chunks, b0.r.err, b0.r.closes⟩ b1 hfail hrepl hclean hk

/-- C4: retry stitching. A chunk-reader buffer `b0` that delivers the `k`
bytes of its chunks and then fails is wrapped with a handler whose `OnError`
returns the reader buffer `b1`, which ends cleanly after at least `k` bytes.
If the `k` bytes followed by the bytes of `b1` from offset `k` on have the
size and checksum of the digest, then `WithErrorHandler` calls nothing, and
`IntoWriter` writes exactly these bytes and returns nil, `ToReader` and
`ToChunkReader` (from any valid offset, under any chunk policy) deliver them
and end cleanly; the first `k` bytes of `b1` are dropped, the source is told
once that the data is valid, and the handler sees one `OnError` with the
error of `b0` and then one `Done`. -/
theorem WithErrorHandler_retry_stitching (H : Hashers) (b0 : casChunkReaderBuffer) (b1 : casReaderBuffer)
    (f : Error → Except Error Buffer) (next : Error → ErrorHandler) (w : List Nat)
    (off : Int) (chunkPolicy : ChunkPolicy)
    (sizeBytes : Int) (checksum : List Nat) (hasher : HashAlgorithm)
    (hsize : b0.digest.GetSizeBytes = some sizeBytes)
    (hhash : b0.digest.GetHashBytes = some checksum)
    (hhasher : b0.digest.NewHasher = some hasher)
    (hfail : b0.r.err ≠ .EOF)
    (hrepl : f b0.r.err = .ok (.casReader b1))
    (hclean : b1.r.err = .EOF)
    (hk : b0.r.chunks.flatten.length ≤ b1.r.bytes.length)
    (hlen : ((b0.r.chunks.flatten ++ b1.r.bytes.drop b0.r.chunks.flatten.length).length : Int) = sizeBytes)
    (hsum : H hasher (b0.r.chunks.flatten ++ b1.r.bytes.drop b0.r.chunks.flatten.length) = checksum)
    (hoff : 0 ≤ off ∧ off ≤ sizeBytes) :
    (WithErrorHandler (.casChunkReader b0) (.retrying f next)).2 = []
      ∧ (WithErrorHandler (.casChunkReader b0) (.retrying f next)).1.IntoWriter H w
          = some ⟨w ++ (b0.r.chunks.flatten ++ b1.r.bytes.drop b0.r.chunks.flatten.length), none,
              [.notifyDataValid], [.OnError b0.r.err, .Done]⟩
      ∧ (∃ s, (WithErrorHandler (.casChunkReader b0) (.retrying f next)).1.ToReader H = some s
          ∧ s.reads.flatten = b0.r.chunks.flatten ++ b1.r.bytes.drop b0.r.chunks.flatten.length
          ∧ s.err = .EOF ∧ s.sourceCalls = [.notifyDataValid]
          ∧ s.handlerCalls = [.OnError b0.r.err, .Done])
      ∧ (∃ s, casErrorHandlingBuffer.ToChunkReader H
            ⟨.casChunkReader b0, .retrying f next, b0.digest, b0.source⟩ off chunkPolicy = some s
          ∧ s.reads.flatten
              = (b0.r.chunks.flatten ++ b1.r.bytes.drop b0.r.chunks.flatten.length).drop off.toNat
          ∧ s.err = .EOF ∧ s.sourceCalls = [.notifyDataValid]
          ∧ s.handlerCalls = [.OnError b0.r.err, .Done]) := by
  have hR : casErrorHandlingBuffer.ToReader H ⟨.casChunkReader b0, .retrying f next, b0.digest, b0.source⟩
      = some ⟨b0.r.chunks ++ dropBytes b1.r.reads b0.r.chunks.flatten.length, .EOF,
          [.notifyDataValid], [.OnError b0.r.err, .Done]⟩ := by
    simp only [casErrorHandlingBuffer.ToReader, hsize, hhash, hhasher]
    rw [errorRetryingReader_casChunkReader b0 b1 f next hfail hrepl hclean hk]
    dsimp only
    rw [casValidate_of_valid]
    · simpa [dropBytes_flatten, ReadCloser.bytes] using hlen
    · simpa [dropBytes_flatten, ReadCloser.bytes] using hsum
  have hW : WithErrorHandler (.casChunkReader b0) (.retrying f next)
      = (.casErrorHandling ⟨.casChunkReader b0, .retrying f next, b0.digest, b0.source⟩, []) := by
    simp [WithErrorHandler]
  have hflat : (b0.r.chunks ++ dropBytes b1.r.reads b0.r.chunks.flatten.length).flatten
      = b0.r.chunks.flatten ++ b1.r.bytes.drop b0.r.chunks.flatten.length := by
    simp [dropBytes_flatten, ReadCloser.bytes]
  refine ⟨by rw [hW], ?_, ⟨_, by rw [hW]; exact hR, hflat, rfl, rfl, rfl⟩, ?_⟩
  · rw [hW]
    simp only [HandledBuffer.IntoWriter, casErrorHandlingBuffer.IntoWriter, hR, hflat, if_true]
  · have hv : validateReaderOffset sizeBytes off = none := by
      have h1 : ¬ off < 0 := by omega
      have h2 : ¬ off > sizeBytes := by omega
      simp [validateReaderOffset, h1, h2]
    simp only [casErrorHandlingBuffer.ToChunkReader, hsize, hR, hv]
    refine ⟨_, rfl, ?_, rfl, rfl, rfl⟩
    simp only [normalizeChunks_flatten, List.nil_append, dropBytes_flatten, hflat]

/-- C4, witness: `b0` is a chunk reader delivering `Hello ` and then
`Connection closed`, `b1` a reader delivering `XXXXXXworld`, under the digest
of `Hello world`: `IntoWriter` writes exactly `Hello world` and returns
nil. -/
theorem WithErrorHandler_retry_stitching_witness :
    (WithErrorHandler (.casChunkReader ⟨helloDigest, ⟨[ascii "Hello "], connectionClosed, 0⟩, backendProvided⟩)
        (.retrying (fun _ => .ok (.casReader ⟨helloDigest, ⟨[ascii "XXXXXXworld"], .EOF, 0⟩, backendProvided⟩))
          (fun _ => .declining id))).1.IntoWriter md5Hashers []
      = some ⟨ascii "Hello world", none, [.notifyDataValid], [.OnError connectionClosed, .Done]⟩ :=
  (WithErrorHandler_retry_stitching md5Hashers ⟨helloDigest, ⟨[ascii "Hello "], connectionClosed, 0⟩, backendProvided⟩
    ⟨helloDigest, ⟨[ascii "XXXXXXworld"], .EOF, 0⟩, backendProvided⟩
    (fun _ => .ok (.casReader ⟨helloDigest, ⟨[ascii "XXXXXXworld"], .EOF, 0⟩, backendProvided⟩))
    (fun _ => .declining id) [] 0 ⟨1, 3⟩ 11 (MD5.sum (ascii "Hello world")) .MD5
    (by decide) (by decide) (by decide) (by decide) rfl rfl (by decide) (by decide) (by decide)
    (by decide)).2.1

/-- A stream that ends cleanly with the expected size and another checksum,
validated from a point before its end: the reads before the one that
completes the expected size are handed on, the completing read and what
follows it are not, and the stream ends with the hash-mismatch error. -/
theorem casValidate_hash_mismatch_reads (sum : List Nat → List Nat) (source : Source) (sizeBytes : Int)
    (checksum : List Nat) (B : List (List Nat)) (seen : List Nat)
    (hlen : ((seen ++ B.flatten).length : Int) = sizeBytes)
    (hlt : (seen.length : Int) < sizeBytes)
    (hsum : sum (seen ++ B.flatten) ≠ checksum)
    (herr : source.notifyCASHashMismatch checksum (sum (seen ++ B.flatten)) ≠ .EOF) :
    ∃ (d : List (List Nat)) (c : List Nat) (cs : List (List Nat)), B = d ++ c :: cs
      ∧ ((seen ++ d.flatten).length : Int) < sizeBytes
      ∧ sizeBytes ≤ ((seen ++ d.flatten ++ c).length : Int)
      ∧ casValidate sum source sizeBytes checksum seen B .EOF
        = ⟨d, source.notifyCASHashMismatch checksum (sum (seen ++ B.flatten)),
            [.notifyCASHashMismatch checksum (sum (seen ++ B.flatten))]⟩ := by
  induction B generalizing seen with
  | nil =>
    simp only [List.flatten_nil, List.append_nil] at hlen
    omega
  | cons c B ih =>
    have e1 : seen ++ (c :: B).flatten = seen ++ c ++ B.flatten := by simp [List.append_assoc]
    rw [e1] at hlen hsum herr ⊢
    have h3 : (seen ++ c).length ≤ (seen ++ c ++ B.flatten).length := by simp
    have h4 : ¬ ((seen ++ c).length : Int) > sizeBytes := by omega
    by_cases hlt2 : ((seen ++ c).length : Int) < sizeBytes
    · obtain ⟨d, c2, cs, hB, hd1, hd2, hv⟩ := ih (seen ++ c) hlen hlt2 hsum herr
      refine ⟨c :: d, c2, cs, by rw [hB]; rfl, ?_, ?_, ?_⟩
      · simpa [List.append_assoc] using hd1
      · simpa [List.append_assoc] using hd2
      · rw [casValidate, if_neg h4]
        simp only []
        rw [hv]
        dsimp only
        rw [if_pos (Or.inl hlt2)]
    · obtain ⟨d0, hd0, _, _⟩ := casValidate_of_hash_mismatch sum source sizeBytes checksum B (seen ++ c)
        hlen hsum herr
      refine ⟨[], c, B, rfl, by simpa using hlt, by simp only [List.flatten_nil, List.append_nil]; omega, ?_⟩
      rw [casValidate, if_neg h4]
      simp only []
      rw [hd0]
      dsimp only
      rw [if_neg (not_or.mpr ⟨hlt2, herr⟩)]

/-- C5 as stated fails: replacement bytes can reach the consumer before the
mismatch is detected. `b0` delivers `Xyzzy ` and then fails, `b1` delivers
`Hello world` in the three reads `Hello `, `wor`, `ld`: `IntoWriter` returns
the hash-mismatch error for the stitched `Xyzzy world`, and the writer holds
`Xyzzy wor`: the read `wor` of the replacement was written before the read
that completes the blob could be checked. -/
theorem WithErrorHandler_post_delivery_corruption_counterexample :
    (WithErrorHandler (.casChunkReader ⟨helloDigest, ⟨[ascii "Xyzzy "], connectionClosed, 0⟩, backendProvided⟩)
        (.retrying (fun _ => .ok (.casReader
            ⟨helloDigest, ⟨[ascii "Hello ", ascii "wor", ascii "ld"], .EOF, 0⟩, backendProvided⟩))
          (fun _ => .declining id))).1.IntoWriter md5Hashers []
      = some ⟨ascii "Xyzzy wor", some (.status .Internal
          "Buffer has checksum 3c61ab3f7343f99e0d18e0a7dfb3b0ce, while 3e25960a79dbc69b674cd4ec67a72c62 was expected"),
          [.notifyCASHashMismatch (MD5.sum (ascii "Hello world")) (MD5.sum (ascii "Xyzzy world"))],
          [.OnError connectionClosed, .Done]⟩ := by
  decide

/-- C5, amended: post-delivery corruption. With `b0`, the handler and `b1` as
in C4, `b1` holding more than `k` bytes: if the `k` bytes of `b0` followed by
the bytes of `b1` from offset `k` on have the size of the digest but another
checksum, then the reads of `b1` from offset `k` on split into the reads `d`
that leave the blob incomplete, the read `c` that completes it, and the
rest; `ToReader` hands on exactly the chunks of `b0` followed by `d` and then
returns the hash-mismatch error of the source; `IntoWriter` writes exactly
these bytes and returns that error; `ToChunkReader`, from any valid offset and
under any chunk policy, delivers these bytes from the offset on and then that
error. The `k` bytes are not retracted, the completing read is never handed
on, and when the rest of `b1` comes as one read the consumer holds exactly the
`k` bytes of `b0`. The source is told once of the mismatch, never that the
data is valid, and the handler sees one `OnError` and one `Done`. -/
theorem WithErrorHandler_post_delivery_corruption (H : Hashers) (b0 : casChunkReaderBuffer)
    (b1 : casReaderBuffer) (f : Error → Except Error Buffer) (next : Error → ErrorHandler) (w : List Nat)
    (sizeBytes : Int) (checksum : List Nat) (hasher : HashAlgorithm)
    (hsize : b0.digest.GetSizeBytes = some sizeBytes)
    (hhash : b0.digest.GetHashBytes = some checksum)
    (hhasher : b0.digest.NewHasher = some hasher)
    (hfail : b0.r.err ≠ .EOF)
    (hrepl : f b0.r.err = .ok (.casReader b1))
    (hclean : b1.r.err = .EOF)
    (hk : b0.r.chunks.flatten.length < b1.r.bytes.length)
    (hlen : ((b0.r.chunks.flatten ++ b1.r.bytes.drop b0.r.chunks.flatten.length).length : Int) = sizeBytes)
    (hsum : H hasher (b0.r.chunks.flatten ++ b1.r.bytes.drop b0.r.chunks.flatten.length) ≠ checksum)
    (herr : b0.source.notifyCASHashMismatch checksum
      (H hasher (b0.r.chunks.flatten ++ b1.r.bytes.drop b0.r.chunks.flatten.length)) ≠ .EOF) :
    ∃ (d : List (List Nat)) (c : List Nat) (cs : List (List Nat)) (s : StreamResult),
      dropBytes b1.r.reads b0.r.chunks.flatten.length = d ++ c :: cs
      ∧ ((b0.r.chunks.flatten ++ d.flatten).length : Int) < sizeBytes
      ∧ sizeBytes ≤ ((b0.r.chunks.flatten ++ d.flatten ++ c).length : Int)
      ∧ (WithErrorHandler (.casChunkReader b0) (.retrying f next)).1.ToReader H = some s
      ∧ s.reads = b0.r.chunks ++ d
      ∧ s.err = b0.source.notifyCASHashMismatch checksum
          (H hasher (b0.r.chunks.flatten ++ b1.r.bytes.drop b0.r.chunks.flatten.length))
      ∧ s.sourceCalls = [.notifyCASHashMismatch checksum
          (H hasher (b0.r.chunks.flatten ++ b1.r.bytes.drop b0.r.chunks.flatten.length))]
      ∧ s.handlerCalls = [.OnError b0.r.err, .Done]
      ∧ (WithErrorHandler (.casChunkReader b0) (.retrying f next)).1.IntoWriter H w
          = some ⟨w ++ (b0.r.chunks.flatten ++ d.flatten), some s.err, s.sourceCalls, s.handlerCalls⟩
      ∧ (∀ (off : Int) (chunkPolicy : ChunkPolicy), 0 ≤ off → off ≤ sizeBytes →
          ∃ t, casErrorHandlingBuffer.ToChunkReader H
              ⟨.casChunkReader b0, .retrying f next, b0.digest, b0.source⟩ off chunkPolicy = some t
            ∧ t.reads.flatten = (b0.r.chunks.flatten ++ d.flatten).drop off.toNat
            ∧ t.err = s.err ∧ t.sourceCalls = s.sourceCalls ∧ t.handlerCalls = s.handlerCalls)
      ∧ (∀ x, dropBytes b1.r.reads b0.r.chunks.flatten.length = [x] → d = []) := by
  have hflatB : (dropBytes b1.r.reads b0.r.chunks.flatten.length).flatten
      = b1.r.bytes.drop b0.r.chunks.flatten.length := by
    simp [dropBytes_flatten, ReadCloser.bytes]
  have hklt : (([] ++ b0.r.chunks.flatten).length : Int) < sizeBytes := by
    rw [← hlen]
    simp only [List.nil_append, List.length_append, List.length_drop]
    omega
  obtain ⟨d, c, cs, hB, hd1, hd2, hv⟩ := casValidate_hash_mismatch_reads (H hasher) b0.source sizeBytes
    checksum (dropBytes b1.r.reads b0.r.chunks.flatten.length) ([] ++ b0.r.chunks.flatten)
    (by rw [List.nil_append, hflatB]; exact hlen) hklt
    (by rw [List.nil_append, hflatB]; exact hsum)
    (by rw [List.nil_append, hflatB]; exact herr)
  simp only [hflatB, List.nil_append] at hv hd1 hd2
  have hR : casErrorHandlingBuffer.ToReader H ⟨.casChunkReader b0, .retrying f next, b0.digest, b0.source⟩
      = some ⟨b0.r.chunks ++ d, b0.source.notifyCASHashMismatch checksum
            (H hasher (b0.r.chunks.flatten ++ b1.r.bytes.drop b0.r.chunks.flatten.length)),
          [.notifyCASHashMismatch checksum
            (H hasher (b0.r.chunks.flatten ++ b1.r.bytes.drop b0.r.chunks.flatten.length))],
          [.OnError b0.r.err, .Done]⟩ := by
    simp only [casErrorHandlingBuffer.ToReader, hsize, hhash, hhasher]
    rw [errorRetryingReader_casChunkReader b0 b1 f next hfail hrepl hclean (le_of_lt hk)]
    dsimp only
    rw [casValidate_append_of_lt _ _ _ _ _ _ _ _ hklt]
    simp only [List.nil_append, hv]
  have hW : WithErrorHandler (.casChunkReader b0) (.retrying f next)
      = (.casErrorHandling ⟨.casChunkReader b0, .retrying f next, b0.digest, b0.source⟩, []) := by
    simp [WithErrorHandler]
  refine ⟨d, c, cs, _, hB, hd1, hd2, by rw [hW]; exact hR, rfl, rfl, rfl, rfl, ?_, ?_, ?_⟩
  · rw [hW]
    simp only [HandledBuffer.IntoWriter, casErrorHandlingBuffer.IntoWriter, hR, herr, if_false,
      List.flatten_append]
  · intro off chunkPolicy hoff0 hoff1
    have hvo : validateReaderOffset sizeBytes off = none := by
      have h1 : ¬ off < 0 := by omega
      have h2 : ¬ off > sizeBytes := by omega
      simp [validateReaderOffset, h1, h2]
    simp only [casErrorHandlingBuffer.ToChunkReader, hsize, hR, hvo]
    refine ⟨_, rfl, ?_, rfl, rfl, rfl⟩
    simp only [normalizeChunks_flatten, List.nil_append, dropBytes_flatten, List.flatten_append]
  · intro x hx
    rw [hx] at hB
    cases d with
    | nil => rfl
    | cons y d1 =>
      exfalso
      have hl := congrArg List.length hB
      simp only [List.length_cons, List.length_nil, List.length_append] at hl
      omega

/-- C5, witness: `b0` delivers `Xyzzy ` and then fails, `b1` delivers
`Hello world`: the writer holds exactly `Xyzzy ` and the error is
`Buffer has checksum 3c61ab3f7343f99e0d18e0a7dfb3b0ce, while
3e25960a79dbc69b674cd4ec67a72c62 was expected`. -/
theorem WithErrorHandler_post_delivery_corruption_witness :
    (WithErrorHandler (.casChunkReader ⟨helloDigest, ⟨[ascii "Xyzzy "], connectionClosed, 0⟩, backendProvided⟩)
        (.retrying (fun _ => .ok (.casReader ⟨helloDigest, ⟨[ascii "Hello world"], .EOF, 0⟩, backendProvided⟩))
          (fun _ => .declining id))).1.IntoWriter md5Hashers []
      = some ⟨ascii "Xyzzy ", some (.status .Internal
          "Buffer has checksum 3c61ab3f7343f99e0d18e0a7dfb3b0ce, while 3e25960a79dbc69b674cd4ec67a72c62 was expected"),
          [.notifyCASHashMismatch (MD5.sum (ascii "Hello world")) (MD5.sum (ascii "Xyzzy world"))],
          [.OnError connectionClosed, .Done]⟩ := by
  obtain ⟨d, c, cs, s, _, _, _, _, _, h3, h4, h5, h6, _, h9⟩ := WithErrorHandler_post_delivery_corruption
    md5Hashers
    ⟨helloDigest, ⟨[ascii "Xyzzy "], connectionClosed, 0⟩, backendProvided⟩
    ⟨helloDigest, ⟨[ascii "Hello world"], .EOF, 0⟩, backendProvided⟩
    (fun _ => .ok (.casReader ⟨helloDigest, ⟨[ascii "Hello world"], .EOF, 0⟩, backendProvided⟩))
    (fun _ => .declining id) [] 11 (MD5.sum (ascii "Hello world")) .MD5
    (by decide) (by decide) (by decide) (by decide) rfl rfl (by decide) (by decide) (by decide) (by decide)
  have hd : d = [] := h9 (ascii "world") (by decide)
  rw [h6, hd, h3, h4, h5]
  decide

/-- A log that ends with its only `Done` stays so when an `OnError` call is
put in front. -/
theorem doneOnceAtEnd_cons (err : Error) (calls : List HandlerCall) (h : doneOnceAtEnd calls) :
    doneOnceAtEnd (.OnError err :: calls) := by
  obtain ⟨h1, h2⟩ := h
  have hne : calls ≠ [] := by
    intro hnil
    rw [hnil] at h1
    simp at h1
  refine ⟨?_, ?_⟩
  · rw [List.count_cons_of_ne (by simp), h1]
  · obtain ⟨c, cs, rfl⟩ := List.exists_cons_of_ne_nil hne
    simpa using h2

/-- Calls without `Done` in front of a log that ends with its only `Done`. -/
theorem doneOnceAtEnd_append (before calls : List HandlerCall) (hb : HandlerCall.Done ∉ before)
    (h : doneOnceAtEnd calls) : doneOnceAtEnd (before ++ calls) := by
  induction before with
  | nil => simpa using h
  | cons c cs ih =>
    have hc : c ≠ .Done := fun hc => hb (by simp [hc])
    have hcs : HandlerCall.Done ∉ cs := fun hm => hb (List.mem_cons_of_mem _ hm)
    cases c with
    | Done => exact absurd rfl hc
    | OnError err => exact doneOnceAtEnd_cons err _ (ih hcs)

/-- The log `[Done]`. -/
theorem doneOnceAtEnd_done : doneOnceAtEnd [.Done] := by
  simp [doneOnceAtEnd]

/-- The retrying stream calls `Done` exactly once, at its end. -/
theorem errorRetryingReader_done (h : ErrorHandler) (off : Nat) (r : ReadCloser) :
    doneOnceAtEnd (errorRetryingReader h off r).calls := by
  induction h generalizing off r with
  | declining f =>
    unfold errorRetryingReader
    split_ifs
    · exact doneOnceAtEnd_done
    · exact doneOnceAtEnd_cons _ _ doneOnceAtEnd_done
  | retrying f next ih =>
    unfold errorRetryingReader
    split_ifs
    · exact doneOnceAtEnd_done
    · cases hf : f r.err with
      | error err => exact doneOnceAtEnd_cons _ _ doneOnceAtEnd_done
      | ok replacement => exact doneOnceAtEnd_cons _ _ (ih _ _ _)

/-- Retrying `ToByteSlice` calls `Done` exactly once, at its end. -/
theorem tryToByteSlice_done (H : Hashers) (maximumSizeBytes : Int) (h : ErrorHandler) (b : Buffer)
    (res : HandledBytes) (hres : tryToByteSlice H maximumSizeBytes h b = some res) :
    doneOnceAtEnd res.handlerCalls := by
  induction h generalizing b res with
  | declining f =>
    unfold tryToByteSlice at hres
    cases hb : b.ToByteSlice H maximumSizeBytes with
    | none => simp [hb] at hres
    | some r =>
      obtain ⟨data, err, calls⟩ := r
      cases err with
      | none =>
        simp only [hb, Option.some.injEq] at hres
        subst hres
        exact doneOnceAtEnd_done
      | some e =>
        simp only [hb, Option.some.injEq] at hres
        subst hres
        exact doneOnceAtEnd_cons _ _ doneOnceAtEnd_done
  | retrying f next ih =>
    unfold tryToByteSlice at hres
    cases hb : b.ToByteSlice H maximumSizeBytes with
    | none => simp [hb] at hres
    | some r =>
      obtain ⟨data, err, calls⟩ := r
      cases err with
      | none =>
        simp only [hb, Option.some.injEq] at hres
        subst hres
        exact doneOnceAtEnd_done
      | some e =>
        simp only [hb] at hres
        cases hf : f e with
        | error err2 =>
          simp only [hf, Option.some.injEq] at hres
          subst hres
          exact doneOnceAtEnd_cons _ _ doneOnceAtEnd_done
        | ok replacement =>
          simp only [hf] at hres
          cases hrec : tryToByteSlice H maximumSizeBytes (next e) replacement with
          | none => simp [hrec] at hres
          | some rest =>
            simp only [hrec, Option.some.injEq] at hres
            subst hres
            exact doneOnceAtEnd_cons _ _ (ih e replacement rest hrec)

/-- The calls made by `WithErrorHandler`: either the handler has been
terminated and the result is a directly constructed buffer, or `Done` has not
been called yet and the result is a wrapper. -/
theorem WithErrorHandler_calls (b : Buffer) (h : ErrorHandler) :
    (∃ pb, (WithErrorHandler b h).1 = .plain pb ∧ doneOnceAtEnd (WithErrorHandler b h).2)
      ∨ (∃ wb, (WithErrorHandler b h).1 = .casErrorHandling wb ∧ HandlerCall.Done ∉ (WithErrorHandler b h).2) := by
  induction h generalizing b with
  | declining f =>
    cases b with
    | validatedByteSlice d => exact Or.inl ⟨_, rfl, doneOnceAtEnd_done⟩
    | error e => exact Or.inl ⟨_, rfl, doneOnceAtEnd_cons e.err _ doneOnceAtEnd_done⟩
    | casReader rb => exact Or.inr ⟨_, rfl, List.not_mem_nil _⟩
    | casChunkReader cb => exact Or.inr ⟨_, rfl, List.not_mem_nil _⟩
  | retrying f next ih =>
    cases b with
    | validatedByteSlice d => exact Or.inl ⟨_, rfl, doneOnceAtEnd_done⟩
    | casReader rb => exact Or.inr ⟨_, rfl, List.not_mem_nil _⟩
    | casChunkReader cb => exact Or.inr ⟨_, rfl, List.not_mem_nil _⟩
    | error e =>
      unfold WithErrorHandler
      cases hf : f e.err with
      | error err => exact Or.inl ⟨_, rfl, doneOnceAtEnd_cons e.err _ doneOnceAtEnd_done⟩
      | ok replacement =>
        rcases ih e.err replacement with ⟨pb, h1, h2⟩ | ⟨wb, h1, h2⟩
        · exact Or.inl ⟨pb, h1, doneOnceAtEnd_cons e.err _ h2⟩
        · exact Or.inr ⟨wb, h1, by simpa using h2⟩

/-- The handler calls of the wrapper's `ToReader` end with the only `Done`. -/
theorem casErrorHandlingBuffer_ToReader_done (H : Hashers) (wb : casErrorHandlingBuffer) (s : StreamResult)
    (hs : wb.ToReader H = some s) : doneOnceAtEnd s.handlerCalls := by
  unfold casErrorHandlingBuffer.ToReader at hs
  split at hs
  · simp only [Option.some.injEq] at hs
    subst hs
    exact errorRetryingReader_done _ _ _
  · exact absurd hs (by simp)

/-- The calls `WithErrorHandler` makes on the handler: one `OnError` for the
error of each `Error` buffer it meets, in order; then `Done` when the result
is a directly constructed buffer, and nothing more when it is a wrapper. -/
theorem WithErrorHandler_log (b : Buffer) (h : ErrorHandler) :
    (∃ pb, (WithErrorHandler b h).1 = .plain pb
        ∧ (WithErrorHandler b h).2 = (surfacedOnApply b h).map .OnError ++ [.Done])
      ∨ (∃ wb, (WithErrorHandler b h).1 = .casErrorHandling wb
        ∧ (WithErrorHandler b h).2 = (surfacedOnApply b h).map .OnError) := by
  induction h generalizing b with
  | declining f =>
    cases b with
    | validatedByteSlice d => exact Or.inl ⟨_, rfl, rfl⟩
    | error e => exact Or.inl ⟨_, rfl, rfl⟩
    | casReader rb => exact Or.inr ⟨_, rfl, rfl⟩
    | casChunkReader cb => exact Or.inr ⟨_, rfl, rfl⟩
  | retrying f next ih =>
    cases b with
    | validatedByteSlice d => exact Or.inl ⟨_, rfl, rfl⟩
    | casReader rb => exact Or.inr ⟨_, rfl, rfl⟩
    | casChunkReader cb => exact Or.inr ⟨_, rfl, rfl⟩
    | error e =>
      unfold WithErrorHandler surfacedOnApply
      cases hf : f e.err with
      | error err => exact Or.inl ⟨_, rfl, rfl⟩
      | ok replacement =>
        dsimp only
        rcases ih e.err replacement with ⟨pb, h1, h2⟩ | ⟨wb, h1, h2⟩
        · exact Or.inl ⟨pb, h1, by rw [h2]; rfl⟩
        · exact Or.inr ⟨wb, h1, by rw [h2]; rfl⟩

/-- The calls the retrying stream makes on the handler: one `OnError` for the
error of each attempt that does not end cleanly, in order, then `Done`. -/
theorem errorRetryingReader_log (h : ErrorHandler) (off : Nat) (r : ReadCloser) :
    (errorRetryingReader h off r).calls = (surfacedOnRead h off r).map .OnError ++ [.Done] := by
  induction h generalizing off r with
  | declining f =>
    unfold errorRetryingReader surfacedOnRead
    split_ifs <;> rfl
  | retrying f next ih =>
    unfold errorRetryingReader surfacedOnRead
    split_ifs
    · rfl
    · cases hf : f r.err with
      | error err => rfl
      | ok replacement =>
        dsimp only
        rw [ih]
        rfl

/-- The calls retrying `ToByteSlice` makes on the handler: one `OnError` for
the error of each attempt that fails, in order, then `Done`. -/
theorem tryToByteSlice_log (H : Hashers) (maximumSizeBytes : Int) (h : ErrorHandler) (b : Buffer)
    (res : HandledBytes) (hres : tryToByteSlice H maximumSizeBytes h b = some res) :
    res.handlerCalls = (surfacedOnToByteSlice H maximumSizeBytes h b).map .OnError ++ [.Done] := by
  induction h generalizing b res with
  | declining f =>
    unfold tryToByteSlice at hres
    unfold surfacedOnToByteSlice
    cases hb : b.ToByteSlice H maximumSizeBytes with
    | none => simp [hb] at hres
    | some r =>
      obtain ⟨data, err, calls⟩ := r
      cases err with
      | none =>
        simp only [hb, Option.some.injEq] at hres
        subst hres
        rfl
      | some e =>
        simp only [hb, Option.some.injEq] at hres
        subst hres
        rfl
  | retrying f next ih =>
    unfold tryToByteSlice at hres
    unfold surfacedOnToByteSlice
    cases hb : b.ToByteSlice H maximumSizeBytes with
    | none => simp [hb] at hres
    | some r =>
      obtain ⟨data, err, calls⟩ := r
      cases err with
      | none =>
        simp only [hb, Option.some.injEq] at hres
        subst hres
        rfl
      | some e =>
        simp only [hb] at hres
        cases hf : f e with
        | error err2 =>
          simp only [hf, Option.some.injEq] at hres
          subst hres
          dsimp only
          rw [hf]
          rfl
        | ok replacement =>
          simp only [hf] at hres
          cases hrec : tryToByteSlice H maximumSizeBytes (next e) replacement with
          | none => simp [hrec] at hres
          | some rest =>
            simp only [hrec, Option.some.injEq] at hres
            subst hres
            dsimp only
            rw [ih e replacement rest hrec, hf]
            rfl

/-- The calls `ToReader` of the wrapper makes on the handler. -/
theorem casErrorHandlingBuffer_ToReader_log (H : Hashers) (wb : casErrorHandlingBuffer) (s : StreamResult)
    (hs : wb.ToReader H = some s) :
    s.handlerCalls
      = (surfacedOnRead wb.errorHandler 0 (wb.base.toUnvalidatedReader 0)).map .OnError ++ [.Done] := by
  unfold casErrorHandlingBuffer.ToReader at hs
  split at hs
  · simp only [Option.some.injEq] at hs
    subst hs
    exact errorRetryingReader_log _ _ _
  · exact absurd hs (by simp)

/-- C6: handler `Done` exactly once, `OnError` once per surfaced error. For
every buffer `b` and handler `h`, the calls made on `h` by
`WithErrorHandler(b, h)` followed by one terminal operation (`ToByteSlice`,
`ToReader` read to its end and closed, `IntoWriter`, `ToChunkReader` drained
and closed, or `Discard`) contain `Done` exactly once, as the last call; all
other calls are `OnError` calls. Path by path:
* an in-memory buffer: the only call is `Done`, and the buffer is returned
  as it is;
* an error buffer under a declining handler: one `OnError` with its error,
  then `Done`, and the consumer sees the error the handler returned;
* a stream that materialises without error: no `OnError`, one `Done`, the
  same bytes;
* a stream whose materialisation fails under a declining handler: one
  `OnError` with that error, then `Done`, and the consumer sees the error the
  handler returned;
* a chunk stream that fails after `k` bytes, fewer than the digest's size,
  under a declining handler: `IntoWriter` writes the `k` bytes, `OnError` is
  called once with the error of the stream, then `Done`, and the error the
  handler returned is what `IntoWriter` returns.

The log is exact on every path, also with retries. The calls of
`WithErrorHandler` are one `OnError` for the error of each `Error` buffer it
meets, in order, followed by `Done` exactly when the result is a directly
constructed buffer, on which the operations make no further call. On a wrapper
`ToByteSlice`, `ToReader`, `IntoWriter` and `ToChunkReader` (from a valid
offset) add one `OnError` for the error of each attempt that fails, in order,
and then `Done`; `Discard` adds `Done` only. In particular:
* success after a retry on a stream: a chunk stream that fails after `k` bytes
  and is replaced by a reader whose bytes from `k` on complete the blob:
  `IntoWriter` returns nil after one `OnError` with the error of the stream
  and one `Done`;
* success after retries on error buffers: the handler answers the error of
  the buffer with an in-memory buffer, at once or after a second error buffer:
  one `OnError` per error buffer, in order, then `Done`;
* exhausted retries: the handler answers the error of the buffer, or the
  error of the error buffer it supplied first, or the error of a chunk stream,
  with a terminal error: one `OnError` per error, in order, then `Done`, and
  the consumer sees the terminal error. -/
theorem WithErrorHandler_done_exactly_once (H : Hashers) (b : Buffer) (h : ErrorHandler) :
    (∀ maximumSizeBytes res, (WithErrorHandler b h).1.ToByteSlice H maximumSizeBytes = some res →
        doneOnceAtEnd ((WithErrorHandler b h).2 ++ res.handlerCalls))
      ∧ (∀ s, (WithErrorHandler b h).1.ToReader H = some s →
        doneOnceAtEnd ((WithErrorHandler b h).2 ++ s.handlerCalls))
      ∧ (∀ w res, (WithErrorHandler b h).1.IntoWriter H w = some res →
        doneOnceAtEnd ((WithErrorHandler b h).2 ++ res.handlerCalls))
      ∧ (∀ wb off chunkPolicy s, (WithErrorHandler b h).1 = .casErrorHandling wb →
        wb.ToChunkReader H off chunkPolicy = some s →
        doneOnceAtEnd ((WithErrorHandler b h).2 ++ s.handlerCalls))
      ∧ doneOnceAtEnd ((WithErrorHandler b h).2 ++ (WithErrorHandler b h).1.Discard.2)
      ∧ (∀ d, b = .validatedByteSlice d →
        (WithErrorHandler b h).2 = [.Done]
          ∧ ∀ maximumSizeBytes, (WithErrorHandler b h).1.ToByteSlice H maximumSizeBytes
            = some ⟨(d.ToByteSlice maximumSizeBytes).1, (d.ToByteSlice maximumSizeBytes).2, [], []⟩)
      ∧ (∀ e g, b = .error e → h = .declining g →
        (WithErrorHandler b h).2 = [.OnError e.err, .Done]
          ∧ ∀ maximumSizeBytes, (WithErrorHandler b h).1.ToByteSlice H maximumSizeBytes
            = some ⟨none, some (g e.err), [], []⟩)
      ∧ (∀ rb maximumSizeBytes data calls, b = .casReader rb →
        rb.ToByteSlice H maximumSizeBytes = some ⟨data, none, calls⟩ →
        (WithErrorHandler b h).2 = []
          ∧ (WithErrorHandler b h).1.ToByteSlice H maximumSizeBytes = some ⟨data, none, calls, [.Done]⟩)
      ∧ (∀ rb maximumSizeBytes data e calls g, b = .casReader rb → h = .declining g →
        rb.ToByteSlice H maximumSizeBytes = some ⟨data, some e, calls⟩ →
        (WithErrorHandler b h).2 = []
          ∧ (WithErrorHandler b h).1.ToByteSlice H maximumSizeBytes
            = some ⟨none, some (g e), calls, [.OnError e, .Done]⟩)
      ∧ (∀ cb g w sizeBytes checksum hasher, b = .casChunkReader cb → h = .declining g →
        cb.digest.GetSizeBytes = some sizeBytes → cb.digest.GetHashBytes = some checksum →
        cb.digest.NewHasher = some hasher → cb.r.err ≠ .EOF → g cb.r.err ≠ .EOF →
        (cb.r.chunks.flatten.length : Int) < sizeBytes →
        (WithErrorHandler b h).2 = []
          ∧ (WithErrorHandler b h).1.IntoWriter H w
            = some ⟨w ++ cb.r.chunks.flatten, some (g cb.r.err), [], [.OnError cb.r.err, .Done]⟩)
      ∧ ((∃ pb, (WithErrorHandler b h).1 = .plain pb
            ∧ (WithErrorHandler b h).2 = (surfacedOnApply b h).map .OnError ++ [.Done])
          ∨ (∃ wb, (WithErrorHandler b h).1 = .casErrorHandling wb
            ∧ (WithErrorHandler b h).2 = (surfacedOnApply b h).map .OnError))
      ∧ (WithErrorHandler b h).2 ++ (WithErrorHandler b h).1.Discard.2
          = (surfacedOnApply b h).map .OnError ++ [.Done]
      ∧ (∀ wb, (WithErrorHandler b h).1 = .casErrorHandling wb →
          (∀ maximumSizeBytes res, (WithErrorHandler b h).1.ToByteSlice H maximumSizeBytes = some res →
            (WithErrorHandler b h).2 ++ res.handlerCalls
              = (surfacedOnApply b h
                  ++ surfacedOnToByteSlice H maximumSizeBytes wb.errorHandler wb.base).map .OnError
                ++ [.Done])
          ∧ (∀ s, (WithErrorHandler b h).1.ToReader H = some s →
            (WithErrorHandler b h).2 ++ s.handlerCalls
              = (surfacedOnApply b h
                  ++ surfacedOnRead wb.errorHandler 0 (wb.base.toUnvalidatedReader 0)).map .OnError
                ++ [.Done])
          ∧ (∀ w res, (WithErrorHandler b h).1.IntoWriter H w = some res →
            (WithErrorHandler b h).2 ++ res.handlerCalls
              = (surfacedOnApply b h
                  ++ surfacedOnRead wb.errorHandler 0 (wb.base.toUnvalidatedReader 0)).map .OnError
                ++ [.Done])
          ∧ (∀ off chunkPolicy s sizeBytes, wb.digest.GetSizeBytes = some sizeBytes →
            validateReaderOffset sizeBytes off = none →
            wb.ToChunkReader H off chunkPolicy = some s →
            (WithErrorHandler b h).2 ++ s.handlerCalls
              = (surfacedOnApply b h
                  ++ surfacedOnRead wb.errorHandler 0 (wb.base.toUnvalidatedReader 0)).map .OnError
                ++ [.Done]))
      ∧ (∀ pb, (WithErrorHandler b h).1 = .plain pb →
          (∀ maximumSizeBytes res, (WithErrorHandler b h).1.ToByteSlice H maximumSizeBytes = some res →
            res.handlerCalls = [])
          ∧ (∀ s, (WithErrorHandler b h).1.ToReader H = some s → s.handlerCalls = [])
          ∧ (∀ w res, (WithErrorHandler b h).1.IntoWriter H w = some res → res.handlerCalls = []))
      ∧ (∀ cb b1 f next w sizeBytes checksum hasher, b = .casChunkReader cb → h = .retrying f next →
        cb.digest.GetSizeBytes = some sizeBytes → cb.digest.GetHashBytes = some checksum →
        cb.digest.NewHasher = some hasher → cb.r.err ≠ .EOF →
        f cb.r.err = .ok (.casReader b1) → b1.r.err = .EOF →
        cb.r.chunks.flatten.length ≤ b1.r.bytes.length →
        ((cb.r.chunks.flatten ++ b1.r.bytes.drop cb.r.chunks.flatten.length).length : Int) = sizeBytes →
        H hasher (cb.r.chunks.flatten ++ b1.r.bytes.drop cb.r.chunks.flatten.length) = checksum →
        (WithErrorHandler b h).2 = []
          ∧ (WithErrorHandler b h).1.IntoWriter H w
            = some ⟨w ++ (cb.r.chunks.flatten ++ b1.r.bytes.drop cb.r.chunks.flatten.length), none,
                [.notifyDataValid], [.OnError cb.r.err, .Done]⟩)
      ∧ (∀ e f next d, b = .error e → h = .retrying f next →
        f e.err = .ok (.validatedByteSlice d) →
        WithErrorHandler b h = (.plain (.validatedByteSlice d), [.OnError e.err, .Done]))
      ∧ (∀ e f next e1 f1 next1 d, b = .error e → h = .retrying f next →
        f e.err = .ok (.error e1) → next e.err = .retrying f1 next1 →
        f1 e1.err = .ok (.validatedByteSlice d) →
        WithErrorHandler b h
          = (.plain (.validatedByteSlice d), [.OnError e.err, .OnError e1.err, .Done]))
      ∧ (∀ e f next err, b = .error e → h = .retrying f next → f e.err = .error err →
        WithErrorHandler b h = (.plain (NewBufferFromError err), [.OnError e.err, .Done])
          ∧ ∀ maximumSizeBytes, (WithErrorHandler b h).1.ToByteSlice H maximumSizeBytes
            = some ⟨none, some err, [], []⟩)
      ∧ (∀ e f next e1 f1 next1 err, b = .error e → h = .retrying f next →
        f e.err = .ok (.error e1) → next e.err = .retrying f1 next1 → f1 e1.err = .error err →
        WithErrorHandler b h
            = (.plain (NewBufferFromError err), [.OnError e.err, .OnError e1.err, .Done])
          ∧ ∀ maximumSizeBytes, (WithErrorHandler b h).1.ToByteSlice H maximumSizeBytes
            = some ⟨none, some err, [], []⟩)
      ∧ (∀ cb f next err w sizeBytes checksum hasher, b = .casChunkReader cb → h = .retrying f next →
        cb.digest.GetSizeBytes = some sizeBytes → cb.digest.GetHashBytes = some checksum →
        cb.digest.NewHasher = some hasher → cb.r.err ≠ .EOF → f cb.r.err = .error err → err ≠ .EOF →
        (cb.r.chunks.flatten.length : Int) < sizeBytes →
        (WithErrorHandler b h).2 = []
          ∧ (WithErrorHandler b h).1.IntoWriter H w
            = some ⟨w ++ cb.r.chunks.flatten, some err, [], [.OnError cb.r.err, .Done]⟩) := by
  refine ⟨?_, ?_, ?_, ?_, ?_, ?_, ?_, ?_, ?_, ?_, ?_, ?_, ?_, ?_, ?_, ?_, ?_, ?_, ?_, ?_⟩
  · intro maximumSizeBytes res hres
    rcases WithErrorHandler_calls b h with ⟨pb, h1, h2⟩ | ⟨wb, h1, h2⟩
    · rw [h1] at hres
      simp only [HandledBuffer.ToByteSlice] at hres
      cases hb : pb.ToByteSlice H maximumSizeBytes with
      | none => simp [hb] at hres
      | some r =>
        simp only [hb, Option.some.injEq] at hres
        subst hres
        simpa using h2
    · rw [h1] at hres
      exact doneOnceAtEnd_append _ _ h2 (tryToByteSlice_done H maximumSizeBytes _ _ res hres)
  · intro s hs
    rcases WithErrorHandler_calls b h with ⟨pb, h1, h2⟩ | ⟨wb, h1, h2⟩
    · rw [h1] at hs
      simp only [HandledBuffer.ToReader] at hs
      cases hb : pb.ToReader H with
      | none => simp [hb] at hs
      | some r =>
        simp only [hb, Option.some.injEq] at hs
        subst hs
        simpa using h2
    · rw [h1] at hs
      exact doneOnceAtEnd_append _ _ h2 (casErrorHandlingBuffer_ToReader_done H wb s hs)
  · intro w res hres
    rcases WithErrorHandler_calls b h with ⟨pb, h1, h2⟩ | ⟨wb, h1, h2⟩
    · rw [h1] at hres
      simp only [HandledBuffer.IntoWriter] at hres
      cases hb : pb.IntoWriter H w with
      | none => simp [hb] at hres
      | some r =>
        simp only [hb, Option.some.injEq] at hres
        subst hres
        simpa using h2
    · rw [h1] at hres
      simp only [HandledBuffer.IntoWriter, casErrorHandlingBuffer.IntoWriter] at hres
      cases hs : wb.ToReader H with
      | none => simp [hs] at hres
      | some s =>
        simp only [hs, Option.some.injEq] at hres
        subst hres
        exact doneOnceAtEnd_append _ _ h2 (casErrorHandlingBuffer_ToReader_done H wb s hs)
  · intro wb off chunkPolicy s hwb hs
    have h2 : HandlerCall.Done ∉ (WithErrorHandler b h).2 := by
      rcases WithErrorHandler_calls b h with ⟨pb, h1, _⟩ | ⟨wb2, _, h2⟩
      · rw [hwb] at h1
        exact absurd h1 (by simp)
      · exact h2
    refine doneOnceAtEnd_append _ _ h2 ?_
    unfold casErrorHandlingBuffer.ToChunkReader at hs
    split at hs
    · rename_i sizeBytes s0 _ hs0
      split at hs
      · simp only [Option.some.injEq] at hs
        subst hs
        exact doneOnceAtEnd_done
      · simp only [Option.some.injEq] at hs
        subst hs
        exact casErrorHandlingBuffer_ToReader_done H wb s0 hs0
    · exact absurd hs (by simp)
  · rcases WithErrorHandler_calls b h with ⟨pb, h1, h2⟩ | ⟨wb, h1, h2⟩
    · rw [h1]
      simpa [HandledBuffer.Discard] using h2
    · rw [h1]
      exact doneOnceAtEnd_append _ _ h2 doneOnceAtEnd_done
  · intro d hb
    subst hb
    have hW : WithErrorHandler (.validatedByteSlice d) h = (.plain (.validatedByteSlice d), [.Done]) := by
      cases h <;> rfl
    rw [hW]
    exact ⟨rfl, fun _ => rfl⟩
  · intro e g hb hh
    subst hb hh
    exact ⟨rfl, fun _ => rfl⟩
  · intro rb maximumSizeBytes data calls hb hbytes
    subst hb
    have hW : WithErrorHandler (.casReader rb) h = (.casErrorHandling ⟨.casReader rb, h, rb.digest, rb.source⟩, []) := by
      cases h <;> rfl
    rw [hW]
    refine ⟨rfl, ?_⟩
    cases h <;> simp [HandledBuffer.ToByteSlice, tryToByteSlice, Buffer.ToByteSlice, hbytes]
  · intro rb maximumSizeBytes data e calls g hb hh hbytes
    subst hb hh
    refine ⟨rfl, ?_⟩
    simp [WithErrorHandler, casReaderBuffer.applyErrorHandler, HandledBuffer.ToByteSlice, tryToByteSlice,
      Buffer.ToByteSlice, hbytes]
  · intro cb g w sizeBytes checksum hasher hb hh hsize hhash hhasher hfail hg hk
    subst hb hh
    refine ⟨rfl, ?_⟩
    have hv : casValidate (H hasher) cb.source sizeBytes checksum [] (cb.r.chunks ++ []) (g cb.r.err)
        = ⟨cb.r.chunks, g cb.r.err, []⟩ := by
      rw [casValidate_append_of_lt _ _ _ _ _ _ _ _ (by simpa using hk)]
      simp [casValidate, hg]
    rw [List.append_nil] at hv
    have hR : casErrorHandlingBuffer.ToReader H ⟨.casChunkReader cb, .declining g, cb.digest, cb.source⟩
        = some ⟨cb.r.chunks, g cb.r.err, [], [.OnError cb.r.err, .Done]⟩ := by
      simp only [casErrorHandlingBuffer.ToReader, hsize, hhash, hhasher,
        toUnvalidatedReader_casChunkReader_zero, errorRetryingReader, hfail, if_false, hv]
    have hW : WithErrorHandler (.casChunkReader cb) (.declining g)
        = (.casErrorHandling ⟨.casChunkReader cb, .declining g, cb.digest, cb.source⟩, []) := rfl
    rw [hW]
    simp only [HandledBuffer.IntoWriter, casErrorHandlingBuffer.IntoWriter, hR, hg, if_false]
  · exact WithErrorHandler_log b h
  · rcases WithErrorHandler_log b h with ⟨pb, h1, h2⟩ | ⟨wb, h1, h2⟩
    · rw [h2, h1]
      simp [HandledBuffer.Discard]
    · rw [h2, h1]
      rfl
  · intro wb hwb
    have hcalls : (WithErrorHandler b h).2 = (surfacedOnApply b h).map .OnError := by
      rcases WithErrorHandler_log b h with ⟨pb, h1, _⟩ | ⟨wb2, _, h2⟩
      · rw [hwb] at h1
        exact absurd h1 (by simp)
      · exact h2
    have hreader : ∀ s, wb.ToReader H = some s → (WithErrorHandler b h).2 ++ s.handlerCalls
        = (surfacedOnApply b h
            ++ surfacedOnRead wb.errorHandler 0 (wb.base.toUnvalidatedReader 0)).map .OnError
          ++ [.Done] := by
      intro s hs
      rw [hcalls, casErrorHandlingBuffer_ToReader_log H wb s hs, List.map_append, List.append_assoc]
    refine ⟨?_, ?_, ?_, ?_⟩
    · intro maximumSizeBytes res hres
      rw [hwb] at hres
      rw [hcalls, tryToByteSlice_log H maximumSizeBytes _ _ res hres, List.map_append, List.append_assoc]
    · intro s hs
      rw [hwb] at hs
      exact hreader s hs
    · intro w res hres
      rw [hwb] at hres
      simp only [HandledBuffer.IntoWriter, casErrorHandlingBuffer.IntoWriter] at hres
      cases hs : wb.ToReader H with
      | none => simp [hs] at hres
      | some s =>
        simp only [hs, Option.some.injEq] at hres
        subst hres
        exact hreader s hs
    · intro off chunkPolicy s sizeBytes hsize hv hs
      unfold casErrorHandlingBuffer.ToChunkReader at hs
      rw [hsize] at hs
      cases hs0 : wb.ToReader H with
      | none => simp [hs0] at hs
      | some s0 =>
        simp only [hs0, hv, Option.some.injEq] at hs
        subst hs
        exact hreader s0 hs0
  · intro pb hpb
    refine ⟨?_, ?_, ?_⟩
    · intro maximumSizeBytes res hres
      rw [hpb] at hres
      simp only [HandledBuffer.ToByteSlice] at hres
      cases hb : pb.ToByteSlice H maximumSizeBytes with
      | none => simp [hb] at hres
      | some r =>
        simp only [hb, Option.some.injEq] at hres
        subst hres
        rfl
    · intro s hs
      rw [hpb] at hs
      simp only [HandledBuffer.ToReader] at hs
      cases hb : pb.ToReader H with
      | none => simp [hb] at hs
      | some r =>
        simp only [hb, Option.some.injEq] at hs
        subst hs
        rfl
    · intro w res hres
      rw [hpb] at hres
      simp only [HandledBuffer.IntoWriter] at hres
      cases hb : pb.IntoWriter H w with
      | none => simp [hb] at hres
      | some r =>
        simp only [hb, Option.some.injEq] at hres
        subst hres
        rfl
  · intro cb b1 f next w sizeBytes checksum hasher hb hh hsize hhash hhasher hfail hrepl hclean hk hlen hsum
    subst hb hh
    have hR : casErrorHandlingBuffer.ToReader H ⟨.casChunkReader cb, .retrying f next, cb.digest, cb.source⟩
        = some ⟨cb.r.chunks ++ dropBytes b1.r.reads cb.r.chunks.flatten.length, .EOF,
            [.notifyDataValid], [.OnError cb.r.err, .Done]⟩ := by
      simp only [casErrorHandlingBuffer.ToReader, hsize, hhash, hhasher]
      rw [errorRetryingReader_casChunkReader cb b1 f next hfail hrepl hclean hk]
      dsimp only
      rw [casValidate_of_valid]
      · simpa [dropBytes_flatten, ReadCloser.bytes] using hlen
      · simpa [dropBytes_flatten, ReadCloser.bytes] using hsum
    have hW : WithErrorHandler (.casChunkReader cb) (.retrying f next)
        = (.casErrorHandling ⟨.casChunkReader cb, .retrying f next, cb.digest, cb.source⟩, []) := by
      simp [WithErrorHandler]
    have hflat : (cb.r.chunks ++ dropBytes b1.r.reads cb.r.chunks.flatten.length).flatten
        = cb.r.chunks.flatten ++ b1.r.bytes.drop cb.r.chunks.flatten.length := by
      simp [dropBytes_flatten, ReadCloser.bytes]
    rw [hW]
    refine ⟨rfl, ?_⟩
    simp only [HandledBuffer.IntoWriter, casErrorHandlingBuffer.IntoWriter, hR, hflat, if_true]
  · intro e f next d hb hh hf
    subst hb hh
    have hd : WithErrorHandler (.validatedByteSlice d) (next e.err)
        = (.plain (.validatedByteSlice d), [.Done]) := by
      cases next e.err <;> rfl
    unfold WithErrorHandler
    rw [hf]
    dsimp only
    rw [hd]
  · intro e f next e1 f1 next1 d hb hh hf hn hf1
    subst hb hh
    have hd : WithErrorHandler (.validatedByteSlice d) (next1 e1.err)
        = (.plain (.validatedByteSlice d), [.Done]) := by
      cases next1 e1.err <;> rfl
    unfold WithErrorHandler
    rw [hf]
    dsimp only
    rw [hn]
    unfold WithErrorHandler
    rw [hf1]
    dsimp only
    rw [hd]
  · intro e f next err hb hh hf
    subst hb hh
    have hW : WithErrorHandler (.error e) (.retrying f next)
        = (.plain (NewBufferFromError err), [.OnError e.err, .Done]) := by
      unfold WithErrorHandler
      rw [hf]
    rw [hW]
    exact ⟨rfl, fun _ => rfl⟩
  · intro e f next e1 f1 next1 err hb hh hf hn hf1
    subst hb hh
    have hW : WithErrorHandler (.error e) (.retrying f next)
        = (.plain (NewBufferFromError err), [.OnError e.err, .OnError e1.err, .Done]) := by
      unfold WithErrorHandler
      rw [hf]
      dsimp only
      rw [hn]
      unfold WithErrorHandler
      rw [hf1]
    rw [hW]
    exact ⟨rfl, fun _ => rfl⟩
  · intro cb f next err w sizeBytes checksum hasher hb hh hsize hhash hhasher hfail hf herr hk
    subst hb hh
    have hv : casValidate (H hasher) cb.source sizeBytes checksum [] (cb.r.chunks ++ []) err
        = ⟨cb.r.chunks, err, []⟩ := by
      rw [casValidate_append_of_lt _ _ _ _ _ _ _ _ (by simpa using hk)]
      simp [casValidate, herr]
    rw [List.append_nil] at hv
    have hR : casErrorHandlingBuffer.ToReader H ⟨.casChunkReader cb, .retrying f next, cb.digest, cb.source⟩
        = some ⟨cb.r.chunks, err, [], [.OnError cb.r.err, .Done]⟩ := by
      simp only [casErrorHandlingBuffer.ToReader, hsize, hhash, hhasher,
        toUnvalidatedReader_casChunkReader_zero, errorRetryingReader, hfail, if_false, hf, hv]
    have hW : WithErrorHandler (.casChunkReader cb) (.retrying f next)
        = (.casErrorHandling ⟨.casChunkReader cb, .retrying f next, cb.digest, cb.source⟩, []) := rfl
    rw [hW]
    refine ⟨rfl, ?_⟩
    simp only [HandledBuffer.IntoWriter, casErrorHandlingBuffer.IntoWriter, hR, herr, if_false]

/-- C6, witness: the chunk reader delivering `Hello ` and then
`Connection closed` under a handler that declines with
`No backends available`: the writer holds `Hello `, `IntoWriter` returns the
handler's error, and the handler sees `OnError` once and `Done` once. And the
error buffer `Network error` under a handler that answers it with an error
buffer for the size mismatch of `Hello` and that error with the in-memory
buffer `Hello world`: the handler sees the two `OnError` calls, in order, and
then `Done`. -/
theorem WithErrorHandler_done_exactly_once_witness :
    (WithErrorHandler (.casChunkReader ⟨helloDigest, ⟨[ascii "Hello "], connectionClosed, 0⟩, backendProvided⟩)
        (.declining fun _ => noBackendsAvailable)).1.IntoWriter md5Hashers []
      = some ⟨ascii "Hello ", some noBackendsAvailable, [], [.OnError connectionClosed, .Done]⟩
      ∧ WithErrorHandler (NewBufferFromError networkError)
          (.retrying (fun _ => .ok (NewBufferFromError (backendProvided.notifyCASSizeMismatch 11 5)))
            (fun _ => .retrying (fun _ => .ok (NewValidatedBufferFromByteSlice (ascii "Hello world")))
              (fun _ => .declining id)))
        = (.plain (NewValidatedBufferFromByteSlice (ascii "Hello world")),
            [.OnError networkError,
              .OnError (.status .Internal "Buffer is 5 bytes in size, while 11 bytes were expected"),
              .Done]) := by
  obtain ⟨_, _, _, _, _, _, _, _, _, h10, _⟩ := WithErrorHandler_done_exactly_once md5Hashers
    (.casChunkReader ⟨helloDigest, ⟨[ascii "Hello "], connectionClosed, 0⟩, backendProvided⟩)
    (.declining fun _ => noBackendsAvailable)
  obtain ⟨_, _, _, _, _, _, _, _, _, _, _, _, _, _, _, _, h16, _⟩ := WithErrorHandler_done_exactly_once md5Hashers
    (NewBufferFromError networkError)
    (.retrying (fun _ => .ok (NewBufferFromError (backendProvided.notifyCASSizeMismatch 11 5)))
      (fun _ => .retrying (fun _ => .ok (NewValidatedBufferFromByteSlice (ascii "Hello world")))
        (fun _ => .declining id)))
  exact ⟨(h10 ⟨helloDigest, ⟨[ascii "Hello "], connectionClosed, 0⟩, backendProvided⟩
      (fun _ => noBackendsAvailable) [] 11 (MD5.sum (ascii "Hello world")) .MD5 rfl rfl (by decide)
      (by decide) (by decide) (by decide) (by decide) (by decide)).2,
    h16 ⟨networkError⟩ _ _ ⟨backendProvided.notifyCASSizeMismatch 11 5⟩ _ _ ⟨ascii "Hello world"⟩
      rfl rfl rfl rfl rfl⟩

/-- C11 as stated fails: `CloneCopy` on a validated byte-slice buffer does not
go through `ToByteSlice`. For `Hello world` and a cap of 5 bytes `ToByteSlice`
fails with the size-cap error, yet `CloneCopy(5)` does not return two error
buffers carrying it: it returns the buffer itself, twice. -/
theorem validatedByteSliceBuffer_CloneCopy_counterexample :
    ¬ ∀ (b : validatedByteSliceBuffer) (maximumSizeBytes : Int) (err : Error),
        b.ToByteSlice maximumSizeBytes = (none, some err) →
        b.CloneCopy maximumSizeBytes = (NewBufferFromError err, NewBufferFromError err) := by
  intro h
  have h1 := h ⟨ascii "Hello world"⟩ 5
    (.status .InvalidArgument "Buffer is 11 bytes in size, while a maximum of 5 bytes is permitted")
    (by decide)
  simp [validatedByteSliceBuffer.CloneCopy, NewBufferFromError] at h1

/-- C11, amended: `CloneCopy` on a validated byte-slice buffer does not look
at `maximumSizeBytes`: whatever the cap, it returns the buffer itself twice,
never an error buffer. The cap is enforced when a clone is materialised:
`ToByteSlice(m)` on either clone is `ToByteSlice(m)` on the original, so it
fails with the size-cap error exactly when `len(data) > m`. -/
theorem validatedByteSliceBuffer_CloneCopy_ignores_cap (H : Hashers) (b : validatedByteSliceBuffer)
    (maximumSizeBytes : Int) :
    b.CloneCopy maximumSizeBytes = (.validatedByteSlice b, .validatedByteSlice b)
      ∧ (∀ err, (b.CloneCopy maximumSizeBytes).1 ≠ NewBufferFromError err
          ∧ (b.CloneCopy maximumSizeBytes).2 ≠ NewBufferFromError err)
      ∧ (∀ m, (b.CloneCopy maximumSizeBytes).1.ToByteSlice H m
            = some ⟨(b.ToByteSlice m).1, (b.ToByteSlice m).2, []⟩
          ∧ (b.CloneCopy maximumSizeBytes).2.ToByteSlice H m
            = some ⟨(b.ToByteSlice m).1, (b.ToByteSlice m).2, []⟩)
      ∧ (∀ m, ((b.CloneCopy maximumSizeBytes).1.ToByteSlice H m = some ⟨some b.data, none, []⟩
          ↔ (b.data.length : Int) ≤ m)) := by
  refine ⟨rfl, fun err => ⟨?_, ?_⟩, fun m => ⟨rfl, rfl⟩, fun m => ?_⟩
  · simp [validatedByteSliceBuffer.CloneCopy, NewBufferFromError]
  · simp [validatedByteSliceBuffer.CloneCopy, NewBufferFromError]
  · by_cases h : (b.data.length : Int) > m
    · have h2 : ¬ (b.data.length : Int) ≤ m := by omega
      simp [validatedByteSliceBuffer.CloneCopy, Buffer.ToByteSlice, validatedByteSliceBuffer.ToByteSlice, h, h2]
    · have h2 : (b.data.length : Int) ≤ m := by omega
      simp [validatedByteSliceBuffer.CloneCopy, Buffer.ToByteSlice, validatedByteSliceBuffer.ToByteSlice, h, h2]

/-- C12: clones of an in-memory buffer are byte-equal. For a validated
byte-slice buffer with data `D` and every `m >= len(D)`, the two buffers
returned by `CloneCopy(m)` and the two returned by `CloneStream()` each yield
`ToByteSlice(m) = D` with no error, like the original, and `GetSizeBytes` of
each clone is `len(D)`. -/
theorem validatedByteSliceBuffer_clones_byte_equal (H : Hashers) (b : validatedByteSliceBuffer) (m : Int)
    (hm : (b.data.length : Int) ≤ m) :
    b.ToByteSlice m = (some b.data, none)
      ∧ (b.CloneCopy m).1.ToByteSlice H m = some ⟨some b.data, none, []⟩
      ∧ (b.CloneCopy m).2.ToByteSlice H m = some ⟨some b.data, none, []⟩
      ∧ b.CloneStream.1.ToByteSlice H m = some ⟨some b.data, none, []⟩
      ∧ b.CloneStream.2.ToByteSlice H m = some ⟨some b.data, none, []⟩
      ∧ (b.CloneCopy m).1.GetSizeBytes = some ((b.data.length : Int), none)
      ∧ (b.CloneCopy m).2.GetSizeBytes = some ((b.data.length : Int), none)
      ∧ b.CloneStream.1.GetSizeBytes = some ((b.data.length : Int), none)
      ∧ b.CloneStream.2.GetSizeBytes = some ((b.data.length : Int), none) := by
  have h : ¬ (b.data.length : Int) > m := by omega
  have h1 : b.ToByteSlice m = (some b.data, none) := by
    simp [validatedByteSliceBuffer.ToByteSlice, h]
  have h2 : (Buffer.validatedByteSlice b).ToByteSlice H m = some ⟨some b.data, none, []⟩ := by
    simp [Buffer.ToByteSlice, h1]
  exact ⟨h1, h2, h2, h2, h2, rfl, rfl, rfl, rfl⟩

/-- C12, witness: `Hello world` cloned under a cap of 1000 bytes. -/
theorem validatedByteSliceBuffer_clones_byte_equal_witness :
    (validatedByteSliceBuffer.CloneCopy ⟨ascii "Hello world"⟩ 1000).1.ToByteSlice md5Hashers 1000
        = some ⟨some (ascii "Hello world"), none, []⟩
      ∧ (validatedByteSliceBuffer.CloneStream ⟨ascii "Hello world"⟩).2.ToByteSlice md5Hashers 1000
        = some ⟨some (ascii "Hello world"), none, []⟩
      ∧ (validatedByteSliceBuffer.CloneStream ⟨ascii "Hello world"⟩).2.GetSizeBytes = some (11, none) :=
  have h := validatedByteSliceBuffer_clones_byte_equal md5Hashers ⟨ascii "Hello world"⟩ 1000 (by decide)
  ⟨h.2.1, h.2.2.2.2.1, h.2.2.2.2.2.2.2.2⟩

/-- C13: error handler on a validated in-memory buffer. `applyErrorHandler`
calls `Done` once and `OnError` never, and returns the buffer unchanged
(with `false`); so does `WithErrorHandler`, and `ToByteSlice(m)` on its
result is `ToByteSlice(m)` on the buffer, for every `m`, without further
calls on the handler. -/
theorem validatedByteSliceBuffer_applyErrorHandler_done (H : Hashers) (b : validatedByteSliceBuffer)
    (h : ErrorHandler) :
    b.applyErrorHandler h = (.plain (.validatedByteSlice b), false, [.Done])
      ∧ WithErrorHandler (.validatedByteSlice b) h = (.plain (.validatedByteSlice b), [.Done])
      ∧ ∀ m, (WithErrorHandler (.validatedByteSlice b) h).1.ToByteSlice H m
          = some ⟨(b.ToByteSlice m).1, (b.ToByteSlice m).2, [], []⟩ := by
  have hW : WithErrorHandler (.validatedByteSlice b) h = (.plain (.validatedByteSlice b), [.Done]) := by
    cases h <;> rfl
  refine ⟨rfl, hW, fun m => ?_⟩
  rw [hW]
  rfl

/-- C13, witness: the valid `Hello world` buffer under a handler, with
`m = 1000`: the data comes back and the only call on the handler is `Done`. -/
theorem validatedByteSliceBuffer_applyErrorHandler_done_witness :
    (WithErrorHandler (.validatedByteSlice ⟨ascii "Hello world"⟩) (.declining id)).2 = [.Done]
      ∧ (WithErrorHandler (.validatedByteSlice ⟨ascii "Hello world"⟩) (.declining id)).1.ToByteSlice
          md5Hashers 1000 = some ⟨some (ascii "Hello world"), none, [], []⟩ :=
  have h := validatedByteSliceBuffer_applyErrorHandler_done md5Hashers ⟨ascii "Hello world"⟩ (.declining id)
  ⟨congrArg Prod.snd h.2.1, (h.2.2 1000).trans (by decide)⟩

/-- C14: error handler on a stream-backed buffer is deferred.
`applyErrorHandler` on a `casReaderBuffer` returns the error-handling wrapper
around the buffer, for the buffer's digest and source, with `false`; no call
is made on the handler, and the buffer inside the wrapper holds the underlying
reader as it was: nothing read, nothing closed. `WithErrorHandler` returns the
same wrapper. -/
theorem casReaderBuffer_applyErrorHandler_deferred (b : casReaderBuffer) (h : ErrorHandler) :
    b.applyErrorHandler h = (.casErrorHandling ⟨.casReader b, h, b.digest, b.source⟩, false, [])
      ∧ (∃ wb, (b.applyErrorHandler h).1 = .casErrorHandling wb
          ∧ wb.base = .casReader ⟨b.digest, ⟨b.r.reads, b.r.err, b.r.closes⟩, b.source⟩
          ∧ wb.digest = b.digest)
      ∧ (b.applyErrorHandler h).2.1 = false
      ∧ (b.applyErrorHandler h).2.2 = []
      ∧ WithErrorHandler (.casReader b) h = ((b.applyErrorHandler h).1, []) := by
  refine ⟨rfl, ⟨_, rfl, rfl, rfl⟩, rfl, rfl, ?_⟩
  cases h <;> rfl

/-- C15: laziness of the reader-backed buffer. `NewCASBufferFromReader` stores
the reader as it is handed over; `GetSizeBytes` does not depend on the reader
and returns the declared size of the digest with a nil error; `Discard` closes
the underlying reader once and leaves its pending reads untouched. -/
theorem casReaderBuffer_lazy (digest : Digest) (r : ReadCloser) (source : Source) :
    NewCASBufferFromReader digest r source = .casReader ⟨digest, ⟨r.reads, r.err, r.closes⟩, source⟩
      ∧ (∀ r2 : ReadCloser, casReaderBuffer.GetSizeBytes ⟨digest, r2, source⟩
          = casReaderBuffer.GetSizeBytes ⟨digest, r, source⟩)
      ∧ (∀ sizeBytes, digest.GetSizeBytes = some sizeBytes →
          casReaderBuffer.GetSizeBytes ⟨digest, r, source⟩ = some (sizeBytes, none))
      ∧ casReaderBuffer.Discard ⟨digest, r, source⟩ = ⟨r.reads, r.err, r.closes + 1⟩ := by
  refine ⟨rfl, fun r2 => rfl, fun sizeBytes hs => ?_, rfl⟩
  simp [casReaderBuffer.GetSizeBytes, hs]

/-- C16: the reader-backed buffer releases its stream on every exit path.
For a `casReaderBuffer` whose validating reader is `r`:
* `ReadAt` returns with the validating reader closed exactly once, whatever
  the offset, the destination and the outcome;
* `IntoWriter` returns with the validating reader closed exactly once,
  whatever the writer does;
* `ToChunkReader` with an invalid offset returns the error chunk reader with
  the underlying reader closed once and none of it read, and when discarding
  the leading bytes fails it returns the error chunk reader with the
  validating reader closed once;
* `toUnvalidatedReader` and `toUnvalidatedChunkReader` return the error
  reader (chunk reader) with the underlying reader closed once when
  discarding fails. -/
theorem casReaderBuffer_releases_stream (H : Hashers) (b : casReaderBuffer) (r : ReadCloser)
    (calls : List SourceCall) (sizeBytes : Int)
    (hr : b.ToReader H = some (r, calls)) (hsize : b.digest.GetSizeBytes = some sizeBytes) :
    (∀ p off, ∃ res, b.ReadAt H p off = some res ∧ res.r.closes = r.closes + 1)
      ∧ (∀ w, ∃ res, b.IntoWriter H w = some res ∧ res.r.closes = r.closes + 1)
      ∧ (∀ off chunkPolicy err, validateReaderOffset sizeBytes off = some err →
          b.ToChunkReader H off chunkPolicy
            = some ⟨newErrorChunkReader err, ⟨b.r.reads, b.r.err, b.r.closes + 1⟩⟩)
      ∧ (∀ off chunkPolicy err, validateReaderOffset sizeBytes off = none →
          (discardFromReader r off).1 = some err →
          ∃ res, b.ToChunkReader H off chunkPolicy = some res
            ∧ res.chunkReader = newErrorChunkReader err ∧ res.stream.closes = r.closes + 1)
      ∧ (∀ off err, (discardFromReader b.r off).1 = some err →
          (b.toUnvalidatedReader off).1 = newErrorReader err
            ∧ (b.toUnvalidatedReader off).2.closes = b.r.closes + 1)
      ∧ (∀ off chunkPolicy err, (discardFromReader b.r off).1 = some err →
          (b.toUnvalidatedChunkReader off chunkPolicy).chunkReader = newErrorChunkReader err
            ∧ (b.toUnvalidatedChunkReader off chunkPolicy).stream.closes = b.r.closes + 1) := by
  have hdisc : ∀ (x : ReadCloser) (off : Int) (err : Error), (discardFromReader x off).1 = some err →
      discardFromReader x off = (some x.err, { x with reads := [] }) ∧ err = x.err := by
    intro x off err h
    by_cases hd : off.toNat ≤ x.bytes.length
    · rw [discardFromReader_of_le x off hd] at h
      exact absurd h (by simp)
    · rw [discardFromReader_of_not_le x off hd] at h ⊢
      exact ⟨rfl, (Option.some.inj h).symm⟩
  refine ⟨fun p off => ?_, fun w => ?_, fun off chunkPolicy err hv => ?_, fun off chunkPolicy err hv hd => ?_,
    fun off err hd => ?_, fun off chunkPolicy err hd => ?_⟩
  · unfold casReaderBuffer.ReadAt
    rw [hr]
    dsimp only
    by_cases hd : off.toNat ≤ r.bytes.length
    · rw [discardFromReader_of_le r off hd]
      dsimp only
      by_cases hf : p.length ≤ ({ r with reads := dropBytes r.reads off.toNat } : ReadCloser).bytes.length
      · rw [ioReadFull_of_le _ p hf]
        dsimp only [ioCopyDiscard]
        by_cases he : r.err = .EOF
        · rw [if_pos he]
          exact ⟨_, rfl, rfl⟩
        · rw [if_neg he]
          exact ⟨_, rfl, rfl⟩
      · rw [ioReadFull_of_not_le _ p hf]
        dsimp only
        split_ifs <;> exact ⟨_, rfl, rfl⟩
    · rw [discardFromReader_of_not_le r off hd]
      exact ⟨_, rfl, rfl⟩
  · unfold casReaderBuffer.IntoWriter
    rw [hr]
    exact ⟨_, rfl, rfl⟩
  · unfold casReaderBuffer.ToChunkReader
    rw [hsize]
    dsimp only
    rw [hv]
    rfl
  · obtain ⟨h1, h2⟩ := hdisc r off err hd
    unfold casReaderBuffer.ToChunkReader
    rw [hsize]
    dsimp only
    rw [hv, hr]
    dsimp only
    rw [h1, h2]
    exact ⟨_, rfl, rfl, rfl⟩
  · obtain ⟨h1, h2⟩ := hdisc b.r off err hd
    unfold casReaderBuffer.toUnvalidatedReader
    rw [h1, h2]
    exact ⟨rfl, rfl⟩
  · obtain ⟨h1, h2⟩ := hdisc b.r off err hd
    unfold casReaderBuffer.toUnvalidatedChunkReader
    rw [h1, h2]
    exact ⟨rfl, rfl⟩

/-- C16, witness: the reader serving `Hello world` under its digest. A writer
that fails after 3 bytes, a read at offset 2, an offset past the end and an
offset behind the end of a replacement stream all leave the stream closed
once. -/
theorem casReaderBuffer_releases_stream_witness :
    (∃ res, casReaderBuffer.IntoWriter md5Hashers
          ⟨helloDigest, ⟨[ascii "Hello ", ascii "world"], .EOF, 0⟩, backendProvided⟩
          ⟨[], some 3, connectionClosed⟩ = some res ∧ res.r.closes = 1)
      ∧ (∃ res, casReaderBuffer.ReadAt md5Hashers
          ⟨helloDigest, ⟨[ascii "Hello ", ascii "world"], .EOF, 0⟩, backendProvided⟩ [0, 0] 2 = some res
          ∧ res.r.closes = 1)
      ∧ casReaderBuffer.ToChunkReader md5Hashers
          ⟨helloDigest, ⟨[ascii "Hello ", ascii "world"], .EOF, 0⟩, backendProvided⟩ 12 ⟨1, 3⟩
        = some ⟨newErrorChunkReader (.status .InvalidArgument
            "Buffer is 11 bytes in size, while a read at offset 12 was requested"),
            ⟨[ascii "Hello ", ascii "world"], .EOF, 1⟩⟩ :=
  have h := casReaderBuffer_releases_stream md5Hashers
    ⟨helloDigest, ⟨[ascii "Hello ", ascii "world"], .EOF, 0⟩, backendProvided⟩
    ⟨[ascii "Hello ", ascii "world"], .EOF, 0⟩ [.notifyDataValid] 11 (by decide) (by decide)
  ⟨h.2.1 ⟨[], some 3, connectionClosed⟩, h.1 [0, 0] 2,
    h.2.2.1 12 ⟨1, 3⟩ (.status .InvalidArgument
      "Buffer is 11 bytes in size, while a read at offset 12 was requested") (by decide)⟩

/-- A value in the range of `int64` is not changed by the conversion. -/
theorem wrapInt64_of_range (x : Int) (h0 : -9223372036854775808 ≤ x) (h1 : x < 9223372036854775808) :
    wrapInt64 x = x := by
  unfold wrapInt64
  omega

/-- A decimal digit is not `-`, and the byte subtraction `c - '0'` of `unpack`
gives its value. -/
theorem digitChar_value (m : Nat) (h : m < 10) :
    Nat.digitChar m ≠ '-' ∧ ((Nat.digitChar m).toNat + 256 - 48) % 256 = m := by
  interval_cases m <;> decide

/-- The digits produced with enough fuel are the digits of the number, put in
front of the digits already there. -/
theorem toDigitsCore_eq_append (n : Nat) : ∀ (fuel : Nat) (ds : List Char), n < fuel →
    Nat.toDigitsCore 10 fuel n ds = Nat.toDigits 10 n ++ ds := by
  induction n using Nat.strong_induction_on with
  | _ n ih =>
    intro fuel ds hfuel
    obtain ⟨f, rfl⟩ : ∃ f, fuel = f + 1 := ⟨fuel - 1, by omega⟩
    unfold Nat.toDigits
    by_cases h0 : n / 10 = 0
    · simp [Nat.toDigitsCore, h0]
    · have hlt : n / 10 < n := Nat.div_lt_self (by omega) (by decide)
      simp only [Nat.toDigitsCore, h0, if_false]
      rw [ih (n / 10) hlt f _ (by omega), ih (n / 10) hlt n _ hlt]
      simp

/-- The decimal digits of a number below ten. -/
theorem toDigits_of_lt_ten (n : Nat) (h : n < 10) : Nat.toDigits 10 n = [Nat.digitChar n] := by
  have h0 : n / 10 = 0 := by omega
  have h1 : n % 10 = n := by omega
  simp [Nat.toDigits, Nat.toDigitsCore, h0, h1]

/-- The decimal digits of a number of at least ten: those of its tenth, then
its last digit. -/
theorem toDigits_of_ten_le (n : Nat) (h : 10 ≤ n) :
    Nat.toDigits 10 n = Nat.toDigits 10 (n / 10) ++ [Nat.digitChar (n % 10)] := by
  have h0 : ¬ n / 10 = 0 := by omega
  have hlt : n / 10 < n := Nat.div_lt_self (by omega) (by decide)
  have e : Nat.toDigits 10 n = Nat.toDigitsCore 10 n (n / 10) [Nat.digitChar (n % 10)] := by
    simp [Nat.toDigits, Nat.toDigitsCore, h0]
  rw [e, toDigitsCore_eq_append (n / 10) n _ hlt]

/-- The size loop of `unpack` reads the decimal digits of a size below
`2^63` back as that size. -/
theorem unpackSize_toDigits (n : Nat) : ∀ (rest : List Char) (i : Nat), n < 9223372036854775808 →
    unpackSize (Nat.toDigits 10 n ++ rest) 0 i
      = unpackSize rest (n : Int) (i + (Nat.toDigits 10 n).length) := by
  induction n using Nat.strong_induction_on with
  | _ n ih =>
    intro rest i hn
    by_cases h10 : n < 10
    · obtain ⟨hd, hv⟩ := digitChar_value n h10
      rw [toDigits_of_lt_ten n h10]
      simp only [List.singleton_append, unpackSize, hd, if_false, hv, List.length_singleton]
      rw [wrapInt64_of_range _ (by omega) (by omega)]
      simp
    · have hlt : n / 10 < n := Nat.div_lt_self (by omega) (by decide)
      obtain ⟨hd, hv⟩ := digitChar_value (n % 10) (Nat.mod_lt _ (by decide))
      rw [toDigits_of_ten_le n (by omega), List.append_assoc, ih (n / 10) hlt _ _ (by omega)]
      simp only [List.singleton_append, unpackSize, hd, if_false, hv, List.length_append,
        List.length_singleton]
      rw [wrapInt64_of_range _ (by omega) (by omega)]
      have e : ((n / 10 : Nat) : Int) * 10 + ((n % 10 : Nat) : Int) = (n : Int) := by omega
      rw [e, Nat.add_assoc]
      rfl

/-- The hash loop of `unpack` stops at the first `-`. -/
theorem unpackHashEnd_append (l rest : List Char) (i : Nat) (h : '-' ∉ l) :
    unpackHashEnd (l ++ '-' :: rest) i = some (i + l.length) := by
  induction l generalizing i with
  | nil => simp [unpackHashEnd]
  | cons c cs ih =>
    have hc : c ≠ '-' := fun hc => h (by simp [hc])
    have hcs : '-' ∉ cs := fun hm => h (List.mem_cons_of_mem _ hm)
    rw [List.cons_append, unpackHashEnd, if_neg hc, ih (i + 1) hcs, List.length_cons]
    exact congrArg some (by omega)

/-- The function `unpack` on a key `hash-size-instance` whose hash has at
least 32 characters and no `-`, and whose size is below `2^63`: the end of the
hash, the size and the end of the size. -/
theorem unpack_key (hash instanceName : List Char) (sizeBytes : Nat)
    (hlen : 32 ≤ hash.length) (hdash : '-' ∉ hash) (hsize : sizeBytes < 9223372036854775808) :
    Digest.unpack ⟨hash ++ ['-'] ++ (Nat.repr sizeBytes).data ++ ['-'] ++ instanceName⟩
      = some (hash.length, (sizeBytes : Int), hash.length + 1 + (Nat.repr sizeBytes).data.length) := by
  have hrepr : (Nat.repr sizeBytes).data = Nat.toDigits 10 sizeBytes := rfl
  have e1 : hash ++ ['-'] ++ (Nat.repr sizeBytes).data ++ ['-'] ++ instanceName
      = hash ++ '-' :: (Nat.toDigits 10 sizeBytes ++ '-' :: instanceName) := by
    simp [hrepr]
  have e2 : (hash ++ '-' :: (Nat.toDigits 10 sizeBytes ++ '-' :: instanceName)).drop 32
      = hash.drop 32 ++ '-' :: (Nat.toDigits 10 sizeBytes ++ '-' :: instanceName) := by
    rw [List.drop_append_of_le_length hlen]
  have e3 : (hash ++ '-' :: (Nat.toDigits 10 sizeBytes ++ '-' :: instanceName)).drop (hash.length + 1)
      = Nat.toDigits 10 sizeBytes ++ '-' :: instanceName := by
    rw [List.drop_append_eq_append_drop, List.drop_of_length_le (by omega)]
    simp
  have h32 : 32 + (hash.drop 32).length = hash.length := by
    rw [List.length_drop]
    omega
  unfold Digest.unpack
  dsimp only
  rw [e1, e2, unpackHashEnd_append _ _ _ (fun hm => hdash (List.mem_of_mem_drop hm)), h32]
  dsimp only
  rw [e3, unpackSize_toDigits sizeBytes _ _ hsize]
  simp only [unpackSize, if_true, hrepr]

theorem key_getters (hash instanceName : List Char) (sizeBytes : Nat)
    (hlen : 32 ≤ hash.length) (hdash : '-' ∉ hash) (hsize : sizeBytes < 9223372036854775808) :
    Digest.GetHashString ⟨hash ++ ['-'] ++ (Nat.repr sizeBytes).data ++ ['-'] ++ instanceName⟩
        = some hash
      ∧ Digest.GetSizeBytes ⟨hash ++ ['-'] ++ (Nat.repr sizeBytes).data ++ ['-'] ++ instanceName⟩
        = some (sizeBytes : Int)
      ∧ Digest.GetInstanceName ⟨hash ++ ['-'] ++ (Nat.repr sizeBytes).data ++ ['-'] ++ instanceName⟩
        = some instanceName := by
  have hu := unpack_key hash instanceName sizeBytes hlen hdash hsize
  refine ⟨?_, ?_, ?_⟩
  · unfold Digest.GetHashString
    rw [hu]
    dsimp only
    rw [List.append_assoc, List.append_assoc, List.append_assoc, List.take_left' rfl]
  · unfold Digest.GetSizeBytes
    rw [hu]
  · unfold Digest.GetInstanceName
    rw [hu]
    dsimp only
    have e : hash.length + 1 + (Nat.repr sizeBytes).data.length + 1
        = (hash ++ ['-'] ++ (Nat.repr sizeBytes).data ++ ['-']).length := by
      simp only [List.length_append, List.length_singleton]
    rw [e, List.drop_left' rfl]

/-- The end of the hash found by `unpack` is at least 32. -/
theorem unpackHashEnd_le (l : List Char) (i j : Nat) (h : unpackHashEnd l i = some j) : i ≤ j := by
  induction l generalizing i with
  | nil => simp [unpackHashEnd] at h
  | cons c cs ih =>
    unfold unpackHashEnd at h
    split_ifs at h
    · simp only [Option.some.injEq] at h
      omega
    · have := ih (i + 1) h
      omega

/-- The hash found by `unpack` has at least 32 characters. -/
theorem unpack_hashEnd_ge (d : Digest) (hashEnd : Nat) (sizeBytes : Int) (sizeBytesEnd : Nat)
    (h : d.unpack = some (hashEnd, sizeBytes, sizeBytesEnd)) : 32 ≤ hashEnd := by
  unfold Digest.unpack at h
  cases h1 : unpackHashEnd (d.value.drop 32) 32 with
  | none => simp [h1] at h
  | some e =>
    rw [h1] at h
    dsimp only at h
    cases h2 : unpackSize (d.value.drop (e + 1)) 0 (e + 1) with
    | none => simp [h2] at h
    | some r =>
      rw [h2] at h
      simp only [Option.some.injEq, Prod.mk.injEq] at h
      have := unpackHashEnd_le _ _ _ h1
      omega

/-- The block count of a blob of `S` bytes in blocks of `B` bytes, for sizes
in the range of `int64`. -/
theorem convertSizeToBlockCount_eq (S : Nat) (B : Int) (hS : S < 9223372036854775808)
    (hB1 : 1 ≤ B) (hBS : B < S) :
    convertSizeToBlockCount (S : Int) B = some (((S : Int) + B - 1) / B)
      ∧ 2 ≤ ((S : Int) + B - 1) / B ∧ ((S : Int) + B - 1) / B ≤ S := by
  obtain ⟨b, rfl⟩ : ∃ b : Nat, B = (b : Int) := ⟨B.toNat, (Int.toNat_of_nonneg (by omega)).symm⟩
  have hb1 : 1 ≤ b := by omega
  have hbS : b < S := by omega
  have hle : ((S : Int) + b - 1) / b ≤ S := by
    apply Int.ediv_le_of_le_mul (by omega)
    have h1 : (0 : Int) ≤ ((S : Int) - 1) * ((b : Int) - 1) :=
      mul_nonneg (by omega) (by omega)
    nlinarith
  have hge : 2 ≤ ((S : Int) + b - 1) / b := by
    have e : (S : Int) + b - 1 = ((S : Int) - b - 1) + b * 2 := by ring
    rw [e, Int.add_mul_ediv_left _ _ (by omega)]
    have : 0 ≤ ((S : Int) - b - 1) / b := Int.ediv_nonneg (by omega) (by omega)
    omega
  refine ⟨?_, hge, hle⟩
  have hu1 : toUint64 (S : Int) = S := by
    unfold toUint64
    omega
  have hu2 : toUint64 (b : Int) = b := by
    unfold toUint64
    omega
  have hmod : (S + b + 18446744073709551616 - 1) % 18446744073709551616 = S + b - 1 := by omega
  have hcast : (((S + b - 1) / b : Nat) : Int) = ((S : Int) + b - 1) / b := by
    have e : ((S + b - 1 : Nat) : Int) = (S : Int) + b - 1 := by omega
    rw [Int.ofNat_ediv, e]
  unfold convertSizeToBlockCount
  rw [hu1, hu2, if_neg (by omega), hmod, hcast, wrapInt64_of_range _ (by omega) (by omega)]

/-- The decimal form of a non-negative `int64` as `%d` prints it. -/
theorem toString_of_nonneg (x : Int) (h : 0 ≤ x) :
    (toString x).data = (Nat.repr x.toNat).data := by
  obtain ⟨m, rfl⟩ := Int.eq_ofNat_of_zero_le h
  rfl

/-- The manifest digest of a well-formed `B3Z:` digest, when no `int64`
overflows: the key of the manifest, the arguments of the manifest parser and
the flag. -/
theorem ToManifest_key (parent chunk : Int) (hex inst : List Char) (S : Nat) (B : Int)
    (hlen : 28 ≤ hex.length) (hdash : '-' ∉ hex) (hS : S < 9223372036854775808)
    (hB1 : 1 ≤ B) (hBS : B < S) (hp : 0 ≤ parent) (hc : 0 ≤ chunk)
    (hfit : ((S : Int) + B - 1) / B * parent + chunk < 9223372036854775808) :
    ∃ M : Nat, (M : Int) = (if 0 < (S : Int) % B ∧ (S : Int) % B ≤ 1024
          then (((S : Int) + B - 1) / B - 1) * parent + chunk else ((S : Int) + B - 1) / B * parent)
      ∧ M < 9223372036854775808
      ∧ Digest.ToManifest parent chunk
          ⟨"B3Z:".data ++ hex ++ ['-'] ++ (Nat.repr S).data ++ ['-'] ++ inst⟩ B
        = some (⟨"B3ZM:".data ++ hex ++ ['-'] ++ (Nat.repr M).data ++ ['-'] ++ inst⟩,
            some ⟨inst, S, B, hex.length / 2⟩, true) := by
  obtain ⟨hcount, hge, hle⟩ := convertSizeToBlockCount_eq S B hS hB1 hBS
  have hmul : 0 ≤ (((S : Int) + B - 1) / B - 1) * parent := mul_nonneg (by omega) hp
  have hmul2 : (((S : Int) + B - 1) / B - 1) * parent + parent = ((S : Int) + B - 1) / B * parent := by
    ring
  have hM0 : 0 ≤ (if 0 < (S : Int) % B ∧ (S : Int) % B ≤ 1024
      then (((S : Int) + B - 1) / B - 1) * parent + chunk else ((S : Int) + B - 1) / B * parent) := by
    split_ifs <;> omega
  have hM1 : (if 0 < (S : Int) % B ∧ (S : Int) % B ≤ 1024
      then (((S : Int) + B - 1) / B - 1) * parent + chunk else ((S : Int) + B - 1) / B * parent)
        < 9223372036854775808 := by
    split_ifs <;> omega
  refine ⟨_, Int.toNat_of_nonneg hM0, by omega, ?_⟩
  have hpre : ("B3Z:".data.isPrefixOf ("B3Z:".data ++ hex ++ ['-'] ++ (Nat.repr S).data ++ ['-'] ++ inst))
      = true := by
    simp
  have hdash2 : '-' ∉ "B3Z:".data ++ hex := by
    intro hm
    rcases List.mem_append.mp hm with h1 | h1
    · exact absurd h1 (by decide)
    · exact hdash h1
  have hu := unpack_key ("B3Z:".data ++ hex) inst S (by simp; omega) hdash2 hS
  have htake : (("B3Z:".data ++ hex ++ ['-'] ++ (Nat.repr S).data ++ ['-'] ++ inst).take
      ("B3Z:".data ++ hex).length).drop 4 = hex := by
    rw [List.append_assoc, List.append_assoc, List.append_assoc, List.take_left' rfl]
    rfl
  have hdrop : ("B3Z:".data ++ hex ++ ['-'] ++ (Nat.repr S).data ++ ['-'] ++ inst).drop
      (("B3Z:".data ++ hex).length + 1 + (Nat.repr S).data.length + 1) = inst := by
    have e : ("B3Z:".data ++ hex).length + 1 + (Nat.repr S).data.length + 1
        = ("B3Z:".data ++ hex ++ ['-'] ++ (Nat.repr S).data ++ ['-']).length := by
      simp only [List.length_append, List.length_singleton]
    rw [e, List.drop_left' rfl]
  have htmod : Int.tmod (S : Int) B = (S : Int) % B := Int.tmod_eq_emod (by omega) (by omega)
  have hw0 : wrapInt64 (((S : Int) + B - 1) / B * parent) = ((S : Int) + B - 1) / B * parent :=
    wrapInt64_of_range _ (by omega) (by omega)
  unfold Digest.ToManifest
  rw [if_neg (by rw [hpre]; simp), hu]
  dsimp only
  rw [if_neg (by omega), hcount]
  dsimp only
  rw [htake, hdrop, htmod, hw0]
  by_cases hlast : 0 < (S : Int) % B ∧ (S : Int) % B ≤ 1024
  · have hw1 : wrapInt64 (((S : Int) + B - 1) / B * parent + (chunk - parent))
        = (((S : Int) + B - 1) / B - 1) * parent + chunk := by
      rw [wrapInt64_of_range _ (by omega) (by omega)]
      omega
    have hgt : (S : Int) % B > 0 ∧ (S : Int) % B ≤ 1024 := hlast
    rw [if_pos hgt, if_pos hlast, hw1]
    rw [toString_of_nonneg _ (by omega)]
  · have hgt : ¬ ((S : Int) % B > 0 ∧ (S : Int) % B ≤ 1024) := hlast
    rw [if_neg hgt, if_neg hlast]
    rw [toString_of_nonneg _ (by omega)]

/-- The number of blocks and the length of the last block, from quotient and
remainder: the size in the words of the spec agrees with the size computed by
`ToManifest` when the block size exceeds 1024 bytes or does not divide the
blob size. -/
theorem claimedManifestSizeBytes_eq (parent chunk S B : Int) (hB1 : 1 ≤ B)
    (h : 1024 < B ∨ S % B ≠ 0) :
    claimedManifestSizeBytes parent chunk S B
      = (if 0 < S % B ∧ S % B ≤ 1024 then ((S + B - 1) / B - 1) * parent + chunk
          else (S + B - 1) / B * parent) := by
  have hBpos : 0 < B := by omega
  have hq : B * (S / B) + S % B = S := Int.ediv_add_emod S B
  have hr0 : 0 ≤ S % B := Int.emod_nonneg S (by omega)
  have hr1 : S % B < B := Int.emod_lt_of_pos S hBpos
  unfold claimedManifestSizeBytes
  by_cases hr : S % B = 0
  · have hceil : (S + B - 1) / B = S / B :=
      ((Int.ediv_emod_unique hBpos).2 ⟨by linarith, by omega, by omega⟩ :
        (S + B - 1) / B = S / B ∧ (S + B - 1) % B = B - 1).1
    have hlast : S - ((S + B - 1) / B - 1) * B = B := by
      rw [hceil]
      linarith [mul_comm B (S / B)]
    have hbig : 1024 < B := by
      rcases h with h | h
      · exact h
      · exact absurd hr h
    rw [hlast, if_neg (by omega), if_neg (by omega)]
  · have hceil : (S + B - 1) / B = S / B + 1 :=
      ((Int.ediv_emod_unique hBpos).2 ⟨by linarith, by omega, by omega⟩ :
        (S + B - 1) / B = S / B + 1 ∧ (S + B - 1) % B = S % B - 1).1
    have hlast : S - ((S + B - 1) / B - 1) * B = S % B := by
      rw [hceil]
      linarith [mul_comm B (S / B)]
    rw [hlast]
    by_cases hs : S % B ≤ 1024
    · rw [if_pos hs, if_pos ⟨by omega, hs⟩]
    · rw [if_neg hs, if_neg (fun hh => hs hh.2)]

/-- A hash tagged `B3ZM:` is not tagged `B3Z:`. -/
theorem not_B3Z_of_B3ZM (hash : List Char) (h : "B3ZM:".data.isPrefixOf hash = true) :
    ¬ "B3Z:".data.isPrefixOf hash = true := by
  obtain ⟨t, rfl⟩ := List.isPrefixOf_iff_prefix.mp h
  intro h2
  exact Bool.noConfusion (show false = true from h2)

/-- Hexadecimal digits contain no `-`. -/
theorem dash_not_mem_of_hex (hex : List Char) (hhex : ∀ c ∈ hex, (fromHexChar c).isSome = true) :
    '-' ∉ hex := by
  intro h
  have h1 := hhex _ h
  revert h1
  decide

/-- Hexadecimal digits do not start with the tag `B3ZM:`. -/
theorem not_B3ZM_of_hex (hex : List Char) (hhex : ∀ c ∈ hex, (fromHexChar c).isSome = true) :
    ¬ "B3ZM:".data.isPrefixOf hex = true := by
  intro h
  obtain ⟨t, rfl⟩ := List.isPrefixOf_iff_prefix.mp h
  have h1 := hhex 'Z' (by simp)
  revert h1
  decide

/-- The tag `B3Z:` is read off the key exactly when it is read off the hash:
the hash is at least 32 characters long. -/
theorem isPrefixOf_take (value : List Char) (hashEnd : Nat) (h : 32 ≤ hashEnd) :
    ("B3Z:".data.isPrefixOf (value.take hashEnd) = true) ↔ ("B3Z:".data.isPrefixOf value = true) := by
  rw [List.isPrefixOf_iff_prefix, List.isPrefixOf_iff_prefix, List.prefix_take_iff]
  constructor
  · exact fun h1 => h1.1
  · intro h1
    refine ⟨h1, ?_⟩
    have : "B3Z:".data.length = 4 := rfl
    omega

/-- C17 as stated fails for a block size of at most 1024 bytes that divides
the blob size. For a blob of 2048 bytes and blocks of 1024 bytes the last
block is 1024 bytes long, so the claim's size is one parent node plus one
chunk node, 64 + 97 = 161 with node sizes 64 (the size the test's
192 = 3 * 64 fixes) and 97; `ToManifest` returns the size 128 = 2 * 64: it
tests the remainder `S % B`, which is 0 here, so the chunk-node size does not
enter the result. -/
theorem Digest_ToManifest_size_counterexample :
    (Digest.ToManifest 64 97
        (mkDigest "instance" "B3Z:4c522509f3e722ad893600907cbd2fa85bb8cc49ab945e76289bb71f4c3322d6" 2048)
        1024).map (fun r => (r.1.GetSizeBytes, r.2.2)) = some (some 128, true)
      ∧ claimedManifestSizeBytes 64 97 2048 1024 = 161 := by
  decide

/-- C17, amended: for a digest tagged `B3Z:` with size `S` and a block size
`B` with `1 <= B < S`, when the sizes involved fit in an `int64`,
`ToManifest(B)` returns a manifest digest of size `ceil(S/B)` times the
parent-node size, except that when the remainder `S % B` is between 1 and
1024 the size is `(ceil(S/B) - 1)` times the parent-node size plus one
chunk-node size. This is the size in the words of the spec whenever the block
size exceeds 1024 bytes or does not divide `S`. -/
theorem Digest_ToManifest_size (parentNodeSizeBytes chunkNodeSizeBytes : Int) (hex instanceName : List Char)
    (S : Nat) (B : Int)
    (hlen : 28 ≤ hex.length) (hdash : '-' ∉ hex) (hS : S < 9223372036854775808)
    (hB1 : 1 ≤ B) (hBS : B < S) (hp : 0 ≤ parentNodeSizeBytes) (hc : 0 ≤ chunkNodeSizeBytes)
    (hfit : ((S : Int) + B - 1) / B * parentNodeSizeBytes + chunkNodeSizeBytes < 9223372036854775808) :
    ∃ (m : Digest) (manifestParser : Option ManifestParser),
      Digest.ToManifest parentNodeSizeBytes chunkNodeSizeBytes
          ⟨"B3Z:".data ++ hex ++ ['-'] ++ (Nat.repr S).data ++ ['-'] ++ instanceName⟩ B
        = some (m, manifestParser, true)
      ∧ m.GetSizeBytes = some (if 0 < (S : Int) % B ∧ (S : Int) % B ≤ 1024
          then (((S : Int) + B - 1) / B - 1) * parentNodeSizeBytes + chunkNodeSizeBytes
          else ((S : Int) + B - 1) / B * parentNodeSizeBytes)
      ∧ (1024 < B ∨ (S : Int) % B ≠ 0 →
          m.GetSizeBytes = some (claimedManifestSizeBytes parentNodeSizeBytes chunkNodeSizeBytes S B)) := by
  obtain ⟨M, hM, hMlt, hT⟩ := ToManifest_key parentNodeSizeBytes chunkNodeSizeBytes hex instanceName S B
    hlen hdash hS hB1 hBS hp hc hfit
  have hdash2 : '-' ∉ "B3ZM:".data ++ hex := by
    intro hm
    rcases List.mem_append.mp hm with h1 | h1
    · exact absurd h1 (by decide)
    · exact hdash h1
  have hsize := (key_getters ("B3ZM:".data ++ hex) instanceName M
    (by rw [List.length_append]; have : "B3ZM:".data.length = 5 := rfl; omega) hdash2 hMlt).2.1
  rw [List.append_assoc "B3ZM:".data hex] at hsize
  refine ⟨_, _, hT, ?_, ?_⟩
  · rw [← hM]
    exact hsize
  · intro h
    rw [claimedManifestSizeBytes_eq _ _ _ _ hB1 h, ← hM]
    exact hsize

/-- C17, witness: the blob of the test, 5121 bytes in blocks of 2048 bytes
(last block 1025 bytes), with node sizes 64 and 97: the manifest is 192 bytes
long. -/
theorem Digest_ToManifest_size_witness :
    ∃ (m : Digest) (manifestParser : Option ManifestParser),
      Digest.ToManifest 64 97 blobDigest 2048 = some (m, manifestParser, true)
      ∧ m.GetSizeBytes = some 192
      ∧ (1024 < (2048 : Int) ∨ ((5121 : Nat) : Int) % 2048 ≠ 0 →
          m.GetSizeBytes = some (claimedManifestSizeBytes 64 97 ((5121 : Nat) : Int) 2048)) :=
  Digest_ToManifest_size 64 97 "4c522509f3e722ad893600907cbd2fa85bb8cc49ab945e76289bb71f4c3322d6".data
    "instance".data 5121 2048 (by decide) (by decide) (by decide) (by decide) (by decide) (by decide)
    (by decide) (by decide)

/-- C18: when a manifest can be created. For a digest with hash `hash` and
size `S`, and a block size `B >= 1`, `ToManifest(B)` returns, and it returns
`ok = false` exactly when the hash is not tagged `B3Z:` or `S <= B`; with
`ok = false` come `BadDigest` and a nil `ManifestParser`. In particular a blob
of exactly one block (`S = B`) and a manifest digest (tag `B3ZM:`) have no
manifest. -/
theorem Digest_ToManifest_ok_iff (parentNodeSizeBytes chunkNodeSizeBytes : Int) (d : Digest) (B : Int)
    (hash : List Char) (S : Int)
    (hh : d.GetHashString = some hash) (hs : d.GetSizeBytes = some S)
    (hB1 : 1 ≤ B) (hB2 : B < 9223372036854775808) :
    ∃ (m : Digest) (manifestParser : Option ManifestParser) (ok : Bool),
      Digest.ToManifest parentNodeSizeBytes chunkNodeSizeBytes d B = some (m, manifestParser, ok)
      ∧ (ok = false ↔ (¬ "B3Z:".data.isPrefixOf hash = true ∨ S ≤ B))
      ∧ (ok = false → m = BadDigest ∧ manifestParser = none)
      ∧ (S = B → ok = false)
      ∧ ("B3ZM:".data.isPrefixOf hash = true → ok = false) := by
  unfold Digest.GetHashString at hh
  unfold Digest.GetSizeBytes at hs
  cases hu : d.unpack with
  | none =>
    rw [hu] at hh
    exact absurd hh (by simp)
  | some t =>
    obtain ⟨hashEnd, S1, sizeBytesEnd⟩ := t
    rw [hu] at hh hs
    simp only [Option.some.injEq] at hh hs
    subst hs
    subst hh
    have hge := unpack_hashEnd_ge d hashEnd S1 sizeBytesEnd hu
    have hpre := isPrefixOf_take d.value hashEnd hge
    unfold Digest.ToManifest
    by_cases hp : "B3Z:".data.isPrefixOf d.value = true
    · rw [if_neg (not_not.mpr hp), hu]
      dsimp only
      by_cases hle : S1 ≤ B
      · rw [if_pos hle]
        exact ⟨_, _, _, rfl, ⟨fun _ => Or.inr hle, fun _ => rfl⟩, fun _ => ⟨rfl, rfl⟩, fun _ => rfl,
          fun _ => rfl⟩
      · rw [if_neg hle]
        have hne : ¬ toUint64 B = 0 := by
          unfold toUint64
          omega
        unfold convertSizeToBlockCount
        rw [if_neg hne]
        dsimp only
        refine ⟨_, _, _, rfl, ⟨fun h => absurd h (by simp), ?_⟩, fun h => absurd h (by simp), ?_, ?_⟩
        · intro h
          rcases h with h | h
          · exact absurd (hpre.mpr hp) h
          · exact absurd h hle
        · intro h
          exact absurd (le_of_eq h) hle
        · intro h
          exact absurd (hpre.mpr hp) (not_B3Z_of_B3ZM _ h)
    · rw [if_pos hp]
      exact ⟨_, _, _, rfl, ⟨fun _ => Or.inl (fun h => hp (hpre.mp h)), fun _ => rfl⟩,
        fun _ => ⟨rfl, rfl⟩, fun _ => rfl, fun _ => rfl⟩

/-- C18, witness: the blob of the test, 5121 bytes, with a block size of 5121
bytes: the blob is exactly one block and has no manifest. -/
theorem Digest_ToManifest_ok_iff_witness :
    ∃ (m : Digest) (manifestParser : Option ManifestParser) (ok : Bool),
      Digest.ToManifest 64 97 blobDigest 5121 = some (m, manifestParser, ok)
      ∧ (ok = false ↔
          (¬ "B3Z:".data.isPrefixOf
              "B3Z:4c522509f3e722ad893600907cbd2fa85bb8cc49ab945e76289bb71f4c3322d6".data = true
            ∨ (5121 : Int) ≤ 5121))
      ∧ (ok = false → m = BadDigest ∧ manifestParser = none)
      ∧ ((5121 : Int) = 5121 → ok = false)
      ∧ ("B3ZM:".data.isPrefixOf
            "B3Z:4c522509f3e722ad893600907cbd2fa85bb8cc49ab945e76289bb71f4c3322d6".data = true
          → ok = false) :=
  Digest_ToManifest_ok_iff 64 97 blobDigest 5121
    "B3Z:4c522509f3e722ad893600907cbd2fa85bb8cc49ab945e76289bb71f4c3322d6".data 5121
    (by decide) (by decide) (by decide) (by decide)

/-- C19 as stated fails when the manifest size overflows `int64`. For a blob
of `2^57` bytes and a block size of 1 byte, with a parent-node size of 64, the
size `2^57 * 64` wraps to `-2^63`; `%d` prints it with a minus sign, and the
key `B3ZM:...--9223372036854775808-instance` unpacks to size 0 and instance
name `9223372036854775808-instance`, not `instance`. -/
theorem Digest_ToManifest_identity_counterexample :
    (Digest.ToManifest 64 97
        (mkDigest "instance" "B3Z:4c522509f3e722ad893600907cbd2fa85bb8cc49ab945e76289bb71f4c3322d6"
          144115188075855872)
        1).map (fun r => (r.1.GetInstanceName, r.1.GetSizeBytes, r.2.2))
      = some (some "9223372036854775808-instance".data, some 0, true)
    ∧ (mkDigest "instance" "B3Z:4c522509f3e722ad893600907cbd2fa85bb8cc49ab945e76289bb71f4c3322d6"
        144115188075855872).GetInstanceName = some "instance".data := by
  decide

/-- C19, amended: the manifest digest keeps the blob's identity when the
manifest size fits in an `int64`. For a digest `d` tagged `B3Z:` whose hash
digits are hexadecimal, with size `S` and a block size `B` with `1 <= B < S`,
the digest `m` returned by `d.ToManifest(B)` has the hash string `B3ZM:`
followed by the hash digits of `d`, the hash bytes of `d` and the instance
name of `d`. -/
theorem Digest_ToManifest_identity (parentNodeSizeBytes chunkNodeSizeBytes : Int)
    (hex instanceName : List Char) (S : Nat) (B : Int)
    (hhex : ∀ c ∈ hex, (fromHexChar c).isSome = true)
    (hlen : 28 ≤ hex.length) (hS : S < 9223372036854775808)
    (hB1 : 1 ≤ B) (hBS : B < S) (hp : 0 ≤ parentNodeSizeBytes) (hc : 0 ≤ chunkNodeSizeBytes)
    (hfit : ((S : Int) + B - 1) / B * parentNodeSizeBytes + chunkNodeSizeBytes < 9223372036854775808) :
    ∃ (m : Digest) (manifestParser : Option ManifestParser),
      Digest.ToManifest parentNodeSizeBytes chunkNodeSizeBytes
          ⟨"B3Z:".data ++ hex ++ ['-'] ++ (Nat.repr S).data ++ ['-'] ++ instanceName⟩ B
        = some (m, manifestParser, true)
      ∧ Digest.GetHashString ⟨"B3Z:".data ++ hex ++ ['-'] ++ (Nat.repr S).data ++ ['-'] ++ instanceName⟩
        = some ("B3Z:".data ++ hex)
      ∧ m.GetHashString = some ("B3ZM:".data ++ hex)
      ∧ m.GetHashBytes
        = Digest.GetHashBytes ⟨"B3Z:".data ++ hex ++ ['-'] ++ (Nat.repr S).data ++ ['-'] ++ instanceName⟩
      ∧ m.GetHashBytes = hexDecodeString hex
      ∧ m.GetInstanceName
        = Digest.GetInstanceName ⟨"B3Z:".data ++ hex ++ ['-'] ++ (Nat.repr S).data ++ ['-'] ++ instanceName⟩
      ∧ m.GetInstanceName = some instanceName := by
  have hdash := dash_not_mem_of_hex hex hhex
  have hnot := not_B3ZM_of_hex hex hhex
  obtain ⟨M, _, hMlt, hT⟩ := ToManifest_key parentNodeSizeBytes chunkNodeSizeBytes hex instanceName S B
    hlen hdash hS hB1 hBS hp hc hfit
  have hdash1 : '-' ∉ "B3Z:".data ++ hex := by
    intro hm
    rcases List.mem_append.mp hm with h1 | h1
    · exact absurd h1 (by decide)
    · exact hdash h1
  have hdash2 : '-' ∉ "B3ZM:".data ++ hex := by
    intro hm
    rcases List.mem_append.mp hm with h1 | h1
    · exact absurd h1 (by decide)
    · exact hdash h1
  obtain ⟨hd1, _, hd3⟩ := key_getters ("B3Z:".data ++ hex) instanceName S
    (by rw [List.length_append]; have : "B3Z:".data.length = 4 := rfl; omega) hdash1 hS
  obtain ⟨hm1, _, hm3⟩ := key_getters ("B3ZM:".data ++ hex) instanceName M
    (by rw [List.length_append]; have : "B3ZM:".data.length = 5 := rfl; omega) hdash2 hMlt
  rw [List.append_assoc "B3Z:".data hex] at hd1 hd3
  rw [List.append_assoc "B3ZM:".data hex] at hm1 hm3
  have hdb : Digest.GetHashBytes
      ⟨"B3Z:".data ++ hex ++ ['-'] ++ (Nat.repr S).data ++ ['-'] ++ instanceName⟩ = hexDecodeString hex := by
    unfold Digest.GetHashBytes
    rw [List.append_assoc "B3Z:".data hex, hd1]
    dsimp only
    have e1 : "B3Z:".data.isPrefixOf ("B3Z:".data ++ hex) = true := by simp
    have e2 : ("B3Z:".data ++ hex).drop 4 = hex := rfl
    rw [if_pos e1, e2, if_neg hnot]
  have hmb : Digest.GetHashBytes
      ⟨"B3ZM:".data ++ hex ++ ['-'] ++ (Nat.repr M).data ++ ['-'] ++ instanceName⟩ = hexDecodeString hex := by
    unfold Digest.GetHashBytes
    rw [List.append_assoc "B3ZM:".data hex, hm1]
    dsimp only
    have e1 : ¬ "B3Z:".data.isPrefixOf ("B3ZM:".data ++ hex) = true :=
      fun h2 => Bool.noConfusion (show false = true from h2)
    have e2 : "B3ZM:".data.isPrefixOf ("B3ZM:".data ++ hex) = true := by simp
    have e3 : ("B3ZM:".data ++ hex).drop 5 = hex := rfl
    rw [if_neg e1, if_pos e2, e3]
  rw [← List.append_assoc "B3Z:".data hex] at hd1 hd3
  rw [← List.append_assoc "B3ZM:".data hex] at hm1 hm3
  exact ⟨_, _, hT, hd1, hm1, hmb.trans hdb.symm, hmb, hm3.trans hd3.symm, hm3⟩

/-- C19, witness: the blob of the test, 5121 bytes in `instance`, with blocks
of 2048 bytes: the manifest digest is `B3ZM:4c5225...22d6`, 192 bytes, in
`instance`. -/
theorem Digest_ToManifest_identity_witness :
    Digest.ToManifest 64 97 blobDigest 2048
        = some (mkDigest "instance"
            "B3ZM:4c522509f3e722ad893600907cbd2fa85bb8cc49ab945e76289bb71f4c3322d6" 192,
          some ⟨"instance".data, 5121, 2048, 32⟩, true)
      ∧ ∃ (m : Digest) (manifestParser : Option ManifestParser),
        Digest.ToManifest 64 97 blobDigest 2048 = some (m, manifestParser, true)
        ∧ blobDigest.GetHashString
          = some "B3Z:4c522509f3e722ad893600907cbd2fa85bb8cc49ab945e76289bb71f4c3322d6".data
        ∧ m.GetHashString
          = some "B3ZM:4c522509f3e722ad893600907cbd2fa85bb8cc49ab945e76289bb71f4c3322d6".data
        ∧ m.GetHashBytes = blobDigest.GetHashBytes
        ∧ m.GetHashBytes
          = hexDecodeString "4c522509f3e722ad893600907cbd2fa85bb8cc49ab945e76289bb71f4c3322d6".data
        ∧ m.GetInstanceName = blobDigest.GetInstanceName
        ∧ m.GetInstanceName = some "instance".data :=
  ⟨by decide,
    Digest_ToManifest_identity 64 97
      "4c522509f3e722ad893600907cbd2fa85bb8cc49ab945e76289bb71f4c3322d6".data "instance".data 5121 2048
      (by decide) (by decide) (by decide) (by decide) (by decide) (by decide) (by decide) (by decide)⟩

/-- C20: component extraction from the key format. For a digest whose key is
`hash-size-instance`, where the hash has at least 32 characters and contains
no `-`, the size is written in decimal and is below `2^63`, and the instance
name is any string (empty, or with `-` characters): `unpack` returns without
indexing past the end of the key, `GetHashString` is the hash, `GetSizeBytes`
the size and `GetInstanceName` the instance name. -/
theorem Digest_unpack_components (hash instanceName : List Char) (sizeBytes : Nat)
    (hlen : 32 ≤ hash.length) (hdash : '-' ∉ hash) (hsize : sizeBytes < 9223372036854775808) :
    Digest.unpack ⟨hash ++ ['-'] ++ (Nat.repr sizeBytes).data ++ ['-'] ++ instanceName⟩
        = some (hash.length, (sizeBytes : Int), hash.length + 1 + (Nat.repr sizeBytes).data.length)
      ∧ Digest.GetHashString ⟨hash ++ ['-'] ++ (Nat.repr sizeBytes).data ++ ['-'] ++ instanceName⟩
        = some hash
      ∧ Digest.GetSizeBytes ⟨hash ++ ['-'] ++ (Nat.repr sizeBytes).data ++ ['-'] ++ instanceName⟩
        = some (sizeBytes : Int)
      ∧ Digest.GetInstanceName ⟨hash ++ ['-'] ++ (Nat.repr sizeBytes).data ++ ['-'] ++ instanceName⟩
        = some instanceName :=
  ⟨unpack_key hash instanceName sizeBytes hlen hdash hsize,
    key_getters hash instanceName sizeBytes hlen hdash hsize⟩

/-- C20, witness: the key of the test digest, and a key whose instance name
contains `-` characters. -/
theorem Digest_unpack_components_witness :
    Digest.GetHashString (mkDigest "my-instance-1" "3e25960a79dbc69b674cd4ec67a72c62" 11)
        = some "3e25960a79dbc69b674cd4ec67a72c62".data
      ∧ Digest.GetSizeBytes (mkDigest "my-instance-1" "3e25960a79dbc69b674cd4ec67a72c62" 11) = some 11
      ∧ Digest.GetInstanceName (mkDigest "my-instance-1" "3e25960a79dbc69b674cd4ec67a72c62" 11)
        = some "my-instance-1".data :=
  (Digest_unpack_components "3e25960a79dbc69b674cd4ec67a72c62".data "my-instance-1".data 11
    (by decide) (by decide) (by decide)).2

/-- The getters of a digest, from what `unpack` returns. -/
theorem getters_of_unpack (d : Digest) (hashEnd : Nat) (sizeBytes : Int) (sizeBytesEnd : Nat)
    (hu : d.unpack = some (hashEnd, sizeBytes, sizeBytesEnd)) :
    d.GetHashString = some (d.value.take hashEnd) ∧ d.GetSizeBytes = some sizeBytes
      ∧ d.GetInstanceName = some (d.value.drop (sizeBytesEnd + 1)) := by
  unfold Digest.GetHashString Digest.GetSizeBytes Digest.GetInstanceName
  rw [hu]
  exact ⟨rfl, rfl, rfl⟩

/-- What `unpack` returned, from the getters. -/
theorem unpack_of_getters (d : Digest) (hash : List Char) (sizeBytes : Int)
    (hh : d.GetHashString = some hash) (hs : d.GetSizeBytes = some sizeBytes) :
    ∃ hashEnd sizeBytesEnd, d.unpack = some (hashEnd, sizeBytes, sizeBytesEnd)
      ∧ hash = d.value.take hashEnd ∧ 32 ≤ hashEnd := by
  unfold Digest.GetHashString at hh
  unfold Digest.GetSizeBytes at hs
  cases hu : d.unpack with
  | none =>
    rw [hu] at hh
    exact absurd hh (by simp)
  | some t =>
    obtain ⟨hashEnd, S1, sizeBytesEnd⟩ := t
    rw [hu] at hh hs
    simp only [Option.some.injEq] at hh hs
    subst hs
    exact ⟨hashEnd, sizeBytesEnd, rfl, hh.symm, unpack_hashEnd_ge d hashEnd S1 sizeBytesEnd hu⟩

/-- The key without the instance name determines the hash and the size. -/
theorem key_without_instance_inj (hash1 hash2 : List Char) (size1 size2 : Nat)
    (hlen1 : 32 ≤ hash1.length) (hdash1 : '-' ∉ hash1) (hsize1 : size1 < 9223372036854775808)
    (hlen2 : 32 ≤ hash2.length) (hdash2 : '-' ∉ hash2) (hsize2 : size2 < 9223372036854775808)
    (h : hash1 ++ ['-'] ++ (Nat.repr size1).data = hash2 ++ ['-'] ++ (Nat.repr size2).data) :
    hash1 = hash2 ∧ size1 = size2 := by
  obtain ⟨a1, a2, _⟩ := key_getters hash1 [] size1 hlen1 hdash1 hsize1
  obtain ⟨b1, b2, _⟩ := key_getters hash2 [] size2 hlen2 hdash2 hsize2
  rw [h] at a1 a2
  rw [a1] at b1
  rw [a2] at b2
  simp only [Option.some.injEq] at b1 b2
  exact ⟨b1, by exact_mod_cast b2⟩

/-- C21: hash-table keys. For a digest with key `hash-size-instance`,
`GetKey(KeyWithInstance)` and `String()` are the whole key,
`GetKey(KeyWithoutInstance)` is `hash-size`, and any other `KeyFormat` value
panics. Hence two such digests have the same `KeyWithoutInstance` key exactly
when they have the same hash and size, whatever their instance names, and the
same `KeyWithInstance` key exactly when they are equal. -/
theorem Digest_GetKey_formats (hash instanceName : List Char) (sizeBytes : Nat)
    (hlen : 32 ≤ hash.length) (hdash : '-' ∉ hash) (hsize : sizeBytes < 9223372036854775808) :
    Digest.GetKey ⟨hash ++ ['-'] ++ (Nat.repr sizeBytes).data ++ ['-'] ++ instanceName⟩ KeyWithInstance
        = some (hash ++ ['-'] ++ (Nat.repr sizeBytes).data ++ ['-'] ++ instanceName)
      ∧ Digest.String ⟨hash ++ ['-'] ++ (Nat.repr sizeBytes).data ++ ['-'] ++ instanceName⟩
        = hash ++ ['-'] ++ (Nat.repr sizeBytes).data ++ ['-'] ++ instanceName
      ∧ Digest.GetKey ⟨hash ++ ['-'] ++ (Nat.repr sizeBytes).data ++ ['-'] ++ instanceName⟩ KeyWithoutInstance
        = some (hash ++ ['-'] ++ (Nat.repr sizeBytes).data)
      ∧ (∀ format : KeyFormat, format ≠ KeyWithoutInstance → format ≠ KeyWithInstance →
          Digest.GetKey ⟨hash ++ ['-'] ++ (Nat.repr sizeBytes).data ++ ['-'] ++ instanceName⟩ format = none)
      ∧ (∀ (hash2 instanceName2 : List Char) (sizeBytes2 : Nat), 32 ≤ hash2.length → '-' ∉ hash2 →
          sizeBytes2 < 9223372036854775808 →
          ((Digest.GetKey ⟨hash ++ ['-'] ++ (Nat.repr sizeBytes).data ++ ['-'] ++ instanceName⟩
                KeyWithoutInstance
              = Digest.GetKey ⟨hash2 ++ ['-'] ++ (Nat.repr sizeBytes2).data ++ ['-'] ++ instanceName2⟩
                KeyWithoutInstance
            ↔ hash = hash2 ∧ sizeBytes = sizeBytes2)
          ∧ (Digest.GetKey ⟨hash ++ ['-'] ++ (Nat.repr sizeBytes).data ++ ['-'] ++ instanceName⟩
                KeyWithInstance
              = Digest.GetKey ⟨hash2 ++ ['-'] ++ (Nat.repr sizeBytes2).data ++ ['-'] ++ instanceName2⟩
                KeyWithInstance
            ↔ (⟨hash ++ ['-'] ++ (Nat.repr sizeBytes).data ++ ['-'] ++ instanceName⟩ : Digest)
              = ⟨hash2 ++ ['-'] ++ (Nat.repr sizeBytes2).data ++ ['-'] ++ instanceName2⟩))) := by
  have hkey : ∀ (h i : List Char) (s : Nat), 32 ≤ h.length → '-' ∉ h → s < 9223372036854775808 →
      Digest.GetKey ⟨h ++ ['-'] ++ (Nat.repr s).data ++ ['-'] ++ i⟩ KeyWithoutInstance
        = some (h ++ ['-'] ++ (Nat.repr s).data) := by
    intro h i s h1 h2 h3
    unfold Digest.GetKey
    rw [if_pos rfl, unpack_key h i s h1 h2 h3]
    dsimp only
    have e : h.length + 1 + (Nat.repr s).data.length = (h ++ ['-'] ++ (Nat.repr s).data).length := by
      simp only [List.length_append, List.length_singleton]
    rw [e, List.append_assoc (h ++ ['-'] ++ (Nat.repr s).data), List.take_left' rfl]
  refine ⟨rfl, rfl, hkey hash instanceName sizeBytes hlen hdash hsize, ?_, ?_⟩
  · intro format h0 h1
    unfold Digest.GetKey
    rw [if_neg h0, if_neg h1]
  · intro hash2 instanceName2 sizeBytes2 hlen2 hdash2 hsize2
    constructor
    · rw [hkey hash instanceName sizeBytes hlen hdash hsize,
        hkey hash2 instanceName2 sizeBytes2 hlen2 hdash2 hsize2]
      constructor
      · intro h
        exact key_without_instance_inj hash hash2 sizeBytes sizeBytes2 hlen hdash hsize hlen2 hdash2 hsize2
          (Option.some.inj h)
      · rintro ⟨rfl, rfl⟩
        rfl
    · constructor
      · intro h
        exact congrArg Digest.mk (Option.some.inj h)
      · intro h
        rw [h]

/-- C21, witness: the digest of the tests. -/
theorem Digest_GetKey_formats_witness :
    helloDigest.GetKey KeyWithInstance = some "3e25960a79dbc69b674cd4ec67a72c62-11-instance".data
      ∧ helloDigest.String = "3e25960a79dbc69b674cd4ec67a72c62-11-instance".data
      ∧ helloDigest.GetKey KeyWithoutInstance = some "3e25960a79dbc69b674cd4ec67a72c62-11".data :=
  have h := Digest_GetKey_formats "3e25960a79dbc69b674cd4ec67a72c62".data "instance".data 11
    (by decide) (by decide) (by decide)
  ⟨h.1, h.2.1, h.2.2.1⟩

/-- C22: `Combine` picks the format with the most information. For the two
defined formats the result is `KeyWithInstance` exactly when one of the
arguments is; `Combine` is commutative, associative (for any third format) and
idempotent, and `KeyWithoutInstance` is its identity. -/
theorem KeyFormat_Combine_most_information (a b c : KeyFormat)
    (ha : a = KeyWithoutInstance ∨ a = KeyWithInstance)
    (hb : b = KeyWithoutInstance ∨ b = KeyWithInstance) :
    (a.Combine b = KeyWithInstance ↔ a = KeyWithInstance ∨ b = KeyWithInstance)
      ∧ a.Combine b = b.Combine a
      ∧ (a.Combine b).Combine c = a.Combine (b.Combine c)
      ∧ a.Combine a = a
      ∧ KeyWithoutInstance.Combine a = a
      ∧ a.Combine KeyWithoutInstance = a
      ∧ (a.Combine b = KeyWithoutInstance ∨ a.Combine b = KeyWithInstance) := by
  have h01 : KeyWithoutInstance ≠ KeyWithInstance := by decide
  rcases ha with rfl | rfl <;> rcases hb with rfl | rfl <;>
    simp [KeyFormat.Combine, h01]

/-- C22, witness: the two formats combined. -/
theorem KeyFormat_Combine_most_information_witness :
    KeyWithoutInstance.Combine KeyWithInstance = KeyWithInstance.Combine KeyWithoutInstance
      ∧ KeyWithoutInstance.Combine KeyWithInstance = KeyWithInstance :=
  have h := KeyFormat_Combine_most_information KeyWithoutInstance KeyWithInstance KeyWithoutInstance
    (Or.inl rfl) (Or.inr rfl)
  ⟨h.2.1, h.1.mpr (Or.inr rfl)⟩

/-- The end of the hash found by the first loop of `unpack` lies inside the key. -/
theorem unpackHashEnd_lt (l : List Char) (i j : Nat) (h : unpackHashEnd l i = some j) :
    j < i + l.length := by
  induction l generalizing i with
  | nil => simp [unpackHashEnd] at h
  | cons c cs ih =>
    unfold unpackHashEnd at h
    split_ifs at h
    · simp only [Option.some.injEq] at h
      simp only [List.length_cons]
      omega
    · have := ih (i + 1) h
      simp only [List.length_cons]
      omega

/-- The hash string of a digest is as long as the end of the hash found by
`unpack`. -/
theorem unpack_hashEnd_length (d : Digest) (hashEnd : Nat) (sizeBytes : Int) (sizeBytesEnd : Nat)
    (h : d.unpack = some (hashEnd, sizeBytes, sizeBytesEnd)) : (d.value.take hashEnd).length = hashEnd := by
  unfold Digest.unpack at h
  cases h1 : unpackHashEnd (d.value.drop 32) 32 with
  | none => simp [h1] at h
  | some e =>
    rw [h1] at h
    dsimp only at h
    cases h2 : unpackSize (d.value.drop (e + 1)) 0 (e + 1) with
    | none => simp [h2] at h
    | some r =>
      rw [h2] at h
      simp only [Option.some.injEq, Prod.mk.injEq] at h
      have h3 := unpackHashEnd_lt _ _ _ h1
      have h4 := unpackHashEnd_le _ _ _ h1
      have h5 : e = hashEnd := h.1
      rw [List.length_drop] at h3
      rw [List.length_take]
      omega

/-- Decoding `2n` hexadecimal digits gives `n` bytes. -/
theorem hexDecodeString_length : ∀ (n : Nat) (s : List Char) (bs : List Nat), s.length ≤ n →
    hexDecodeString s = some bs → bs.length = s.length / 2
  | _, [], bs, _, h => by
    simp only [hexDecodeString, Option.some.injEq] at h
    subst h
    rfl
  | _, [_], _, _, h => by simp [hexDecodeString] at h
  | 0, _ :: _ :: _, _, hn, _ => by simp at hn
  | n + 1, a :: b :: rest, bs, hn, h => by
    unfold hexDecodeString at h
    cases ha : fromHexChar a with
    | none => simp [ha] at h
    | some x =>
      cases hb : fromHexChar b with
      | none => simp [ha, hb] at h
      | some y =>
        cases hr : hexDecodeString rest with
        | none => simp [ha, hb, hr] at h
        | some tl =>
          simp only [ha, hb, hr, Option.some.injEq] at h
          subst h
          have ih := hexDecodeString_length n rest tl
            (by simp only [List.length_cons] at hn; omega) hr
          simp only [List.length_cons, ih]
          omega

/-- Digits that decode do not start with the tag `B3ZM:`. -/
theorem not_B3ZM_of_decodes (s : List Char) (bs : List Nat) (h : hexDecodeString s = some bs) :
    ¬ "B3ZM:".data.isPrefixOf s = true := by
  intro hp
  obtain ⟨t, rfl⟩ := List.isPrefixOf_iff_prefix.mp hp
  have e : hexDecodeString ("B3ZM:".data ++ t) = none := by
    show hexDecodeString ('B' :: '3' :: 'Z' :: 'M' :: ':' :: t) = none
    unfold hexDecodeString
    have hB : fromHexChar 'B' = some 11 := by decide
    have h3 : fromHexChar '3' = some 3 := by decide
    rw [hB, h3]
    unfold hexDecodeString
    have hZ : fromHexChar 'Z' = none := by decide
    rw [hZ]
  rw [e] at h
  exact absurd h (by simp)

/-- C25: `GetProto` encodes the hash by its tag. For a digest with hash string
`hash` and size `S`: when the hash is tagged `B3Z:`, `GetProto` decodes the
digits after the tag, returns them in `HashBlake3Zcc` with the other hash
fields unset (it panics when they do not decode), and the bytes are those of
`GetHashBytes`; when the hash is tagged `B3ZM:`, likewise with
`HashBlake3ZccManifest`; otherwise only `HashOther` is set, to the hash
string. In every case `SizeBytes` is `S`. -/
theorem Digest_GetProto_by_tag (d : Digest) (hash : List Char) (S : Int)
    (hh : d.GetHashString = some hash) (hs : d.GetSizeBytes = some S) :
    ("B3Z:".data.isPrefixOf hash = true →
        d.GetProto = (hexDecodeString (hash.drop 4)).map (fun hashBytes => ⟨[], hashBytes, [], S⟩)
        ∧ ∀ hashBytes, hexDecodeString (hash.drop 4) = some hashBytes → d.GetHashBytes = some hashBytes)
      ∧ ("B3ZM:".data.isPrefixOf hash = true →
        d.GetProto = (hexDecodeString (hash.drop 5)).map (fun hashBytes => ⟨[], [], hashBytes, S⟩)
        ∧ d.GetHashBytes = hexDecodeString (hash.drop 5))
      ∧ (¬ "B3Z:".data.isPrefixOf hash = true → ¬ "B3ZM:".data.isPrefixOf hash = true →
        d.GetProto = some ⟨hash, [], [], S⟩)
      ∧ (∀ p, d.GetProto = some p → p.SizeBytes = S) := by
  obtain ⟨hashEnd, sizeBytesEnd, hu, rfl, _⟩ := unpack_of_getters d hash S hh hs
  have hproto : d.GetProto =
      (if "B3Z:".data.isPrefixOf (d.value.take hashEnd) = true then
        (hexDecodeString ((d.value.take hashEnd).drop 4)).map (fun hashBytes => ⟨[], hashBytes, [], S⟩)
      else if "B3ZM:".data.isPrefixOf (d.value.take hashEnd) = true then
        (hexDecodeString ((d.value.take hashEnd).drop 5)).map (fun hashBytes => ⟨[], [], hashBytes, S⟩)
      else some ⟨d.value.take hashEnd, [], [], S⟩) := by
    unfold Digest.GetProto
    rw [hu]
    dsimp only
    split_ifs
    · cases hexDecodeString ((d.value.take hashEnd).drop 4) <;> rfl
    · cases hexDecodeString ((d.value.take hashEnd).drop 5) <;> rfl
    · rfl
  have hbytes : d.GetHashBytes =
      hexDecodeString
        (if "B3ZM:".data.isPrefixOf
            (if "B3Z:".data.isPrefixOf (d.value.take hashEnd) = true then (d.value.take hashEnd).drop 4
              else d.value.take hashEnd) = true
          then (if "B3Z:".data.isPrefixOf (d.value.take hashEnd) = true then (d.value.take hashEnd).drop 4
              else d.value.take hashEnd).drop 5
          else (if "B3Z:".data.isPrefixOf (d.value.take hashEnd) = true then (d.value.take hashEnd).drop 4
              else d.value.take hashEnd)) := by
    unfold Digest.GetHashBytes
    rw [hh]
  refine ⟨?_, ?_, ?_, ?_⟩
  · intro hp
    refine ⟨by rw [hproto, if_pos hp], ?_⟩
    intro hashBytes hdec
    rw [hbytes, if_pos hp, if_neg (not_B3ZM_of_decodes _ _ hdec), hdec]
  · intro hp
    have hnot := not_B3Z_of_B3ZM _ hp
    refine ⟨by rw [hproto, if_neg hnot, if_pos hp], ?_⟩
    rw [hbytes, if_neg hnot, if_pos hp]
  · intro h1 h2
    rw [hproto, if_neg h1, if_neg h2]
  · intro p hp
    rw [hproto] at hp
    split_ifs at hp
    · cases hdec : hexDecodeString ((d.value.take hashEnd).drop 4) with
      | none => simp [hdec] at hp
      | some bs =>
        simp only [hdec, Option.map_some', Option.some.injEq] at hp
        rw [← hp]
    · cases hdec : hexDecodeString ((d.value.take hashEnd).drop 5) with
      | none => simp [hdec] at hp
      | some bs =>
        simp only [hdec, Option.map_some', Option.some.injEq] at hp
        rw [← hp]
    · simp only [Option.some.injEq] at hp
      rw [← hp]

/-- C25, witness: the blob digest of the tests, tagged `B3Z:`, and the MD5
digest of the buffer tests. -/
theorem Digest_GetProto_by_tag_witness :
    blobDigest.GetProto = some ⟨[], [76, 82, 37, 9, 243, 231, 34, 173, 137, 54, 0, 144, 124, 189, 47, 168,
        91, 184, 204, 73, 171, 148, 94, 118, 40, 155, 183, 31, 76, 51, 34, 214], [], 5121⟩
      ∧ helloDigest.GetProto = some ⟨"3e25960a79dbc69b674cd4ec67a72c62".data, [], [], 11⟩ :=
  ⟨((Digest_GetProto_by_tag blobDigest
      "B3Z:4c522509f3e722ad893600907cbd2fa85bb8cc49ab945e76289bb71f4c3322d6".data 5121
      (by decide) (by decide)).1 (by decide)).1,
    (Digest_GetProto_by_tag helloDigest "3e25960a79dbc69b674cd4ec67a72c62".data 11
      (by decide) (by decide)).2.2.1 (by decide) (by decide)⟩

/-- C26 fails on the code for BLAKE3ZCC digests: `GetDigestFunction` passes the
length of the whole hash string, tag included, to `getHasherFactory`, which
knows the lengths 32, 40, 64, 96 and 128 only. For the blob digest of the
tests (`B3Z:` and 64 digits, 68 characters) it panics, while `NewHasher` on the
same digest handles the tag and returns the BLAKE3ZCC blob hasher. -/
theorem Digest_GetDigestFunction_BLAKE3ZCC :
    blobDigest.GetHashString
        = some "B3Z:4c522509f3e722ad893600907cbd2fa85bb8cc49ab945e76289bb71f4c3322d6".data
      ∧ blobDigest.GetDigestFunction = none
      ∧ blobDigest.NewHasher = some (.BLAKE3ZCCBlob 32)
      ∧ helloDigest.GetDigestFunction = some ⟨⟨"instance".data⟩, .MD5, 32⟩
      ∧ helloDigest.UsesDigestFunction ⟨⟨"instance".data⟩, .MD5, 32⟩ = some true := by
  decide

/-- C27: `NewHasher` uses the algorithm the digest was created with. For a
digest with hash string `hash`: tagged `B3Z:` it is the BLAKE3ZCC blob hasher
and tagged `B3ZM:` the BLAKE3ZCC manifest hasher, each with an output length
of half the number of digits after the tag; untagged it is selected by the
length of the hash: 32 MD5, 40 SHA-1, 64 SHA-256, 96 SHA-384, 128 SHA-512 (the
only lengths on which it returns). Whenever the digits of the hash, those
after the tag `B3Z:` or `B3ZM:` if there is one, are hexadecimal, the checksum
of the hasher is as long as `GetHashBytes`. -/
theorem Digest_NewHasher_algorithm (d : Digest) (hash : List Char)
    (hh : d.GetHashString = some hash) :
    ("B3Z:".data.isPrefixOf hash = true →
        d.NewHasher = some (.BLAKE3ZCCBlob ((hash.drop 4).length / 2)))
      ∧ ("B3ZM:".data.isPrefixOf hash = true →
        d.NewHasher = some (.BLAKE3ZCCManifest ((hash.drop 5).length / 2)))
      ∧ (¬ "B3Z:".data.isPrefixOf hash = true → ¬ "B3ZM:".data.isPrefixOf hash = true →
        (hash.length = 32 → d.NewHasher = some .MD5)
        ∧ (hash.length = 40 → d.NewHasher = some .SHA1)
        ∧ (hash.length = 64 → d.NewHasher = some .SHA256)
        ∧ (hash.length = 96 → d.NewHasher = some .SHA384)
        ∧ (hash.length = 128 → d.NewHasher = some .SHA512)
        ∧ (d.NewHasher = none ↔ hash.length ≠ 32 ∧ hash.length ≠ 40 ∧ hash.length ≠ 64
            ∧ hash.length ≠ 96 ∧ hash.length ≠ 128))
      ∧ (∀ (hasher : HashAlgorithm) (hashBytes : List Nat), d.NewHasher = some hasher →
          d.GetHashBytes = some hashBytes →
          (∀ c ∈ (if "B3Z:".data.isPrefixOf hash = true then hash.drop 4
              else if "B3ZM:".data.isPrefixOf hash = true then hash.drop 5 else hash),
            (fromHexChar c).isSome = true) →
          hasher.Size = hashBytes.length) := by
  have hh0 := hh
  unfold Digest.GetHashString at hh
  cases hu : d.unpack with
  | none =>
    rw [hu] at hh
    exact absurd hh (by simp)
  | some t =>
    obtain ⟨hashEnd, S1, sizeBytesEnd⟩ := t
    rw [hu] at hh
    simp only [Option.some.injEq] at hh
    have hge := unpack_hashEnd_ge d hashEnd S1 sizeBytesEnd hu
    have hlength : hash.length = hashEnd := by
      rw [← hh]
      exact unpack_hashEnd_length d hashEnd S1 sizeBytesEnd hu
    have hnew : d.NewHasher =
        (if "B3Z:".data.isPrefixOf hash = true then some (.BLAKE3ZCCBlob ((hash.drop 4).length / 2))
          else if "B3ZM:".data.isPrefixOf hash = true then
            some (.BLAKE3ZCCManifest ((hash.drop 5).length / 2))
          else getHasherFactory hashEnd) := by
      unfold Digest.NewHasher
      rw [hh0, hu]
    have hbytes : d.GetHashBytes =
        hexDecodeString
          (if "B3ZM:".data.isPrefixOf
              (if "B3Z:".data.isPrefixOf hash = true then hash.drop 4 else hash) = true
            then (if "B3Z:".data.isPrefixOf hash = true then hash.drop 4 else hash).drop 5
            else (if "B3Z:".data.isPrefixOf hash = true then hash.drop 4 else hash)) := by
      unfold Digest.GetHashBytes
      rw [hh0]
    refine ⟨?_, ?_, ?_, ?_⟩
    · intro hp
      rw [hnew, if_pos hp]
    · intro hp
      rw [hnew, if_neg (not_B3Z_of_B3ZM _ hp), if_pos hp]
    · intro h1 h2
      rw [hnew, if_neg h1, if_neg h2, ← hlength]
      unfold getHasherFactory
      refine ⟨?_, ?_, ?_, ?_, ?_, ?_⟩
      · intro e
        rw [e]
        rfl
      · intro e
        rw [e]
        rfl
      · intro e
        rw [e]
        rfl
      · intro e
        rw [e]
        rfl
      · intro e
        rw [e]
        rfl
      · split_ifs <;> simp_all
    · intro hasher hashBytes hn hb hhex
      rw [hbytes] at hb
      rw [hnew] at hn
      by_cases hp : "B3Z:".data.isPrefixOf hash = true
      · rw [if_pos hp] at hhex hb hn
        rw [if_neg (not_B3ZM_of_hex _ hhex)] at hb
        have hl := hexDecodeString_length _ _ _ (le_refl _) hb
        simp only [Option.some.injEq] at hn
        rw [← hn, hl]
        rfl
      · rw [if_neg hp] at hhex hb hn
        by_cases hm : "B3ZM:".data.isPrefixOf hash = true
        · rw [if_pos hm] at hhex hb hn
          have hl := hexDecodeString_length _ _ _ (le_refl _) hb
          simp only [Option.some.injEq] at hn
          rw [← hn, hl]
          rfl
        · rw [if_neg hm] at hhex hb hn
          have hl := hexDecodeString_length _ _ _ (le_refl _) hb
          rw [← hlength] at hn
          unfold getHasherFactory at hn
          split_ifs at hn with e1 e2 e3 e4 e5 <;> simp only [Option.some.injEq] at hn <;>
            rw [← hn, hl] <;> simp only [HashAlgorithm.Size] <;> omega

/-- C27, witness: the MD5 digest of the buffer tests, the blob digest of the
manifest tests, and the manifest digest of the manifest tests, whose hasher
is the BLAKE3ZCC manifest hasher with an output of 32 bytes, the length of its
`GetHashBytes`. -/
theorem Digest_NewHasher_algorithm_witness :
    helloDigest.NewHasher = some .MD5 ∧ blobDigest.NewHasher = some (.BLAKE3ZCCBlob 32)
      ∧ (mkDigest "instance" "B3ZM:4c522509f3e722ad893600907cbd2fa85bb8cc49ab945e76289bb71f4c3322d6"
          192).NewHasher = some (.BLAKE3ZCCManifest 32)
      ∧ (HashAlgorithm.BLAKE3ZCCManifest 32).Size
          = (hexDecodeString "4c522509f3e722ad893600907cbd2fa85bb8cc49ab945e76289bb71f4c3322d6".data).get!.length :=
  ⟨((Digest_NewHasher_algorithm helloDigest "3e25960a79dbc69b674cd4ec67a72c62".data
      (by decide)).2.2.1 (by decide) (by decide)).1 (by decide),
    (Digest_NewHasher_algorithm blobDigest
      "B3Z:4c522509f3e722ad893600907cbd2fa85bb8cc49ab945e76289bb71f4c3322d6".data
      (by decide)).1 (by decide),
    (Digest_NewHasher_algorithm
      (mkDigest "instance" "B3ZM:4c522509f3e722ad893600907cbd2fa85bb8cc49ab945e76289bb71f4c3322d6" 192)
      "B3ZM:4c522509f3e722ad893600907cbd2fa85bb8cc49ab945e76289bb71f4c3322d6".data
      (by decide)).2.1 (by decide),
    (Digest_NewHasher_algorithm
      (mkDigest "instance" "B3ZM:4c522509f3e722ad893600907cbd2fa85bb8cc49ab945e76289bb71f4c3322d6" 192)
      "B3ZM:4c522509f3e722ad893600907cbd2fa85bb8cc49ab945e76289bb71f4c3322d6".data
      (by decide)).2.2.2 (.BLAKE3ZCCManifest 32)
      (hexDecodeString "4c522509f3e722ad893600907cbd2fa85bb8cc49ab945e76289bb71f4c3322d6".data).get!
      (by decide) (by decide) (by decide)⟩

/-- Joining at least two elements: the first, the separator, the rest joined. -/
theorem stringsJoin_cons_cons (sep a b : List Char) (l : List (List Char)) :
    stringsJoin (a :: b :: l) sep = a ++ sep ++ stringsJoin (b :: l) sep := by
  simp [stringsJoin, List.intercalate, List.intersperse]

/-- Joining a single element. -/
theorem stringsJoin_singleton (sep a : List Char) : stringsJoin [a] sep = a := by
  simp [stringsJoin, List.intercalate, List.intersperse]

/-- A joined list used as the first element of a join is the join of the
concatenation. -/
theorem stringsJoin_stringsJoin (sep : List Char) (l rest : List (List Char)) (hl : l ≠ [])
    (hrest : rest ≠ []) :
    stringsJoin (stringsJoin l sep :: rest) sep = stringsJoin (l ++ rest) sep := by
  obtain ⟨r, rs, rfl⟩ : ∃ r rs, rest = r :: rs := by
    cases rest with
    | nil => exact absurd rfl hrest
    | cons r rs => exact ⟨r, rs, rfl⟩
  induction l with
  | nil => exact absurd rfl hl
  | cons a l ih =>
    cases l with
    | nil =>
      rw [stringsJoin_singleton]
      rfl
    | cons b l =>
      have ih2 := ih (by simp)
      rw [stringsJoin_cons_cons] at ih2
      show stringsJoin (stringsJoin (a :: b :: l) sep :: r :: rs) sep
        = stringsJoin (a :: (b :: l ++ r :: rs)) sep
      rw [stringsJoin_cons_cons, stringsJoin_cons_cons sep a b l]
      show a ++ sep ++ stringsJoin (b :: l) sep ++ sep ++ stringsJoin (r :: rs) sep
        = stringsJoin (a :: b :: (l ++ r :: rs)) sep
      rw [stringsJoin_cons_cons sep a b (l ++ r :: rs)]
      show a ++ sep ++ stringsJoin (b :: l) sep ++ sep ++ stringsJoin (r :: rs) sep
        = a ++ sep ++ stringsJoin (b :: l ++ r :: rs) sep
      rw [← ih2]
      simp only [List.append_assoc]

/-- The fields of a path joined from non-empty elements without slashes are
these elements. -/
theorem stringsFieldsFunc_stringsJoin (comps : List (List Char)) (hne : comps ≠ [])
    (h : ∀ e ∈ comps, pathElement e) :
    stringsFieldsFunc (stringsJoin comps "/".data) (fun r => r == '/') = comps := by
  have hs : (stringsJoin comps "/".data).splitOnP (fun r => r == '/') = comps :=
    List.splitOn_intercalate comps '/' (fun l hl => (h l hl).2.1) hne
  unfold stringsFieldsFunc
  rw [hs, List.filter_eq_self]
  intro e he
  have := (h e he).1
  cases e with
  | nil => exact absurd rfl this
  | cons c cs => rfl

/-- The elements `path.Clean` keeps are appended one by one. -/
theorem foldl_pathCleanStep (comps acc : List (List Char)) (h : ∀ e ∈ comps, pathElement e) :
    comps.foldl (pathCleanStep false) (acc, 0) = (acc ++ comps, 0) := by
  induction comps generalizing acc with
  | nil => simp
  | cons e es ih =>
    obtain ⟨h1, _, h3, h4⟩ := h e (List.mem_cons_self _ _)
    have hstep : pathCleanStep false (acc, 0) e = (acc ++ [e], 0) := by
      unfold pathCleanStep
      rw [if_neg (by simp [h1, h3]), if_neg h4]
    rw [List.foldl_cons, hstep, ih _ (fun x hx => h x (List.mem_cons_of_mem _ hx))]
    simp

/-- A path joined from elements that `path.Clean` keeps is clean. -/
theorem pathClean_stringsJoin (comps : List (List Char)) (hne : comps ≠ [])
    (h : ∀ e ∈ comps, pathElement e) :
    pathClean (stringsJoin comps "/".data) = stringsJoin comps "/".data := by
  have hs : (stringsJoin comps "/".data).splitOn '/' = comps :=
    List.splitOn_intercalate comps '/' (fun l hl => (h l hl).2.1) hne
  obtain ⟨e, es, rfl⟩ : ∃ e es, comps = e :: es := by
    cases comps with
    | nil => exact absurd rfl hne
    | cons e es => exact ⟨e, es, rfl⟩
  obtain ⟨h1, h2, _, _⟩ := h e (List.mem_cons_self _ _)
  obtain ⟨c, cs, rfl⟩ : ∃ c cs, e = c :: cs := by
    cases e with
    | nil => exact absurd rfl h1
    | cons c cs => exact ⟨c, cs, rfl⟩
  have hc : c ≠ '/' := fun hc => h2 (by rw [hc]; exact List.mem_cons_self _ _)
  have hpath : ∃ t, stringsJoin ((c :: cs) :: es) "/".data = c :: t := by
    cases es with
    | nil => exact ⟨cs, by rw [stringsJoin_singleton]⟩
    | cons b l => exact ⟨_, by rw [stringsJoin_cons_cons]; rfl⟩
  obtain ⟨t, ht⟩ := hpath
  have hne2 : stringsJoin ((c :: cs) :: es) "/".data ≠ [] := by
    rw [ht]
    exact List.cons_ne_nil _ _
  have hroot : ¬ ((stringsJoin ((c :: cs) :: es) "/".data).head? = some '/') := by
    rw [ht]
    simp only [List.head?_cons, Option.some.injEq]
    exact hc
  unfold pathClean
  rw [if_neg hne2, hs]
  dsimp only
  rw [decide_eq_false hroot, foldl_pathCleanStep _ _ h, if_neg hroot]
  simp only [List.nil_append]
  rw [if_neg hne2]

/-- A decimal digit character is a digit, with its value. -/
theorem digitChar_isDigit (m : Nat) (h : m < 10) :
    (Nat.digitChar m).isDigit = true ∧ (Nat.digitChar m).toNat - 48 = m := by
  interval_cases m <;> decide

/-- The decimal digits of a number: a non-empty string of digits whose value
is the number. -/
theorem toDigits_decimal (n : Nat) :
    Nat.toDigits 10 n ≠ [] ∧ (∀ c ∈ Nat.toDigits 10 n, c.isDigit = true)
      ∧ (Nat.toDigits 10 n).foldl (fun acc c => acc * 10 + (c.toNat - 48)) 0 = n := by
  induction n using Nat.strong_induction_on with
  | _ n ih =>
    by_cases h10 : n < 10
    · obtain ⟨hd, hv⟩ := digitChar_isDigit n h10
      rw [toDigits_of_lt_ten n h10]
      refine ⟨List.cons_ne_nil _ _, ?_, ?_⟩
      · intro c hc
        rw [List.mem_singleton] at hc
        rw [hc]
        exact hd
      · simp only [List.foldl_cons, List.foldl_nil, hv]
        omega
    · have hlt : n / 10 < n := Nat.div_lt_self (by omega) (by decide)
      obtain ⟨hd, hv⟩ := digitChar_isDigit (n % 10) (Nat.mod_lt _ (by decide))
      obtain ⟨_, i2, i3⟩ := ih (n / 10) hlt
      rw [toDigits_of_ten_le n (by omega)]
      refine ⟨by simp, ?_, ?_⟩
      · intro c hc
        rcases List.mem_append.mp hc with h1 | h1
        · exact i2 c h1
        · rw [List.mem_singleton] at h1
          rw [h1]
          exact hd
      · rw [List.foldl_append, i3]
        simp only [List.foldl_cons, List.foldl_nil, hv]
        omega

/-- The decimal form of a size is a path element. -/
theorem pathElement_repr (n : Nat) : pathElement (Nat.repr n).data := by
  obtain ⟨h1, h2, _⟩ := toDigits_decimal n
  have e : (Nat.repr n).data = Nat.toDigits 10 n := rfl
  rw [e]
  refine ⟨h1, ?_, ?_, ?_⟩
  · intro h
    exact absurd (h2 _ h) (by decide)
  · intro h
    have := h2 '.' (by rw [h]; decide)
    exact absurd this (by decide)
  · intro h
    have := h2 '.' (by rw [h]; decide)
    exact absurd this (by decide)

/-- `ParseInt` reads the decimal form of a size below `2^63` back. -/
theorem strconvParseInt_repr (n : Nat) (hn : n < 9223372036854775808) :
    strconvParseInt (Nat.repr n).data = some (n : Int) := by
  obtain ⟨h1, h2, h3⟩ := toDigits_decimal n
  have e : (Nat.repr n).data = Nat.toDigits 10 n := rfl
  rw [e]
  obtain ⟨c, cs, hcs⟩ : ∃ c cs, Nat.toDigits 10 n = c :: cs := by
    cases hd : Nat.toDigits 10 n with
    | nil => exact absurd hd h1
    | cons c cs => exact ⟨c, cs, rfl⟩
  have hc : c.isDigit = true := h2 c (by rw [hcs]; exact List.mem_cons_self _ _)
  have hplus : c ≠ '+' := by
    intro h
    rw [h] at hc
    exact absurd hc (by decide)
  have hminus : c ≠ '-' := by
    intro h
    rw [h] at hc
    exact absurd hc (by decide)
  have hall : (Nat.toDigits 10 n).all Char.isDigit = true := by
    rw [List.all_eq_true]
    exact h2
  have hu : strconvParseUint (Nat.toDigits 10 n) = some n := by
    unfold strconvParseUint
    rw [if_neg h1, if_pos hall]
    dsimp only
    rw [h3, if_pos (by omega)]
  unfold strconvParseInt
  rw [if_neg h1]
  have hhead : (Nat.toDigits 10 n).head? = some c := by rw [hcs]; rfl
  have hs0 : ¬ ((Nat.toDigits 10 n).head? = some '+' ∨ (Nat.toDigits 10 n).head? = some '-') := by
    rw [hhead]
    simp only [Option.some.injEq]
    exact fun h => h.elim hplus hminus
  have hneg : ¬ ((Nat.toDigits 10 n).head? = some '-') := fun h => hs0 (Or.inr h)
  dsimp only
  rw [if_neg hs0, hu]
  dsimp only
  rw [if_neg (by omega), if_neg (fun h => hneg h.1), if_neg hneg]

/-- A hash of at least 32 characters without a slash is a path element. -/
theorem pathElement_hash (hash : List Char) (hlen : 32 ≤ hash.length) (hslash : '/' ∉ hash) :
    pathElement hash := by
  refine ⟨?_, hslash, ?_, ?_⟩
  · intro h
    rw [h] at hlen
    simp at hlen
  · intro h
    rw [h] at hlen
    revert hlen
    decide
  · intro h
    rw [h] at hlen
    revert hlen
    decide

/-- A join of path elements is empty only for the empty list. -/
theorem stringsJoin_ne_nil (comps : List (List Char)) (hne : comps ≠ [])
    (h : ∀ e ∈ comps, pathElement e) : stringsJoin comps "/".data ≠ [] := by
  cases comps with
  | nil => exact absurd rfl hne
  | cons e es =>
    have h1 := (h e (List.mem_cons_self _ _)).1
    cases es with
    | nil =>
      rw [stringsJoin_singleton]
      exact h1
    | cons b l =>
      rw [stringsJoin_cons_cons]
      intro h2
      simp only [List.append_eq_nil] at h2
      exact h1 h2.1.1

/-- What `path.Join` returns for an instance name joined from path elements,
followed by further path elements: all elements joined by slashes, with no
leading slash when the instance name is empty. -/
theorem pathJoin_instance (components rest : List (List Char)) (hrest : rest ≠ [])
    (hc : ∀ e ∈ components, pathElement e) (hr : ∀ e ∈ rest, pathElement e) :
    pathJoin (stringsJoin components "/".data :: rest) = stringsJoin (components ++ rest) "/".data := by
  have hall : ∀ e ∈ components ++ rest, pathElement e := by
    intro e he
    rcases List.mem_append.mp he with h1 | h1
    · exact hc e h1
    · exact hr e h1
  obtain ⟨r, rs, rfl⟩ : ∃ r rs, rest = r :: rs := by
    cases rest with
    | nil => exact absurd rfl hrest
    | cons r rs => exact ⟨r, rs, rfl⟩
  have hr1 := (hr r (List.mem_cons_self _ _)).1
  by_cases hnil : components = []
  · subst hnil
    have e1 : stringsJoin [] "/".data = [] := rfl
    unfold pathJoin
    rw [e1]
    obtain ⟨x, xs, rfl⟩ : ∃ x xs, r = x :: xs := by
      cases r with
      | nil => exact absurd rfl hr1
      | cons x xs => exact ⟨x, xs, rfl⟩
    simp only [List.dropWhile, List.isEmpty]
    exact pathClean_stringsJoin _ (by simp) hr
  · have hne := stringsJoin_ne_nil components hnil hc
    obtain ⟨x, xs, hx⟩ : ∃ x xs, stringsJoin components "/".data = x :: xs := by
      cases hj : stringsJoin components "/".data with
      | nil => exact absurd hj hne
      | cons x xs => exact ⟨x, xs, rfl⟩
    unfold pathJoin
    rw [hx]
    simp only [List.dropWhile, List.isEmpty]
    rw [← hx, stringsJoin_stringsJoin _ _ _ hnil (by simp)]
    exact pathClean_stringsJoin _ (by simp [hnil]) hall

/-- The common parser on a trailer that starts with `blobs`, a hash and the
decimal form of a size: only these three components are read. -/
theorem newDigestFromByteStreamPathCommon_blobs (P : DigestConstructors) (header : List (List Char))
    (hash : List Char) (sizeBytes : Nat) (tail : List (List Char))
    (hsize : sizeBytes < 9223372036854775808) :
    newDigestFromByteStreamPathCommon P header ("blobs".data :: hash :: (Nat.repr sizeBytes).data :: tail)
      = (match P.NewInstanceNameFromComponents header with
        | (_, some err) =>
          some (BadDigest, some (P.StatusWrapf err
            ("Invalid instance name " ++ P.goSyntax (stringsJoin header "/".data))))
        | (instanceName, none) => some (P.NewDigest instanceName hash sizeBytes)) := by
  unfold newDigestFromByteStreamPathCommon
  simp only [List.getElem?_cons_zero, List.getElem?_cons_succ, ne_eq, not_true_eq_false, if_false,
    strconvParseInt_repr sizeBytes hsize]

/-- The read path of a digest whose instance name is joined from path
elements. -/
theorem GetByteStreamReadPath_key (components : List (List Char)) (hash : List Char) (sizeBytes : Nat)
    (hcomp : ∀ e ∈ components, pathElement e) (hlen : 32 ≤ hash.length) (hdash : '-' ∉ hash)
    (hslash : '/' ∉ hash) (hsize : sizeBytes < 9223372036854775808) :
    Digest.GetByteStreamReadPath
        ⟨hash ++ ['-'] ++ (Nat.repr sizeBytes).data ++ ['-'] ++ stringsJoin components "/".data⟩
      = some (stringsJoin (components ++ ["blobs".data, hash, (Nat.repr sizeBytes).data]) "/".data) := by
  obtain ⟨g1, _, g3⟩ := getters_of_unpack _ _ _ _
    (unpack_key hash (stringsJoin components "/".data) sizeBytes hlen hdash hsize)
  obtain ⟨k1, _, k3⟩ := key_getters hash (stringsJoin components "/".data) sizeBytes hlen hdash hsize
  rw [k1] at g1
  rw [k3] at g3
  simp only [Option.some.injEq] at g1 g3
  unfold Digest.GetByteStreamReadPath
  rw [unpack_key hash (stringsJoin components "/".data) sizeBytes hlen hdash hsize]
  dsimp only
  rw [← g1, ← g3]
  have e : strconvFormatInt (sizeBytes : Int) = (Nat.repr sizeBytes).data := rfl
  rw [e, pathJoin_instance components _ (by simp) hcomp]
  intro x hx
  simp only [List.mem_cons, List.mem_singleton, List.not_mem_nil, or_false] at hx
  rcases hx with rfl | rfl | rfl
  · decide
  · exact pathElement_hash _ hlen hslash
  · exact pathElement_repr sizeBytes

/-- C23 as stated fails for an instance name with a component `.` or `..`:
`GetByteStreamReadPath` builds the path with `path.Join`, which cleans it. The
digest with instance name `.` has the read path `blobs/3e25...2c62/11`, not
`./blobs/3e25...2c62/11`; it shares this path with the digest of the same hash
and size in the empty instance name, so the path does not determine the
digest. -/
theorem Digest_read_path_counterexample :
    (mkDigest "." "3e25960a79dbc69b674cd4ec67a72c62" 11).GetByteStreamReadPath
        = some "blobs/3e25960a79dbc69b674cd4ec67a72c62/11".data
      ∧ (mkDigest "" "3e25960a79dbc69b674cd4ec67a72c62" 11).GetByteStreamReadPath
        = some "blobs/3e25960a79dbc69b674cd4ec67a72c62/11".data
      ∧ mkDigest "." "3e25960a79dbc69b674cd4ec67a72c62" 11 ≠ mkDigest "" "3e25960a79dbc69b674cd4ec67a72c62" 11
      ∧ (mkDigest "." "3e25960a79dbc69b674cd4ec67a72c62" 11).GetInstanceName = some ".".data := by
  decide

/-- C23, amended: ByteStream read path round trip for instance names without
`.` and `..` components. For a digest whose instance name is joined from zero
or more path elements (non-empty, without a slash, neither `.` nor `..`), with
a hash without a slash and a size below `2^63`: `GetByteStreamReadPath` is the
components of the instance name followed by `blobs`, the hash and the decimal
size, joined by slashes (no leading slash when there are no components);
`NewDigestFromByteStreamReadPath` on that path hands the components before the
last three to `NewInstanceNameFromComponents` and the hash and the size to
`NewDigest`, so it returns the digest when these constructors build it from
its components. -/
theorem Digest_read_path_round_trip (P : DigestConstructors) (components : List (List Char))
    (hash : List Char) (sizeBytes : Nat)
    (hcomp : ∀ e ∈ components, pathElement e) (hlen : 32 ≤ hash.length) (hdash : '-' ∉ hash)
    (hslash : '/' ∉ hash) (hsize : sizeBytes < 9223372036854775808) :
    Digest.GetByteStreamReadPath
        ⟨hash ++ ['-'] ++ (Nat.repr sizeBytes).data ++ ['-'] ++ stringsJoin components "/".data⟩
      = some (stringsJoin (components ++ ["blobs".data, hash, (Nat.repr sizeBytes).data]) "/".data)
    ∧ NewDigestFromByteStreamReadPath P
        (stringsJoin (components ++ ["blobs".data, hash, (Nat.repr sizeBytes).data]) "/".data)
      = newDigestFromByteStreamPathCommon P components ["blobs".data, hash, (Nat.repr sizeBytes).data]
    ∧ (∀ instanceName, P.NewInstanceNameFromComponents components = (instanceName, none) →
        NewDigestFromByteStreamReadPath P
            (stringsJoin (components ++ ["blobs".data, hash, (Nat.repr sizeBytes).data]) "/".data)
          = some (P.NewDigest instanceName hash sizeBytes))
    ∧ (∀ instanceName, P.NewInstanceNameFromComponents components = (instanceName, none) →
        P.NewDigest instanceName hash sizeBytes
          = (⟨hash ++ ['-'] ++ (Nat.repr sizeBytes).data ++ ['-'] ++ stringsJoin components "/".data⟩,
            none) →
        NewDigestFromByteStreamReadPath P
            (stringsJoin (components ++ ["blobs".data, hash, (Nat.repr sizeBytes).data]) "/".data)
          = some (⟨hash ++ ['-'] ++ (Nat.repr sizeBytes).data ++ ['-']
              ++ stringsJoin components "/".data⟩, none)) := by
  have hall : ∀ e ∈ components ++ ["blobs".data, hash, (Nat.repr sizeBytes).data], pathElement e := by
    intro e he
    rcases List.mem_append.mp he with h1 | h1
    · exact hcomp e h1
    · simp only [List.mem_cons, List.mem_singleton, List.not_mem_nil, or_false] at h1
      rcases h1 with rfl | rfl | rfl
      · decide
      · exact pathElement_hash _ hlen hslash
      · exact pathElement_repr sizeBytes
  have hparse : NewDigestFromByteStreamReadPath P
      (stringsJoin (components ++ ["blobs".data, hash, (Nat.repr sizeBytes).data]) "/".data)
      = newDigestFromByteStreamPathCommon P components
          ["blobs".data, hash, (Nat.repr sizeBytes).data] := by
    unfold NewDigestFromByteStreamReadPath
    rw [stringsFieldsFunc_stringsJoin _ (by simp) hall]
    dsimp only
    have hl : (components ++ ["blobs".data, hash, (Nat.repr sizeBytes).data]).length
        = components.length + 3 := by simp
    rw [hl, if_neg (by omega), Nat.add_sub_cancel, List.take_left' rfl, List.drop_left' rfl]
  have hcommon := newDigestFromByteStreamPathCommon_blobs P components hash sizeBytes [] hsize
  refine ⟨GetByteStreamReadPath_key components hash sizeBytes hcomp hlen hdash hslash hsize, hparse,
    ?_, ?_⟩
  · intro instanceName hi
    rw [hparse, hcommon, hi]
  · intro instanceName hi hd
    rw [hparse, hcommon, hi]
    dsimp only
    rw [hd]

/-- C23, witness: the digest of the tests, in the instance name `instance`. -/
theorem Digest_read_path_round_trip_witness :
    helloDigest.GetByteStreamReadPath = some "instance/blobs/3e25960a79dbc69b674cd4ec67a72c62/11".data
      ∧ NewDigestFromByteStreamReadPath acceptingConstructors
          "instance/blobs/3e25960a79dbc69b674cd4ec67a72c62/11".data = some (helloDigest, none) :=
  have h := Digest_read_path_round_trip acceptingConstructors ["instance".data]
    "3e25960a79dbc69b674cd4ec67a72c62".data 11 (by decide) (by decide) (by decide) (by decide)
    (by decide)
  ⟨h.1, h.2.2.2 ⟨"instance".data⟩ rfl rfl⟩

/-- The common parser reads the first three components of the trailer only. -/
theorem newDigestFromByteStreamPathCommon_tail (P : DigestConstructors) (header : List (List Char))
    (a b c : List Char) (tail : List (List Char)) :
    newDigestFromByteStreamPathCommon P header (a :: b :: c :: tail)
      = newDigestFromByteStreamPathCommon P header [a, b, c] := by
  unfold newDigestFromByteStreamPathCommon
  simp only [List.getElem?_cons_zero, List.getElem?_cons_succ]

/-- The loop of `NewDigestFromByteStreamWritePath` stops at the first
`uploads` component when at least four components follow it. -/
theorem findUploads_first (header rest : List (List Char)) (hh : "uploads".data ∉ header)
    (hrest : 4 ≤ rest.length) :
    ∀ (k fuel split : Nat), split + k = header.length → k < fuel →
      findUploads (header ++ "uploads".data :: rest) fuel split = some (some header.length) := by
  intro k
  induction k with
  | zero =>
    intro fuel split hs hf
    obtain ⟨f, rfl⟩ : ∃ f, fuel = f + 1 := ⟨fuel - 1, by omega⟩
    have hsplit : split = header.length := by omega
    subst hsplit
    unfold findUploads
    rw [List.getElem?_append_right (le_refl _), Nat.sub_self, List.getElem?_cons_zero]
    dsimp only
    rw [if_neg (by simp)]
  | succ k ih =>
    intro fuel split hs hf
    obtain ⟨f, rfl⟩ : ∃ f, fuel = f + 1 := ⟨fuel - 1, by omega⟩
    have hlt : split < header.length := by omega
    unfold findUploads
    rw [List.getElem?_append_left hlt, List.getElem?_eq_getElem hlt]
    dsimp only
    have hne : header[split] ≠ "uploads".data := by
      intro h
      exact hh (h ▸ List.getElem_mem hlt)
    have hlen : (header ++ "uploads".data :: rest).length = header.length + 1 + rest.length := by
      simp only [List.length_append, List.length_cons]
      omega
    rw [if_pos hne, hlen, if_neg (by omega)]
    exact ih f (split + 1) (by omega) (by omega)

/-- The write path parser on a path whose components are an instance name
without `uploads`, then `uploads`, an identifier, and a trailer of at least
three components. -/
theorem NewDigestFromByteStreamWritePath_fields (P : DigestConstructors) (path : List Char)
    (header : List (List Char)) (uuid a b c : List Char) (tail : List (List Char))
    (hfields : stringsFieldsFunc path (fun r => r == '/')
      = header ++ "uploads".data :: uuid :: a :: b :: c :: tail)
    (hh : "uploads".data ∉ header) :
    NewDigestFromByteStreamWritePath P path = newDigestFromByteStreamPathCommon P header [a, b, c] := by
  unfold NewDigestFromByteStreamWritePath
  rw [hfields]
  dsimp only
  have hlen : (header ++ "uploads".data :: uuid :: a :: b :: c :: tail).length
      = header.length + 5 + tail.length := by
    simp only [List.length_append, List.length_cons]
    omega
  rw [hlen, if_neg (by omega), ← hlen,
    findUploads_first header (uuid :: a :: b :: c :: tail) hh (by simp only [List.length_cons]; omega)
      header.length _ 0 (by omega) (by rw [hlen]; omega)]
  dsimp only
  rw [List.take_left' rfl, List.drop_append]
  exact newDigestFromByteStreamPathCommon_tail P header a b c tail

/-- The write path of a digest whose instance name is joined from path
elements. -/
theorem GetByteStreamWritePath_key (components : List (List Char)) (hash uuid : List Char)
    (sizeBytes : Nat)
    (hcomp : ∀ e ∈ components, pathElement e) (huuid : pathElement uuid) (hlen : 32 ≤ hash.length)
    (hdash : '-' ∉ hash) (hslash : '/' ∉ hash) (hsize : sizeBytes < 9223372036854775808) :
    Digest.GetByteStreamWritePath
        ⟨hash ++ ['-'] ++ (Nat.repr sizeBytes).data ++ ['-'] ++ stringsJoin components "/".data⟩ uuid
      = some (stringsJoin (components
          ++ ["uploads".data, uuid, "blobs".data, hash, (Nat.repr sizeBytes).data]) "/".data) := by
  obtain ⟨g1, _, g3⟩ := getters_of_unpack _ _ _ _
    (unpack_key hash (stringsJoin components "/".data) sizeBytes hlen hdash hsize)
  obtain ⟨k1, _, k3⟩ := key_getters hash (stringsJoin components "/".data) sizeBytes hlen hdash hsize
  rw [k1] at g1
  rw [k3] at g3
  simp only [Option.some.injEq] at g1 g3
  unfold Digest.GetByteStreamWritePath
  rw [unpack_key hash (stringsJoin components "/".data) sizeBytes hlen hdash hsize]
  dsimp only
  rw [← g1, ← g3]
  have e : strconvFormatInt (sizeBytes : Int) = (Nat.repr sizeBytes).data := rfl
  rw [e, pathJoin_instance components _ (by simp) hcomp]
  intro x hx
  simp only [List.mem_cons, List.mem_singleton, List.not_mem_nil, or_false] at hx
  rcases hx with rfl | rfl | rfl | rfl | rfl
  · decide
  · exact huuid
  · decide
  · exact pathElement_hash _ hlen hslash
  · exact pathElement_repr sizeBytes

/-- C24 as stated fails in its last part for an instance name with a
component `.` or `..`: `GetByteStreamWritePath` builds the path with
`path.Join`, which cleans it. The digest with instance name `.` has the write
path `uploads/<uuid>/blobs/3e25...2c62/11`, the write path of the digest of
the same hash and size in the empty instance name, so the parser cannot
reconstruct it. -/
theorem Digest_write_path_counterexample :
    (mkDigest "." "3e25960a79dbc69b674cd4ec67a72c62" 11).GetByteStreamWritePath
          "36a7d8a0-2b1c-4f7e-9d3a-5e6f7a8b9c0d".data
        = some "uploads/36a7d8a0-2b1c-4f7e-9d3a-5e6f7a8b9c0d/blobs/3e25960a79dbc69b674cd4ec67a72c62/11".data
      ∧ (mkDigest "" "3e25960a79dbc69b674cd4ec67a72c62" 11).GetByteStreamWritePath
          "36a7d8a0-2b1c-4f7e-9d3a-5e6f7a8b9c0d".data
        = some "uploads/36a7d8a0-2b1c-4f7e-9d3a-5e6f7a8b9c0d/blobs/3e25960a79dbc69b674cd4ec67a72c62/11".data
      ∧ mkDigest "." "3e25960a79dbc69b674cd4ec67a72c62" 11 ≠ mkDigest "" "3e25960a79dbc69b674cd4ec67a72c62" 11
      ∧ (mkDigest "." "3e25960a79dbc69b674cd4ec67a72c62" 11).GetInstanceName = some ".".data := by
  decide

/-- C24, amended: ByteStream write path parsing. For a path whose non-empty
components are `I`, `uploads`, `u`, `blobs`, `h`, `s` and a trailing path,
where `I` has no component `uploads`, `NewDigestFromByteStreamWritePath`
parses the header `I` and the trailer `blobs`, `h`, `s`, whatever `u` and the
trailing path are; when `s` is the decimal form of a size below `2^63` it
hands `I` to `NewInstanceNameFromComponents` and `h` and the size to
`NewDigest`. For a digest whose instance name is joined from path elements
(non-empty, without a slash, neither `.` nor `..`) other than `uploads`, and a
UUID whose string form is a path element, the write path is the components,
`uploads`, the UUID, `blobs`, the hash and the size joined by slashes, and the
parser returns the digest when the constructors build it from its components. -/
theorem Digest_write_path_parsing (P : DigestConstructors) (components : List (List Char))
    (hash uuid : List Char) (hh : "uploads".data ∉ components) :
    (∀ (path s : List Char) (tail : List (List Char)),
        stringsFieldsFunc path (fun r => r == '/')
          = components ++ "uploads".data :: uuid :: "blobs".data :: hash :: s :: tail →
        NewDigestFromByteStreamWritePath P path
          = newDigestFromByteStreamPathCommon P components ["blobs".data, hash, s])
    ∧ (∀ (path : List Char) (sizeBytes : Nat) (tail : List (List Char)) (instanceName : InstanceName),
        stringsFieldsFunc path (fun r => r == '/')
          = components ++ "uploads".data :: uuid :: "blobs".data :: hash
            :: (Nat.repr sizeBytes).data :: tail →
        sizeBytes < 9223372036854775808 →
        P.NewInstanceNameFromComponents components = (instanceName, none) →
        NewDigestFromByteStreamWritePath P path = some (P.NewDigest instanceName hash sizeBytes))
    ∧ (∀ (sizeBytes : Nat) (instanceName : InstanceName),
        (∀ e ∈ components, pathElement e) → pathElement uuid → 32 ≤ hash.length → '-' ∉ hash →
        '/' ∉ hash → sizeBytes < 9223372036854775808 →
        P.NewInstanceNameFromComponents components = (instanceName, none) →
        P.NewDigest instanceName hash sizeBytes
          = (⟨hash ++ ['-'] ++ (Nat.repr sizeBytes).data ++ ['-'] ++ stringsJoin components "/".data⟩,
            none) →
        ∃ path,
          Digest.GetByteStreamWritePath
              ⟨hash ++ ['-'] ++ (Nat.repr sizeBytes).data ++ ['-'] ++ stringsJoin components "/".data⟩
              uuid = some path
          ∧ path = stringsJoin (components
              ++ ["uploads".data, uuid, "blobs".data, hash, (Nat.repr sizeBytes).data]) "/".data
          ∧ NewDigestFromByteStreamWritePath P path
            = some (⟨hash ++ ['-'] ++ (Nat.repr sizeBytes).data ++ ['-']
                ++ stringsJoin components "/".data⟩, none)) := by
  have hB : ∀ (path : List Char) (sizeBytes : Nat) (tail : List (List Char))
      (instanceName : InstanceName),
      stringsFieldsFunc path (fun r => r == '/')
        = components ++ "uploads".data :: uuid :: "blobs".data :: hash
          :: (Nat.repr sizeBytes).data :: tail →
      sizeBytes < 9223372036854775808 →
      P.NewInstanceNameFromComponents components = (instanceName, none) →
      NewDigestFromByteStreamWritePath P path = some (P.NewDigest instanceName hash sizeBytes) := by
    intro path sizeBytes tail instanceName hf hsize hi
    rw [NewDigestFromByteStreamWritePath_fields P path components uuid _ _ _ tail hf hh,
      newDigestFromByteStreamPathCommon_blobs P components hash sizeBytes [] hsize, hi]
  refine ⟨?_, hB, ?_⟩
  · intro path s tail hf
    exact NewDigestFromByteStreamWritePath_fields P path components uuid _ _ _ tail hf hh
  · intro sizeBytes instanceName hcomp huuid hlen hdash hslash hsize hi hd
    refine ⟨_, GetByteStreamWritePath_key components hash uuid sizeBytes hcomp huuid hlen hdash hslash
      hsize, rfl, ?_⟩
    have hall : ∀ e ∈ components
        ++ ["uploads".data, uuid, "blobs".data, hash, (Nat.repr sizeBytes).data], pathElement e := by
      intro e he
      rcases List.mem_append.mp he with h1 | h1
      · exact hcomp e h1
      · simp only [List.mem_cons, List.mem_singleton, List.not_mem_nil, or_false] at h1
        rcases h1 with rfl | rfl | rfl | rfl | rfl
        · decide
        · exact huuid
        · decide
        · exact pathElement_hash _ hlen hslash
        · exact pathElement_repr sizeBytes
    rw [hB _ sizeBytes [] instanceName (stringsFieldsFunc_stringsJoin _ (by simp) hall) hsize hi, hd]

/-- C24, witness: the digest of the tests in the instance name `instance`,
written under a UUID, and a write path with a trailing path. -/
theorem Digest_write_path_parsing_witness :
    NewDigestFromByteStreamWritePath acceptingConstructors
        "instance/uploads/36a7d8a0-2b1c-4f7e-9d3a-5e6f7a8b9c0d/blobs/3e25960a79dbc69b674cd4ec67a72c62/11/a/b".data
      = some (helloDigest, none)
    ∧ ∃ path,
      helloDigest.GetByteStreamWritePath "36a7d8a0-2b1c-4f7e-9d3a-5e6f7a8b9c0d".data = some path
      ∧ path
        = "instance/uploads/36a7d8a0-2b1c-4f7e-9d3a-5e6f7a8b9c0d/blobs/3e25960a79dbc69b674cd4ec67a72c62/11".data
      ∧ NewDigestFromByteStreamWritePath acceptingConstructors path = some (helloDigest, none) :=
  have h := Digest_write_path_parsing acceptingConstructors ["instance".data]
    "3e25960a79dbc69b674cd4ec67a72c62".data "36a7d8a0-2b1c-4f7e-9d3a-5e6f7a8b9c0d".data (by decide)
  ⟨h.2.1 _ 11 ["a".data, "b".data] ⟨"instance".data⟩ (by decide) (by decide) rfl,
    h.2.2 11 ⟨"instance".data⟩ (by decide) (by decide) (by decide) (by decide) (by decide) (by decide)
      rfl rfl⟩

/-- No string is less than itself. -/
theorem stringLess_irrefl (a : List Char) : stringLess a a = false := by
  induction a with
  | nil => rfl
  | cons c cs ih =>
    unfold stringLess
    rw [if_neg (lt_irrefl c), if_neg (lt_irrefl c), ih]

/-- The order of strings is transitive. -/
theorem stringLess_trans : ∀ (a b c : List Char), stringLess a b = true → stringLess b c = true →
    stringLess a c = true
  | [], [], _, h, _ => by simp [stringLess] at h
  | [], _ :: _, [], _, h => by simp [stringLess] at h
  | [], _ :: _, _ :: _, _, _ => by simp [stringLess]
  | _ :: _, [], _, h, _ => by simp [stringLess] at h
  | _ :: _, _ :: _, [], _, h => by simp [stringLess] at h
  | x :: xs, y :: ys, z :: zs, h1, h2 => by
    unfold stringLess at h1 h2 ⊢
    by_cases hxy : x < y
    · by_cases hyz : y < z
      · rw [if_pos (lt_trans hxy hyz)]
      · rw [if_neg hyz] at h2
        by_cases hzy : z < y
        · rw [if_pos hzy] at h2
          exact absurd h2 (by simp)
        · have e : y = z := le_antisymm (not_lt.mp hzy) (not_lt.mp hyz)
          rw [← e, if_pos hxy]
    · rw [if_neg hxy] at h1
      by_cases hyx : y < x
      · rw [if_pos hyx] at h1
        exact absurd h1 (by simp)
      · rw [if_neg hyx] at h1
        have e : x = y := le_antisymm (not_lt.mp hyx) (not_lt.mp hxy)
        rw [e]
        by_cases hyz : y < z
        · rw [if_pos hyz]
        · rw [if_neg hyz] at h2 ⊢
          by_cases hzy : z < y
          · rw [if_pos hzy] at h2
            exact absurd h2 (by simp)
          · rw [if_neg hzy] at h2 ⊢
            exact stringLess_trans xs ys zs h1 h2

/-- Two strings of which neither is less than the other are equal. -/
theorem stringLess_total : ∀ (a b : List Char), stringLess a b = false → stringLess b a = false → a = b
  | [], [], _, _ => rfl
  | [], _ :: _, h, _ => by simp [stringLess] at h
  | _ :: _, [], _, h => by simp [stringLess] at h
  | x :: xs, y :: ys, h1, h2 => by
    unfold stringLess at h1 h2
    by_cases hxy : x < y
    · rw [if_pos hxy] at h1
      exact absurd h1 (by simp)
    · rw [if_neg hxy] at h1 h2
      by_cases hyx : y < x
      · rw [if_pos hyx] at h2
        exact absurd h2 (by simp)
      · rw [if_neg hyx] at h1 h2
        have e : x = y := le_antisymm (not_lt.mp hyx) (not_lt.mp hxy)
        rw [e, stringLess_total xs ys h1 h2]

/-- The string form of a digest is its key. -/
theorem Digest_String_eq (d : Digest) : d.String = d.value := rfl

/-- Digests with the same string form are equal. -/
theorem Digest_eq_of_String (a b : Digest) (h : a.String = b.String) : a = b := by
  cases a
  cases b
  rw [Digest_String_eq, Digest_String_eq] at h
  exact congrArg Digest.mk h

/-- No digest is less than itself. -/
theorem dlt_irrefl (a : Digest) : ¬ stringLess a.String a.String = true := by
  rw [stringLess_irrefl]
  simp

/-- Of two digests at most one is less than the other. -/
theorem dlt_asymm (a b : Digest) (h1 : stringLess a.String b.String = true)
    (h2 : stringLess b.String a.String = true) : False :=
  dlt_irrefl a (stringLess_trans _ _ _ h1 h2)

/-- Digests of which neither is less than the other are equal. -/
theorem dlt_total (a b : Digest) (h1 : ¬ stringLess a.String b.String = true)
    (h2 : ¬ stringLess b.String a.String = true) : a = b :=
  Digest_eq_of_String a b (stringLess_total _ _ (by simpa using h1) (by simpa using h2))

/-- The head of a strictly increasing list is less than every later digest. -/
theorem strictlyIncreasing_cons (x : Digest) (xs : List Digest) :
    strictlyIncreasing (x :: xs)
      ↔ (∀ y ∈ xs, stringLess x.String y.String = true) ∧ strictlyIncreasing xs := by
  unfold strictlyIncreasing
  exact List.pairwise_cons

/-- A digest below the head of a strictly increasing list is not in the list. -/
theorem not_mem_of_lt_head (x b0 : Digest) (bs : List Digest) (hb : strictlyIncreasing (b0 :: bs))
    (h : stringLess x.String b0.String = true) : x ∉ b0 :: bs := by
  intro hx
  rcases List.mem_cons.mp hx with rfl | hx
  · exact dlt_irrefl _ h
  · exact dlt_asymm _ _ h (((strictlyIncreasing_cons _ _).mp hb).1 x hx)

/-- A strictly increasing list has no duplicates. -/
theorem strictlyIncreasing_nodup (l : List Digest) (h : strictlyIncreasing l) : l.Nodup := by
  unfold strictlyIncreasing at h
  unfold List.Nodup
  refine List.Pairwise.imp ?_ h
  intro a b hlt heq
  rw [heq] at hlt
  exact dlt_irrefl _ hlt

/-- Strictly increasing lists with the same digests are equal. -/
theorem strictlyIncreasing_ext : ∀ (l1 l2 : List Digest), strictlyIncreasing l1 → strictlyIncreasing l2 →
    (∀ d, d ∈ l1 ↔ d ∈ l2) → l1 = l2
  | [], [], _, _, _ => rfl
  | [], y :: ys, _, _, h => absurd ((h y).mpr (List.mem_cons_self _ _)) (List.not_mem_nil _)
  | x :: xs, [], _, _, h => absurd ((h x).mp (List.mem_cons_self _ _)) (List.not_mem_nil _)
  | x :: xs, y :: ys, h1, h2, h => by
    obtain ⟨hx, hxs⟩ := (strictlyIncreasing_cons _ _).mp h1
    obtain ⟨hy, hys⟩ := (strictlyIncreasing_cons _ _).mp h2
    have hxy : x = y := by
      rcases List.mem_cons.mp ((h x).mp (List.mem_cons_self _ _)) with e | hin
      · exact e
      · rcases List.mem_cons.mp ((h y).mpr (List.mem_cons_self _ _)) with e | hin2
        · exact e.symm
        · exact absurd (hy x hin) (fun h3 => dlt_asymm _ _ (hx y hin2) h3)
    subst hxy
    have htail : ∀ d, d ∈ xs ↔ d ∈ ys := by
      intro d
      constructor
      · intro hd
        rcases List.mem_cons.mp ((h d).mp (List.mem_cons_of_mem _ hd)) with e | hin
        · exact absurd (hx d hd) (e ▸ dlt_irrefl x)
        · exact hin
      · intro hd
        rcases List.mem_cons.mp ((h d).mpr (List.mem_cons_of_mem _ hd)) with e | hin
        · exact absurd (hy d hd) (e ▸ dlt_irrefl x)
        · exact hin
    rw [strictlyIncreasing_ext xs ys hxs hys htail]

/-- The loop of `GetDifferenceAndIntersection` on strictly increasing lists:
with one iteration allowed per digest it returns, and it adds to `onlyA` the
digests of `a` not in `b`, to `both` the digests of `a` in `b`, and to `onlyB`
the digests of `b` not in `a`, each in the order of the list it comes from. -/
theorem differenceLoop_filter : ∀ (fuel : Nat) (a b onlyA both onlyB : List Digest),
    a.length + b.length ≤ fuel → strictlyIncreasing a → strictlyIncreasing b →
    differenceLoop fuel a b onlyA both onlyB
      = some (⟨onlyA ++ a.filter (fun d => decide (d ∉ b))⟩, ⟨both ++ a.filter (fun d => decide (d ∈ b))⟩,
          ⟨onlyB ++ b.filter (fun d => decide (d ∉ a))⟩)
  | fuel, [], b, onlyA, both, onlyB, _, _, _ => by
    unfold differenceLoop
    simp
  | fuel, a0 :: as, [], onlyA, both, onlyB, _, _, _ => by
    unfold differenceLoop
    simp
  | 0, a0 :: as, b0 :: bs, _, _, _, hf, _, _ => by simp at hf
  | fuel + 1, a0 :: as, b0 :: bs, onlyA, both, onlyB, hf, ha, hb => by
    obtain ⟨ha0, has⟩ := (strictlyIncreasing_cons _ _).mp ha
    obtain ⟨hb0, hbs⟩ := (strictlyIncreasing_cons _ _).mp hb
    simp only [List.length_cons] at hf
    unfold differenceLoop
    dsimp only
    by_cases hlt : stringLess a0.String b0.String = true
    · have hnot : a0 ∉ b0 :: bs := not_mem_of_lt_head a0 b0 bs hb hlt
      rw [if_pos hlt, differenceLoop_filter fuel as (b0 :: bs) _ _ _
        (by simp only [List.length_cons]; omega) has hb]
      have e1 : (a0 :: as).filter (fun d => decide (d ∉ b0 :: bs))
          = a0 :: as.filter (fun d => decide (d ∉ b0 :: bs)) := by
        rw [List.filter_cons_of_pos (by simpa using hnot)]
      have e2 : (a0 :: as).filter (fun d => decide (d ∈ b0 :: bs))
          = as.filter (fun d => decide (d ∈ b0 :: bs)) := by
        rw [List.filter_cons_of_neg (by simpa using hnot)]
      have e3 : (b0 :: bs).filter (fun d => decide (d ∉ a0 :: as))
          = (b0 :: bs).filter (fun d => decide (d ∉ as)) := by
        apply List.filter_congr
        intro x hx
        have hne : x ≠ a0 := fun h => hnot (h ▸ hx)
        simp [hne]
      rw [e1, e2, e3]
      simp
    · rw [if_neg hlt]
      by_cases heq : a0.String = b0.String
      · have hab : a0 = b0 := Digest_eq_of_String a0 b0 heq
        subst hab
        rw [if_pos rfl, differenceLoop_filter fuel as bs _ _ _ (by omega) has hbs]
        have e1 : (a0 :: as).filter (fun d => decide (d ∉ a0 :: bs))
            = as.filter (fun d => decide (d ∉ bs)) := by
          rw [List.filter_cons_of_neg (by simp)]
          apply List.filter_congr
          intro x hx
          have hne : x ≠ a0 := fun h => dlt_irrefl a0 (h ▸ ha0 x hx)
          simp [hne]
        have e2 : (a0 :: as).filter (fun d => decide (d ∈ a0 :: bs))
            = a0 :: as.filter (fun d => decide (d ∈ bs)) := by
          rw [List.filter_cons_of_pos (by simp)]
          congr 1
          apply List.filter_congr
          intro x hx
          have hne : x ≠ a0 := fun h => dlt_irrefl a0 (h ▸ ha0 x hx)
          simp [hne]
        have e3 : (a0 :: bs).filter (fun d => decide (d ∉ a0 :: as))
            = bs.filter (fun d => decide (d ∉ as)) := by
          rw [List.filter_cons_of_neg (by simp)]
          apply List.filter_congr
          intro x hx
          have hne : x ≠ a0 := fun h => dlt_irrefl a0 (h ▸ hb0 x hx)
          simp [hne]
        rw [e1, e2, e3]
        simp
      · have hgt : stringLess b0.String a0.String = true := by
          by_contra hn
          exact heq (congrArg Digest.String (dlt_total a0 b0 hlt hn))
        have hnot : b0 ∉ a0 :: as := not_mem_of_lt_head b0 a0 as ha hgt
        rw [if_neg heq, differenceLoop_filter fuel (a0 :: as) bs _ _ _
          (by simp only [List.length_cons]; omega) ha hbs]
        have e1 : (a0 :: as).filter (fun d => decide (d ∉ b0 :: bs))
            = (a0 :: as).filter (fun d => decide (d ∉ bs)) := by
          apply List.filter_congr
          intro x hx
          have hne : x ≠ b0 := fun h => hnot (h ▸ hx)
          simp [hne]
        have e2 : (a0 :: as).filter (fun d => decide (d ∈ b0 :: bs))
            = (a0 :: as).filter (fun d => decide (d ∈ bs)) := by
          apply List.filter_congr
          intro x hx
          have hne : x ≠ b0 := fun h => hnot (h ▸ hx)
          simp [hne]
        have e3 : (b0 :: bs).filter (fun d => decide (d ∉ a0 :: as))
            = b0 :: bs.filter (fun d => decide (d ∉ a0 :: as)) := by
          rw [List.filter_cons_of_pos (by simpa using hnot)]
        rw [e1, e2, e3]
        simp

/-- Every iteration of the loop moves one digest of `a` to `onlyA` or `both`
and one digest of `b` to `onlyB` or `both`, so the sizes add up. -/
theorem differenceLoop_length : ∀ (fuel : Nat) (a b onlyA both onlyB : List Digest) (r : Set × Set × Set),
    differenceLoop fuel a b onlyA both onlyB = some r →
    r.1.digests.length + r.2.1.digests.length = onlyA.length + both.length + a.length
      ∧ r.2.2.digests.length + r.2.1.digests.length = onlyB.length + both.length + b.length
  | fuel, [], b, onlyA, both, onlyB, r, h => by
    unfold differenceLoop at h
    simp only [Option.some.injEq] at h
    subst h
    simp only [List.length_append, List.length_nil]
    omega
  | fuel, a0 :: as, [], onlyA, both, onlyB, r, h => by
    unfold differenceLoop at h
    simp only [Option.some.injEq] at h
    subst h
    simp only [List.length_append, List.length_nil, List.length_cons]
    omega
  | 0, a0 :: as, b0 :: bs, _, _, _, r, h => by
    unfold differenceLoop at h
    simp at h
  | fuel + 1, a0 :: as, b0 :: bs, onlyA, both, onlyB, r, h => by
    unfold differenceLoop at h
    dsimp only at h
    split_ifs at h
    · have := differenceLoop_length fuel _ _ _ _ _ r h
      simp only [List.length_append, List.length_cons, List.length_nil] at this ⊢
      omega
    · have := differenceLoop_length fuel _ _ _ _ _ r h
      simp only [List.length_append, List.length_cons, List.length_nil] at this ⊢
      omega
    · have := differenceLoop_length fuel _ _ _ _ _ r h
      simp only [List.length_append, List.length_cons, List.length_nil] at this ⊢
      omega

/-- What `GetDifferenceAndIntersection` returns on strictly increasing sets. -/
theorem GetDifferenceAndIntersection_filter (setA setB : Set) (hA : strictlyIncreasing setA.digests)
    (hB : strictlyIncreasing setB.digests) :
    GetDifferenceAndIntersection setA setB
      = some (⟨setA.digests.filter (fun d => decide (d ∉ setB.digests))⟩,
          ⟨setA.digests.filter (fun d => decide (d ∈ setB.digests))⟩,
          ⟨setB.digests.filter (fun d => decide (d ∉ setA.digests))⟩) := by
  unfold GetDifferenceAndIntersection
  rw [differenceLoop_filter _ _ _ _ _ _ (le_refl _) hA hB]
  rfl

/-- A filtered strictly increasing list is strictly increasing. -/
theorem strictlyIncreasing_filter (l : List Digest) (p : Digest → Bool) (h : strictlyIncreasing l) :
    strictlyIncreasing (l.filter p) :=
  List.Pairwise.filter p h

/-- C28: `GetDifferenceAndIntersection` partitions its inputs. For sets `A`
and `B` whose digest lists are strictly increasing by `String()`, the function
returns `(onlyA, both, onlyB)` where `onlyA` holds exactly the digests of `A`
not in `B`, `both` exactly the digests in `A` and in `B`, and `onlyB` exactly
the digests of `B` not in `A`; no digest is in two of the results, the sizes
add up to the sizes of `A` and of `B`, and swapping the arguments swaps
`onlyA` and `onlyB`. -/
theorem GetDifferenceAndIntersection_partitions (setA setB : Set)
    (hA : strictlyIncreasing setA.digests) (hB : strictlyIncreasing setB.digests) :
    ∃ onlyA both onlyB : Set,
      GetDifferenceAndIntersection setA setB = some (onlyA, both, onlyB)
      ∧ (∀ d, d ∈ onlyA.digests ↔ d ∈ setA.digests ∧ d ∉ setB.digests)
      ∧ (∀ d, d ∈ both.digests ↔ d ∈ setA.digests ∧ d ∈ setB.digests)
      ∧ (∀ d, d ∈ onlyB.digests ↔ d ∈ setB.digests ∧ d ∉ setA.digests)
      ∧ (∀ d, ¬ (d ∈ onlyA.digests ∧ d ∈ both.digests) ∧ ¬ (d ∈ onlyA.digests ∧ d ∈ onlyB.digests)
          ∧ ¬ (d ∈ both.digests ∧ d ∈ onlyB.digests))
      ∧ onlyA.digests.Nodup ∧ both.digests.Nodup ∧ onlyB.digests.Nodup
      ∧ onlyA.digests.length + both.digests.length = setA.digests.length
      ∧ onlyB.digests.length + both.digests.length = setB.digests.length
      ∧ GetDifferenceAndIntersection setB setA = some (onlyB, both, onlyA) := by
  have h1 := GetDifferenceAndIntersection_filter setA setB hA hB
  have h2 := GetDifferenceAndIntersection_filter setB setA hB hA
  have hlen := differenceLoop_length _ _ _ _ _ _ _ h1
  have hboth : setB.digests.filter (fun d => decide (d ∈ setA.digests))
      = setA.digests.filter (fun d => decide (d ∈ setB.digests)) := by
    apply strictlyIncreasing_ext _ _ (strictlyIncreasing_filter _ _ hB) (strictlyIncreasing_filter _ _ hA)
    intro d
    simp only [List.mem_filter, decide_eq_true_eq]
    exact and_comm
  rw [hboth] at h2
  refine ⟨_, _, _, h1, ?_, ?_, ?_, ?_, ?_, ?_, ?_, ?_, ?_, h2⟩
  · intro d
    simp only [List.mem_filter, decide_eq_true_eq]
  · intro d
    simp only [List.mem_filter, decide_eq_true_eq]
  · intro d
    simp only [List.mem_filter, decide_eq_true_eq]
  · intro d
    simp only [List.mem_filter, decide_eq_true_eq]
    refine ⟨fun h => h.1.2 h.2.2, fun h => h.1.2 h.2.1, fun h => h.2.2 h.1.1⟩
  · exact strictlyIncreasing_nodup _ (strictlyIncreasing_filter _ _ hA)
  · exact strictlyIncreasing_nodup _ (strictlyIncreasing_filter _ _ hA)
  · exact strictlyIncreasing_nodup _ (strictlyIncreasing_filter _ _ hB)
  · simpa using hlen.1
  · simpa using hlen.2

/-- C28, witness: two sets of three and two digests sharing one. -/
theorem GetDifferenceAndIntersection_partitions_witness :
    ∃ onlyA both onlyB : Set,
      GetDifferenceAndIntersection
          ⟨[mkDigest "a" "3e25960a79dbc69b674cd4ec67a72c62" 11, helloDigest,
            mkDigest "z" "3e25960a79dbc69b674cd4ec67a72c62" 11]⟩
          ⟨[helloDigest, blobDigest]⟩ = some (onlyA, both, onlyB)
      ∧ onlyA = ⟨[mkDigest "a" "3e25960a79dbc69b674cd4ec67a72c62" 11,
          mkDigest "z" "3e25960a79dbc69b674cd4ec67a72c62" 11]⟩
      ∧ both = ⟨[helloDigest]⟩ ∧ onlyB = ⟨[blobDigest]⟩
      ∧ onlyA.digests.length + both.digests.length = 3
      ∧ onlyB.digests.length + both.digests.length = 2 :=
  have h := GetDifferenceAndIntersection_partitions
    ⟨[mkDigest "a" "3e25960a79dbc69b674cd4ec67a72c62" 11, helloDigest,
      mkDigest "z" "3e25960a79dbc69b674cd4ec67a72c62" 11]⟩
    ⟨[helloDigest, blobDigest]⟩ (by decide) (by decide)
  match h with
  | ⟨onlyA, both, onlyB, h1, _, _, _, _, _, _, _, h9, h10, _⟩ =>
    have e : some (onlyA, both, onlyB)
        = some ((⟨[mkDigest "a" "3e25960a79dbc69b674cd4ec67a72c62" 11,
            mkDigest "z" "3e25960a79dbc69b674cd4ec67a72c62" 11]⟩ : Set), (⟨[helloDigest]⟩ : Set),
          (⟨[blobDigest]⟩ : Set)) := h1.symm.trans (by decide)
    ⟨onlyA, both, onlyB, h1, (Prod.mk.inj (Option.some.inj e)).1,
      (Prod.mk.inj (Prod.mk.inj (Option.some.inj e)).2).1,
      (Prod.mk.inj (Prod.mk.inj (Option.some.inj e)).2).2, h9, h10⟩

/-- The method `Less` on a heap of non-empty sets compares the keys. -/
theorem setHeap_Less_eq (h : List Set) (i j : Nat) (hne : ∀ s ∈ h, s.digests ≠ [])
    (hi : i < h.length) (hj : j < h.length) :
    setHeap.Less h i j = some (stringLess (keyAt h i) (keyAt h j)) := by
  unfold setHeap.Less keyAt
  rw [List.getElem?_eq_getElem hi, List.getElem?_eq_getElem hj]
  dsimp only
  have h1 := hne _ (List.getElem_mem hi)
  have h2 := hne _ (List.getElem_mem hj)
  cases e1 : h[i].digests with
  | nil => exact absurd e1 h1
  | cons d1 t1 =>
    cases e2 : h[j].digests with
    | nil => exact absurd e2 h2
    | cons d2 t2 => rfl

/-- Exchanging two elements of a list gives a permutation of it. -/
theorem set_set_perm (h : List Set) (i j : Nat) (hi : i < h.length) (hj : j < h.length) :
    ((h.set i h[j]).set j h[i]).Perm h := by
  rw [List.perm_iff_count]
  intro a
  by_cases hij : i = j
  · subst hij
    rw [List.set_set, List.count_set _ _ _ _ hi]
    have hc : (if h[i] == a then 1 else 0) ≤ h.count a := by
      split_ifs with e
      · rw [beq_iff_eq] at e
        rw [← e]
        exact List.count_pos_iff.mpr (List.getElem_mem hi)
      · exact Nat.zero_le _
    split_ifs at hc ⊢ <;> omega
  · have hj2 : j < (h.set i h[j]).length := by rw [List.length_set]; exact hj
    rw [List.count_set _ _ _ _ hj2, List.count_set _ _ _ _ hi, List.getElem_set_ne hij]
    have hc : (if h[i] == a then 1 else 0) ≤ h.count a := by
      split_ifs with e
      · rw [beq_iff_eq] at e
        rw [← e]
        exact List.count_pos_iff.mpr (List.getElem_mem hi)
      · exact Nat.zero_le _
    split_ifs at hc ⊢ <;> omega

/-- The method `Swap` with both indices in range: the result, as a list and
index by index. -/
theorem setHeap_Swap_eq (h : List Set) (i j : Nat) (hi : i < h.length) (hj : j < h.length) :
    ∃ h1, setHeap.Swap h i j = some h1 ∧ h1.Perm h ∧ h1.length = h.length
      ∧ ∀ k, h1[k]? = if k = j then h[i]? else if k = i then h[j]? else h[k]? := by
  refine ⟨(h.set i h[j]).set j h[i], ?_, set_set_perm h i j hi hj, by simp, ?_⟩
  · unfold setHeap.Swap
    rw [List.getElem?_eq_getElem hi, List.getElem?_eq_getElem hj]
  · intro k
    by_cases hkj : k = j
    · subst hkj
      rw [if_pos rfl, List.getElem?_set_self (by rw [List.length_set]; exact hj),
        List.getElem?_eq_getElem hi]
    · rw [if_neg hkj, List.getElem?_set_ne (Ne.symm hkj)]
      by_cases hki : k = i
      · subst hki
        rw [if_pos rfl, List.getElem?_set_self hi, List.getElem?_eq_getElem hj]
      · rw [if_neg hki, List.getElem?_set_ne (Ne.symm hki)]

/-- The keys of a heap are determined by its elements index by index. -/
theorem keyAt_congr (h1 h2 : List Set) (k1 k2 : Nat) (e : h1[k1]? = h2[k2]?) :
    keyAt h1 k1 = keyAt h2 k2 := by
  unfold keyAt
  rw [e]

/-- The keys after two elements have been exchanged. -/
theorem keyAt_swap (h h1 : List Set) (i j : Nat)
    (hk : ∀ k, h1[k]? = if k = j then h[i]? else if k = i then h[j]? else h[k]?) (k : Nat) :
    keyAt h1 k = if k = j then keyAt h i else if k = i then keyAt h j else keyAt h k := by
  have e := hk k
  split_ifs at e ⊢ with h1 h2
  · exact keyAt_congr _ _ _ _ e
  · exact keyAt_congr _ _ _ _ e
  · exact keyAt_congr _ _ _ _ e

/-- A string that is not less than a second one, which is not less than a
third one, is not less than the third one. -/
theorem stringLess_false_trans (a b c : List Char) (h1 : stringLess b a = false)
    (h2 : stringLess c b = false) : stringLess c a = false := by
  by_contra hn
  have hca : stringLess c a = true := by simpa using hn
  by_cases hab : stringLess a b = true
  · have := stringLess_trans c a b hca hab
    rw [h2] at this
    exact absurd this (by simp)
  · have e : a = b := stringLess_total a b (by simpa using hab) h1
    rw [e, h2] at hca
    exact absurd hca (by simp)

/-- A string less than another one: the other one is not less than it. -/
theorem stringLess_asymm (a b : List Char) (h : stringLess a b = true) : stringLess b a = false := by
  by_contra hn
  have hba : stringLess b a = true := by simpa using hn
  have := stringLess_trans a b a h hba
  rw [stringLess_irrefl] at this
  exact absurd this (by simp)

/-- The function `down` of `container/heap` on a heap of non-empty sets. When
the heap order holds for the nodes with parent from `lo` on, except below
node `i`, and the children of `i` are not less than the parent of `i`, then
`down` at `i` returns, permutes the first `n` sets, and the heap order holds
for all nodes with parent from `lo` on. -/
theorem heapDown_spec (n lo : Nat) : ∀ (fuel : Nat) (h : List Set) (i : Nat),
    (∀ s ∈ h, s.digests ≠ []) → n ≤ h.length → i < n → lo ≤ i → n < fuel + i →
    (∀ j, 0 < j → j < n → lo ≤ (j - 1) / 2 → (j - 1) / 2 ≠ i →
      stringLess (keyAt h j) (keyAt h ((j - 1) / 2)) = false) →
    (0 < i → lo ≤ (i - 1) / 2 → ∀ c, c < n → 0 < c → (c - 1) / 2 = i →
      stringLess (keyAt h c) (keyAt h ((i - 1) / 2)) = false) →
    ∃ h1 i1, heapDown fuel h i n = some (h1, i1) ∧ h1.Perm h ∧ (∀ k, n ≤ k → h1[k]? = h[k]?)
      ∧ heapOrdered h1 n lo ∧ i ≤ i1
  | 0, h, i, _, _, hi, _, hf, _, _ => by omega
  | fuel + 1, h, i, hne, hn, hi, hlo, hf, pre1, pre2 => by
    unfold heapDown
    dsimp only
    by_cases hj1 : 2 * i + 1 ≥ n
    · rw [if_pos hj1]
      refine ⟨h, i, rfl, List.Perm.refl _, fun _ _ => rfl, ?_, le_refl _⟩
      intro j hj0 hjn hjlo
      by_cases hp : (j - 1) / 2 = i
      · omega
      · exact pre1 j hj0 hjn hjlo hp
    · rw [if_neg hj1]
      obtain ⟨b, hb, hjn, hj0, hjp, hmin⟩ : ∃ b : Bool,
          (if 2 * i + 1 + 1 < n then setHeap.Less h (2 * i + 1 + 1) (2 * i + 1) else some false) = some b
          ∧ (if b = true then 2 * i + 1 + 1 else 2 * i + 1) < n
          ∧ 0 < (if b = true then 2 * i + 1 + 1 else 2 * i + 1)
          ∧ ((if b = true then 2 * i + 1 + 1 else 2 * i + 1) - 1) / 2 = i
          ∧ ∀ c, c < n → 0 < c → (c - 1) / 2 = i →
            stringLess (keyAt h c) (keyAt h (if b = true then 2 * i + 1 + 1 else 2 * i + 1)) = false := by
        by_cases hr : 2 * i + 1 + 1 < n
        · rw [if_pos hr, setHeap_Less_eq h _ _ hne (by omega) (by omega)]
          cases hless : stringLess (keyAt h (2 * i + 1 + 1)) (keyAt h (2 * i + 1)) with
          | true =>
            refine ⟨true, rfl, by rw [if_pos rfl]; exact hr, by rw [if_pos rfl]; omega,
              by rw [if_pos rfl]; omega, ?_⟩
            intro c hc hc0 hcp
            rw [if_pos rfl]
            have hcc : c = 2 * i + 1 ∨ c = 2 * i + 1 + 1 := by omega
            rcases hcc with rfl | rfl
            · exact stringLess_asymm _ _ hless
            · exact stringLess_irrefl _
          | false =>
            refine ⟨false, rfl, by rw [if_neg (by simp)]; omega, by rw [if_neg (by simp)]; omega,
              by rw [if_neg (by simp)]; omega, ?_⟩
            intro c hc hc0 hcp
            rw [if_neg (by simp)]
            have hcc : c = 2 * i + 1 ∨ c = 2 * i + 1 + 1 := by omega
            rcases hcc with rfl | rfl
            · exact stringLess_irrefl _
            · exact hless
        · rw [if_neg hr]
          refine ⟨false, rfl, by rw [if_neg (by simp)]; omega, by rw [if_neg (by simp)]; omega,
            by rw [if_neg (by simp)]; omega, ?_⟩
          intro c hc hc0 hcp
          rw [if_neg (by simp)]
          have hcc : c = 2 * i + 1 := by omega
          rw [hcc]
          exact stringLess_irrefl _
      rw [hb]
      dsimp only
      generalize (if b = true then 2 * i + 1 + 1 else 2 * i + 1) = j at hjn hj0 hjp hmin ⊢
      have hij : i < j := by omega
      rw [setHeap_Less_eq h j i hne (by omega) (by omega)]
      cases hless : stringLess (keyAt h j) (keyAt h i) with
      | false =>
        dsimp only
        refine ⟨h, i, rfl, List.Perm.refl _, fun _ _ => rfl, ?_, le_refl _⟩
        intro c hc0 hcn hclo
        by_cases hp : (c - 1) / 2 = i
        · rw [hp]
          exact stringLess_false_trans _ _ _ hless (hmin c hcn hc0 hp)
        · exact pre1 c hc0 hcn hclo hp
      | true =>
        dsimp only
        obtain ⟨h1, hs, hperm, hlen, hk⟩ := setHeap_Swap_eq h i j (by omega) (by omega)
        rw [hs]
        dsimp only
        have hkey := keyAt_swap h h1 i j hk
        have hne1 : ∀ s ∈ h1, s.digests ≠ [] := fun s hs => hne s (hperm.mem_iff.mp hs)
        obtain ⟨h2, i2, hd, hperm2, hk2, hord, hle⟩ := heapDown_spec n lo fuel h1 j hne1
          (by omega) hjn (by omega) (by omega)
          (by
            intro c hc0 hcn hclo hcp
            rw [hkey c, hkey ((c - 1) / 2), if_neg hcp]
            by_cases hp : (c - 1) / 2 = i
            · rw [if_pos hp]
              by_cases hcj : c = j
              · rw [if_pos hcj]
                exact stringLess_asymm _ _ hless
              · rw [if_neg hcj, if_neg (by omega)]
                exact hmin c hcn hc0 hp
            · rw [if_neg hp]
              by_cases hci : c = i
              · rw [if_neg (by omega), if_pos hci]
                subst hci
                exact pre2 hc0 hclo j hjn hj0 hjp
              · rw [if_neg (by omega), if_neg hci]
                exact pre1 c hc0 hcn hclo hp)
          (by
            intro _ _ c hcn hc0 hcp
            rw [hkey c, hkey ((j - 1) / 2), if_neg (by omega), if_neg (by omega), if_neg (by omega),
              if_pos hjp]
            have := pre1 c hc0 hcn (by omega) (by omega)
            rw [hcp] at this
            exact this)
        refine ⟨h2, i2, hd, hperm2.trans hperm, ?_, hord, by omega⟩
        intro k hkn
        rw [hk2 k hkn, hk k, if_neg (by omega), if_neg (by omega)]

/-- The loop of `heap.Init` establishes the heap order from the last parent
down to the root. -/
theorem heapInitLoop_spec (n : Nat) : ∀ (count : Nat) (h : List Set),
    (∀ s ∈ h, s.digests ≠ []) → n ≤ h.length → count ≤ n / 2 → heapOrdered h n count →
    ∃ h1, heapInitLoop n count h = some h1 ∧ h1.Perm h ∧ heapOrdered h1 n 0
  | 0, h, _, _, _, hord => ⟨h, rfl, List.Perm.refl _, hord⟩
  | count + 1, h, hne, hn, hc, hord => by
    obtain ⟨h1, i1, hd, hperm, _, hord1, _⟩ := heapDown_spec n count (n + 1) h count hne hn
      (by omega) (le_refl _) (by omega)
      (fun j hj0 hjn hjlo hp => hord j hj0 hjn (by omega))
      (fun _ _ => by omega)
    obtain ⟨h2, hl, hperm2, hord2⟩ := heapInitLoop_spec n count h1
      (fun s hs => hne s (hperm.mem_iff.mp hs)) (by rw [hperm.length_eq]; exact hn) (by omega) hord1
    refine ⟨h2, ?_, hperm2.trans hperm, hord2⟩
    unfold heapInitLoop
    rw [hd]
    exact hl

/-- The function `heap.Init` on non-empty sets: a permutation in heap order. -/
theorem heapInit_spec (h : List Set) (hne : ∀ s ∈ h, s.digests ≠ []) :
    ∃ h1, heapInit h = some h1 ∧ h1.Perm h ∧ heapOrdered h1 h1.length 0 := by
  obtain ⟨h1, hl, hperm, hord⟩ := heapInitLoop_spec h.length (h.length / 2) h hne (le_refl _)
    (le_refl _) (fun j _ hjn hjlo => by omega)
  refine ⟨h1, hl, hperm, ?_⟩
  rw [hperm.length_eq]
  exact hord

/-- The function `heap.Pop` on a heap of at least two non-empty sets: the
sets other than the root, in heap order. -/
theorem heapPop_spec (s0 : Set) (rest : List Set) (hrest : rest ≠ [])
    (hne : ∀ s ∈ s0 :: rest, s.digests ≠ []) (hord : heapOrdered (s0 :: rest) (s0 :: rest).length 0) :
    ∃ h2, heapPop (s0 :: rest) = some h2 ∧ h2.Perm rest ∧ heapOrdered h2 h2.length 0 := by
  have hlen : (s0 :: rest).length = rest.length + 1 := rfl
  have hpos : 0 < rest.length := List.length_pos.mpr hrest
  obtain ⟨h1, hs, hperm, hlen1, hk⟩ := setHeap_Swap_eq (s0 :: rest) 0 rest.length (by rw [hlen]; omega)
    (by rw [hlen]; omega)
  have hkey := keyAt_swap (s0 :: rest) h1 0 rest.length hk
  obtain ⟨h2, i2, hd, hperm2, hk2, hord2, _⟩ := heapDown_spec rest.length 0 (rest.length + 1) h1 0
    (fun s hs => hne s (hperm.mem_iff.mp hs)) (by rw [hlen1, hlen]; omega) hpos (le_refl _) (by omega)
    (by
      intro j hj0 hjn _ hp
      rw [hkey j, hkey ((j - 1) / 2), if_neg (by omega), if_neg (by omega), if_neg (by omega),
        if_neg hp]
      exact hord j hj0 (by rw [hlen]; omega) (Nat.zero_le _))
    (fun h0 => absurd h0 (lt_irrefl 0))
  have hlast : h2.getLast? = some s0 := by
    rw [List.getLast?_eq_getElem?, hperm2.length_eq, hlen1, hlen, Nat.add_sub_cancel,
      hk2 _ (le_refl _), hk _, if_pos rfl, List.getElem?_cons_zero]
  obtain ⟨ys, hys⟩ := List.getLast?_eq_some_iff.mp hlast
  have hdrop : h2.dropLast = ys := by rw [hys, List.dropLast_concat]
  have hpys : ys.Perm rest := by
    have h3 : (ys ++ [s0]).Perm (s0 :: rest) := by
      rw [← hys]
      exact hperm2.trans hperm
    exact ((List.perm_append_singleton s0 ys).symm.trans h3).cons_inv
  have hylen : ys.length = rest.length := hpys.length_eq
  refine ⟨ys, ?_, hpys, ?_⟩
  · unfold heapPop
    rw [if_neg (by rw [hlen]; omega)]
    dsimp only
    rw [hlen, Nat.add_sub_cancel, hs]
    dsimp only
    rw [hd]
    dsimp only
    rw [hdrop]
  · intro j hj0 hjn hjlo
    rw [hylen] at hjn
    have e1 : keyAt ys j = keyAt h2 j := by
      apply keyAt_congr
      rw [hys, List.getElem?_append_left (by omega)]
    have e2 : keyAt ys ((j - 1) / 2) = keyAt h2 ((j - 1) / 2) := by
      apply keyAt_congr
      rw [hys, List.getElem?_append_left (by omega)]
    rw [e1, e2]
    exact hord2 j hj0 hjn hjlo

/-- The function `up` of `container/heap` at the root does nothing. -/
theorem heapUp_root (fuel : Nat) (h : List Set) : heapUp (fuel + 1) h 0 = some h := by
  unfold heapUp
  rfl

/-- The function `heap.Fix` at the root of a heap of non-empty sets whose
order holds below the children of the root: a permutation in heap order. -/
theorem heapFix_spec (h : List Set) (hnil : h ≠ []) (hne : ∀ s ∈ h, s.digests ≠ [])
    (hord : ∀ j, 0 < j → j < h.length → (j - 1) / 2 ≠ 0 →
      stringLess (keyAt h j) (keyAt h ((j - 1) / 2)) = false) :
    ∃ h2, heapFix h 0 = some h2 ∧ h2.Perm h ∧ heapOrdered h2 h2.length 0 := by
  have hpos : 0 < h.length := List.length_pos.mpr hnil
  obtain ⟨h1, i1, hd, hperm, _, hord1, _⟩ := heapDown_spec h.length 0 (h.length + 1) h 0 hne
    (le_refl _) hpos (le_refl _) (by omega)
    (fun j hj0 hjn _ hp => hord j hj0 hjn hp)
    (fun h0 => absurd h0 (lt_irrefl 0))
  refine ⟨h1, ?_, hperm, by rw [hperm.length_eq]; exact hord1⟩
  unfold heapFix
  rw [hd]
  dsimp only
  split_ifs
  · rfl
  · exact heapUp_root _ _

/-- In heap order the root has the least key. -/
theorem heapOrdered_root (h : List Set) (hord : heapOrdered h h.length 0) :
    ∀ k, k < h.length → stringLess (keyAt h k) (keyAt h 0) = false := by
  intro k
  induction k using Nat.strong_induction_on with
  | _ k ih =>
    intro hk
    by_cases h0 : k = 0
    · rw [h0]
      exact stringLess_irrefl _
    · have hp : (k - 1) / 2 < k := by omega
      exact stringLess_false_trans _ _ _ (ih _ hp (by omega)) (hord k (by omega) hk (Nat.zero_le _))

/-- In a heap of strictly increasing sets in heap order, no digest is less
than the first digest of the root. -/
theorem heap_lower_bound (d : Digest) (l : List Digest) (rest : List Set)
    (hne : ∀ s ∈ (⟨d :: l⟩ : Set) :: rest, s.digests ≠ [])
    (hinc : ∀ s ∈ (⟨d :: l⟩ : Set) :: rest, strictlyIncreasing s.digests)
    (hord : heapOrdered ((⟨d :: l⟩ : Set) :: rest) ((⟨d :: l⟩ : Set) :: rest).length 0) :
    ∀ s ∈ (⟨d :: l⟩ : Set) :: rest, ∀ x ∈ s.digests, stringLess x.String d.String = false := by
  intro s hs x hx
  obtain ⟨k, hk⟩ := List.mem_iff_getElem?.mp hs
  have hklt : k < ((⟨d :: l⟩ : Set) :: rest).length := by
    obtain ⟨h1, _⟩ := List.getElem?_eq_some_iff.mp hk
    exact h1
  have hroot := heapOrdered_root _ hord k hklt
  have e0 : keyAt ((⟨d :: l⟩ : Set) :: rest) 0 = d.String := by
    unfold keyAt
    rw [List.getElem?_cons_zero]
  rw [e0] at hroot
  have hsne := hne s hs
  have hsinc := hinc s hs
  cases hd : s.digests with
  | nil => exact absurd hd hsne
  | cons e t =>
    have ek : keyAt ((⟨d :: l⟩ : Set) :: rest) k = e.String := by
      unfold keyAt
      rw [hk]
      dsimp only
      rw [hd]
    rw [ek] at hroot
    rw [hd] at hx hsinc
    rcases List.mem_cons.mp hx with rfl | hxt
    · exact hroot
    · exact stringLess_false_trans _ _ _ hroot
        (stringLess_asymm _ _ (((strictlyIncreasing_cons _ _).mp hsinc).1 x hxt))

/-- The number of digests is the same in a permutation. -/
theorem totalDigests_perm (h1 h2 : List Set) (hp : h1.Perm h2) : totalDigests h1 = totalDigests h2 := by
  unfold totalDigests
  exact (hp.map _).sum_eq

/-- The number of digests of a list of sets, set by set. -/
theorem totalDigests_cons (s : Set) (rest : List Set) :
    totalDigests (s :: rest) = s.digests.length + totalDigests rest := by
  unfold totalDigests
  simp

/-- The first half of an iteration of the loop of `GetUnion`, on a heap of
non-empty strictly increasing sets in heap order whose root starts with `d`:
either the heap is the single set with the single digest `d` and the loop
returns, or the heap that is left is again such a heap, holding the digests
other than this `d`. -/
theorem unionRemoveLowest_spec (d : Digest) (l : List Digest) (rest : List Set)
    (hne : ∀ s ∈ (⟨d :: l⟩ : Set) :: rest, s.digests ≠ [])
    (hinc : ∀ s ∈ (⟨d :: l⟩ : Set) :: rest, strictlyIncreasing s.digests)
    (hord : heapOrdered ((⟨d :: l⟩ : Set) :: rest) ((⟨d :: l⟩ : Set) :: rest).length 0) :
    (unionRemoveLowest ((⟨d :: l⟩ : Set) :: rest) = some none ∧ l = [] ∧ rest = [])
    ∨ ∃ h2, unionRemoveLowest ((⟨d :: l⟩ : Set) :: rest) = some (some h2)
      ∧ h2 ≠ [] ∧ (∀ s ∈ h2, s.digests ≠ []) ∧ (∀ s ∈ h2, strictlyIncreasing s.digests)
      ∧ heapOrdered h2 h2.length 0
      ∧ (∀ x, (∃ s ∈ h2, x ∈ s.digests) ↔ (x ∈ l ∨ ∃ s ∈ rest, x ∈ s.digests))
      ∧ totalDigests h2 + 1 = totalDigests ((⟨d :: l⟩ : Set) :: rest) := by
  have hrestne : ∀ s ∈ rest, s.digests ≠ [] := fun s hs => hne s (List.mem_cons_of_mem _ hs)
  have hrestinc : ∀ s ∈ rest, strictlyIncreasing s.digests :=
    fun s hs => hinc s (List.mem_cons_of_mem _ hs)
  cases l with
  | nil =>
    by_cases hrest : rest = []
    · left
      subst hrest
      exact ⟨rfl, rfl, rfl⟩
    · right
      obtain ⟨h2, hp, hperm, hord2⟩ := heapPop_spec ⟨[d]⟩ rest hrest hne hord
      refine ⟨h2, ?_, ?_, ?_, ?_, hord2, ?_, ?_⟩
      · unfold unionRemoveLowest
        dsimp only
        have hlen : ¬ ((⟨[d]⟩ : Set) :: rest).length = 1 := by
          have := List.length_pos.mpr hrest
          simp only [List.length_cons]
          omega
        rw [if_neg hlen, hp]
        rfl
      · intro e
        rw [e] at hperm
        exact hrest hperm.nil_eq.symm
      · exact fun s hs => hrestne s (hperm.mem_iff.mp hs)
      · exact fun s hs => hrestinc s (hperm.mem_iff.mp hs)
      · intro x
        constructor
        · rintro ⟨s, hs, hx⟩
          exact Or.inr ⟨s, hperm.mem_iff.mp hs, hx⟩
        · rintro (hx | ⟨s, hs, hx⟩)
          · exact absurd hx (List.not_mem_nil _)
          · exact ⟨s, hperm.mem_iff.mpr hs, hx⟩
      · rw [totalDigests_perm _ _ hperm, totalDigests_cons]
        simp only [List.length_singleton]
        omega
  | cons l1 l2 =>
    right
    have hdl : strictlyIncreasing (d :: l1 :: l2) := hinc _ (List.mem_cons_self _ _)
    have hl : strictlyIncreasing (l1 :: l2) := ((strictlyIncreasing_cons _ _).mp hdl).2
    obtain ⟨h2, hf, hperm, hord2⟩ := heapFix_spec ((⟨l1 :: l2⟩ : Set) :: rest) (List.cons_ne_nil _ _)
      (by
        intro s hs
        rcases List.mem_cons.mp hs with rfl | hs
        · exact List.cons_ne_nil _ _
        · exact hrestne s hs)
      (by
        intro j hj0 hjn hp
        have e1 : keyAt ((⟨l1 :: l2⟩ : Set) :: rest) j = keyAt ((⟨d :: l1 :: l2⟩ : Set) :: rest) j := by
          obtain ⟨j', rfl⟩ : ∃ j', j = j' + 1 := ⟨j - 1, by omega⟩
          exact keyAt_congr _ _ _ _ (by rw [List.getElem?_cons_succ, List.getElem?_cons_succ])
        have e2 : keyAt ((⟨l1 :: l2⟩ : Set) :: rest) ((j - 1) / 2)
            = keyAt ((⟨d :: l1 :: l2⟩ : Set) :: rest) ((j - 1) / 2) := by
          obtain ⟨p', hp'⟩ : ∃ p', (j - 1) / 2 = p' + 1 := ⟨(j - 1) / 2 - 1, by omega⟩
          rw [hp']
          exact keyAt_congr _ _ _ _ (by rw [List.getElem?_cons_succ, List.getElem?_cons_succ])
        rw [e1, e2]
        exact hord j hj0 (by simpa using hjn) (Nat.zero_le _))
    refine ⟨h2, ?_, ?_, ?_, ?_, hord2, ?_, ?_⟩
    · unfold unionRemoveLowest
      dsimp only
      rw [hf]
      rfl
    · intro e
      rw [e] at hperm
      exact List.cons_ne_nil _ _ hperm.nil_eq.symm
    · intro s hs
      rcases List.mem_cons.mp (hperm.mem_iff.mp hs) with rfl | hs
      · exact List.cons_ne_nil _ _
      · exact hrestne s hs
    · intro s hs
      rcases List.mem_cons.mp (hperm.mem_iff.mp hs) with rfl | hs
      · exact hl
      · exact hrestinc s hs
    · intro x
      constructor
      · rintro ⟨s, hs, hx⟩
        rcases List.mem_cons.mp (hperm.mem_iff.mp hs) with rfl | hs
        · exact Or.inl hx
        · exact Or.inr ⟨s, hs, hx⟩
      · rintro (hx | ⟨s, hs, hx⟩)
        · exact ⟨⟨l1 :: l2⟩, hperm.mem_iff.mpr (List.mem_cons_self _ _), hx⟩
        · exact ⟨s, hperm.mem_iff.mpr (List.mem_cons_of_mem _ hs), hx⟩
    · rw [totalDigests_perm _ _ hperm, totalDigests_cons, totalDigests_cons]
      simp only [List.length_cons]
      omega

/-- The last digest of a list is in the list. -/
theorem mem_of_getLast_some (out : List Digest) (d : Digest) (h : out.getLast? = some d) : d ∈ out := by
  obtain ⟨ys, rfl⟩ := List.getLast?_eq_some_iff.mp h
  exact List.mem_append_right _ (List.mem_singleton_self _)

/-- In a strictly increasing list every digest is the last one or less than it. -/
theorem strictlyIncreasing_last (out : List Digest) (d : Digest) (hout : strictlyIncreasing out)
    (hlast : out.getLast? = some d) :
    ∀ a ∈ out, a = d ∨ stringLess a.String d.String = true := by
  obtain ⟨ys, rfl⟩ := List.getLast?_eq_some_iff.mp hlast
  unfold strictlyIncreasing at hout
  rw [List.pairwise_append] at hout
  intro a ha
  rcases List.mem_append.mp ha with h1 | h1
  · exact Or.inr (hout.2.2 a h1 d (List.mem_singleton_self _))
  · exact Or.inl (List.mem_singleton.mp h1)

/-- The second half of an iteration of the loop of `GetUnion`: when no digest
of the heap is less than the last digest added, the output stays strictly
increasing and ends with the first digest of the root. -/
theorem unionAppendLowest_spec (d2 : Digest) (l2 : List Digest) (rest2 : List Set) (out : List Digest)
    (d : Digest) (hout : strictlyIncreasing out) (hlast : out.getLast? = some d)
    (hge : stringLess d2.String d.String = false) :
    ∃ out1, unionAppendLowest ((⟨d2 :: l2⟩ : Set) :: rest2) out = some out1
      ∧ strictlyIncreasing out1 ∧ out1.getLast? = some d2
      ∧ ∀ x, x ∈ out1 ↔ (x ∈ out ∨ x = d2) := by
  have hd : d ∈ out := mem_of_getLast_some _ _ hlast
  by_cases hne : d2 = d
  · subst hne
    refine ⟨out, ?_, hout, hlast, ?_⟩
    · unfold unionAppendLowest
      dsimp only
      rw [hlast]
      dsimp only
      rw [if_neg (by simp)]
    · intro x
      constructor
      · exact Or.inl
      · rintro (h | rfl)
        · exact h
        · exact hd
  · have hlt : stringLess d.String d2.String = true := by
      by_contra hn
      exact hne (dlt_total d2 d (by rw [hge]; simp) hn)
    refine ⟨out ++ [d2], ?_, ?_, List.getLast?_concat _, ?_⟩
    · unfold unionAppendLowest
      dsimp only
      rw [hlast]
      dsimp only
      rw [if_pos hne]
    · unfold strictlyIncreasing
      rw [List.pairwise_append]
      refine ⟨hout, List.pairwise_singleton _ _, ?_⟩
      intro a ha b hb
      rw [List.mem_singleton.mp hb]
      rcases strictlyIncreasing_last out d hout hlast a ha with rfl | h
      · exact hlt
      · exact stringLess_trans _ _ _ h hlt
    · intro x
      rw [List.mem_append, List.mem_singleton]

/-- The loop of `GetUnion`, on a heap of non-empty strictly increasing sets in
heap order whose root starts with the last digest added: with one iteration
allowed per digest in the heap it returns a strictly increasing list holding
the digests added so far and the digests in the heap. -/
theorem unionLoop_spec : ∀ (fuel : Nat) (d : Digest) (l : List Digest) (rest : List Set)
    (out : List Digest),
    (∀ s ∈ (⟨d :: l⟩ : Set) :: rest, s.digests ≠ []) →
    (∀ s ∈ (⟨d :: l⟩ : Set) :: rest, strictlyIncreasing s.digests) →
    heapOrdered ((⟨d :: l⟩ : Set) :: rest) ((⟨d :: l⟩ : Set) :: rest).length 0 →
    strictlyIncreasing out → out.getLast? = some d →
    totalDigests ((⟨d :: l⟩ : Set) :: rest) ≤ fuel →
    ∃ res, unionLoop fuel ((⟨d :: l⟩ : Set) :: rest) out = some ⟨res⟩ ∧ strictlyIncreasing res
      ∧ ∀ x, x ∈ res ↔ (x ∈ out ∨ ∃ s ∈ (⟨d :: l⟩ : Set) :: rest, x ∈ s.digests)
  | 0, d, l, rest, out, _, _, _, _, _, hf => by
    rw [totalDigests_cons] at hf
    simp only [List.length_cons] at hf
    omega
  | fuel + 1, d, l, rest, out, hne, hinc, hord, hout, hlast, hf => by
    have hd : d ∈ out := mem_of_getLast_some _ _ hlast
    have hlow := heap_lower_bound d l rest hne hinc hord
    rcases unionRemoveLowest_spec d l rest hne hinc hord with ⟨hr, hl, hrest⟩ | ⟨h2, hr, hnil, hne2,
      hinc2, hord2, hmem2, htot⟩
    · refine ⟨out, ?_, hout, ?_⟩
      · unfold unionLoop
        rw [hr]
      · subst hl
        subst hrest
        intro x
        constructor
        · exact Or.inl
        · rintro (h | ⟨s, hs, hx⟩)
          · exact h
          · rw [List.mem_singleton.mp hs] at hx
            rw [List.mem_singleton.mp hx]
            exact hd
    · obtain ⟨s2, rest2, rfl⟩ : ∃ s2 rest2, h2 = s2 :: rest2 := by
        cases h2 with
        | nil => exact absurd rfl hnil
        | cons s2 rest2 => exact ⟨s2, rest2, rfl⟩
      obtain ⟨ds2⟩ := s2
      obtain ⟨d2, l2, rfl⟩ : ∃ d2 l2, ds2 = d2 :: l2 := by
        cases ds2 with
        | nil => exact absurd rfl (hne2 ⟨[]⟩ (List.mem_cons_self _ _))
        | cons d2 l2 => exact ⟨d2, l2, rfl⟩
      have hsub : ∀ x, (∃ s ∈ (⟨d2 :: l2⟩ : Set) :: rest2, x ∈ s.digests) →
          ∃ s ∈ (⟨d :: l⟩ : Set) :: rest, x ∈ s.digests := by
        intro x hx
        rcases (hmem2 x).mp hx with h | ⟨s, hs, h⟩
        · exact ⟨⟨d :: l⟩, List.mem_cons_self _ _, List.mem_cons_of_mem _ h⟩
        · exact ⟨s, List.mem_cons_of_mem _ hs, h⟩
      have hd2 : ∃ s ∈ (⟨d2 :: l2⟩ : Set) :: rest2, d2 ∈ s.digests :=
        ⟨⟨d2 :: l2⟩, List.mem_cons_self _ _, List.mem_cons_self _ _⟩
      have hge : stringLess d2.String d.String = false := by
        obtain ⟨s, hs, hx⟩ := hsub d2 hd2
        exact hlow s hs d2 hx
      obtain ⟨out1, ha, hout1, hlast1, hmem1⟩ := unionAppendLowest_spec d2 l2 rest2 out d hout hlast hge
      obtain ⟨res, hl, hres, hmem⟩ := unionLoop_spec fuel d2 l2 rest2 out1 hne2 hinc2 hord2 hout1 hlast1
        (by omega)
      refine ⟨res, ?_, hres, ?_⟩
      · unfold unionLoop
        rw [hr]
        dsimp only
        rw [ha]
        exact hl
      · intro x
        rw [hmem x, hmem1 x]
        constructor
        · rintro ((h | rfl) | h)
          · exact Or.inl h
          · exact Or.inr (hsub _ hd2)
          · exact Or.inr (hsub x h)
        · rintro (h | ⟨s, hs, hx⟩)
          · exact Or.inl (Or.inl h)
          · rcases List.mem_cons.mp hs with rfl | hs
            · rcases List.mem_cons.mp hx with rfl | hx
              · exact Or.inl (Or.inl hd)
              · exact Or.inr ((hmem2 x).mpr (Or.inl hx))
            · exact Or.inr ((hmem2 x).mpr (Or.inr ⟨s, hs, hx⟩))

/-- What `GetUnion` returns on strictly increasing sets: it returns a strictly
increasing set that holds exactly the digests of the input sets. -/
theorem GetUnion_spec (sets : List Set) (hs : ∀ s ∈ sets, strictlyIncreasing s.digests) :
    ∃ u, GetUnion sets = some u ∧ strictlyIncreasing u.digests
      ∧ ∀ x, x ∈ u.digests ↔ ∃ s ∈ sets, x ∈ s.digests := by
  have hact : ∀ s, s ∈ sets.filter (fun s => decide (s.digests.length > 0))
      ↔ s ∈ sets ∧ s.digests ≠ [] := by
    intro s
    rw [List.mem_filter, decide_eq_true_eq, gt_iff_lt, List.length_pos]
  have hmem : ∀ x, (∃ s ∈ sets.filter (fun s => decide (s.digests.length > 0)), x ∈ s.digests)
      ↔ ∃ s ∈ sets, x ∈ s.digests := by
    intro x
    constructor
    · rintro ⟨s, hs1, hx⟩
      exact ⟨s, ((hact s).mp hs1).1, hx⟩
    · rintro ⟨s, hs1, hx⟩
      exact ⟨s, (hact s).mpr ⟨hs1, List.ne_nil_of_mem hx⟩, hx⟩
  unfold GetUnion
  dsimp only
  generalize hA : sets.filter (fun s => decide (s.digests.length > 0)) = act at hact hmem
  by_cases h0 : act.length = 0
  · rw [if_pos h0]
    have hnil : act = [] := List.length_eq_zero.mp h0
    subst hnil
    refine ⟨EmptySet, rfl, List.Pairwise.nil, ?_⟩
    intro x
    rw [← hmem x]
    constructor
    · intro h
      exact absurd h (List.not_mem_nil _)
    · rintro ⟨s, hs1, _⟩
      exact absurd hs1 (List.not_mem_nil _)
  · rw [if_neg h0]
    by_cases h1 : act.length = 1
    · rw [if_pos h1]
      obtain ⟨s, rfl⟩ := List.length_eq_one.mp h1
      refine ⟨s, rfl, hs s ((hact s).mp (List.mem_singleton_self _)).1, ?_⟩
      intro x
      rw [← hmem x]
      constructor
      · intro h
        exact ⟨s, List.mem_singleton_self _, h⟩
      · rintro ⟨t, ht, hx⟩
        rw [List.mem_singleton.mp ht] at hx
        exact hx
    · rw [if_neg h1]
      obtain ⟨h1', hi, hperm, hord⟩ := heapInit_spec act (fun s hs1 => ((hact s).mp hs1).2)
      rw [hi]
      dsimp only
      have hne1 : ∀ s ∈ h1', s.digests ≠ [] := fun s hs1 => ((hact s).mp (hperm.mem_iff.mp hs1)).2
      have hinc1 : ∀ s ∈ h1', strictlyIncreasing s.digests :=
        fun s hs1 => hs s ((hact s).mp (hperm.mem_iff.mp hs1)).1
      obtain ⟨s1, rest1, rfl⟩ : ∃ s1 rest1, h1' = s1 :: rest1 := by
        cases h1' with
        | nil =>
          have := hperm.length_eq
          simp only [List.length_nil] at this
          exact absurd this.symm h0
        | cons s1 rest1 => exact ⟨s1, rest1, rfl⟩
      obtain ⟨ds1⟩ := s1
      obtain ⟨d, l, rfl⟩ : ∃ d l, ds1 = d :: l := by
        cases ds1 with
        | nil => exact absurd rfl (hne1 ⟨[]⟩ (List.mem_cons_self _ _))
        | cons d l => exact ⟨d, l, rfl⟩
      dsimp only
      have hfuel : (act.map (fun s => s.digests.length)).sum
          = totalDigests ((⟨d :: l⟩ : Set) :: rest1) := (totalDigests_perm _ _ hperm).symm
      obtain ⟨res, hl, hres, hmemr⟩ := unionLoop_spec _ d l rest1 [d] hne1 hinc1 hord
        (List.pairwise_singleton _ _) rfl (le_of_eq hfuel.symm)
      refine ⟨⟨res⟩, hl, hres, ?_⟩
      intro x
      rw [hmemr x, ← hmem x]
      constructor
      · rintro (h | ⟨s, hs1, hx⟩)
        · rw [List.mem_singleton.mp h]
          exact ⟨⟨d :: l⟩, hperm.mem_iff.mp (List.mem_cons_self _ _), List.mem_cons_self _ _⟩
        · exact ⟨s, hperm.mem_iff.mp hs1, hx⟩
      · rintro ⟨s, hs1, hx⟩
        exact Or.inr ⟨s, hperm.mem_iff.mpr hs1, hx⟩

/-- C29: `GetUnion` computes the union. For a list of sets whose digest lists
are strictly increasing by `String()`, `GetUnion` returns a set in which a
digest occurs exactly when it occurs in one of the input sets. In particular
the empty list and a list of empty sets give the empty set, a list whose only
non-empty set is `s` gives `s`, and every list with the same sets, in any
order and with any multiplicity, gives the same result (`GetUnion([s, s])` is
`s`). -/
theorem GetUnion_union (sets : List Set) (hs : ∀ s ∈ sets, strictlyIncreasing s.digests) :
    ∃ u, GetUnion sets = some u
      ∧ (∀ x, x ∈ u.digests ↔ ∃ s ∈ sets, x ∈ s.digests)
      ∧ ((∀ s ∈ sets, s.digests = []) → u = EmptySet)
      ∧ (∀ s ∈ sets, s.digests ≠ [] → (∀ t ∈ sets, t.digests ≠ [] → t = s) → u = s)
      ∧ (∀ sets2 : List Set, (∀ s, s ∈ sets2 ↔ s ∈ sets) → GetUnion sets2 = some u)
      ∧ (∀ s, sets = [s] → GetUnion [s, s] = some s) := by
  obtain ⟨u, hu, hinc, hmem⟩ := GetUnion_spec sets hs
  have hsame : ∀ sets2 : List Set, (∀ s, s ∈ sets2 ↔ s ∈ sets) → GetUnion sets2 = some u := by
    intro sets2 h2
    obtain ⟨u2, hu2, hinc2, hmem2⟩ := GetUnion_spec sets2 (fun s hs2 => hs s ((h2 s).mp hs2))
    have e : u2.digests = u.digests := by
      apply strictlyIncreasing_ext _ _ hinc2 hinc
      intro x
      rw [hmem2 x, hmem x]
      constructor
      · rintro ⟨s, h, hx⟩
        exact ⟨s, (h2 s).mp h, hx⟩
      · rintro ⟨s, h, hx⟩
        exact ⟨s, (h2 s).mpr h, hx⟩
    have e2 : u2 = u := by
      cases u2
      cases u
      exact congrArg Set.mk e
    rw [hu2, e2]
  refine ⟨u, hu, hmem, ?_, ?_, hsame, ?_⟩
  · intro hempty
    have e : u.digests = [] := by
      apply List.eq_nil_iff_forall_not_mem.mpr
      intro x hx
      obtain ⟨s, h, hxs⟩ := (hmem x).mp hx
      rw [hempty s h] at hxs
      exact absurd hxs (List.not_mem_nil _)
    cases u
    exact congrArg Set.mk e
  · intro s hsin _ honly
    have e : u.digests = s.digests := by
      apply strictlyIncreasing_ext _ _ hinc (hs s hsin)
      intro x
      rw [hmem x]
      constructor
      · rintro ⟨t, ht, hx⟩
        rw [honly t ht (List.ne_nil_of_mem hx)] at hx
        exact hx
      · intro hx
        exact ⟨s, hsin, hx⟩
    cases u
    cases s
    exact congrArg Set.mk e
  · intro s hsets
    subst hsets
    have e1 : GetUnion [s] = some s := by
      unfold GetUnion
      dsimp only
      by_cases hnil : s.digests = []
      · have hf : [s].filter (fun s => decide (s.digests.length > 0)) = [] := by
          simp [hnil]
        rw [hf]
        cases s
        exact congrArg (fun l => some (Set.mk l)) hnil.symm
      · have hf : [s].filter (fun s => decide (s.digests.length > 0)) = [s] := by
          simp [List.length_pos.mpr hnil]
        rw [hf]
        rfl
    rw [hu] at e1
    rw [hsame [s, s] (by intro t; simp), e1]

/-- C29, witness: the union of three sets, one of them empty; the digest the
two others share occurs once. -/
theorem GetUnion_union_witness :
    GetUnion [⟨[mkDigest "a" "3e25960a79dbc69b674cd4ec67a72c62" 11, helloDigest]⟩, ⟨[]⟩,
        ⟨[helloDigest, blobDigest]⟩]
      = some ⟨[mkDigest "a" "3e25960a79dbc69b674cd4ec67a72c62" 11, helloDigest, blobDigest]⟩
    ∧ ∃ u, GetUnion [⟨[mkDigest "a" "3e25960a79dbc69b674cd4ec67a72c62" 11, helloDigest]⟩, ⟨[]⟩,
        ⟨[helloDigest, blobDigest]⟩] = some u
      ∧ ∀ x, x ∈ u.digests ↔ ∃ s ∈ ([⟨[mkDigest "a" "3e25960a79dbc69b674cd4ec67a72c62" 11, helloDigest]⟩,
        ⟨[]⟩, ⟨[helloDigest, blobDigest]⟩] : List Set), x ∈ s.digests :=
  have h := GetUnion_union [⟨[mkDigest "a" "3e25960a79dbc69b674cd4ec67a72c62" 11, helloDigest]⟩, ⟨[]⟩,
    ⟨[helloDigest, blobDigest]⟩] (by decide)
  match h with
  | ⟨u, h1, h2, _⟩ => ⟨by decide, u, h1, h2⟩

/-- C30: sets stay sorted and duplicate-free. A singleton set is strictly
increasing by `String()`; for strictly increasing inputs the three results of
`GetDifferenceAndIntersection` and the result of `GetUnion` are strictly
increasing as well. For a strictly increasing set, `Items()` is sorted
without duplicates, and `First()` returns its least element, or `BadDigest`
and `false` when the set is empty. -/
theorem Sets_stay_sorted (d : Digest) (setA setB s : Set) (sets : List Set)
    (hA : strictlyIncreasing setA.digests) (hB : strictlyIncreasing setB.digests)
    (hsets : ∀ t ∈ sets, strictlyIncreasing t.digests) (hs : strictlyIncreasing s.digests) :
    strictlyIncreasing d.ToSingletonSet.digests
      ∧ (∃ onlyA both onlyB : Set, GetDifferenceAndIntersection setA setB = some (onlyA, both, onlyB)
        ∧ strictlyIncreasing onlyA.digests ∧ strictlyIncreasing both.digests
        ∧ strictlyIncreasing onlyB.digests)
      ∧ (∃ u, GetUnion sets = some u ∧ strictlyIncreasing u.digests)
      ∧ strictlyIncreasing s.Items ∧ s.Items.Nodup
      ∧ ((s.digests = [] ∧ s.First = (BadDigest, false))
        ∨ ∃ first, s.First = (first, true) ∧ first ∈ s.Items
          ∧ ∀ x ∈ s.Items, x = first ∨ stringLess first.String x.String = true) := by
  refine ⟨List.pairwise_singleton _ _, ?_, ?_, hs, strictlyIncreasing_nodup _ hs, ?_⟩
  · exact ⟨_, _, _, GetDifferenceAndIntersection_filter setA setB hA hB,
      strictlyIncreasing_filter _ _ hA, strictlyIncreasing_filter _ _ hA,
      strictlyIncreasing_filter _ _ hB⟩
  · obtain ⟨u, hu, hinc, _⟩ := GetUnion_spec sets hsets
    exact ⟨u, hu, hinc⟩
  · obtain ⟨ds⟩ := s
    cases ds with
    | nil => exact Or.inl ⟨rfl, rfl⟩
    | cons first tl =>
      right
      refine ⟨first, rfl, List.mem_cons_self _ _, ?_⟩
      intro x hx
      rcases List.mem_cons.mp hx with rfl | hx
      · exact Or.inl rfl
      · exact Or.inr (((strictlyIncreasing_cons _ _).mp hs).1 x hx)

/-- C30, witness: the sets of the witnesses of the two operations. -/
theorem Sets_stay_sorted_witness :
    strictlyIncreasing helloDigest.ToSingletonSet.digests
      ∧ (∃ u, GetUnion [⟨[mkDigest "a" "3e25960a79dbc69b674cd4ec67a72c62" 11, helloDigest]⟩,
          ⟨[helloDigest, blobDigest]⟩] = some u ∧ strictlyIncreasing u.digests)
      ∧ (⟨[helloDigest, blobDigest]⟩ : Set).First = (helloDigest, true) :=
  have h := Sets_stay_sorted helloDigest
    ⟨[mkDigest "a" "3e25960a79dbc69b674cd4ec67a72c62" 11, helloDigest]⟩ ⟨[helloDigest, blobDigest]⟩
    ⟨[helloDigest, blobDigest]⟩
    [⟨[mkDigest "a" "3e25960a79dbc69b674cd4ec67a72c62" 11, helloDigest]⟩, ⟨[helloDigest, blobDigest]⟩]
    (by decide) (by decide) (by decide) (by decide)
  ⟨h.1, h.2.2.1, rfl⟩

/-- A chunk reader without data returns end-of-stream on every `Read`. -/
theorem readN_empty (n : Nat) :
    byteSliceChunkReader.readN n ⟨[]⟩ = List.replicate n (none, some Error.EOF) := by
  induction n with
  | zero => rfl
  | succ n ih =>
    unfold byteSliceChunkReader.readN
    have e : (byteSliceChunkReader.Read ⟨[]⟩) = ((none, some Error.EOF), ⟨[]⟩) := rfl
    rw [e]
    dsimp only
    rw [ih]
    rfl

/-- The reads of a chunk reader over `D`: the whole of `D` at the first
`Read` when `D` is not empty, end-of-stream at every other `Read`. -/
theorem readN_eq (D : List Nat) (n : Nat) :
    byteSliceChunkReader.readN n ⟨D⟩
      = if D = [] then List.replicate n (none, some Error.EOF)
        else (List.replicate n (none, some Error.EOF)).set 0 (some D, none) := by
  by_cases hD : D = []
  · rw [if_pos hD, hD]
    exact readN_empty n
  · rw [if_neg hD]
    cases n with
    | zero => rfl
    | succ n =>
      unfold byteSliceChunkReader.readN
      have e : (byteSliceChunkReader.Read ⟨D⟩) = ((some D, none), ⟨[]⟩) := by
        unfold byteSliceChunkReader.Read
        rw [if_neg (by simpa using hD)]
      rw [e]
      dsimp only
      rw [readN_empty]
      rfl

/-- C31: the chunk reader over a byte slice. For every byte slice `D` and
every number `n` of `Read` calls: when `D` is not empty the first `Read`
returns the whole of `D` with no error and every later `Read` returns nil and
end-of-stream; when `D` is empty every `Read` returns end-of-stream; no `Read`
returns an empty chunk with a nil error; the chunks returned by one or more
reads concatenate to `D`; and after a `Read` that returned end-of-stream every
`Read` returns end-of-stream. -/
theorem byteSliceChunkReader_reads (D : List Nat) (n : Nat) :
    (D ≠ [] → byteSliceChunkReader.readN (n + 1) ⟨D⟩
        = (some D, none) :: List.replicate n (none, some Error.EOF))
      ∧ (D = [] → byteSliceChunkReader.readN n ⟨D⟩ = List.replicate n (none, some Error.EOF))
      ∧ (∀ x ∈ byteSliceChunkReader.readN n ⟨D⟩, x.2 = none → ∃ chunk, x.1 = some chunk ∧ chunk ≠ [])
      ∧ ((byteSliceChunkReader.readN (n + 1) ⟨D⟩).flatMap (fun x => x.1.getD [])) = D
      ∧ (∀ i j, i ≤ j → j < n →
          ((byteSliceChunkReader.readN n ⟨D⟩)[i]?).map (fun x => x.2) = some (some Error.EOF) →
          (byteSliceChunkReader.readN n ⟨D⟩)[j]? = some (none, some Error.EOF)) := by
  have hfirst : D ≠ [] → byteSliceChunkReader.readN (n + 1) ⟨D⟩
      = (some D, none) :: List.replicate n (none, some Error.EOF) := by
    intro hD
    rw [readN_eq, if_neg hD]
    rfl
  have hflat : ∀ k : Nat, (List.replicate k ((none : Option (List Nat)), some Error.EOF)).flatMap
      (fun x => x.1.getD []) = [] := by
    intro k
    induction k with
    | zero => rfl
    | succ k ih =>
      rw [List.replicate_succ, List.flatMap_cons, ih]
      rfl
  refine ⟨hfirst, ?_, ?_, ?_, ?_⟩
  · intro hD
    rw [readN_eq, if_pos hD]
  · intro x hx hnone
    rw [readN_eq] at hx
    by_cases hD : D = []
    · rw [if_pos hD] at hx
      rw [(List.mem_replicate.mp hx).2] at hnone
      exact absurd hnone (by simp)
    · rw [if_neg hD] at hx
      rcases List.mem_or_eq_of_mem_set hx with h | h
      · rw [(List.mem_replicate.mp h).2] at hnone
        exact absurd hnone (by simp)
      · exact ⟨D, by rw [h], hD⟩
  · by_cases hD : D = []
    · rw [readN_eq, if_pos hD, hflat, hD]
    · rw [hfirst hD, List.flatMap_cons, hflat]
      simp
  · intro i j hij hj hi
    rw [readN_eq] at hi ⊢
    by_cases hD : D = []
    · rw [if_pos hD]
      rw [List.getElem?_replicate, if_pos hj]
    · rw [if_neg hD] at hi ⊢
      have hi0 : i ≠ 0 := by
        intro h0
        rw [h0, List.getElem?_set_self (by rw [List.length_replicate]; omega)] at hi
        simp at hi
      rw [List.getElem?_set_ne (by omega), List.getElem?_replicate, if_pos hj]

/-- C31, witness: the chunk reader over `Hello`, read three times. -/
theorem byteSliceChunkReader_reads_witness :
    byteSliceChunkReader.readN 3 ⟨ascii "Hello"⟩
      = [(some (ascii "Hello"), none), (none, some Error.EOF), (none, some Error.EOF)] :=
  (byteSliceChunkReader_reads (ascii "Hello") 2).1 (by decide)

/-- C34: positioning a replacement stream. For every `casReaderBuffer` whose
underlying reader delivers the bytes `R` and every offset `0 <= off`: when
`off <= len(R)`, `toUnvalidatedReader(off)` is the underlying reader itself,
not closed, delivering exactly `R[off:]` followed by the reader's own result,
and `toUnvalidatedChunkReader(off, policy)` delivers chunks that concatenate
to `R[off:]`, followed by the same result; when the reader ends before `off`
bytes, both close the underlying reader and return a reader / chunk reader
that yields the error that ended it. Neither looks at the digest or the
source of the buffer: two buffers over the same reader give the same result. -/
theorem casReaderBuffer_toUnvalidated_positions (b : casReaderBuffer) (off : Int) (chunkPolicy : ChunkPolicy)
    (hoff : 0 ≤ off) :
    (off ≤ (b.r.bytes.length : Int) →
        (b.toUnvalidatedReader off).1.bytes = b.r.bytes.drop off.toNat
        ∧ (b.toUnvalidatedReader off).1.err = b.r.err
        ∧ (b.toUnvalidatedReader off).1.closes = b.r.closes
        ∧ (b.toUnvalidatedReader off).2 = (b.toUnvalidatedReader off).1
        ∧ (b.toUnvalidatedChunkReader off chunkPolicy).chunkReader.chunks.flatten
            = b.r.bytes.drop off.toNat
        ∧ (b.toUnvalidatedChunkReader off chunkPolicy).chunkReader.err = b.r.err
        ∧ (b.toUnvalidatedChunkReader off chunkPolicy).chunkReader.closes = b.r.closes
        ∧ (b.toUnvalidatedChunkReader off chunkPolicy).stream.closes = b.r.closes)
      ∧ ((b.r.bytes.length : Int) < off →
        (b.toUnvalidatedReader off).1 = newErrorReader b.r.err
        ∧ (b.toUnvalidatedReader off).2.closes = b.r.closes + 1
        ∧ (b.toUnvalidatedChunkReader off chunkPolicy).chunkReader = newErrorChunkReader b.r.err
        ∧ (b.toUnvalidatedChunkReader off chunkPolicy).stream.closes = b.r.closes + 1)
      ∧ (∀ b2 : casReaderBuffer, b2.r = b.r →
        b2.toUnvalidatedReader off = b.toUnvalidatedReader off
        ∧ b2.toUnvalidatedChunkReader off chunkPolicy = b.toUnvalidatedChunkReader off chunkPolicy) := by
  refine ⟨fun hle => ?_, fun hlt => ?_, fun b2 h2 => ?_⟩
  · have hd : off.toNat ≤ b.r.bytes.length := by omega
    unfold casReaderBuffer.toUnvalidatedReader casReaderBuffer.toUnvalidatedChunkReader
    rw [discardFromReader_of_le b.r off hd]
    dsimp only
    refine ⟨bytes_dropBytes b.r off.toNat, rfl, rfl, rfl, ?_, rfl, rfl, rfl⟩
    unfold newReaderBackedChunkReader
    dsimp only
    rw [normalizeChunks_flatten, List.nil_append, dropBytes_flatten]
    rfl
  · have hd : ¬ off.toNat ≤ b.r.bytes.length := by omega
    unfold casReaderBuffer.toUnvalidatedReader casReaderBuffer.toUnvalidatedChunkReader
    rw [discardFromReader_of_not_le b.r off hd]
    exact ⟨rfl, rfl, rfl, rfl⟩
  · unfold casReaderBuffer.toUnvalidatedReader casReaderBuffer.toUnvalidatedChunkReader
    rw [h2]
    exact ⟨rfl, rfl⟩

/-- C34, witness: a reader delivering `XXXXXXworld`, positioned at offset 6,
delivers `world`, as a reader and as a chunk reader. -/
theorem casReaderBuffer_toUnvalidated_positions_witness :
    (casReaderBuffer.toUnvalidatedReader
        ⟨helloDigest, ⟨[ascii "XXXXXXworld"], .EOF, 0⟩, backendProvided⟩ 6).1.bytes = ascii "world"
      ∧ (casReaderBuffer.toUnvalidatedChunkReader
        ⟨helloDigest, ⟨[ascii "XXXXXXworld"], .EOF, 0⟩, backendProvided⟩ 6 ⟨2, 3⟩).chunkReader.chunks.flatten
          = ascii "world" := by
  have h := (casReaderBuffer_toUnvalidated_positions
    ⟨helloDigest, ⟨[ascii "XXXXXXworld"], .EOF, 0⟩, backendProvided⟩ 6 ⟨2, 3⟩ (by decide)).1 (by decide)
  exact ⟨h.1, h.2.2.2.2.1⟩

/-- The validating reader over a stream that ends cleanly and matches the
digest in size and checksum hands on the reads of the stream and tells the
source that the data is valid. -/
theorem ToReader_of_valid (H : Hashers) (b : casReaderBuffer) (sizeBytes : Int) (checksum : List Nat)
    (hasher : HashAlgorithm)
    (hsize : b.digest.GetSizeBytes = some sizeBytes) (hhash : b.digest.GetHashBytes = some checksum)
    (hhasher : b.digest.NewHasher = some hasher) (herr : b.r.err = .EOF)
    (hlen : (b.r.bytes.length : Int) = sizeBytes) (hsum : H hasher b.r.bytes = checksum) :
    b.ToReader H
      = some ({ reads := b.r.reads, err := .EOF, closes := b.r.closes }, [.notifyDataValid]) := by
  unfold casReaderBuffer.ToReader newCASValidatingReader
  rw [hsize, hhash, hhasher, herr]
  dsimp only
  rw [casValidate_of_valid (H hasher) b.source sizeBytes checksum b.r.reads []
    (by rw [List.nil_append]; exact hlen) (by rw [List.nil_append]; exact hsum)]

/-- C35 as stated fails: over `Hello world` under its digest, with an empty
destination at offset 11 (the end of the data), the stream-backed `ReadAt`
returns `(0, nil)` and the in-memory `ReadAt` returns `(0, io.EOF)`. -/
theorem ReadAt_agreement_counterexample :
    (casReaderBuffer.ReadAt md5Hashers
        ⟨helloDigest, ⟨[ascii "Hello world"], .EOF, 0⟩, backendProvided⟩ [] 11).map
        (fun res => (res.n, res.err, res.p)) = some (0, none, [])
      ∧ validatedByteSliceBuffer.ReadAt ⟨ascii "Hello world"⟩ [] 11 = (0, some .EOF, []) := by
  decide

/-- C35, amended: `ReadAt` agrees between the stream-backed and the in-memory
variant except for an empty destination at the very end of the data. For every
byte sequence `D` that matches the digest (size and hash), delivered by a
reader that ends cleanly, every offset `off >= 0` and every destination `p`,
`casReaderBuffer.ReadAt(p, off)` returns; unless `off = len(D)` and
`len(p) = 0`, it returns the same byte count, leaves the same bytes in `p` and
returns the same nil / end-of-stream result as
`validatedByteSliceBuffer.ReadAt(p, off)` over `D`; for `off = len(D)` and
`len(p) = 0` the stream-backed variant returns `(0, nil)` and the in-memory
variant `(0, io.EOF)`. -/
theorem ReadAt_agreement (H : Hashers) (b : casReaderBuffer) (D p : List Nat) (off : Int)
    (sizeBytes : Int) (checksum : List Nat) (hasher : HashAlgorithm)
    (hsize : b.digest.GetSizeBytes = some sizeBytes) (hhash : b.digest.GetHashBytes = some checksum)
    (hhasher : b.digest.NewHasher = some hasher)
    (hD : b.r.bytes = D) (herr : b.r.err = .EOF)
    (hlen : (D.length : Int) = sizeBytes) (hsum : H hasher D = checksum) (hoff : 0 ≤ off) :
    ∃ res, b.ReadAt H p off = some res
      ∧ (¬ (off = (D.length : Int) ∧ p = []) →
          (res.n, res.err, res.p) = validatedByteSliceBuffer.ReadAt ⟨D⟩ p off)
      ∧ (off = (D.length : Int) → p = [] →
          (res.n, res.err, res.p) = (0, none, [])
          ∧ validatedByteSliceBuffer.ReadAt ⟨D⟩ p off = (0, some .EOF, [])) := by
  subst hD
  have hneg : ¬ off < 0 := by omega
  unfold casReaderBuffer.ReadAt
  rw [ToReader_of_valid H b sizeBytes checksum hasher hsize hhash hhasher herr hlen hsum]
  dsimp only
  have hb0 : ({ reads := b.r.reads, err := Error.EOF, closes := b.r.closes } : ReadCloser).bytes
      = b.r.bytes := rfl
  by_cases hd : off.toNat ≤ b.r.bytes.length
  · rw [discardFromReader_of_le _ off (by rw [hb0]; exact hd)]
    dsimp only
    have hb1 : ({ reads := dropBytes b.r.reads off.toNat, err := Error.EOF, closes := b.r.closes }
        : ReadCloser).bytes = b.r.bytes.drop off.toNat := by
      simp only [ReadCloser.bytes, dropBytes_flatten]
    by_cases hp : p.length ≤ (b.r.bytes.drop off.toNat).length
    · rw [ioReadFull_of_le _ p (by rw [hb1]; exact hp)]
      dsimp only
      unfold ioCopyDiscard
      dsimp only
      rw [if_pos rfl]
      dsimp only
      refine ⟨_, rfl, fun hne => ?_, fun he hpe => ?_⟩
      · dsimp only
        rw [hb1]
        unfold validatedByteSliceBuffer.ReadAt
        rw [if_neg hneg]
        have hlt : ¬ off ≥ (b.r.bytes.length : Int) := by
          intro hge
          apply hne
          have e : off = (b.r.bytes.length : Int) := by omega
          refine ⟨e, ?_⟩
          rw [List.length_drop] at hp
          have : p.length = 0 := by omega
          exact List.length_eq_zero.mp this
        rw [if_neg hlt]
        unfold copy
        dsimp only
        rw [Nat.min_eq_left hp, if_neg (lt_irrefl _), List.drop_length, List.append_nil]
      · subst hpe
        dsimp only
        refine ⟨rfl, ?_⟩
        have hge : off ≥ (b.r.bytes.length : Int) := by omega
        unfold validatedByteSliceBuffer.ReadAt
        rw [if_neg hneg, if_pos hge]
    · rw [ioReadFull_of_not_le _ p (by rw [hb1]; exact hp)]
      dsimp only
      rw [if_pos rfl, hb1]
      have hor : ∀ e : Error, e = (if (b.r.bytes.drop off.toNat).length = 0 then Error.EOF
          else Error.ErrUnexpectedEOF) → (e = Error.EOF ∨ e = Error.ErrUnexpectedEOF) := by
        intro e he
        rw [he]
        split_ifs
        · exact Or.inl rfl
        · exact Or.inr rfl
      rw [if_pos (hor _ rfl)]
      refine ⟨_, rfl, fun _ => ?_, fun _ hpe => ?_⟩
      · dsimp only
        unfold validatedByteSliceBuffer.ReadAt
        rw [if_neg hneg]
        by_cases hge : off ≥ (b.r.bytes.length : Int)
        · rw [if_pos hge]
          have h0 : b.r.bytes.drop off.toNat = [] := by
            apply List.drop_eq_nil_of_le
            omega
          rw [h0]
          rfl
        · rw [if_neg hge]
          unfold copy
          dsimp only
          have hm : min p.length (b.r.bytes.drop off.toNat).length
              = (b.r.bytes.drop off.toNat).length := Nat.min_eq_right (by omega)
          rw [hm, if_pos (by omega), List.take_length]
      · rw [hpe] at hp
        exact absurd (Nat.zero_le _) hp
  · rw [discardFromReader_of_not_le _ off (by rw [hb0]; exact hd)]
    dsimp only
    refine ⟨_, rfl, fun _ => ?_, fun he _ => ?_⟩
    · have hge : off ≥ (b.r.bytes.length : Int) := by omega
      dsimp only
      unfold validatedByteSliceBuffer.ReadAt
      rw [if_neg hneg, if_pos hge]
    · omega

/-- C35, witness: over `Hello world` under its digest, with a destination of
two bytes at offset 2, both variants return `(2, nil)` and leave `ll`. -/
theorem ReadAt_agreement_witness :
    ∃ res, casReaderBuffer.ReadAt md5Hashers
        ⟨helloDigest, ⟨[ascii "Hello world"], .EOF, 0⟩, backendProvided⟩ [0, 0] 2 = some res
      ∧ (res.n, res.err, res.p) = validatedByteSliceBuffer.ReadAt ⟨ascii "Hello world"⟩ [0, 0] 2 := by
  obtain ⟨res, h, h1, _⟩ := ReadAt_agreement md5Hashers
    ⟨helloDigest, ⟨[ascii "Hello world"], .EOF, 0⟩, backendProvided⟩ (ascii "Hello world") [0, 0] 2
    11 (Digest.GetHashBytes helloDigest).get! .MD5
    (by decide) (by decide) (by decide) (by decide) (by decide) (by decide) (by decide) (by decide)
  exact ⟨res, h, h1 (by decide)⟩

/-- The common parser returns for every trailer of three or more components. -/
theorem newDigestFromByteStreamPathCommon_total (P : DigestConstructors) (header trailer : List (List Char))
    (h : 3 ≤ trailer.length) :
    ∃ res, newDigestFromByteStreamPathCommon P header trailer = some res := by
  match trailer, h with
  | a :: b :: c :: rest, _ =>
    unfold newDigestFromByteStreamPathCommon
    simp only [List.getElem?_cons_zero, List.getElem?_cons_succ]
    by_cases ha : a ≠ "blobs".data
    · rw [if_pos ha]
      exact ⟨_, rfl⟩
    · rw [if_neg ha]
      cases hp : strconvParseInt c with
      | none => exact ⟨_, rfl⟩
      | some sz =>
        dsimp only
        rcases hn : P.NewInstanceNameFromComponents header with ⟨inst, _ | err⟩
        · exact ⟨_, rfl⟩
        · exact ⟨_, rfl⟩

/-- The common parser rejects a trailer that does not start with `blobs`. -/
theorem newDigestFromByteStreamPathCommon_not_blobs (P : DigestConstructors)
    (header trailer : List (List Char)) (h : 1 ≤ trailer.length)
    (hne : trailer[0]? ≠ some "blobs".data) :
    newDigestFromByteStreamPathCommon P header trailer
      = some (BadDigest, some (.status .InvalidArgument "Invalid resource naming scheme")) := by
  match trailer, h with
  | a :: rest, _ =>
    rw [List.getElem?_cons_zero] at hne
    have ha : a ≠ "blobs".data := fun e => hne (by rw [e])
    unfold newDigestFromByteStreamPathCommon
    simp only [List.getElem?_cons_zero]
    rw [if_pos ha]

/-- The common parser rejects a size component that `strconv.ParseInt` rejects. -/
theorem newDigestFromByteStreamPathCommon_bad_size (P : DigestConstructors)
    (header trailer : List (List Char)) (size : List Char)
    (h0 : trailer[0]? = some "blobs".data) (h2 : trailer[2]? = some size)
    (hp : strconvParseInt size = none) :
    newDigestFromByteStreamPathCommon P header trailer
      = some (BadDigest, some (.status .InvalidArgument ("Invalid blob size " ++ P.goSyntax size))) := by
  unfold newDigestFromByteStreamPathCommon
  rw [h0]
  dsimp only
  rw [if_neg (by simp), h2]
  dsimp only
  rw [hp]

/-- The loop of `NewDigestFromByteStreamWritePath` over five or more fields
ends within one iteration per field: either it finds no `uploads` among the
fields that four more fields follow and returns the error, or it stops at the
first `uploads` among them. -/
theorem findUploads_spec (fields : List (List Char)) (h5 : 5 ≤ fields.length) :
    ∀ (k fuel split : Nat), split + k = fields.length - 5 → k < fuel →
      (∀ i, i < split → fields[i]? ≠ some "uploads".data) →
      (findUploads fields fuel split = some none
          ∧ ∀ i, i + 5 ≤ fields.length → fields[i]? ≠ some "uploads".data)
        ∨ (∃ s, findUploads fields fuel split = some (some s) ∧ s + 5 ≤ fields.length
          ∧ fields[s]? = some "uploads".data ∧ ∀ i, i < s → fields[i]? ≠ some "uploads".data) := by
  intro k
  induction k with
  | zero =>
    intro fuel split hs hf hbefore
    obtain ⟨f, rfl⟩ : ∃ f, fuel = f + 1 := ⟨fuel - 1, by omega⟩
    have hlt : split < fields.length := by omega
    unfold findUploads
    rw [List.getElem?_eq_getElem hlt]
    dsimp only
    by_cases hu : fields[split] ≠ "uploads".data
    · rw [if_pos hu, if_pos (by omega)]
      left
      refine ⟨rfl, fun i hi => ?_⟩
      by_cases his : i < split
      · exact hbefore i his
      · have e : i = split := by omega
        rw [e, List.getElem?_eq_getElem hlt]
        exact fun h => hu (Option.some.inj h)
    · rw [if_neg hu]
      right
      refine ⟨split, rfl, by omega, ?_, hbefore⟩
      rw [List.getElem?_eq_getElem hlt, not_not.mp hu]
  | succ k ih =>
    intro fuel split hs hf hbefore
    obtain ⟨f, rfl⟩ : ∃ f, fuel = f + 1 := ⟨fuel - 1, by omega⟩
    have hlt : split < fields.length := by omega
    unfold findUploads
    rw [List.getElem?_eq_getElem hlt]
    dsimp only
    by_cases hu : fields[split] ≠ "uploads".data
    · rw [if_pos hu, if_neg (by omega)]
      apply ih f (split + 1) (by omega) (by omega)
      intro i hi
      by_cases his : i < split
      · exact hbefore i his
      · have e : i = split := by omega
        rw [e, List.getElem?_eq_getElem hlt]
        exact fun h => hu (Option.some.inj h)
    · rw [if_neg hu]
      right
      refine ⟨split, rfl, by omega, ?_, hbefore⟩
      rw [List.getElem?_eq_getElem hlt, not_not.mp hu]

/-- The first `uploads` component is unique. -/
theorem first_uploads_unique (fields : List (List Char)) (s t : Nat)
    (hs : fields[s]? = some "uploads".data) (hsb : ∀ i, i < s → fields[i]? ≠ some "uploads".data)
    (ht : fields[t]? = some "uploads".data) (htb : ∀ i, i < t → fields[i]? ≠ some "uploads".data) :
    s = t := by
  rcases Nat.lt_trichotomy s t with h | h | h
  · exact absurd hs (htb s h)
  · exact h
  · exact absurd ht (hsb t h)

/-- C37: the ByteStream path parsers are total. For every input string, with
`fields` its non-empty components between slashes, `NewDigestFromByteStreamReadPath`
and `NewDigestFromByteStreamWritePath` return (no index is out of range); the
read parser returns InvalidArgument `Invalid resource naming scheme` when
there are fewer than three components or the third-from-last is not `blobs`;
the write parser returns that error when there are fewer than five
components, when no `uploads` component is followed by at least four more
components, or when the component two after the first `uploads` is not
`blobs`; and, past these checks, a size component that `strconv.ParseInt`
rejects yields InvalidArgument `Invalid blob size` followed by the component. -/
theorem ByteStream_path_parsers_total (P : DigestConstructors) (path : List Char)
    (fields : List (List Char)) (hfields : fields = stringsFieldsFunc path (fun r => r == '/')) :
    (∃ res, NewDigestFromByteStreamReadPath P path = some res)
      ∧ (∃ res, NewDigestFromByteStreamWritePath P path = some res)
      ∧ (fields.length < 3 ∨ fields[fields.length - 3]? ≠ some "blobs".data →
          NewDigestFromByteStreamReadPath P path
            = some (BadDigest, some (.status .InvalidArgument "Invalid resource naming scheme")))
      ∧ (fields.length < 5
          ∨ (∀ i, i + 5 ≤ fields.length → fields[i]? ≠ some "uploads".data)
          ∨ (∃ s, fields[s]? = some "uploads".data
              ∧ (∀ i, i < s → fields[i]? ≠ some "uploads".data)
              ∧ fields[s + 2]? ≠ some "blobs".data) →
          NewDigestFromByteStreamWritePath P path
            = some (BadDigest, some (.status .InvalidArgument "Invalid resource naming scheme")))
      ∧ (∀ size, 3 ≤ fields.length → fields[fields.length - 3]? = some "blobs".data →
          fields[fields.length - 1]? = some size → strconvParseInt size = none →
          NewDigestFromByteStreamReadPath P path
            = some (BadDigest, some (.status .InvalidArgument ("Invalid blob size " ++ P.goSyntax size))))
      ∧ (∀ s size, s + 5 ≤ fields.length → fields[s]? = some "uploads".data →
          (∀ i, i < s → fields[i]? ≠ some "uploads".data) →
          fields[s + 2]? = some "blobs".data → fields[s + 4]? = some size →
          strconvParseInt size = none →
          NewDigestFromByteStreamWritePath P path
            = some (BadDigest, some (.status .InvalidArgument ("Invalid blob size " ++ P.goSyntax size)))) := by
  have hread : ¬ fields.length < 3 → NewDigestFromByteStreamReadPath P path
      = newDigestFromByteStreamPathCommon P (fields.take (fields.length - 3))
          (fields.drop (fields.length - 3)) := by
    intro h
    unfold NewDigestFromByteStreamReadPath
    rw [← hfields]
    dsimp only
    rw [if_neg h]
  have hshort : fields.length < 5 → NewDigestFromByteStreamWritePath P path
      = some (BadDigest, some (.status .InvalidArgument "Invalid resource naming scheme")) := by
    intro h
    unfold NewDigestFromByteStreamWritePath
    rw [← hfields]
    dsimp only
    rw [if_pos h]
  have hnone : 5 ≤ fields.length → findUploads fields fields.length 0 = some none →
      NewDigestFromByteStreamWritePath P path
        = some (BadDigest, some (.status .InvalidArgument "Invalid resource naming scheme")) := by
    intro h hf
    unfold NewDigestFromByteStreamWritePath
    rw [← hfields]
    dsimp only
    rw [if_neg (by omega), hf]
  have hsome : ∀ s, 5 ≤ fields.length → findUploads fields fields.length 0 = some (some s) →
      NewDigestFromByteStreamWritePath P path
        = newDigestFromByteStreamPathCommon P (fields.take s) (fields.drop (s + 2)) := by
    intro s h hf
    unfold NewDigestFromByteStreamWritePath
    rw [← hfields]
    dsimp only
    rw [if_neg (by omega), hf]
  have hloop : 5 ≤ fields.length →
      (findUploads fields fields.length 0 = some none
          ∧ ∀ i, i + 5 ≤ fields.length → fields[i]? ≠ some "uploads".data)
        ∨ (∃ s, findUploads fields fields.length 0 = some (some s) ∧ s + 5 ≤ fields.length
          ∧ fields[s]? = some "uploads".data ∧ ∀ i, i < s → fields[i]? ≠ some "uploads".data) :=
    fun h => findUploads_spec fields h (fields.length - 5) fields.length 0 (by omega) (by omega)
      (fun i hi => absurd hi (Nat.not_lt_zero i))
  refine ⟨?_, ?_, ?_, ?_, ?_, ?_⟩
  · by_cases h : fields.length < 3
    · unfold NewDigestFromByteStreamReadPath
      rw [← hfields]
      dsimp only
      rw [if_pos h]
      exact ⟨_, rfl⟩
    · rw [hread h]
      exact newDigestFromByteStreamPathCommon_total P _ _ (by rw [List.length_drop]; omega)
  · by_cases h : fields.length < 5
    · exact ⟨_, hshort h⟩
    · rcases hloop (by omega) with ⟨hf, _⟩ | ⟨s, hf, hs, _, _⟩
      · exact ⟨_, hnone (by omega) hf⟩
      · rw [hsome s (by omega) hf]
        exact newDigestFromByteStreamPathCommon_total P _ _ (by rw [List.length_drop]; omega)
  · intro h
    by_cases h3 : fields.length < 3
    · unfold NewDigestFromByteStreamReadPath
      rw [← hfields]
      dsimp only
      rw [if_pos h3]
    · rcases h with h | h
      · exact absurd h h3
      · rw [hread h3]
        apply newDigestFromByteStreamPathCommon_not_blobs P _ _ (by rw [List.length_drop]; omega)
        rw [List.getElem?_drop, Nat.add_zero]
        exact h
  · intro h
    by_cases h5 : fields.length < 5
    · exact hshort h5
    · rcases hloop (by omega) with ⟨hf, hno⟩ | ⟨s, hf, hs, hsu, hsb⟩
      · exact hnone (by omega) hf
      · rw [hsome s (by omega) hf]
        rcases h with h | h | ⟨t, htu, htb, htn⟩
        · exact absurd h h5
        · exact absurd hsu (h s hs)
        · have e : s = t := first_uploads_unique fields s t hsu hsb htu htb
          apply newDigestFromByteStreamPathCommon_not_blobs P _ _ (by rw [List.length_drop]; omega)
          rw [List.getElem?_drop, Nat.add_zero, e]
          exact htn
  · intro size h3 hb hsz hp
    rw [hread (by omega)]
    apply newDigestFromByteStreamPathCommon_bad_size P _ _ size
    · rw [List.getElem?_drop, Nat.add_zero]
      exact hb
    · rw [List.getElem?_drop]
      have e : fields.length - 3 + 2 = fields.length - 1 := by omega
      rw [e]
      exact hsz
    · exact hp
  · intro s size hs hsu hsb hb hsz hp
    rcases hloop (by omega) with ⟨hf, hno⟩ | ⟨t, hf, ht, htu, htb⟩
    · exact absurd hsu (hno s hs)
    · have e : t = s := first_uploads_unique fields t s htu htb hsu hsb
      rw [hsome t (by omega) hf, e]
      apply newDigestFromByteStreamPathCommon_bad_size P _ _ size
      · rw [List.getElem?_drop, Nat.add_zero]
        exact hb
      · rw [List.getElem?_drop]
        exact hsz
      · exact hp

/-- C37, witness: the read path `blobs/abc/12x` has three components, the
third-from-last is `blobs`, and the size component `12x` is not a decimal
integer: the parser returns InvalidArgument with the message
`Invalid blob size "12x"`, the component in double quotes as the verb `%#v`
prints it. -/
theorem ByteStream_path_parsers_total_witness :
    NewDigestFromByteStreamReadPath acceptingConstructors "blobs/abc/12x".data
      = some (BadDigest, some (.status .InvalidArgument
          (String.mk ("Invalid blob size ".data ++ Char.ofNat 34 :: "12x".data ++ [Char.ofNat 34])))) :=
  (ByteStream_path_parsers_total acceptingConstructors "blobs/abc/12x".data
    ["blobs".data, "abc".data, "12x".data] (by decide)).2.2.2.2.1 "12x".data
    (by decide) (by decide) (by decide) (by decide)

open blake3zcc in
/-- Go standard library `bits.RotateLeft32` with a negative count `-k` rotates a 32-bit word to the
right by `k` bits. -/
theorem bitsRotateLeft32_neg (x k : Nat) (hx : x < 4294967296) (hk0 : 0 < k) (hk : k < 32) :
    bitsRotateLeft32 x (-(k : Int)) = rotateRight32 x k := by
  have hs : ((-(k : Int)) % 32).toNat = 32 - k := by omega
  have hpow : (4294967296 : Nat) = 2 ^ k * 2 ^ (32 - k) := by
    rw [← pow_add]
    have e : k + (32 - k) = 32 := by omega
    rw [e]
    norm_num
  unfold bitsRotateLeft32 rotateRight32
  dsimp only
  rw [hs]
  have e1 : 32 - (32 - k) = k := by omega
  rw [e1, Nat.shiftLeft_eq, Nat.shiftRight_eq_div_pow]
  have hmod : x * 2 ^ (32 - k) % 4294967296 = 2 ^ (32 - k) * (x % 2 ^ k) := by
    rw [hpow, Nat.mul_mod_mul_right, Nat.mul_comm]
  have hlt : x / 2 ^ k < 2 ^ (32 - k) := by
    apply Nat.div_lt_of_lt_mul
    rw [← hpow]
    exact hx
  rw [hmod, ← Nat.mul_add_lt_is_or hlt, Nat.add_comm, Nat.mul_comm]

open blake3zcc in
/-- A rotated 32-bit word is a 32-bit word. -/
theorem rotateRight32_lt (x k : Nat) (hx : x < 4294967296) (hk0 : 0 < k) (hk : k < 32) :
    rotateRight32 x k < 4294967296 := by
  have hpow : (4294967296 : Nat) = 2 ^ k * 2 ^ (32 - k) := by
    rw [← pow_add]
    have e : k + (32 - k) = 32 := by omega
    rw [e]
    norm_num
  unfold rotateRight32
  have hlt : x / 2 ^ k < 2 ^ (32 - k) := by
    apply Nat.div_lt_of_lt_mul
    rw [← hpow]
    exact hx
  have hm : x % 2 ^ k < 2 ^ k := Nat.mod_lt _ (Nat.two_pow_pos k)
  have hm2 : (x % 2 ^ k) * 2 ^ (32 - k) ≤ (2 ^ k - 1) * 2 ^ (32 - k) :=
    Nat.mul_le_mul_right _ (by omega)
  have hsub : (2 ^ k - 1) * 2 ^ (32 - k) = 4294967296 - 2 ^ (32 - k) := by
    rw [Nat.sub_mul, Nat.one_mul, ← hpow]
  rw [hsub] at hm2
  have hle : 2 ^ (32 - k) ≤ 4294967296 := by
    rw [hpow]
    exact Nat.le_mul_of_pos_left _ (Nat.two_pow_pos k)
  generalize (x % 2 ^ k) * 2 ^ (32 - k) = i at hm2 ⊢
  generalize x / 2 ^ k = q at hlt ⊢
  generalize 2 ^ (32 - k) = P at hlt hm2 hle
  omega

open blake3zcc in
/-- The exclusive or of two 32-bit words is a 32-bit word. -/
theorem xor_lt_word (x y : Nat) (hx : x < 4294967296) (hy : y < 4294967296) :
    x ^^^ y < 4294967296 :=
  Nat.xor_lt_two_pow (n := 32) hx hy

open blake3zcc in
/-- The rotation `bits.RotateLeft32(x, -k)` of a 32-bit word, for a literal
count: a rotation to the right by `k` bits, again a 32-bit word. -/
theorem bitsRotateLeft32_right (x k : Nat) (z : Int) (hz : z = -(k : Int)) (hx : x < 4294967296)
    (hk0 : 0 < k) (hk : k < 32) :
    bitsRotateLeft32 x z = rotateRight32 x k ∧ rotateRight32 x k < 4294967296 := by
  rw [hz]
  exact ⟨bitsRotateLeft32_neg x k hx hk0 hk, rotateRight32_lt x k hx hk0 hk⟩

open blake3zcc in
/-- C32: the G function follows the BLAKE3 specification. For all 32-bit
words `a`, `b`, `c`, `d`, `m0`, `m1`, `g` returns the result of the eight
steps `a := a + b + m0`; `d := (d xor a)` rotated right by 16; `c := c + d`;
`b := (b xor c)` rotated right by 12; `a := a + b + m1`; `d := (d xor a)`
rotated right by 8; `c := c + d`; `b := (b xor c)` rotated right by 7, with
all additions modulo `2^32`, in the order `(a, b, c, d)`; the four results are
32-bit words. Only the rotated operands `b` and `d` need the bound: the
additions reduce the other operands. -/
theorem g_follows_specification (a b c d m0 m1 : Nat)
    (hb : b < 4294967296) (hd : d < 4294967296) :
    g a b c d m0 m1 = gSpec a b c d m0 m1
      ∧ (g a b c d m0 m1).1 < 4294967296 ∧ (g a b c d m0 m1).2.1 < 4294967296
      ∧ (g a b c d m0 m1).2.2.1 < 4294967296 ∧ (g a b c d m0 m1).2.2.2 < 4294967296 := by
  have h32 : (2 : Nat) ^ 32 = 4294967296 := by norm_num
  have hw : 0 < 4294967296 := by decide
  unfold g gSpec
  dsimp only
  rw [h32]
  have ea : (a + (b + m0) % 4294967296) % 4294967296 = (a + b + m0) % 4294967296 := by omega
  rw [ea]
  have hA : (a + b + m0) % 4294967296 < 4294967296 := Nat.mod_lt _ hw
  generalize (a + b + m0) % 4294967296 = A at hA ⊢
  obtain ⟨e1, hD⟩ := bitsRotateLeft32_right (d ^^^ A) 16 (-16) rfl (xor_lt_word d A hd hA)
    (by decide) (by decide)
  rw [e1]
  generalize rotateRight32 (d ^^^ A) 16 = D at hD ⊢
  have hC : (c + D) % 4294967296 < 4294967296 := Nat.mod_lt _ hw
  generalize (c + D) % 4294967296 = C at hC ⊢
  obtain ⟨e2, hB⟩ := bitsRotateLeft32_right (b ^^^ C) 12 (-12) rfl (xor_lt_word b C hb hC)
    (by decide) (by decide)
  rw [e2]
  generalize rotateRight32 (b ^^^ C) 12 = B at hB ⊢
  have eb : (A + (B + m1) % 4294967296) % 4294967296 = (A + B + m1) % 4294967296 := by omega
  rw [eb]
  have hA2 : (A + B + m1) % 4294967296 < 4294967296 := Nat.mod_lt _ hw
  generalize (A + B + m1) % 4294967296 = A2 at hA2 ⊢
  obtain ⟨e3, hD2⟩ := bitsRotateLeft32_right (D ^^^ A2) 8 (-8) rfl (xor_lt_word D A2 hD hA2)
    (by decide) (by decide)
  rw [e3]
  generalize rotateRight32 (D ^^^ A2) 8 = D2 at hD2 ⊢
  have hC2 : (C + D2) % 4294967296 < 4294967296 := Nat.mod_lt _ hw
  generalize (C + D2) % 4294967296 = C2 at hC2 ⊢
  obtain ⟨e4, hB2⟩ := bitsRotateLeft32_right (B ^^^ C2) 7 (-7) rfl (xor_lt_word B C2 hB hC2)
    (by decide) (by decide)
  rw [e4]
  exact ⟨rfl, hA2, hB2, hC2, hD2⟩

/-- C32, witness: `g` on the words 1, 2, 3, 4, 5, 6. -/
theorem g_follows_specification_witness :
    blake3zcc.g 1 2 3 4 5 6 = blake3zcc.gSpec 1 2 3 4 5 6 :=
  (g_follows_specification 1 2 3 4 5 6 (by decide) (by decide)).1

open blake3zcc in
/-- The message words of the next round, written out. -/
theorem permuteSpec_words (w0 w1 w2 w3 w4 w5 w6 w7 w8 w9 w10 w11 w12 w13 w14 w15 : Nat) :
    permuteSpec [w0, w1, w2, w3, w4, w5, w6, w7, w8, w9, w10, w11, w12, w13, w14, w15]
      = [w2, w6, w3, w10, w7, w0, w4, w13, w1, w11, w12, w5, w9, w14, w15, w8] := rfl

open blake3zcc in
/-- One round on a state and message words written out: the four columns give
the words `x`, the four diagonals the words `y`, and the message words are
permuted for the next round. -/
theorem roundsSpec_round (n : Nat) {a0 a1 a2 a3 a4 a5 a6 a7 a8 a9 a10 a11 a12 a13 a14 a15 : Nat}
    {w0 w1 w2 w3 w4 w5 w6 w7 w8 w9 w10 w11 w12 w13 w14 w15 : Nat}
    {x0 x1 x2 x3 x4 x5 x6 x7 x8 x9 x10 x11 x12 x13 x14 x15 : Nat}
    {y0 y1 y2 y3 y4 y5 y6 y7 y8 y9 y10 y11 y12 y13 y14 y15 : Nat}
    (h1 : g a0 a4 a8 a12 w0 w1 = (x0, x4, x8, x12))
    (h2 : g a1 a5 a9 a13 w2 w3 = (x1, x5, x9, x13))
    (h3 : g a2 a6 a10 a14 w4 w5 = (x2, x6, x10, x14))
    (h4 : g a3 a7 a11 a15 w6 w7 = (x3, x7, x11, x15))
    (h5 : g x0 x5 x10 x15 w8 w9 = (y0, y5, y10, y15))
    (h6 : g x1 x6 x11 x12 w10 w11 = (y1, y6, y11, y12))
    (h7 : g x2 x7 x8 x13 w12 w13 = (y2, y7, y8, y13))
    (h8 : g x3 x4 x9 x14 w14 w15 = (y3, y4, y9, y14)) :
    roundsSpec (n + 1) [a0, a1, a2, a3, a4, a5, a6, a7, a8, a9, a10, a11, a12, a13, a14, a15]
        [w0, w1, w2, w3, w4, w5, w6, w7, w8, w9, w10, w11, w12, w13, w14, w15]
      = roundsSpec n [y0, y1, y2, y3, y4, y5, y6, y7, y8, y9, y10, y11, y12, y13, y14, y15]
        [w2, w6, w3, w10, w7, w0, w4, w13, w1, w11, w12, w5, w9, w14, w15, w8] := by
  have hr : roundSpec [a0, a1, a2, a3, a4, a5, a6, a7, a8, a9, a10, a11, a12, a13, a14, a15]
      [w0, w1, w2, w3, w4, w5, w6, w7, w8, w9, w10, w11, w12, w13, w14, w15]
      = [y0, y1, y2, y3, y4, y5, y6, y7, y8, y9, y10, y11, y12, y13, y14, y15] := by
    unfold roundSpec mixSpec
    simp only [List.getD_cons_zero, List.getD_cons_succ, List.set_cons_zero, List.set_cons_succ,
      h1, h2, h3, h4, h5, h6, h7, h8]
  show roundsSpec n (roundSpec _ _) (permuteSpec _) = _
  rw [hr, permuteSpec_words]

/-- A result of `g` is a tuple of four words. -/
theorem exists_words (p : Nat × Nat × Nat × Nat) : ∃ a b c d, p = (a, b, c, d) :=
  ⟨p.1, p.2.1, p.2.2.1, p.2.2.2, rfl⟩

open blake3zcc in
/-- The function `compress` is seven rounds from the state its first four
calls of `g` start from, followed by the output rule. -/
theorem compress_eq_rounds (h : Fin 8 → Nat) (m : Fin 16 → Nat) (t b d : Nat) :
    compress h m t b d
      = outputSpec (roundsSpec 7
          [h 0, h 1, h 2, h 3, h 4, h 5, h 6, h 7, iv 0, iv 1, iv 2, iv 3,
            t % 4294967296, (t % 4294967296) >>> 32, b, d]
          [m 0, m 1, m 2, m 3, m 4, m 5, m 6, m 7, m 8, m 9, m 10, m 11, m 12, m 13, m 14, m 15])
        [h 0, h 1, h 2, h 3, h 4, h 5, h 6, h 7] := by
  unfold compress
  obtain ⟨p1a, p1b, p1c, p1d, e1⟩ := exists_words (g (h 0) (h 4) (iv 0) (t % 4294967296) (m 0) (m 1))
  rw [e1]
  conv_lhs => simp_match
  obtain ⟨p2a, p2b, p2c, p2d, e2⟩ := exists_words (g (h 1) (h 5) (iv 1) ((t % 4294967296) >>> 32) (m 2) (m 3))
  rw [e2]
  conv_lhs => simp_match
  obtain ⟨p3a, p3b, p3c, p3d, e3⟩ := exists_words (g (h 2) (h 6) (iv 2) b (m 4) (m 5))
  rw [e3]
  conv_lhs => simp_match
  obtain ⟨p4a, p4b, p4c, p4d, e4⟩ := exists_words (g (h 3) (h 7) (iv 3) d (m 6) (m 7))
  rw [e4]
  conv_lhs => simp_match
  obtain ⟨p5a, p5b, p5c, p5d, e5⟩ := exists_words (g p1a p2b p3c p4d (m 8) (m 9))
  rw [e5]
  conv_lhs => simp_match
  obtain ⟨p6a, p6b, p6c, p6d, e6⟩ := exists_words (g p2a p3b p4c p1d (m 10) (m 11))
  rw [e6]
  conv_lhs => simp_match
  obtain ⟨p7a, p7b, p7c, p7d, e7⟩ := exists_words (g p3a p4b p1c p2d (m 12) (m 13))
  rw [e7]
  conv_lhs => simp_match
  obtain ⟨p8a, p8b, p8c, p8d, e8⟩ := exists_words (g p4a p1b p2c p3d (m 14) (m 15))
  rw [e8]
  conv_lhs => simp_match
  rw [roundsSpec_round 6 e1 e2 e3 e4 e5 e6 e7 e8]
  obtain ⟨p9a, p9b, p9c, p9d, e9⟩ := exists_words (g p5a p8b p7c p6d (m 2) (m 6))
  rw [e9]
  conv_lhs => simp_match
  obtain ⟨p10a, p10b, p10c, p10d, e10⟩ := exists_words (g p6a p5b p8c p7d (m 3) (m 10))
  rw [e10]
  conv_lhs => simp_match
  obtain ⟨p11a, p11b, p11c, p11d, e11⟩ := exists_words (g p7a p6b p5c p8d (m 7) (m 0))
  rw [e11]
  conv_lhs => simp_match
  obtain ⟨p12a, p12b, p12c, p12d, e12⟩ := exists_words (g p8a p7b p6c p5d (m 4) (m 13))
  rw [e12]
  conv_lhs => simp_match
  obtain ⟨p13a, p13b, p13c, p13d, e13⟩ := exists_words (g p9a p10b p11c p12d (m 1) (m 11))
  rw [e13]
  conv_lhs => simp_match
  obtain ⟨p14a, p14b, p14c, p14d, e14⟩ := exists_words (g p10a p11b p12c p9d (m 12) (m 5))
  rw [e14]
  conv_lhs => simp_match
  obtain ⟨p15a, p15b, p15c, p15d, e15⟩ := exists_words (g p11a p12b p9c p10d (m 9) (m 14))
  rw [e15]
  conv_lhs => simp_match
  obtain ⟨p16a, p16b, p16c, p16d, e16⟩ := exists_words (g p12a p9b p10c p11d (m 15) (m 8))
  rw [e16]
  conv_lhs => simp_match
  rw [roundsSpec_round 5 e9 e10 e11 e12 e13 e14 e15 e16]
  obtain ⟨p17a, p17b, p17c, p17d, e17⟩ := exists_words (g p13a p16b p15c p14d (m 3) (m 4))
  rw [e17]
  conv_lhs => simp_match
  obtain ⟨p18a, p18b, p18c, p18d, e18⟩ := exists_words (g p14a p13b p16c p15d (m 10) (m 12))
  rw [e18]
  conv_lhs => simp_match
  obtain ⟨p19a, p19b, p19c, p19d, e19⟩ := exists_words (g p15a p14b p13c p16d (m 13) (m 2))
  rw [e19]
  conv_lhs => simp_match
  obtain ⟨p20a, p20b, p20c, p20d, e20⟩ := exists_words (g p16a p15b p14c p13d (m 7) (m 14))
  rw [e20]
  conv_lhs => simp_match
  obtain ⟨p21a, p21b, p21c, p21d, e21⟩ := exists_words (g p17a p18b p19c p20d (m 6) (m 5))
  rw [e21]
  conv_lhs => simp_match
  obtain ⟨p22a, p22b, p22c, p22d, e22⟩ := exists_words (g p18a p19b p20c p17d (m 9) (m 0))
  rw [e22]
  conv_lhs => simp_match
  obtain ⟨p23a, p23b, p23c, p23d, e23⟩ := exists_words (g p19a p20b p17c p18d (m 11) (m 15))
  rw [e23]
  conv_lhs => simp_match
  obtain ⟨p24a, p24b, p24c, p24d, e24⟩ := exists_words (g p20a p17b p18c p19d (m 8) (m 1))
  rw [e24]
  conv_lhs => simp_match
  rw [roundsSpec_round 4 e17 e18 e19 e20 e21 e22 e23 e24]
  obtain ⟨p25a, p25b, p25c, p25d, e25⟩ := exists_words (g p21a p24b p23c p22d (m 10) (m 7))
  rw [e25]
  conv_lhs => simp_match
  obtain ⟨p26a, p26b, p26c, p26d, e26⟩ := exists_words (g p22a p21b p24c p23d (m 12) (m 9))
  rw [e26]
  conv_lhs => simp_match
  obtain ⟨p27a, p27b, p27c, p27d, e27⟩ := exists_words (g p23a p22b p21c p24d (m 14) (m 3))
  rw [e27]
  conv_lhs => simp_match
  obtain ⟨p28a, p28b, p28c, p28d, e28⟩ := exists_words (g p24a p23b p22c p21d (m 13) (m 15))
  rw [e28]
  conv_lhs => simp_match
  obtain ⟨p29a, p29b, p29c, p29d, e29⟩ := exists_words (g p25a p26b p27c p28d (m 4) (m 0))
  rw [e29]
  conv_lhs => simp_match
  obtain ⟨p30a, p30b, p30c, p30d, e30⟩ := exists_words (g p26a p27b p28c p25d (m 11) (m 2))
  rw [e30]
  conv_lhs => simp_match
  obtain ⟨p31a, p31b, p31c, p31d, e31⟩ := exists_words (g p27a p28b p25c p26d (m 5) (m 8))
  rw [e31]
  conv_lhs => simp_match
  obtain ⟨p32a, p32b, p32c, p32d, e32⟩ := exists_words (g p28a p25b p26c p27d (m 1) (m 6))
  rw [e32]
  conv_lhs => simp_match
  rw [roundsSpec_round 3 e25 e26 e27 e28 e29 e30 e31 e32]
  obtain ⟨p33a, p33b, p33c, p33d, e33⟩ := exists_words (g p29a p32b p31c p30d (m 12) (m 13))
  rw [e33]
  conv_lhs => simp_match
  obtain ⟨p34a, p34b, p34c, p34d, e34⟩ := exists_words (g p30a p29b p32c p31d (m 9) (m 11))
  rw [e34]
  conv_lhs => simp_match
  obtain ⟨p35a, p35b, p35c, p35d, e35⟩ := exists_words (g p31a p30b p29c p32d (m 15) (m 10))
  rw [e35]
  conv_lhs => simp_match
  obtain ⟨p36a, p36b, p36c, p36d, e36⟩ := exists_words (g p32a p31b p30c p29d (m 14) (m 8))
  rw [e36]
  conv_lhs => simp_match
  obtain ⟨p37a, p37b, p37c, p37d, e37⟩ := exists_words (g p33a p34b p35c p36d (m 7) (m 2))
  rw [e37]
  conv_lhs => simp_match
  obtain ⟨p38a, p38b, p38c, p38d, e38⟩ := exists_words (g p34a p35b p36c p33d (m 5) (m 3))
  rw [e38]
  conv_lhs => simp_match
  obtain ⟨p39a, p39b, p39c, p39d, e39⟩ := exists_words (g p35a p36b p33c p34d (m 0) (m 1))
  rw [e39]
  conv_lhs => simp_match
  obtain ⟨p40a, p40b, p40c, p40d, e40⟩ := exists_words (g p36a p33b p34c p35d (m 6) (m 4))
  rw [e40]
  conv_lhs => simp_match
  rw [roundsSpec_round 2 e33 e34 e35 e36 e37 e38 e39 e40]
  obtain ⟨p41a, p41b, p41c, p41d, e41⟩ := exists_words (g p37a p40b p39c p38d (m 9) (m 14))
  rw [e41]
  conv_lhs => simp_match
  obtain ⟨p42a, p42b, p42c, p42d, e42⟩ := exists_words (g p38a p37b p40c p39d (m 11) (m 5))
  rw [e42]
  conv_lhs => simp_match
  obtain ⟨p43a, p43b, p43c, p43d, e43⟩ := exists_words (g p39a p38b p37c p40d (m 8) (m 12))
  rw [e43]
  conv_lhs => simp_match
  obtain ⟨p44a, p44b, p44c, p44d, e44⟩ := exists_words (g p40a p39b p38c p37d (m 15) (m 1))
  rw [e44]
  conv_lhs => simp_match
  obtain ⟨p45a, p45b, p45c, p45d, e45⟩ := exists_words (g p41a p42b p43c p44d (m 13) (m 3))
  rw [e45]
  conv_lhs => simp_match
  obtain ⟨p46a, p46b, p46c, p46d, e46⟩ := exists_words (g p42a p43b p44c p41d (m 0) (m 10))
  rw [e46]
  conv_lhs => simp_match
  obtain ⟨p47a, p47b, p47c, p47d, e47⟩ := exists_words (g p43a p44b p41c p42d (m 2) (m 6))
  rw [e47]
  conv_lhs => simp_match
  obtain ⟨p48a, p48b, p48c, p48d, e48⟩ := exists_words (g p44a p41b p42c p43d (m 4) (m 7))
  rw [e48]
  conv_lhs => simp_match
  rw [roundsSpec_round 1 e41 e42 e43 e44 e45 e46 e47 e48]
  obtain ⟨p49a, p49b, p49c, p49d, e49⟩ := exists_words (g p45a p48b p47c p46d (m 11) (m 15))
  rw [e49]
  conv_lhs => simp_match
  obtain ⟨p50a, p50b, p50c, p50d, e50⟩ := exists_words (g p46a p45b p48c p47d (m 5) (m 0))
  rw [e50]
  conv_lhs => simp_match
  obtain ⟨p51a, p51b, p51c, p51d, e51⟩ := exists_words (g p47a p46b p45c p48d (m 1) (m 9))
  rw [e51]
  conv_lhs => simp_match
  obtain ⟨p52a, p52b, p52c, p52d, e52⟩ := exists_words (g p48a p47b p46c p45d (m 8) (m 6))
  rw [e52]
  conv_lhs => simp_match
  obtain ⟨p53a, p53b, p53c, p53d, e53⟩ := exists_words (g p49a p50b p51c p52d (m 14) (m 10))
  rw [e53]
  conv_lhs => simp_match
  obtain ⟨p54a, p54b, p54c, p54d, e54⟩ := exists_words (g p50a p51b p52c p49d (m 2) (m 12))
  rw [e54]
  conv_lhs => simp_match
  obtain ⟨p55a, p55b, p55c, p55d, e55⟩ := exists_words (g p51a p52b p49c p50d (m 3) (m 4))
  rw [e55]
  conv_lhs => simp_match
  obtain ⟨p56a, p56b, p56c, p56d, e56⟩ := exists_words (g p52a p49b p50c p51d (m 7) (m 13))
  rw [e56]
  conv_lhs => simp_match
  rw [roundsSpec_round 0 e49 e50 e51 e52 e53 e54 e55 e56]

  rfl

/-- The sixteen message words of a block as a list. -/
theorem ofFn_sixteen (m : Fin 16 → Nat) :
    List.ofFn m
      = [m 0, m 1, m 2, m 3, m 4, m 5, m 6, m 7, m 8, m 9, m 10, m 11, m 12, m 13, m 14, m 15] := by
  rfl

/-- The eight words of a chaining value as a list. -/
theorem ofFn_eight (h : Fin 8 → Nat) :
    List.ofFn h = [h 0, h 1, h 2, h 3, h 4, h 5, h 6, h 7] := by
  rfl

/-- The conversion `uint32(t)` shifted right by 32 bits is zero. -/
theorem uint32_shiftRight_32 (t : Nat) : (t % 4294967296) >>> 32 = 0 := by
  rw [Nat.shiftRight_eq_div_pow]
  exact Nat.div_eq_of_lt (by norm_num; exact Nat.mod_lt _ (by decide))

open blake3zcc in
/-- C33: the initial state of `compress` does not have the high 32 bits of the
counter. For every chaining value `h`, message block `m`, counter `t`, block
length `b` and flags `d`, the output of `compress` is that of seven rounds and
the output rule from the state `v0..v7 = h[0..7]`, `v8..v11 = iv[0..3]`,
`v12 =` the low 32 bits of `t`, `v13 = 0`, `v14 = b`, `v15 = d`: the source
passes `uint32(t)>>32`, which is zero, where the specification has the high 32
bits of `t`. So the output is that of the specification for the counter
`t mod 2^32`, it does not change when `2^32` is added to the counter, and for
`h = iv`, a zero block, `t = 2^32`, `b = 64`, `d = 0` it differs from the
output of the compression function of the specification. -/
theorem compress_counter_high_bits (h : Fin 8 → Nat) (m : Fin 16 → Nat) (t b d : Nat) :
    compress h m t b d
        = outputSpec (roundsSpec 7
            [h 0, h 1, h 2, h 3, h 4, h 5, h 6, h 7, iv 0, iv 1, iv 2, iv 3,
              t % 4294967296, 0, b, d] (List.ofFn m)) (List.ofFn h)
      ∧ compress h m t b d = compressSpec h m (t % 4294967296) b d
      ∧ compress h m (t + 4294967296) b d = compress h m t b d
      ∧ compress iv (fun _ => 0) 4294967296 64 0 ≠ compressSpec iv (fun _ => 0) 4294967296 64 0 := by
  have h1 : ∀ t : Nat, compress h m t b d
      = outputSpec (roundsSpec 7
          [h 0, h 1, h 2, h 3, h 4, h 5, h 6, h 7, iv 0, iv 1, iv 2, iv 3,
            t % 4294967296, 0, b, d] (List.ofFn m)) (List.ofFn h) := by
    intro t
    rw [compress_eq_rounds, uint32_shiftRight_32, ofFn_sixteen, ofFn_eight]
  refine ⟨h1 t, ?_, ?_, by decide!⟩
  · rw [h1 t]
    unfold compressSpec initialStateSpec
    have e1 : t % 4294967296 % 2 ^ 32 = t % 4294967296 := by
      norm_num
    have e2 : t % 4294967296 / 2 ^ 32 % 2 ^ 32 = 0 := by
      have : t % 4294967296 / 2 ^ 32 = 0 :=
        Nat.div_eq_of_lt (by norm_num; exact Nat.mod_lt _ (by decide))
      rw [this]
      rfl
    rw [e1, e2]
  · rw [h1 (t + 4294967296), h1 t, Nat.add_mod_right]

open blake3zcc in
/-- C36: `compress` applies seven rounds with the BLAKE3 message schedule and
output rule. For every `h`, `m`, `t`, `b`, `d`, the result of `compress` is
the output rule `out[i] = v[i] xor v[i+8]`, `out[i+8] = v[i+8] xor h[i]`
applied to the state `v` after seven rounds from the state the first four
calls of `g` start from, where each round applies `g` to the four columns and
then to the four diagonals, round 1 uses the message words `m[0..15]` in order
and each later round the words of the round before permuted by `sigma`;
`sigma` is a permutation of `0..15`, and the result has sixteen words. The
arrays `h` and `m` are arguments that the function only reads. -/
theorem compress_rounds_schedule_output (h : Fin 8 → Nat) (m : Fin 16 → Nat) (t b d : Nat) :
    compress h m t b d
        = outputSpec (roundsSpec 7
            [h 0, h 1, h 2, h 3, h 4, h 5, h 6, h 7, iv 0, iv 1, iv 2, iv 3,
              t % 4294967296, (t % 4294967296) >>> 32, b, d] (List.ofFn m)) (List.ofFn h)
      ∧ sigma.Perm (List.range 16)
      ∧ (compress h m t b d).length = 16 := by
  refine ⟨?_, by decide, ?_⟩
  · rw [compress_eq_rounds, ofFn_sixteen, ofFn_eight]
  · rw [compress_eq_rounds]
    unfold outputSpec
    rw [List.length_append, List.length_map, List.length_map, List.length_range]

end BBStorage
